import Mathlib

/-!
# Value numbering and mark-compact: a shallow embedding

Lean model of parts of the ART compiler and runtime:

* `compiler/dex/global_value_numbering.h` : the value table (`BuildKey`, `NewValueName`,
  `LookupValue`, `StoreValue`, `HasValue`, `Good`);
* `compiler/dex/local_value_numbering.cc` : memory versioning and `GetValueNumber`;
* `runtime/gc/collector/mark_compact.cc` : forwarding-address computation and object moving.

Machine integers are natural numbers reduced modulo `2^w` wherever the C++ code converts
to a `w`-bit unsigned type.
-/

namespace art

/-! ## SafeMap -/

/-- SafeMap (a wrapper around an ordered map): modelled by an association list that never
holds two bindings of one key as long as `Put` is used on absent keys only. -/
abbrev SafeMap (κ ν : Type) := List (κ × ν)

namespace SafeMap

variable {κ ν : Type} [DecidableEq κ]

/-- The `find` member: the bound value instead of an iterator, `none` standing for `end()`. -/
def find : SafeMap κ ν → κ → Option ν
  | [], _ => none
  | (k', v) :: rest, k => if k' = k then some v else find rest k

/-- The `Put` member: inserts a binding; the key is absent by precondition. -/
def Put (m : SafeMap κ ν) (k : κ) (v : ν) : SafeMap κ ν := (k, v) :: m

/-- The `Overwrite` member: inserts or replaces the binding of `k`. -/
def Overwrite (m : SafeMap κ ν) (k : κ) (v : ν) : SafeMap κ ν :=
  (k, v) :: m.filter (fun p => !decide (p.1 = k))

/-- The `size` member. -/
def size (m : SafeMap κ ν) : Nat := m.length

end SafeMap

/-! ## GlobalValueNumbering (global_value_numbering.h) -/

/-- State of a `GlobalValueNumbering` object as far as the value table is concerned. -/
structure GlobalValueNumbering where
  /-- Field `uint32_t last_value_`. -/
  last_value_ : Nat
  /-- Field `bool modifications_allowed_`. -/
  modifications_allowed_ : Bool
  /-- Field `ValueMap global_value_map_` (64-bit key to 16-bit value name). -/
  global_value_map_ : SafeMap Nat Nat
deriving DecidableEq, Repr

namespace GlobalValueNumbering

/-- Constant `kNoValue = 0xffffu`. -/
def kNoValue : Nat := 0xffff

/-- Conversion to `uint16_t`. -/
def u16 (x : Nat) : Nat := x % 2 ^ 16

/-- Conversion to `uint32_t`. -/
def u32 (x : Nat) : Nat := x % 2 ^ 32

/-- Conversion to `uint64_t`. -/
def u64 (x : Nat) : Nat := x % 2 ^ 64

/-- Member `Good()`: the value names did not overflow. -/
def Good (g : GlobalValueNumbering) : Bool := decide (g.last_value_ < kNoValue)

/-- Member `AllowModifications()`. -/
def AllowModifications (g : GlobalValueNumbering) : GlobalValueNumbering :=
  { g with modifications_allowed_ := true }

/-- Member `CanModify()`. -/
def CanModify (g : GlobalValueNumbering) : Bool := g.modifications_allowed_ && g.Good

/-- Static member `BuildKey`: the four `uint16_t` parameters are widened to 64 bits, shifted
and or-ed together. -/
def BuildKey (op operand1 operand2 modifier : Nat) : Nat :=
  u64 (u64 (u16 op) <<< 48) ||| u64 (u64 (u16 operand1) <<< 32) |||
    u64 (u64 (u16 operand2) <<< 16) ||| u64 (u16 modifier)

/-- Member `NewValueName()`: pre-increments the 32-bit counter and returns it converted to
`uint16_t`. -/
def NewValueName (g : GlobalValueNumbering) : Nat × GlobalValueNumbering :=
  let g1 := { g with last_value_ := u32 (g.last_value_ + 1) }
  (u16 g1.last_value_, g1)

/-- Member `LookupValue`: looks the key up, adding a fresh value name when it is absent. -/
def LookupValue (g : GlobalValueNumbering) (op operand1 operand2 modifier : Nat) :
    Nat × GlobalValueNumbering :=
  let key := BuildKey op operand1 operand2 modifier
  match g.global_value_map_.find key with
  | some res => (res, g)
  | none =>
    let (res, g1) := g.NewValueName
    (res, { g1 with global_value_map_ := g1.global_value_map_.Put key res })

/-- Member `StoreValue`: overwrites the binding of the key (release build: the debug check
is not executed). -/
def StoreValue (g : GlobalValueNumbering) (op operand1 operand2 modifier value : Nat) :
    GlobalValueNumbering :=
  let key := BuildKey op operand1 operand2 modifier
  { g with global_value_map_ := g.global_value_map_.Overwrite key (u16 value) }

/-- Member `HasValue`: whether exactly `value` is stored for the key; adds nothing. -/
def HasValue (g : GlobalValueNumbering) (op operand1 operand2 modifier value : Nat) : Bool :=
  let key := BuildKey op operand1 operand2 modifier
  match g.global_value_map_.find key with
  | some v => decide (v = u16 value)
  | none => false

/-- One call on the value table: a `LookupValue` or a `HasValue` on some tuple. -/
inductive TableCall where
  | lookup (op operand1 operand2 modifier : Nat)
  | has (op operand1 operand2 modifier value : Nat)
deriving DecidableEq, Repr

/-- State after one call; `HasValue` is a `const` member and leaves the object alone. -/
def TableCall.apply (g : GlobalValueNumbering) : TableCall → GlobalValueNumbering
  | .lookup op o1 o2 m => (g.LookupValue op o1 o2 m).2
  | .has _ _ _ _ _ => g

/-- A 4-tuple `(op, operand1, operand2, modifier)` passed to `LookupValue`. -/
abbrev Tuple := Nat × Nat × Nat × Nat

/-- All four components fit `uint16_t`. -/
def Tuple.is16 (t : Tuple) : Prop :=
  t.1 < 2 ^ 16 ∧ t.2.1 < 2 ^ 16 ∧ t.2.2.1 < 2 ^ 16 ∧ t.2.2.2 < 2 ^ 16

/-- `LookupValue` applied to a tuple. -/
def lookupT (g : GlobalValueNumbering) (t : Tuple) : Nat × GlobalValueNumbering :=
  g.LookupValue t.1 t.2.1 t.2.2.1 t.2.2.2

/-- Runs `LookupValue` on each tuple in turn; returns the names and the final state. -/
def lookupAll (g : GlobalValueNumbering) : List Tuple → List Nat × GlobalValueNumbering
  | [] => ([], g)
  | t :: ts =>
    let r := lookupT g t
    let rest := lookupAll r.2 ts
    (r.1 :: rest.1, rest.2)

/-- `Good()` holds in the starting state and after every one of the lookups. -/
def GoodThroughout (g : GlobalValueNumbering) : List Tuple → Prop
  | [] => g.Good = true
  | t :: ts => g.Good = true ∧ GoodThroughout (lookupT g t).2 ts

instance GoodThroughout.decidable :
    ∀ (g : GlobalValueNumbering) (ts : List Tuple), Decidable (GoodThroughout g ts)
  | g, [] => inferInstanceAs (Decidable (g.Good = true))
  | g, t :: ts =>
    have := GoodThroughout.decidable (lookupT g t).2 ts
    inferInstanceAs (Decidable (g.Good = true ∧ GoodThroughout (lookupT g t).2 ts))

/-- The key of a tuple. -/
def keyT (t : Tuple) : Nat := BuildKey t.1 t.2.1 t.2.2.1 t.2.2.2

/-- Every value name bound in the value map has been allocated: it is at most `last_value_`. -/
def ValuesBelow (g : GlobalValueNumbering) : Prop :=
  ∀ k v, g.global_value_map_.find k = some v → v ≤ g.last_value_

/-- No value name is bound to two keys. -/
def InjectiveMap (g : GlobalValueNumbering) : Prop :=
  ∀ k k' v, g.global_value_map_.find k = some v → g.global_value_map_.find k' = some v → k = k'

end GlobalValueNumbering

/-! ## Opcodes -/

/-! Opcode numbers of `Instruction::Code` (dex_instruction_list.h, the Dalvik bytecode
numbering) for the opcodes named in `LocalValueNumbering::GetValueNumber`. -/

namespace Instruction

abbrev NOP : Nat := 0x00
abbrev MOVE : Nat := 0x01
abbrev MOVE_FROM16 : Nat := 0x02
abbrev MOVE_16 : Nat := 0x03
abbrev MOVE_WIDE : Nat := 0x04
abbrev MOVE_WIDE_FROM16 : Nat := 0x05
abbrev MOVE_WIDE_16 : Nat := 0x06
abbrev MOVE_OBJECT : Nat := 0x07
abbrev MOVE_OBJECT_FROM16 : Nat := 0x08
abbrev MOVE_OBJECT_16 : Nat := 0x09
abbrev MOVE_RESULT : Nat := 0x0a
abbrev MOVE_RESULT_WIDE : Nat := 0x0b
abbrev MOVE_RESULT_OBJECT : Nat := 0x0c
abbrev MOVE_EXCEPTION : Nat := 0x0d
abbrev RETURN_VOID : Nat := 0x0e
abbrev RETURN : Nat := 0x0f
abbrev RETURN_WIDE : Nat := 0x10
abbrev RETURN_OBJECT : Nat := 0x11
abbrev CONST_4 : Nat := 0x12
abbrev CONST_16 : Nat := 0x13
abbrev CONST : Nat := 0x14
abbrev CONST_HIGH16 : Nat := 0x15
abbrev CONST_WIDE_16 : Nat := 0x16
abbrev CONST_WIDE_32 : Nat := 0x17
abbrev CONST_WIDE : Nat := 0x18
abbrev CONST_WIDE_HIGH16 : Nat := 0x19
abbrev CONST_STRING : Nat := 0x1a
abbrev CONST_STRING_JUMBO : Nat := 0x1b
abbrev CONST_CLASS : Nat := 0x1c
abbrev MONITOR_ENTER : Nat := 0x1d
abbrev MONITOR_EXIT : Nat := 0x1e
abbrev CHECK_CAST : Nat := 0x1f
abbrev INSTANCE_OF : Nat := 0x20
abbrev ARRAY_LENGTH : Nat := 0x21
abbrev NEW_INSTANCE : Nat := 0x22
abbrev NEW_ARRAY : Nat := 0x23
abbrev FILLED_NEW_ARRAY : Nat := 0x24
abbrev FILLED_NEW_ARRAY_RANGE : Nat := 0x25
abbrev FILL_ARRAY_DATA : Nat := 0x26
abbrev THROW : Nat := 0x27
abbrev GOTO : Nat := 0x28
abbrev GOTO_16 : Nat := 0x29
abbrev GOTO_32 : Nat := 0x2a
abbrev PACKED_SWITCH : Nat := 0x2b
abbrev SPARSE_SWITCH : Nat := 0x2c
abbrev CMPL_FLOAT : Nat := 0x2d
abbrev CMPG_FLOAT : Nat := 0x2e
abbrev CMPL_DOUBLE : Nat := 0x2f
abbrev CMPG_DOUBLE : Nat := 0x30
abbrev CMP_LONG : Nat := 0x31
abbrev IF_EQ : Nat := 0x32
abbrev IF_NE : Nat := 0x33
abbrev IF_LT : Nat := 0x34
abbrev IF_GE : Nat := 0x35
abbrev IF_GT : Nat := 0x36
abbrev IF_LE : Nat := 0x37
abbrev IF_EQZ : Nat := 0x38
abbrev IF_NEZ : Nat := 0x39
abbrev IF_LTZ : Nat := 0x3a
abbrev IF_GEZ : Nat := 0x3b
abbrev IF_GTZ : Nat := 0x3c
abbrev IF_LEZ : Nat := 0x3d
abbrev AGET : Nat := 0x44
abbrev AGET_WIDE : Nat := 0x45
abbrev AGET_OBJECT : Nat := 0x46
abbrev AGET_BOOLEAN : Nat := 0x47
abbrev AGET_BYTE : Nat := 0x48
abbrev AGET_CHAR : Nat := 0x49
abbrev AGET_SHORT : Nat := 0x4a
abbrev APUT : Nat := 0x4b
abbrev APUT_WIDE : Nat := 0x4c
abbrev APUT_OBJECT : Nat := 0x4d
abbrev APUT_BOOLEAN : Nat := 0x4e
abbrev APUT_BYTE : Nat := 0x4f
abbrev APUT_CHAR : Nat := 0x50
abbrev APUT_SHORT : Nat := 0x51
abbrev IGET : Nat := 0x52
abbrev IGET_WIDE : Nat := 0x53
abbrev IGET_OBJECT : Nat := 0x54
abbrev IGET_BOOLEAN : Nat := 0x55
abbrev IGET_BYTE : Nat := 0x56
abbrev IGET_CHAR : Nat := 0x57
abbrev IGET_SHORT : Nat := 0x58
abbrev IPUT : Nat := 0x59
abbrev IPUT_WIDE : Nat := 0x5a
abbrev IPUT_OBJECT : Nat := 0x5b
abbrev IPUT_BOOLEAN : Nat := 0x5c
abbrev IPUT_BYTE : Nat := 0x5d
abbrev IPUT_CHAR : Nat := 0x5e
abbrev IPUT_SHORT : Nat := 0x5f
abbrev SGET : Nat := 0x60
abbrev SGET_WIDE : Nat := 0x61
abbrev SGET_OBJECT : Nat := 0x62
abbrev SGET_BOOLEAN : Nat := 0x63
abbrev SGET_BYTE : Nat := 0x64
abbrev SGET_CHAR : Nat := 0x65
abbrev SGET_SHORT : Nat := 0x66
abbrev SPUT : Nat := 0x67
abbrev SPUT_WIDE : Nat := 0x68
abbrev SPUT_OBJECT : Nat := 0x69
abbrev SPUT_BOOLEAN : Nat := 0x6a
abbrev SPUT_BYTE : Nat := 0x6b
abbrev SPUT_CHAR : Nat := 0x6c
abbrev SPUT_SHORT : Nat := 0x6d
abbrev INVOKE_VIRTUAL : Nat := 0x6e
abbrev INVOKE_SUPER : Nat := 0x6f
abbrev INVOKE_DIRECT : Nat := 0x70
abbrev INVOKE_STATIC : Nat := 0x71
abbrev INVOKE_INTERFACE : Nat := 0x72
abbrev INVOKE_VIRTUAL_RANGE : Nat := 0x74
abbrev INVOKE_SUPER_RANGE : Nat := 0x75
abbrev INVOKE_DIRECT_RANGE : Nat := 0x76
abbrev INVOKE_STATIC_RANGE : Nat := 0x77
abbrev INVOKE_INTERFACE_RANGE : Nat := 0x78
abbrev NEG_INT : Nat := 0x7b
abbrev NOT_INT : Nat := 0x7c
abbrev NEG_LONG : Nat := 0x7d
abbrev NOT_LONG : Nat := 0x7e
abbrev NEG_FLOAT : Nat := 0x7f
abbrev NEG_DOUBLE : Nat := 0x80
abbrev INT_TO_LONG : Nat := 0x81
abbrev INT_TO_FLOAT : Nat := 0x82
abbrev INT_TO_DOUBLE : Nat := 0x83
abbrev LONG_TO_INT : Nat := 0x84
abbrev LONG_TO_FLOAT : Nat := 0x85
abbrev LONG_TO_DOUBLE : Nat := 0x86
abbrev FLOAT_TO_INT : Nat := 0x87
abbrev FLOAT_TO_LONG : Nat := 0x88
abbrev FLOAT_TO_DOUBLE : Nat := 0x89
abbrev DOUBLE_TO_INT : Nat := 0x8a
abbrev DOUBLE_TO_LONG : Nat := 0x8b
abbrev DOUBLE_TO_FLOAT : Nat := 0x8c
abbrev INT_TO_BYTE : Nat := 0x8d
abbrev INT_TO_CHAR : Nat := 0x8e
abbrev INT_TO_SHORT : Nat := 0x8f
abbrev ADD_INT : Nat := 0x90
abbrev SUB_INT : Nat := 0x91
abbrev MUL_INT : Nat := 0x92
abbrev DIV_INT : Nat := 0x93
abbrev REM_INT : Nat := 0x94
abbrev AND_INT : Nat := 0x95
abbrev OR_INT : Nat := 0x96
abbrev XOR_INT : Nat := 0x97
abbrev SHL_INT : Nat := 0x98
abbrev SHR_INT : Nat := 0x99
abbrev USHR_INT : Nat := 0x9a
abbrev ADD_LONG : Nat := 0x9b
abbrev SUB_LONG : Nat := 0x9c
abbrev MUL_LONG : Nat := 0x9d
abbrev DIV_LONG : Nat := 0x9e
abbrev REM_LONG : Nat := 0x9f
abbrev AND_LONG : Nat := 0xa0
abbrev OR_LONG : Nat := 0xa1
abbrev XOR_LONG : Nat := 0xa2
abbrev SHL_LONG : Nat := 0xa3
abbrev SHR_LONG : Nat := 0xa4
abbrev USHR_LONG : Nat := 0xa5
abbrev ADD_FLOAT : Nat := 0xa6
abbrev SUB_FLOAT : Nat := 0xa7
abbrev MUL_FLOAT : Nat := 0xa8
abbrev DIV_FLOAT : Nat := 0xa9
abbrev REM_FLOAT : Nat := 0xaa
abbrev ADD_DOUBLE : Nat := 0xab
abbrev SUB_DOUBLE : Nat := 0xac
abbrev MUL_DOUBLE : Nat := 0xad
abbrev DIV_DOUBLE : Nat := 0xae
abbrev REM_DOUBLE : Nat := 0xaf
abbrev ADD_INT_2ADDR : Nat := 0xb0
abbrev SUB_INT_2ADDR : Nat := 0xb1
abbrev MUL_INT_2ADDR : Nat := 0xb2
abbrev DIV_INT_2ADDR : Nat := 0xb3
abbrev REM_INT_2ADDR : Nat := 0xb4
abbrev AND_INT_2ADDR : Nat := 0xb5
abbrev OR_INT_2ADDR : Nat := 0xb6
abbrev XOR_INT_2ADDR : Nat := 0xb7
abbrev SHL_INT_2ADDR : Nat := 0xb8
abbrev SHR_INT_2ADDR : Nat := 0xb9
abbrev USHR_INT_2ADDR : Nat := 0xba
abbrev ADD_LONG_2ADDR : Nat := 0xbb
abbrev SUB_LONG_2ADDR : Nat := 0xbc
abbrev MUL_LONG_2ADDR : Nat := 0xbd
abbrev DIV_LONG_2ADDR : Nat := 0xbe
abbrev REM_LONG_2ADDR : Nat := 0xbf
abbrev AND_LONG_2ADDR : Nat := 0xc0
abbrev OR_LONG_2ADDR : Nat := 0xc1
abbrev XOR_LONG_2ADDR : Nat := 0xc2
abbrev SHL_LONG_2ADDR : Nat := 0xc3
abbrev SHR_LONG_2ADDR : Nat := 0xc4
abbrev USHR_LONG_2ADDR : Nat := 0xc5
abbrev ADD_FLOAT_2ADDR : Nat := 0xc6
abbrev SUB_FLOAT_2ADDR : Nat := 0xc7
abbrev MUL_FLOAT_2ADDR : Nat := 0xc8
abbrev DIV_FLOAT_2ADDR : Nat := 0xc9
abbrev REM_FLOAT_2ADDR : Nat := 0xca
abbrev ADD_DOUBLE_2ADDR : Nat := 0xcb
abbrev SUB_DOUBLE_2ADDR : Nat := 0xcc
abbrev MUL_DOUBLE_2ADDR : Nat := 0xcd
abbrev DIV_DOUBLE_2ADDR : Nat := 0xce
abbrev REM_DOUBLE_2ADDR : Nat := 0xcf
abbrev ADD_INT_LIT16 : Nat := 0xd0
abbrev RSUB_INT : Nat := 0xd1
abbrev MUL_INT_LIT16 : Nat := 0xd2
abbrev DIV_INT_LIT16 : Nat := 0xd3
abbrev REM_INT_LIT16 : Nat := 0xd4
abbrev AND_INT_LIT16 : Nat := 0xd5
abbrev OR_INT_LIT16 : Nat := 0xd6
abbrev XOR_INT_LIT16 : Nat := 0xd7
abbrev ADD_INT_LIT8 : Nat := 0xd8
abbrev RSUB_INT_LIT8 : Nat := 0xd9
abbrev MUL_INT_LIT8 : Nat := 0xda
abbrev DIV_INT_LIT8 : Nat := 0xdb
abbrev REM_INT_LIT8 : Nat := 0xdc
abbrev AND_INT_LIT8 : Nat := 0xdd
abbrev OR_INT_LIT8 : Nat := 0xde
abbrev XOR_INT_LIT8 : Nat := 0xdf
abbrev SHL_INT_LIT8 : Nat := 0xe0
abbrev SHR_INT_LIT8 : Nat := 0xe1
abbrev USHR_INT_LIT8 : Nat := 0xe2

end Instruction

/-! Extended MIR opcodes (compiler_enums.h): numbered from `kNumPackedOpcodes = 0x100`. -/

abbrev kMirOpPhi : Nat := 0x100
abbrev kMirOpCopy : Nat := 0x101
abbrev kMirOpFusedCmplFloat : Nat := 0x102
abbrev kMirOpFusedCmpgFloat : Nat := 0x103
abbrev kMirOpFusedCmplDouble : Nat := 0x104
abbrev kMirOpFusedCmpgDouble : Nat := 0x105
abbrev kMirOpFusedCmpLong : Nat := 0x106

/-- Flag `MIR_IGNORE_NULL_CHECK = 1 << kMIRIgnoreNullCheck` (bit 0). -/
abbrev MIR_IGNORE_NULL_CHECK : Nat := 1 <<< 0

/-- Flag `MIR_IGNORE_RANGE_CHECK = 1 << kMIRIgnoreRangeCheck` (bit 2). -/
abbrev MIR_IGNORE_RANGE_CHECK : Nat := 1 <<< 2

/-- Sentinel `NO_VALUE` of local value numbering. -/
abbrev NO_VALUE : Nat := 0xffff

/-- Pseudo-opcode `ARRAY_REF` under which array accesses are keyed. -/
abbrev ARRAY_REF : Nat := 0xfffe

/-! ## MIR (mir_graph.h) -/

/-- One MIR node, reduced to what value numbering reads and writes: the decoded instruction
(`dalvikInsn.opcode`, `vB`, `vB_wide`), the SSA representation (`ssa_rep->uses`,
`ssa_rep->defs`), `optimization_flags`, and the field annotation the MIR graph returns for
the node (`is_volatile`, `declaring_dex_file` with 0 for `nullptr`, `declaring_field_idx`). -/
structure MIR where
  opcode : Nat
  vB : Nat
  vB_wide : Nat
  uses : List Nat
  defs : List Nat
  optimization_flags : Nat
  is_volatile : Bool
  declaring_dex_file : Nat
  declaring_field_idx : Nat
deriving DecidableEq, Repr

/-! ## LocalValueNumbering (local_value_numbering.cc) -/

open GlobalValueNumbering (u16 u32 u64)

/-- Helper `Low16Bits` (utils.h): the low half of a 32-bit word. -/
def Low16Bits (value : Nat) : Nat := u16 (u32 value)

/-- Helper `High16Bits` (utils.h): the high half of a 32-bit word. -/
def High16Bits (value : Nat) : Nat := u16 (u32 value >>> 16)

/-- Helper `Low32Bits` (utils.h): the low half of a 64-bit word. -/
def Low32Bits (value : Nat) : Nat := u32 (u64 value)

/-- Helper `High32Bits` (utils.h): the high half of a 64-bit word. -/
def High32Bits (value : Nat) : Nat := u32 (u64 value >>> 32)

/-- State of a `LocalValueNumbering` object. The value table (value map and `last_value_`) is
the `GlobalValueNumbering` one. -/
structure LocalValueNumbering where
  /-- The value table used by `LookupValue` and `ValueExists`. -/
  gvn : GlobalValueNumbering
  /-- Field `sreg_value_map_`: value names of narrow SSA registers. -/
  sreg_value_map_ : SafeMap Nat Nat
  /-- Field `sreg_wide_value_map_`: value names of wide SSA registers. -/
  sreg_wide_value_map_ : SafeMap Nat Nat
  /-- Field `memory_version_map_`, keyed by `(base, field_id, type)`. -/
  memory_version_map_ : SafeMap (Nat × Nat × Nat) Nat
  /-- Field `field_index_map_`, keyed by `(dex_file, field_idx)`. -/
  field_index_map_ : SafeMap (Nat × Nat) Nat
  /-- Field `uint16_t next_memory_version_`. -/
  next_memory_version_ : Nat
  /-- Field `uint16_t global_memory_version_`. -/
  global_memory_version_ : Nat
  /-- Field `unresolved_sfield_version_[]`, indexed by the field type. -/
  unresolved_sfield_version_ : List Nat
  /-- Field `unresolved_ifield_version_[]`, indexed by the field type. -/
  unresolved_ifield_version_ : List Nat
  /-- Field `null_checked_`: value names known to be non-null. -/
  null_checked_ : List Nat
  /-- Field `unique_objects_`: value names of references without alias. -/
  unique_objects_ : List Nat
deriving DecidableEq, Repr

namespace LocalValueNumbering

/-- Set insertion (`std::set::insert`). -/
def setInsert (x : Nat) (l : List Nat) : List Nat := if x ∈ l then l else x :: l

/-- Set removal (`std::set::erase`). -/
def setErase (x : Nat) (l : List Nat) : List Nat := l.filter (fun y => !decide (y = x))

/-- Modelled from the spec: the constructor is in no source file given; a new object has
empty maps and sets, no value name allocated, memory version counter 1, global memory
version 0 and zeroed unresolved-field versions (one per field type, 7 of them). -/
def init : LocalValueNumbering :=
  { gvn := ⟨0, false, []⟩
    sreg_value_map_ := []
    sreg_wide_value_map_ := []
    memory_version_map_ := []
    field_index_map_ := []
    next_memory_version_ := 1
    global_memory_version_ := 0
    unresolved_sfield_version_ := List.replicate 7 0
    unresolved_ifield_version_ := List.replicate 7 0
    null_checked_ := []
    unique_objects_ := [] }

/-- Modelled from the spec: `LookupValue` of local_value_numbering.h (not among the sources)
is the value table's lookup-or-create, `GlobalValueNumbering::LookupValue`. -/
def LookupValue (s : LocalValueNumbering) (op operand1 operand2 modifier : Nat) :
    Nat × LocalValueNumbering :=
  let r := s.gvn.LookupValue op operand1 operand2 modifier
  (r.1, { s with gvn := r.2 })

/-- Modelled from the spec: `ValueExists` of local_value_numbering.h (not among the sources):
whether the key is present in the value table, whatever its value. -/
def ValueExists (s : LocalValueNumbering) (op operand1 operand2 modifier : Nat) : Bool :=
  (s.gvn.global_value_map_.find
    (GlobalValueNumbering.BuildKey op operand1 operand2 modifier)).isSome

/-- Modelled from the spec: `GetOperandValue` of local_value_numbering.h (not among the
sources): the value name recorded for a narrow SSA register; on first use the register is
given the name of the key `(NO_VALUE, s_reg, NO_VALUE, NO_VALUE)`, which is then recorded. -/
def GetOperandValue (s : LocalValueNumbering) (s_reg : Nat) : Nat × LocalValueNumbering :=
  match s.sreg_value_map_.find (u16 s_reg) with
  | some res => (res, s)
  | none =>
    let r := s.LookupValue NO_VALUE s_reg NO_VALUE NO_VALUE
    (r.1, { r.2 with sreg_value_map_ := r.2.sreg_value_map_.Put (u16 s_reg) r.1 })

/-- Modelled from the spec: `SetOperandValue` of local_value_numbering.h (not among the
sources): records the value name of a narrow SSA register that has none yet. -/
def SetOperandValue (s : LocalValueNumbering) (s_reg value : Nat) : LocalValueNumbering :=
  match s.sreg_value_map_.find (u16 s_reg) with
  | some _ => s
  | none => { s with sreg_value_map_ := s.sreg_value_map_.Put (u16 s_reg) (u16 value) }

/-- Modelled from the spec: `GetOperandValueWide` of local_value_numbering.h (not among the
sources): as `GetOperandValue`, on the map of wide registers. -/
def GetOperandValueWide (s : LocalValueNumbering) (s_reg : Nat) : Nat × LocalValueNumbering :=
  match s.sreg_wide_value_map_.find (u16 s_reg) with
  | some res => (res, s)
  | none =>
    let r := s.LookupValue NO_VALUE s_reg NO_VALUE NO_VALUE
    (r.1, { r.2 with sreg_wide_value_map_ := r.2.sreg_wide_value_map_.Put (u16 s_reg) r.1 })

/-- Modelled from the spec: `SetOperandValueWide` of local_value_numbering.h (not among the
sources): as `SetOperandValue`, on the map of wide registers. -/
def SetOperandValueWide (s : LocalValueNumbering) (s_reg value : Nat) : LocalValueNumbering :=
  match s.sreg_wide_value_map_.find (u16 s_reg) with
  | some _ => s
  | none => { s with sreg_wide_value_map_ := s.sreg_wide_value_map_.Put (u16 s_reg) (u16 value) }

/-- `LocalValueNumbering::GetFieldId`. -/
def GetFieldId (s : LocalValueNumbering) (dex_file field_idx : Nat) :
    Nat × LocalValueNumbering :=
  let field_key := (dex_file, u16 field_idx)
  match s.field_index_map_.find field_key with
  | some id => (id, s)
  | none =>
    let index := u16 s.field_index_map_.size
    (index, { s with field_index_map_ := s.field_index_map_.Put field_key index })

/-- `LocalValueNumbering::AdvanceGlobalMemory`. -/
def AdvanceGlobalMemory (s : LocalValueNumbering) : LocalValueNumbering :=
  { s with global_memory_version_ := s.next_memory_version_
           next_memory_version_ := u16 (s.next_memory_version_ + 1) }

/-- `LocalValueNumbering::GetMemoryVersion`. -/
def GetMemoryVersion (s : LocalValueNumbering) (base field type : Nat) : Nat :=
  let key := (u16 base, u16 field, u16 type)
  let memory_version := (s.memory_version_map_.find key).getD 0
  if u16 base ≠ NO_VALUE ∧ u16 base ∉ s.unique_objects_ then
    let aliased_access_key := (NO_VALUE, u16 field, u16 type)
    let memory_version :=
      match s.memory_version_map_.find aliased_access_key with
      | some aa => if aa > memory_version then aa else memory_version
      | none => memory_version
    max memory_version s.global_memory_version_
  else if u16 base ≠ NO_VALUE then
    memory_version
  else
    max memory_version s.global_memory_version_

/-- `LocalValueNumbering::AdvanceMemoryVersion`. -/
def AdvanceMemoryVersion (s : LocalValueNumbering) (base field type : Nat) :
    Nat × LocalValueNumbering :=
  let result := s.next_memory_version_
  let s1 := { s with next_memory_version_ := u16 (s.next_memory_version_ + 1) }
  let key := (u16 base, u16 field, u16 type)
  let s2 := { s1 with memory_version_map_ := s1.memory_version_map_.Overwrite key result }
  if u16 base ≠ NO_VALUE ∧ u16 base ∉ s2.unique_objects_ then
    let aliased_access_key := (NO_VALUE, u16 field, u16 type)
    (result, { s2 with memory_version_map_ :=
                         s2.memory_version_map_.Overwrite aliased_access_key result })
  else
    (result, s2)

/-- `LocalValueNumbering::MarkUniqueNonNull`. -/
def MarkUniqueNonNull (s : LocalValueNumbering) (mir : MIR) : Nat × LocalValueNumbering :=
  let r := s.GetOperandValue (mir.defs.getD 0 0)
  let s1 := r.2.SetOperandValue (mir.defs.getD 0 0) r.1
  (r.1, { s1 with null_checked_ := setInsert r.1 s1.null_checked_
                  unique_objects_ := setInsert r.1 s1.unique_objects_ })

/-- The loop of `LocalValueNumbering::MakeArgsNonUnique` over a list of uses. -/
def MakeArgsNonUniqueLoop (s : LocalValueNumbering) : List Nat → LocalValueNumbering
  | [] => s
  | u :: rest =>
    let r := s.GetOperandValue u
    MakeArgsNonUniqueLoop { r.2 with unique_objects_ := setErase r.1 r.2.unique_objects_ } rest

/-- `LocalValueNumbering::MakeArgsNonUnique`. -/
def MakeArgsNonUnique (s : LocalValueNumbering) (mir : MIR) : LocalValueNumbering :=
  MakeArgsNonUniqueLoop s mir.uses

/-- `LocalValueNumbering::HandleNullCheck`. -/
def HandleNullCheck (s : LocalValueNumbering) (mir : MIR) (reg : Nat) :
    LocalValueNumbering × MIR :=
  if u16 reg ∈ s.null_checked_ then
    (s, { mir with optimization_flags := mir.optimization_flags ||| MIR_IGNORE_NULL_CHECK })
  else
    ({ s with null_checked_ := setInsert (u16 reg) s.null_checked_ }, mir)

/-- `LocalValueNumbering::HandleRangeCheck`. -/
def HandleRangeCheck (s : LocalValueNumbering) (mir : MIR) (array index : Nat) :
    LocalValueNumbering × MIR :=
  let mir1 :=
    if s.ValueExists ARRAY_REF array index NO_VALUE then
      { mir with optimization_flags := mir.optimization_flags ||| MIR_IGNORE_RANGE_CHECK }
    else mir
  ((s.LookupValue ARRAY_REF array index NO_VALUE).2, mir1)

/-- `LocalValueNumbering::HandlePutObject`. -/
def HandlePutObject (s : LocalValueNumbering) (mir : MIR) : LocalValueNumbering :=
  let r := s.GetOperandValue (mir.uses.getD 0 0)
  { r.2 with unique_objects_ := setErase r.1 r.2.unique_objects_ }

end LocalValueNumbering

/-- The groups of `case` labels of the `switch` in `LocalValueNumbering::GetValueNumber`, in
source order; `none` is an opcode without a label (the switch has no `default`). -/
inductive Arm where
  | noDef | filledNewArray | invoke | invokeStatic | moveResult | uniqueNonNull
  | moveResultWide | phi | move | moveWide | const | constHigh16 | constWide32 | constWide
  | constWideHigh16 | unary | unaryFromWide | unaryWide | unaryToWide | cmpWide | binary
  | binaryWide | shiftWide | binaryFloat | literal | aget | aputObject | aput | iget
  | iputObject | iput | sget | sputObject | sput | none
deriving DecidableEq, Repr

open Instruction in
/-- The `case` labels: which group of the switch an opcode selects. -/
def armOf (opcode : Nat) : Arm :=
  if opcode ∈ [NOP, RETURN_VOID, RETURN, RETURN_OBJECT, RETURN_WIDE, MONITOR_ENTER,
      MONITOR_EXIT, GOTO, GOTO_16, GOTO_32, CHECK_CAST, THROW, FILL_ARRAY_DATA, PACKED_SWITCH,
      SPARSE_SWITCH, IF_EQ, IF_NE, IF_LT, IF_GE, IF_GT, IF_LE, IF_EQZ, IF_NEZ, IF_LTZ, IF_GEZ,
      IF_GTZ, IF_LEZ, kMirOpFusedCmplFloat, kMirOpFusedCmpgFloat, kMirOpFusedCmplDouble,
      kMirOpFusedCmpgDouble, kMirOpFusedCmpLong] then .noDef
  else if opcode ∈ [FILLED_NEW_ARRAY, FILLED_NEW_ARRAY_RANGE] then .filledNewArray
  else if opcode ∈ [INVOKE_DIRECT, INVOKE_DIRECT_RANGE, INVOKE_VIRTUAL, INVOKE_VIRTUAL_RANGE,
      INVOKE_SUPER, INVOKE_SUPER_RANGE, INVOKE_INTERFACE, INVOKE_INTERFACE_RANGE] then .invoke
  else if opcode ∈ [INVOKE_STATIC, INVOKE_STATIC_RANGE] then .invokeStatic
  else if opcode ∈ [MOVE_RESULT, MOVE_RESULT_OBJECT, INSTANCE_OF] then .moveResult
  else if opcode ∈ [MOVE_EXCEPTION, NEW_INSTANCE, CONST_STRING, CONST_STRING_JUMBO,
      CONST_CLASS, NEW_ARRAY] then .uniqueNonNull
  else if opcode = MOVE_RESULT_WIDE then .moveResultWide
  else if opcode = kMirOpPhi then .phi
  else if opcode ∈ [MOVE, MOVE_OBJECT, MOVE_16, MOVE_OBJECT_16, MOVE_FROM16,
      MOVE_OBJECT_FROM16, kMirOpCopy] then .move
  else if opcode ∈ [MOVE_WIDE, MOVE_WIDE_16, MOVE_WIDE_FROM16] then .moveWide
  else if opcode ∈ [CONST, CONST_4, CONST_16] then .const
  else if opcode = CONST_HIGH16 then .constHigh16
  else if opcode ∈ [CONST_WIDE_16, CONST_WIDE_32] then .constWide32
  else if opcode = CONST_WIDE then .constWide
  else if opcode = CONST_WIDE_HIGH16 then .constWideHigh16
  else if opcode ∈ [ARRAY_LENGTH, NEG_INT, NOT_INT, NEG_FLOAT, INT_TO_BYTE, INT_TO_SHORT,
      INT_TO_CHAR, INT_TO_FLOAT, FLOAT_TO_INT] then .unary
  else if opcode ∈ [LONG_TO_FLOAT, LONG_TO_INT, DOUBLE_TO_FLOAT, DOUBLE_TO_INT] then
    .unaryFromWide
  else if opcode ∈ [DOUBLE_TO_LONG, LONG_TO_DOUBLE, NEG_LONG, NOT_LONG, NEG_DOUBLE] then
    .unaryWide
  else if opcode ∈ [FLOAT_TO_DOUBLE, FLOAT_TO_LONG, INT_TO_DOUBLE, INT_TO_LONG] then
    .unaryToWide
  else if opcode ∈ [CMPL_DOUBLE, CMPG_DOUBLE, CMP_LONG] then .cmpWide
  else if opcode ∈ [CMPG_FLOAT, CMPL_FLOAT, ADD_INT, ADD_INT_2ADDR, MUL_INT, MUL_INT_2ADDR,
      AND_INT, AND_INT_2ADDR, OR_INT, OR_INT_2ADDR, XOR_INT, XOR_INT_2ADDR, SUB_INT,
      SUB_INT_2ADDR, DIV_INT, DIV_INT_2ADDR, REM_INT, REM_INT_2ADDR, SHL_INT, SHL_INT_2ADDR,
      SHR_INT, SHR_INT_2ADDR, USHR_INT, USHR_INT_2ADDR] then .binary
  else if opcode ∈ [ADD_LONG, SUB_LONG, MUL_LONG, DIV_LONG, REM_LONG, AND_LONG, OR_LONG,
      XOR_LONG, ADD_LONG_2ADDR, SUB_LONG_2ADDR, MUL_LONG_2ADDR, DIV_LONG_2ADDR,
      REM_LONG_2ADDR, AND_LONG_2ADDR, OR_LONG_2ADDR, XOR_LONG_2ADDR, ADD_DOUBLE, SUB_DOUBLE,
      MUL_DOUBLE, DIV_DOUBLE, REM_DOUBLE, ADD_DOUBLE_2ADDR, SUB_DOUBLE_2ADDR,
      MUL_DOUBLE_2ADDR, DIV_DOUBLE_2ADDR, REM_DOUBLE_2ADDR] then .binaryWide
  else if opcode ∈ [SHL_LONG, SHR_LONG, USHR_LONG, SHL_LONG_2ADDR, SHR_LONG_2ADDR,
      USHR_LONG_2ADDR] then .shiftWide
  else if opcode ∈ [ADD_FLOAT, SUB_FLOAT, MUL_FLOAT, DIV_FLOAT, REM_FLOAT, ADD_FLOAT_2ADDR,
      SUB_FLOAT_2ADDR, MUL_FLOAT_2ADDR, DIV_FLOAT_2ADDR, REM_FLOAT_2ADDR] then .binaryFloat
  else if opcode ∈ [RSUB_INT, ADD_INT_LIT16, MUL_INT_LIT16, DIV_INT_LIT16, REM_INT_LIT16,
      AND_INT_LIT16, OR_INT_LIT16, XOR_INT_LIT16, ADD_INT_LIT8, RSUB_INT_LIT8, MUL_INT_LIT8,
      DIV_INT_LIT8, REM_INT_LIT8, AND_INT_LIT8, OR_INT_LIT8, XOR_INT_LIT8, SHL_INT_LIT8,
      SHR_INT_LIT8, USHR_INT_LIT8] then .literal
  else if opcode ∈ [AGET_OBJECT, AGET, AGET_WIDE, AGET_BOOLEAN, AGET_BYTE, AGET_CHAR,
      AGET_SHORT] then .aget
  else if opcode = APUT_OBJECT then .aputObject
  else if opcode ∈ [APUT, APUT_WIDE, APUT_BYTE, APUT_BOOLEAN, APUT_SHORT, APUT_CHAR] then .aput
  else if opcode ∈ [IGET_OBJECT, IGET, IGET_WIDE, IGET_BOOLEAN, IGET_BYTE, IGET_CHAR,
      IGET_SHORT] then .iget
  else if opcode = IPUT_OBJECT then .iputObject
  else if opcode ∈ [IPUT, IPUT_WIDE, IPUT_BOOLEAN, IPUT_BYTE, IPUT_CHAR, IPUT_SHORT] then .iput
  else if opcode ∈ [SGET_OBJECT, SGET, SGET_WIDE, SGET_BOOLEAN, SGET_BYTE, SGET_CHAR,
      SGET_SHORT] then .sget
  else if opcode = SPUT_OBJECT then .sputObject
  else if opcode ∈ [SPUT, SPUT_WIDE, SPUT_BOOLEAN, SPUT_BYTE, SPUT_CHAR, SPUT_SHORT] then .sput
  else .none

/-- The cases of `GetValueNumber` for unary, binary, comparison and literal arithmetic
(source lines 290 to 475). -/
def Arm.isArith : Arm → Bool
  | .unary | .unaryFromWide | .unaryWide | .unaryToWide | .cmpWide | .binary | .binaryWide
  | .shiftWide | .binaryFloat | .literal => true
  | _ => false

namespace LocalValueNumbering

open Instruction

/-- Body of the array-put cases (after the fall-through from `APUT_OBJECT`). -/
def aputBody (s : LocalValueNumbering) (mir : MIR) : Nat × LocalValueNumbering × MIR :=
  let opcode := u16 mir.opcode
  let type := u16 (opcode - APUT)
  let array_idx := if opcode = APUT_WIDE then 2 else 1
  let index_idx := array_idx + 1
  let a := s.GetOperandValue (mir.uses.getD array_idx 0)
  let n := a.2.HandleNullCheck mir a.1
  let i := n.1.GetOperandValue (mir.uses.getD index_idx 0)
  let c := i.2.HandleRangeCheck n.2 a.1 i.1
  let v := c.1.AdvanceMemoryVersion a.1 NO_VALUE type
  (NO_VALUE, v.2, c.2)

/-- Body of the instance-field-put cases (after the fall-through from `IPUT_OBJECT`). -/
def iputBody (s : LocalValueNumbering) (mir : MIR) : Nat × LocalValueNumbering × MIR :=
  let opcode := u16 mir.opcode
  let type := u16 (opcode - IPUT)
  let base_reg := if opcode = IPUT_WIDE then 2 else 1
  let b := s.GetOperandValue (mir.uses.getD base_reg 0)
  let n := b.2.HandleNullCheck mir b.1
  if mir.declaring_dex_file = 0 then
    (NO_VALUE,
      { n.1 with unresolved_ifield_version_ :=
                   n.1.unresolved_ifield_version_.set type n.1.next_memory_version_
                 next_memory_version_ := u16 (n.1.next_memory_version_ + 1) }, n.2)
  else if mir.is_volatile then
    (NO_VALUE, n.1, n.2)
  else
    let f := n.1.GetFieldId mir.declaring_dex_file mir.declaring_field_idx
    let v := f.2.AdvanceMemoryVersion b.1 f.1 type
    (NO_VALUE, v.2, n.2)

/-- Body of the static-field-put cases (after the fall-through from `SPUT_OBJECT`). -/
def sputBody (s : LocalValueNumbering) (mir : MIR) : Nat × LocalValueNumbering × MIR :=
  let opcode := u16 mir.opcode
  let type := u16 (opcode - SPUT)
  if mir.declaring_dex_file = 0 then
    (NO_VALUE,
      { s with unresolved_sfield_version_ :=
                 s.unresolved_sfield_version_.set type s.next_memory_version_
               next_memory_version_ := u16 (s.next_memory_version_ + 1) }, mir)
  else if mir.is_volatile then
    (NO_VALUE, s, mir)
  else
    let f := s.GetFieldId mir.declaring_dex_file mir.declaring_field_idx
    let v := f.2.AdvanceMemoryVersion NO_VALUE f.1 type
    (NO_VALUE, v.2, mir)

/-- `LocalValueNumbering::GetValueNumber`: returns the value name `res`, the new state and
the MIR node with its possibly updated `optimization_flags`. `next` is `mir->next`
(`none` for `nullptr`). -/
def GetValueNumber (s : LocalValueNumbering) (mir : MIR) (next : Option MIR) :
    Nat × LocalValueNumbering × MIR :=
  let opcode := u16 mir.opcode
  match armOf opcode with
  | .noDef => (NO_VALUE, s, mir)
  | .filledNewArray =>
    let s1 :=
      match next with
      | some nx => if nx.opcode = MOVE_RESULT_OBJECT then (s.MarkUniqueNonNull nx).2 else s
      | none => s
    (NO_VALUE, s1.MakeArgsNonUnique mir, mir)
  | .invoke =>
    let r := s.GetOperandValue (mir.uses.getD 0 0)
    let n := r.2.HandleNullCheck mir r.1
    (NO_VALUE, n.1.AdvanceGlobalMemory.MakeArgsNonUnique n.2, n.2)
  | .invokeStatic => (NO_VALUE, s.AdvanceGlobalMemory.MakeArgsNonUnique mir, mir)
  | .moveResult =>
    let r := s.GetOperandValue (mir.defs.getD 0 0)
    (r.1, r.2.SetOperandValue (mir.defs.getD 0 0) r.1, mir)
  | .uniqueNonNull =>
    let r := s.MarkUniqueNonNull mir
    (r.1, r.2, mir)
  | .moveResultWide =>
    let r := s.GetOperandValueWide (mir.defs.getD 0 0)
    (r.1, r.2.SetOperandValueWide (mir.defs.getD 0 0) r.1, mir)
  | .phi => (NO_VALUE, s, mir)
  | .move =>
    let r := s.GetOperandValue (mir.uses.getD 0 0)
    (r.1, r.2.SetOperandValue (mir.defs.getD 0 0) r.1, mir)
  | .moveWide =>
    let r := s.GetOperandValueWide (mir.uses.getD 0 0)
    (r.1, r.2.SetOperandValueWide (mir.defs.getD 0 0) r.1, mir)
  | .const =>
    let r := s.LookupValue CONST (Low16Bits mir.vB) (High16Bits (u32 mir.vB >>> 16)) 0
    (r.1, r.2.SetOperandValue (mir.defs.getD 0 0) r.1, mir)
  | .constHigh16 =>
    let r := s.LookupValue CONST 0 mir.vB 0
    (r.1, r.2.SetOperandValue (mir.defs.getD 0 0) r.1, mir)
  | .constWide32 =>
    let low_res := s.LookupValue CONST (Low16Bits mir.vB) (High16Bits (u32 mir.vB >>> 16)) 1
    let high_res :=
      if u32 mir.vB &&& 0x80000000 ≠ 0 then low_res.2.LookupValue CONST 0xffff 0xffff 2
      else low_res.2.LookupValue CONST 0 0 2
    let r := high_res.2.LookupValue CONST low_res.1 high_res.1 3
    (r.1, r.2.SetOperandValueWide (mir.defs.getD 0 0) r.1, mir)
  | .constWide =>
    let low_word := Low32Bits mir.vB_wide
    let high_word := High32Bits mir.vB_wide
    let low_res := s.LookupValue CONST (Low16Bits low_word) (High16Bits low_word) 1
    let high_res := low_res.2.LookupValue CONST (Low16Bits high_word) (High16Bits high_word) 2
    let r := high_res.2.LookupValue CONST low_res.1 high_res.1 3
    (r.1, r.2.SetOperandValueWide (mir.defs.getD 0 0) r.1, mir)
  | .constWideHigh16 =>
    let low_res := s.LookupValue CONST 0 0 1
    let high_res := low_res.2.LookupValue CONST 0 (Low16Bits mir.vB) 2
    let r := high_res.2.LookupValue CONST low_res.1 high_res.1 3
    (r.1, r.2.SetOperandValueWide (mir.defs.getD 0 0) r.1, mir)
  | .unary =>
    let operand1 := s.GetOperandValue (mir.uses.getD 0 0)
    let r := operand1.2.LookupValue opcode operand1.1 NO_VALUE NO_VALUE
    (r.1, r.2.SetOperandValue (mir.defs.getD 0 0) r.1, mir)
  | .unaryFromWide =>
    let operand1 := s.GetOperandValue (mir.uses.getD 0 0)
    let r := operand1.2.LookupValue opcode operand1.1 NO_VALUE NO_VALUE
    (r.1, r.2.SetOperandValue (mir.defs.getD 0 0) r.1, mir)
  | .unaryWide =>
    let operand1 := s.GetOperandValueWide (mir.uses.getD 0 0)
    let r := operand1.2.LookupValue opcode operand1.1 NO_VALUE NO_VALUE
    (r.1, r.2.SetOperandValueWide (mir.defs.getD 0 0) r.1, mir)
  | .unaryToWide =>
    let operand1 := s.GetOperandValueWide (mir.uses.getD 0 0)
    let r := operand1.2.LookupValue opcode operand1.1 NO_VALUE NO_VALUE
    (r.1, r.2.SetOperandValueWide (mir.defs.getD 0 0) r.1, mir)
  | .cmpWide =>
    let operand1 := s.GetOperandValueWide (mir.uses.getD 0 0)
    let operand2 := operand1.2.GetOperandValueWide (mir.uses.getD 2 0)
    let r := operand2.2.LookupValue opcode operand1.1 operand2.1 NO_VALUE
    (r.1, r.2.SetOperandValue (mir.defs.getD 0 0) r.1, mir)
  | .binary =>
    let operand1 := s.GetOperandValue (mir.uses.getD 0 0)
    let operand2 := operand1.2.GetOperandValue (mir.uses.getD 1 0)
    let r := operand2.2.LookupValue opcode operand1.1 operand2.1 NO_VALUE
    (r.1, r.2.SetOperandValue (mir.defs.getD 0 0) r.1, mir)
  | .binaryWide =>
    let operand1 := s.GetOperandValueWide (mir.uses.getD 0 0)
    let operand2 := operand1.2.GetOperandValueWide (mir.uses.getD 2 0)
    let r := operand2.2.LookupValue opcode operand1.1 operand2.1 NO_VALUE
    (r.1, r.2.SetOperandValueWide (mir.defs.getD 0 0) r.1, mir)
  | .shiftWide =>
    let operand1 := s.GetOperandValueWide (mir.uses.getD 0 0)
    let operand2 := operand1.2.GetOperandValueWide (mir.uses.getD 2 0)
    let r := operand2.2.LookupValue opcode operand1.1 operand2.1 NO_VALUE
    (r.1, r.2.SetOperandValueWide (mir.defs.getD 0 0) r.1, mir)
  | .binaryFloat =>
    let operand1 := s.GetOperandValue (mir.uses.getD 0 0)
    let operand2 := operand1.2.GetOperandValue (mir.uses.getD 1 0)
    let r := operand2.2.LookupValue opcode operand1.1 operand2.1 NO_VALUE
    (r.1, r.2.SetOperandValue (mir.defs.getD 0 0) r.1, mir)
  | .literal =>
    let operand1 := s.GetOperandValue (mir.uses.getD 0 0)
    let operand2 := operand1.2.LookupValue CONST mir.vB 0 0
    let r := operand2.2.LookupValue opcode operand1.1 operand2.1 NO_VALUE
    (r.1, r.2.SetOperandValue (mir.defs.getD 0 0) r.1, mir)
  | .aget =>
    let type := u16 (opcode - AGET)
    let array := s.GetOperandValue (mir.uses.getD 0 0)
    let n := array.2.HandleNullCheck mir array.1
    let index := n.1.GetOperandValue (mir.uses.getD 1 0)
    let c := index.2.HandleRangeCheck n.2 array.1 index.1
    let memory_version := c.1.GetMemoryVersion array.1 NO_VALUE type
    -- The result is held by a local `res` of the case block, not by the returned one.
    let r := c.1.LookupValue ARRAY_REF array.1 index.1 memory_version
    if opcode = AGET_WIDE then
      (NO_VALUE, r.2.SetOperandValueWide (mir.defs.getD 0 0) r.1, c.2)
    else
      (NO_VALUE, r.2.SetOperandValue (mir.defs.getD 0 0) r.1, c.2)
  | .aputObject => aputBody (s.HandlePutObject mir) mir
  | .aput => aputBody s mir
  | .iget =>
    let type := u16 (opcode - IGET)
    let base := s.GetOperandValue (mir.uses.getD 0 0)
    let n := base.2.HandleNullCheck mir base.1
    let fm : Nat × Nat × LocalValueNumbering :=
      if mir.is_volatile then
        (0, n.1.next_memory_version_,
          { n.1 with next_memory_version_ := u16 (n.1.next_memory_version_ + 1) })
      else
        let f := n.1.GetFieldId mir.declaring_dex_file mir.declaring_field_idx
        (f.1, max (f.2.unresolved_ifield_version_.getD type 0)
          (f.2.GetMemoryVersion base.1 f.1 type), f.2)
    if opcode = IGET_WIDE then
      let r := fm.2.2.LookupValue IGET_WIDE base.1 fm.1 fm.2.1
      (r.1, r.2.SetOperandValueWide (mir.defs.getD 0 0) r.1, n.2)
    else
      let r := fm.2.2.LookupValue IGET base.1 fm.1 fm.2.1
      (r.1, r.2.SetOperandValue (mir.defs.getD 0 0) r.1, n.2)
  | .iputObject => iputBody (s.HandlePutObject mir) mir
  | .iput => iputBody s mir
  | .sget =>
    let type := u16 (opcode - SGET)
    let fm : Nat × Nat × LocalValueNumbering :=
      if mir.is_volatile then
        (0, s.next_memory_version_,
          { s with next_memory_version_ := u16 (s.next_memory_version_ + 1) })
      else
        let f := s.GetFieldId mir.declaring_dex_file mir.declaring_field_idx
        (f.1, max (f.2.unresolved_sfield_version_.getD type 0)
          (f.2.GetMemoryVersion NO_VALUE f.1 type), f.2)
    if opcode = SGET_WIDE then
      let r := fm.2.2.LookupValue SGET_WIDE NO_VALUE fm.1 fm.2.1
      (r.1, r.2.SetOperandValueWide (mir.defs.getD 0 0) r.1, mir)
    else
      let r := fm.2.2.LookupValue SGET NO_VALUE fm.1 fm.2.1
      (r.1, r.2.SetOperandValue (mir.defs.getD 0 0) r.1, mir)
  | .sputObject => sputBody (s.HandlePutObject mir) mir
  | .sput => sputBody s mir
  | .none => (NO_VALUE, s, mir)

/-- Runs `GetValueNumber` over a sequence of instructions, each given with its `next`;
returns the final state. -/
def processSeq (s : LocalValueNumbering) : List (MIR × Option MIR) → LocalValueNumbering
  | [] => s
  | p :: rest => processSeq (s.GetValueNumber p.1 p.2).2.1 rest

/-- Pairs each instruction of a block with its successor. -/
def withNext : List MIR → List (MIR × Option MIR)
  | [] => []
  | mir :: rest => (mir, rest.head?) :: withNext rest

/-- Processes the instructions of a block in order; returns the final state. -/
def processBlock (s : LocalValueNumbering) (block : List MIR) : LocalValueNumbering :=
  s.processSeq (withNext block)

/-- The value names the arithmetic cases of `GetValueNumber` obtain for the operands of an
instruction in state `s` (`operand1`, and `operand2` when it is a register), read with the
accessor and the use index of the instruction's case. -/
def operandNames (s : LocalValueNumbering) (mir : MIR) : Nat × Option Nat :=
  match armOf (u16 mir.opcode) with
  | .unary | .unaryFromWide | .literal => ((s.GetOperandValue (mir.uses.getD 0 0)).1, none)
  | .unaryWide | .unaryToWide => ((s.GetOperandValueWide (mir.uses.getD 0 0)).1, none)
  | .cmpWide | .binaryWide | .shiftWide =>
    let operand1 := s.GetOperandValueWide (mir.uses.getD 0 0)
    (operand1.1, some (operand1.2.GetOperandValueWide (mir.uses.getD 2 0)).1)
  | .binary | .binaryFloat =>
    let operand1 := s.GetOperandValue (mir.uses.getD 0 0)
    (operand1.1, some (operand1.2.GetOperandValue (mir.uses.getD 1 0)).1)
  | _ => (NO_VALUE, none)

end LocalValueNumbering

/-- Every binding of the value map of `g` is a binding of the value map of `g'`. -/
def GlobalValueNumbering.MapExt (g g' : GlobalValueNumbering) : Prop :=
  ∀ k v, g.global_value_map_.find k = some v → g'.global_value_map_.find k = some v

/-- The table `g'` is reached from `g` by at most `n` allocations: the map has grown, the
counter has advanced by at most `n` and, unless the 32-bit counter could wrap, it has not
decreased and the table invariants survive as long as `Good()` holds in `g'`. -/
def GlobalValueNumbering.Evolves (n : Nat) (g g' : GlobalValueNumbering) : Prop :=
  g.MapExt g' ∧ g'.last_value_ ≤ g.last_value_ + n ∧
    (g.last_value_ + n < 2 ^ 32 → g.last_value_ ≤ g'.last_value_ ∧
      (g.ValuesBelow → g.InjectiveMap → g'.Good = true → g'.ValuesBelow ∧ g'.InjectiveMap))

namespace LocalValueNumbering

/-- Every memory version recorded in the state (in the memory-version map, as the global
version, or as an unresolved-field version) is older than `next_memory_version_`. -/
def VersionsBelowNext (s : LocalValueNumbering) : Prop :=
  (∀ k v, s.memory_version_map_.find k = some v → v < s.next_memory_version_) ∧
    s.global_memory_version_ < s.next_memory_version_ ∧
    (∀ x ∈ s.unresolved_ifield_version_, x < s.next_memory_version_) ∧
    (∀ x ∈ s.unresolved_sfield_version_, x < s.next_memory_version_)

/-- The state in which the shared body of the instance-field-put cases starts: after
`HandlePutObject` for `IPUT_OBJECT`, the given state for the other opcodes. -/
def iputEntry (s : LocalValueNumbering) (mir : MIR) : LocalValueNumbering :=
  if armOf (u16 mir.opcode) = .iputObject then s.HandlePutObject mir else s

/-- The value name the instance-field-put cases of `GetValueNumber` obtain for the base
register `uses[base_reg]` of `mir` in state `s`. -/
def iputBase (s : LocalValueNumbering) (mir : MIR) : Nat :=
  let base_reg := if u16 mir.opcode = Instruction.IPUT_WIDE then 2 else 1
  ((s.iputEntry mir).GetOperandValue (mir.uses.getD base_reg 0)).1

/-- The state in which the instance-field-get cases of `GetValueNumber` look the value up,
for a non-volatile field: after the base operand has been read, null-checked and the field
id obtained. -/
def igetPre (s : LocalValueNumbering) (mir : MIR) : LocalValueNumbering :=
  let base := s.GetOperandValue (mir.uses.getD 0 0)
  ((base.2.HandleNullCheck mir base.1).1.GetFieldId mir.declaring_dex_file
    mir.declaring_field_idx).2

/-- The tuple `(IGET or IGET_WIDE, base, field_id, memory_version)` the instance-field-get
cases of `GetValueNumber` look up for a non-volatile field. -/
def igetTuple (s : LocalValueNumbering) (mir : MIR) : GlobalValueNumbering.Tuple :=
  let base := s.GetOperandValue (mir.uses.getD 0 0)
  let f := (base.2.HandleNullCheck mir base.1).1.GetFieldId mir.declaring_dex_file
    mir.declaring_field_idx
  let type := u16 (u16 mir.opcode - Instruction.IGET)
  (if u16 mir.opcode = Instruction.IGET_WIDE then Instruction.IGET_WIDE else Instruction.IGET,
    base.1, f.1,
    max (f.2.unresolved_ifield_version_.getD type 0) (f.2.GetMemoryVersion base.1 f.1 type))

end LocalValueNumbering

/-! ## MarkCompact (runtime/gc/collector/mark_compact.cc) -/

namespace gc

/-- Constant `kObjectAlignment` (globals.h). -/
abbrev kObjectAlignment : Nat := 8

/-- Helper `RoundUp(x, n)` (utils.h) for a power of two `n`. -/
def RoundUp (x n : Nat) : Nat := (x + n - 1) / n * n

/-- Helper `IsAligned<n>(x)` (utils.h). -/
def IsAligned (n x : Nat) : Bool := decide (x % n = 0)

/-- Heap memory: the byte stored at each address. -/
abbrev Mem := Nat → Nat

/-- The libc `memmove`: the `len` bytes at `src` are copied to `dest` as if through a
temporary buffer, so the ranges may overlap. -/
def memmove (mem : Mem) (dest src len : Nat) : Mem :=
  fun x => if dest ≤ x ∧ x < dest + len then mem (src + (x - dest)) else mem x

/-- Modelled from the spec: lock_word.h is not among the sources. A lock word is a 32-bit
value; the default (unlocked) word `LockWord()` is 0. -/
def LockWord.default : Nat := 0

/-- Modelled from the spec: lock_word.h is not among the sources. The lock word holding a
forwarding address: the address shifted right by the two state bits, with state 3
(forwarding address) in the two top bits. -/
def LockWord.FromForwardingAddress (target : Nat) : Nat :=
  GlobalValueNumbering.u32 ((target >>> 2) ||| (3 <<< 30))

/-- Modelled from the spec: lock_word.h is not among the sources. The forwarding address held
by a lock word: the 32-bit value shifted left by the two state bits. -/
def LockWord.ForwardingAddress (value : Nat) : Nat :=
  GlobalValueNumbering.u32 (value <<< 2)

/-- Modelled from the spec: mirror/object.h is not among the sources. Offset of the lock word
(`monitor_`) in an object: it follows the 4-byte class reference in the header. -/
abbrev kMonitorOffset : Nat := 4

/-- Modelled from the spec: `Object::GetLockWord` (mirror/object.h is not among the sources)
reads the 32-bit little-endian word at the lock word offset. -/
def GetLockWord (mem : Mem) (obj : Nat) : Nat :=
  mem (obj + kMonitorOffset) % 256 + 2 ^ 8 * (mem (obj + kMonitorOffset + 1) % 256) +
    2 ^ 16 * (mem (obj + kMonitorOffset + 2) % 256) +
    2 ^ 24 * (mem (obj + kMonitorOffset + 3) % 256)

/-- Modelled from the spec: `Object::SetLockWord` (mirror/object.h is not among the sources)
writes the 32-bit little-endian word at the lock word offset. -/
def SetLockWord (mem : Mem) (obj value : Nat) : Mem :=
  fun x =>
    if x = obj + kMonitorOffset then value % 256
    else if x = obj + kMonitorOffset + 1 then value / 2 ^ 8 % 256
    else if x = obj + kMonitorOffset + 2 then value / 2 ^ 16 % 256
    else if x = obj + kMonitorOffset + 3 then value / 2 ^ 24 % 256
    else mem x

/-- Modelled from the spec: space_bitmap.h is not among the sources. A bitmap is represented
by the list of the addresses whose bit is set; `Set` adds an address. -/
def bitmapSet (obj : Nat) (bits : List Nat) : List Nat := if obj ∈ bits then bits else obj :: bits

/-- Modelled from the spec: `SpaceBitmap::VisitMarkedRange` (space_bitmap.h is not among the
sources) scans the addresses from `addr` upwards, `n` of them, and calls the visitor on each
address whose bit is set at the time the scan reaches it. -/
def visitFrom {σ : Type} (bitmap : σ → List Nat) (visitor : σ → Nat → σ) :
    Nat → Nat → σ → σ
  | 0, _, s => s
  | n + 1, addr, s =>
    visitFrom bitmap visitor n (addr + 1) (if addr ∈ bitmap s then visitor s addr else s)

/-- Modelled from the spec: `SpaceBitmap::VisitMarkedRange(visit_begin, visit_end, visitor)`
visits the marked addresses of `[visit_begin, visit_end)` in ascending order. -/
def VisitMarkedRange {σ : Type} (bitmap : σ → List Nat) (visitor : σ → Nat → σ)
    (visit_begin visit_end : Nat) (s : σ) : σ :=
  visitFrom bitmap visitor (visit_end - visit_begin) visit_begin s

/-- State of a `MarkCompact` collector and of the heap it works on. -/
structure MarkCompact where
  /-- Address `space_->Begin()` of the compacted space. -/
  space_begin : Nat
  /-- Address `space_->End()` of the compacted space. -/
  space_end : Nat
  /-- Result of `obj->SizeOf()` for the object at an address. -/
  SizeOf : Nat → Nat
  /-- Heap memory. -/
  mem : Mem
  /-- Field `bump_pointer_`. -/
  bump_pointer_ : Nat
  /-- Field `live_objects_in_space_`. -/
  live_objects_in_space_ : Nat
  /-- Field `objects_before_forwarding_`: the addresses whose bit is set. -/
  objects_before_forwarding_ : List Nat
  /-- Field `objects_with_lockword_`: the addresses whose bit is set. -/
  objects_with_lockword_ : List Nat
  /-- Field `lock_words_to_restore_` (a deque, front first). -/
  lock_words_to_restore_ : List Nat

namespace MarkCompact

/-- `MarkCompact::FowardObject`. -/
def FowardObject (s : MarkCompact) (obj : Nat) : MarkCompact :=
  let object_size := RoundUp (s.SizeOf obj) kObjectAlignment
  let lock_word := GetLockWord s.mem obj
  let s1 :=
    if lock_word ≠ LockWord.default then
      { s with objects_with_lockword_ := bitmapSet obj s.objects_with_lockword_
               lock_words_to_restore_ := s.lock_words_to_restore_ ++ [lock_word] }
    else s
  let s2 :=
    { s1 with mem := SetLockWord s1.mem obj (LockWord.FromForwardingAddress s1.bump_pointer_) }
  let s3 := { s2 with bump_pointer_ := s2.bump_pointer_ + object_size }
  let s4 :=
    { s3 with objects_before_forwarding_ :=
                bitmapSet (obj + object_size - kObjectAlignment / 2) s3.objects_before_forwarding_ }
  { s4 with live_objects_in_space_ := s4.live_objects_in_space_ + 1 }

/-- `CalculateObjectForwardingAddressVisitor::operator()`. -/
def CalculateObjectForwardingAddressVisitor (s : MarkCompact) (obj : Nat) : MarkCompact :=
  if IsAligned kObjectAlignment obj then s.FowardObject obj else s

/-- `MarkCompact::CalculateObjectForwardingAddresses`. -/
def CalculateObjectForwardingAddresses (s : MarkCompact) : MarkCompact :=
  let s1 := { s with bump_pointer_ := s.space_begin }
  VisitMarkedRange (fun t => t.objects_before_forwarding_)
    CalculateObjectForwardingAddressVisitor s1.space_begin s1.space_end s1

/-- `MarkCompact::MoveObject`; `none` when `front()` is taken from an empty queue. -/
def MoveObject (s : MarkCompact) (obj len : Nat) : Option MarkCompact :=
  let dest_addr := LockWord.ForwardingAddress (GetLockWord s.mem obj)
  let mem1 := memmove s.mem dest_addr obj len
  if obj ∈ s.objects_with_lockword_ then
    match s.lock_words_to_restore_ with
    | [] => none
    | lock_word :: rest =>
      some { s with mem := SetLockWord mem1 dest_addr lock_word
                    lock_words_to_restore_ := rest }
  else
    some { s with mem := SetLockWord mem1 dest_addr LockWord.default }

/-- `MoveObjectVisitor::operator()`: the visitor state is its field `object_start_` and the
collector; `none` once a `MoveObject` has failed. -/
def MoveObjectVisitor (v : Option (Nat × MarkCompact)) (obj : Nat) : Option (Nat × MarkCompact) :=
  match v with
  | none => none
  | some (object_start_, s) =>
    if IsAligned kObjectAlignment obj then
      some (obj, s)
    else
      let len := obj - object_start_ + kObjectAlignment / 2
      (s.MoveObject object_start_ len).map (fun s' => (object_start_, s'))

/-- `MarkCompact::MoveObjects`; `none` when a `MoveObject` fails or the final
`CHECK(lock_words_to_restore_.empty())` does. -/
def MoveObjects (s : MarkCompact) : Option MarkCompact :=
  let r := VisitMarkedRange
    (fun (v : Option (Nat × MarkCompact)) =>
      match v with
      | some (_, t) => t.objects_before_forwarding_
      | none => [])
    MoveObjectVisitor s.space_begin s.space_end (some (0, s))
  match r with
  | some (_, s') => if s'.lock_words_to_restore_ = [] then some s' else none
  | none => none

/-- Aligned size `RoundUp(obj->SizeOf(), kObjectAlignment)` of the object at an address. -/
def alignedSize (s : MarkCompact) (obj : Nat) : Nat := RoundUp (s.SizeOf obj) kObjectAlignment

/-- The marked objects of the compacted space, in ascending address order: the aligned
addresses of `[Begin, End)` whose bit is set in `objects_before_forwarding_`. -/
def markedObjects (s : MarkCompact) : List Nat :=
  (List.range' s.space_begin (s.space_end - s.space_begin)).filter
    (fun x => decide (x % kObjectAlignment = 0) && decide (x ∈ s.objects_before_forwarding_))

/-- The marked objects with their aligned sizes, in ascending address order. -/
def markedSlots (s : MarkCompact) : List (Nat × Nat) :=
  s.markedObjects.map (fun o => (o, s.alignedSize o))

/-- The objects `(address, size)` of the list lie in `[lo, hi)` in ascending order without
overlap; addresses and sizes are multiples of `kObjectAlignment` and no size is 0. -/
def Layout : Nat → List (Nat × Nat) → Nat → Prop
  | lo, [], hi => lo ≤ hi
  | lo, (o, size) :: rest, hi =>
    lo ≤ o ∧ o % 8 = 0 ∧ size % 8 = 0 ∧ 0 < size ∧ Layout (o + size) rest hi

/-- The lock word of each object of the list holds its forwarding address: `fwd` for the
first object, and for each following object the address after the destination of the one
before it. -/
def Forwards (mem : Mem) : Nat → List (Nat × Nat) → Prop
  | _, [] => True
  | fwd, (o, size) :: rest =>
    GetLockWord mem o = LockWord.FromForwardingAddress fwd ∧ Forwards mem (fwd + size) rest

/-- One call `MoveObject(obj, len)` for each `(obj, len)` of the list, in the order of the
list; `none` as soon as a call fails. -/
def moveAll (s : MarkCompact) : List (Nat × Nat) → Option MarkCompact
  | [] => some s
  | (o, size) :: rest => (s.MoveObject o size).bind (fun s' => moveAll s' rest)

/-- The bits of `objects_before_forwarding_` that belong to the objects of the list: for each
object its address and its end marker. -/
def marks : List (Nat × Nat) → List Nat
  | [] => []
  | (o, size) :: rest => o :: (o + size - kObjectAlignment / 2) :: marks rest

/-- An example heap: the space `[16, 64)` with two marked objects, one of 8 bytes at address
16 and one of 12 bytes (aligned size 16) at address 32, whose lock word is not the default
one; the bytes of the heap are the addresses modulo 7. -/
def exampleHeap : MarkCompact :=
  { space_begin := 16
    space_end := 64
    SizeOf := fun o => if o = 16 then 8 else 12
    mem := fun x => if x = 36 then 5 else x % 7
    bump_pointer_ := 0
    live_objects_in_space_ := 0
    objects_before_forwarding_ := [16, 32]
    objects_with_lockword_ := []
    lock_words_to_restore_ := [] }

end MarkCompact

end gc

/-! ## States at the end of the 16-bit ranges -/

namespace LocalValueNumbering

/-- The state reached from a fresh one whose value table has handed out 0xfffe names, after
`new-instance v0`: the new object is given the last 16-bit name, 0xffff. -/
def lastNameUnique : LocalValueNumbering :=
  ({ init with gvn := ⟨0xfffe, false, []⟩ }.GetValueNumber
    ⟨Instruction.NEW_INSTANCE, 0, 0, [], [0], 0, false, 0, 0⟩ none).2.1

/-- The state a fresh one reaches by 0xfffe `invoke-static` instructions without arguments:
the memory version counter stands at 0xffff and the global memory version at 0xfffe. -/
def almostWrapped : LocalValueNumbering :=
  { init with next_memory_version_ := 0xffff, global_memory_version_ := 0xfffe }

/-- The state reached from `almostWrapped` by `AdvanceMemoryVersion(3, 0, 0)`: the counter
has wrapped to 0. -/
def wrappedVersions : LocalValueNumbering := (almostWrapped.AdvanceMemoryVersion 3 0 0).2

/-- The state reached from a fresh one by `new-instance v0`: value name 1 is unique. -/
def oneUnique : LocalValueNumbering :=
  (init.GetValueNumber ⟨Instruction.NEW_INSTANCE, 0, 0, [], [0], 0, false, 0, 0⟩ none).2.1

end LocalValueNumbering

/-! ## Updating references (mark_compact.cc) -/

namespace gc

/-- Modelled from the spec: object_reference.h is not among the sources. A reference slot
(`HeapReference<Object>`, or a root `Object*` of a 32-bit heap) is a 32-bit little-endian
word; `AsMirrorPtr` reads the address it holds. -/
def AsMirrorPtr (mem : Mem) (reference : Nat) : Nat :=
  mem reference % 256 + 2 ^ 8 * (mem (reference + 1) % 256) +
    2 ^ 16 * (mem (reference + 2) % 256) + 2 ^ 24 * (mem (reference + 3) % 256)

/-- Modelled from the spec: object_reference.h is not among the sources. `Assign` writes an
address into a reference slot. -/
def Assign (mem : Mem) (reference value : Nat) : Mem :=
  fun x =>
    if x = reference then value % 256
    else if x = reference + 1 then value / 2 ^ 8 % 256
    else if x = reference + 2 then value / 2 ^ 16 % 256
    else if x = reference + 3 then value / 2 ^ 24 % 256
    else mem x

namespace MarkCompact

/-- Modelled from the spec: `SpaceBitmap::HasAddress` (space_bitmap.h is not among the
sources). Both bitmaps are created over `space_->Begin()` and `space_->Size()`: they cover
the address range of the compacted space. -/
def HasAddress (s : MarkCompact) (obj : Nat) : Bool :=
  decide (s.space_begin ≤ obj ∧ obj < s.space_end)

/-- `MarkCompact::GetMarkedForwardAddress`. -/
def GetMarkedForwardAddress (s : MarkCompact) (obj : Nat) : Nat :=
  if s.HasAddress obj then LockWord.ForwardingAddress (GetLockWord s.mem obj) else obj

/-- `MarkCompact::UpdateHeapReference`. `IsClass` stands for `Object::IsClass`
(mirror/object.h is not among the sources). -/
def UpdateHeapReference (IsClass : Nat → Bool) (s : MarkCompact) (reference : Nat) :
    MarkCompact :=
  let obj := AsMirrorPtr s.mem reference
  if obj ≠ 0 ∧ ¬ IsClass obj then
    let new_obj := s.GetMarkedForwardAddress obj
    if obj ≠ new_obj then { s with mem := Assign s.mem reference new_obj } else s
  else s

/-- `MarkCompact::UpdateRootCallback`. The callback calls `obj->IsClass()` without a null
test: on a null root the class word of no object is read, which is `none` here. -/
def UpdateRootCallback (IsClass : Nat → Bool) (s : MarkCompact) (root : Nat) :
    Option MarkCompact :=
  let obj := AsMirrorPtr s.mem root
  if obj = 0 then none
  else if ¬ IsClass obj then
    let new_obj := s.GetMarkedForwardAddress obj
    if obj ≠ new_obj then some { s with mem := Assign s.mem root new_obj } else some s
  else some s

/-- `MarkCompact::UpdateClassRootCallback`. -/
def UpdateClassRootCallback (s : MarkCompact) (root : Nat) : MarkCompact :=
  let obj := AsMirrorPtr s.mem root
  let new_obj := s.GetMarkedForwardAddress obj
  if obj ≠ new_obj then { s with mem := Assign s.mem root new_obj } else s

/-- One callback made during `UpdateReferences`, with the slot it is made for:
`UpdateRootCallback` for a root, `UpdateHeapReference` for a reference field of a visited
object, `UpdateClassRootCallback` for a class root. -/
inductive SlotVisit where
  | root (slot : Nat)
  | field (slot : Nat)
  | classRoot (slot : Nat)
deriving DecidableEq, Repr

/-- The slot a callback is made for. -/
def SlotVisit.slot : SlotVisit → Nat
  | .root a => a
  | .field a => a
  | .classRoot a => a

/-- One callback of `UpdateReferences`; `none` once a callback has failed. -/
def visitSlot (IsClass : Nat → Bool) (st : Option MarkCompact) (v : SlotVisit) :
    Option MarkCompact :=
  match st with
  | none => none
  | some s =>
    match v with
    | .root a => s.UpdateRootCallback IsClass a
    | .field a => some (s.UpdateHeapReference IsClass a)
    | .classRoot a => some (s.UpdateClassRootCallback a)

/-- `MarkCompact::UpdateReferences`. Modelled from the spec: the walks that find the slots
(`Runtime::VisitRoots`, the mod-union tables, the live bitmaps of the other spaces,
`Object::VisitReferences`, `ClassLinker::VisitClassRoots`) are not among the sources; they
call back once per slot, and the sequence of these callbacks is the parameter `visits`. -/
def UpdateReferences (IsClass : Nat → Bool) (s : MarkCompact) (visits : List SlotVisit) :
    Option MarkCompact :=
  visits.foldl (visitSlot IsClass) (some s)

/-- An example heap with references: the space `[16, 64)` with two marked objects, one of 8
bytes at address 24 and one of 16 bytes at address 40 whose lock word is not the default
one. The word at address 8, outside the space, is a root that refers to the object at 40;
the word at address 48, a field of that object, refers to the object at 24; the word at
address 72 is a root that refers to an object at address 200, outside the space. -/
def exampleGraph : MarkCompact :=
  { space_begin := 16
    space_end := 64
    SizeOf := fun o => if o = 24 then 8 else 16
    mem := fun x => if x = 44 then 5 else if x = 8 then 40 else if x = 48 then 24
      else if x = 72 then 200 else 0
    bump_pointer_ := 0
    live_objects_in_space_ := 0
    objects_before_forwarding_ := [24, 40]
    objects_with_lockword_ := []
    lock_words_to_restore_ := [] }

end MarkCompact

end gc

/-! ## Marking (mark_compact.cc) -/

namespace gc

/-- State of the collector during the marking phase, reduced to what the marking functions
read and write. The heap is not written while it is marked: `fields` gives, for the object
at an address, the referents of its strong reference fields, in the order in which
`Object::VisitReferences` passes the fields to the visitor (mirror/object.h is not among the
sources). -/
structure Marking where
  /-- Address `space_->Begin()`: start of the range of `objects_before_forwarding_`. -/
  space_begin : Nat
  /-- Address `space_->End()`: end of the range of `objects_before_forwarding_`. -/
  space_end : Nat
  /-- Start of `immune_region_`. -/
  immune_begin : Nat
  /-- End of `immune_region_`. -/
  immune_end : Nat
  /-- Field `objects_before_forwarding_`: the addresses whose bit is set. -/
  objects_before_forwarding_ : List Nat
  /-- Field `mark_bitmap_` (the heap's mark bitmap): the addresses whose bit is set. -/
  mark_bitmap_ : List Nat
  /-- Field `mark_stack_`: the elements of the stack, the back (last pushed) first. -/
  mark_stack_ : List Nat
  /-- Capacity of `mark_stack_`. -/
  mark_stack_capacity_ : Nat
  /-- Referents of the strong reference fields of the object at an address. -/
  fields : Nat → List Nat

/-- Modelled from the spec: `SpaceBitmap::HasAddress` for `objects_before_forwarding_`, which
covers the address range of the compacted space. -/
def Marking.HasAddress (st : Marking) (obj : Nat) : Bool :=
  decide (st.space_begin ≤ obj ∧ obj < st.space_end)

namespace MarkCompact

/-- Modelled from the spec: `ImmuneRegion::ContainsObject` (immune_region.h is not among the
sources): the object lies in the address range of the immune region. -/
def ContainsObject (st : Marking) (obj : Nat) : Bool :=
  decide (st.immune_begin ≤ obj ∧ obj < st.immune_end)

/-- Modelled from the spec: `AtomicStack::PushBack` (atomic_stack.h is not among the sources)
stores the element behind the last one; there must be room for it (`none` otherwise). -/
def PushBack (st : Marking) (obj : Nat) : Option Marking :=
  if st.mark_stack_.length < st.mark_stack_capacity_ then
    some { st with mark_stack_ := obj :: st.mark_stack_ }
  else none

/-- `MarkCompact::ResizeMarkStack`: the elements are copied, the stack is emptied and given
its new capacity (`AtomicStack::Resize`), and the copies are pushed back, front first;
`none` when `CHECK_LE(mark_stack_->Size(), new_size)` fails or a push does. -/
def ResizeMarkStack (st : Marking) (new_size : Nat) : Option Marking :=
  let temp := st.mark_stack_.reverse
  if st.mark_stack_.length ≤ new_size then
    temp.foldl (fun acc obj => acc.bind (fun t => PushBack t obj))
      (some { st with mark_stack_ := [], mark_stack_capacity_ := new_size })
  else none

/-- `MarkCompact::MarkStackPush`. -/
def MarkStackPush (st : Marking) (obj : Nat) : Option Marking :=
  if st.mark_stack_.length ≥ st.mark_stack_capacity_ then
    (ResizeMarkStack st (st.mark_stack_capacity_ * 2)).bind (fun t => PushBack t obj)
  else PushBack st obj

/-- `MarkCompact::MarkObject` (the read barrier check is compiled out). -/
def MarkObject (st : Marking) (obj : Nat) : Option Marking :=
  if obj = 0 then some st
  else if ContainsObject st obj then some st
  else if st.HasAddress obj then
    if obj ∈ st.objects_before_forwarding_ then some st
    else
      MarkStackPush
        { st with objects_before_forwarding_ := bitmapSet obj st.objects_before_forwarding_ } obj
  else
    if obj ∈ st.mark_bitmap_ then some st
    else MarkStackPush { st with mark_bitmap_ := bitmapSet obj st.mark_bitmap_ } obj

/-- `MarkCompact::IsMarked`. -/
def IsMarked (st : Marking) (object : Nat) : Bool :=
  if ContainsObject st object then true
  else if st.HasAddress object then decide (object ∈ st.objects_before_forwarding_)
  else decide (object ∈ st.mark_bitmap_)

/-- `MarkCompact::ScanObject`: `MarkCompactMarkObjectVisitor` calls `MarkObject` on the
referent of each strong reference field of the object (the referent of a
`java.lang.ref.Reference` goes to the reference processor instead). -/
def ScanObject (st : Marking) (obj : Nat) : Option Marking :=
  (st.fields obj).foldl (fun acc ref => acc.bind (fun t => MarkObject t ref)) (some st)

/-- `MarkCompact::ProcessMarkStack`, the loop run for at most `fuel` iterations: `none` when
the fuel runs out before the stack is empty, or when a push fails. -/
def ProcessMarkStack : Nat → Marking → Option Marking
  | fuel, st =>
    match st.mark_stack_ with
    | [] => some st
    | obj :: rest =>
      match fuel with
      | 0 => none
      | n + 1 => (ScanObject { st with mark_stack_ := rest } obj).bind (ProcessMarkStack n)

/-- The number of objects of the list that are not marked. -/
def unmarkedCount (st : Marking) (heap : List Nat) : Nat :=
  (heap.filter (fun o => !IsMarked st o)).length

/-- An example heap for marking: the compacted space is `[16, 64)`, the immune region
`[128, 256)`. The object at 24 refers to the objects at 40 and 130 and has a null field, the
object at 40 refers back to the object at 24 and to the one at 300, outside both ranges, which
has no references. The object at 24 has been marked and pushed. -/
def exampleMarking : Marking :=
  { space_begin := 16
    space_end := 64
    immune_begin := 128
    immune_end := 256
    objects_before_forwarding_ := [24]
    mark_bitmap_ := []
    mark_stack_ := [24]
    mark_stack_capacity_ := 1
    fields := fun o => if o = 24 then [40, 0, 130] else if o = 40 then [24, 300] else [] }

end MarkCompact

end gc

namespace gc

namespace MarkCompact

/-- The stack is within its capacity, which is not zero. -/
def StackOk (st : Marking) : Prop :=
  0 < st.mark_stack_capacity_ ∧ st.mark_stack_.length ≤ st.mark_stack_capacity_

/-- The fields of the state that marking never changes. -/
def SameHeap (st st' : Marking) : Prop :=
  st'.space_begin = st.space_begin ∧ st'.space_end = st.space_end ∧
    st'.immune_begin = st.immune_begin ∧ st'.immune_end = st.immune_end ∧
    st'.fields = st.fields

/-- Every non-null strong reference field of the object refers to a marked object. -/
def ClosedUnderFields (st : Marking) (o : Nat) : Prop :=
  ∀ r ∈ st.fields o, r ≠ 0 → IsMarked st r = true

/-- Every marked object outside the immune region is on the mark stack or has marked
referents only. -/
def MarkInv (st : Marking) : Prop :=
  ∀ o, IsMarked st o = true → ContainsObject st o = false →
    o ∈ st.mark_stack_ ∨ ClosedUnderFields st o

end MarkCompact

end gc

/-! ## Properties carried along by value numbering -/

namespace LocalValueNumbering

open GlobalValueNumbering (u16 u32 u64)

/-- A family of state properties, indexed by a number `a` of value name allocations and a
number `b` of memory version increments, that every operation used by `GetValueNumber`
carries along. -/
structure Threads (P : Nat → Nat → LocalValueNumbering → Prop) : Prop where
  mono : ∀ {a b a' b' : Nat} {s : LocalValueNumbering}, a ≤ a' → b ≤ b' → P a b s → P a' b' s
  lookup : ∀ {a b : Nat} {s : LocalValueNumbering} (op x y m : Nat),
    P a b s → P (a + 1) b (s.LookupValue op x y m).2
  getOperand : ∀ {a b : Nat} {s : LocalValueNumbering} (r : Nat),
    P a b s → P (a + 1) b (s.GetOperandValue r).2
  getOperandWide : ∀ {a b : Nat} {s : LocalValueNumbering} (r : Nat),
    P a b s → P (a + 1) b (s.GetOperandValueWide r).2
  setOperand : ∀ {a b : Nat} {s : LocalValueNumbering} (r v : Nat),
    P a b s → P a b (s.SetOperandValue r v)
  setOperandWide : ∀ {a b : Nat} {s : LocalValueNumbering} (r v : Nat),
    P a b s → P a b (s.SetOperandValueWide r v)
  fieldId : ∀ {a b : Nat} {s : LocalValueNumbering} (d f : Nat),
    P a b s → P a b (s.GetFieldId d f).2
  globalMemory : ∀ {a b : Nat} {s : LocalValueNumbering},
    P a b s → P a (b + 1) s.AdvanceGlobalMemory
  memoryVersion : ∀ {a b : Nat} {s : LocalValueNumbering} (x f t : Nat),
    P a b s → P a (b + 1) (s.AdvanceMemoryVersion x f t).2
  uniqueNonNull : ∀ {a b : Nat} {s : LocalValueNumbering} (mir : MIR),
    P a b s → P (a + 1) b (s.MarkUniqueNonNull mir).2
  argsNonUnique : ∀ {a b : Nat} {s : LocalValueNumbering} (mir : MIR),
    P a b s → P (a + mir.uses.length) b (s.MakeArgsNonUnique mir)
  nullCheck : ∀ {a b : Nat} {s : LocalValueNumbering} (mir : MIR) (reg : Nat),
    P a b s → P a b (s.HandleNullCheck mir reg).1
  rangeCheck : ∀ {a b : Nat} {s : LocalValueNumbering} (mir : MIR) (x i : Nat),
    P a b s → P (a + 1) b (s.HandleRangeCheck mir x i).1
  putObject : ∀ {a b : Nat} {s : LocalValueNumbering} (mir : MIR),
    P a b s → P (a + 1) b (s.HandlePutObject mir)
  bump : ∀ {a b : Nat} {s : LocalValueNumbering},
    P a b s → P a (b + 1) { s with next_memory_version_ := u16 (s.next_memory_version_ + 1) }
  unresolvedI : ∀ {a b : Nat} {s : LocalValueNumbering} (type : Nat),
    P a b s → P a (b + 1)
      { s with unresolved_ifield_version_ :=
                 s.unresolved_ifield_version_.set type s.next_memory_version_
               next_memory_version_ := u16 (s.next_memory_version_ + 1) }
  unresolvedS : ∀ {a b : Nat} {s : LocalValueNumbering} (type : Nat),
    P a b s → P a (b + 1)
      { s with unresolved_sfield_version_ :=
                 s.unresolved_sfield_version_.set type s.next_memory_version_
               next_memory_version_ := u16 (s.next_memory_version_ + 1) }

/-- An upper bound of the number of value names one instruction can allocate. -/
def allocBound (mir : MIR) : Nat := mir.uses.length + 4

/-- An upper bound of the number of value names a sequence of instructions can allocate. -/
def seqAllocBound (seq : List (MIR × Option MIR)) : Nat :=
  (seq.map (fun p => allocBound p.1)).sum

/-- The state `s` is reached from `s0` by at most `b` increments of the memory version
counter: as long as the 16-bit counter cannot wrap and the versions recorded in `s0` are
older than its counter, the same holds in `s`, the counter has not decreased and has grown
by at most `b`, and no unresolved-field version has decreased. -/
def VersionsAdvance (s0 : LocalValueNumbering) (b : Nat) (s : LocalValueNumbering) : Prop :=
  s0.next_memory_version_ + b < 2 ^ 16 → s0.VersionsBelowNext →
    s.VersionsBelowNext ∧ s0.next_memory_version_ ≤ s.next_memory_version_ ∧
      s.next_memory_version_ ≤ s0.next_memory_version_ + b ∧
      (∀ i, s0.unresolved_ifield_version_.getD i 0 ≤ s.unresolved_ifield_version_.getD i 0) ∧
      (∀ i, s0.unresolved_sfield_version_.getD i 0 ≤ s.unresolved_sfield_version_.getD i 0) ∧
      s.unresolved_ifield_version_.length = s0.unresolved_ifield_version_.length ∧
      s.unresolved_sfield_version_.length = s0.unresolved_sfield_version_.length

/-- The state in which the static-field-get cases of `GetValueNumber` look the value up, for
a non-volatile field: after the field id has been obtained. -/
def sgetPre (s : LocalValueNumbering) (mir : MIR) : LocalValueNumbering :=
  (s.GetFieldId mir.declaring_dex_file mir.declaring_field_idx).2

/-- The tuple `(SGET or SGET_WIDE, NO_VALUE, field_id, memory_version)` the static-field-get
cases of `GetValueNumber` look up for a non-volatile field. -/
def sgetTuple (s : LocalValueNumbering) (mir : MIR) : GlobalValueNumbering.Tuple :=
  let f := s.GetFieldId mir.declaring_dex_file mir.declaring_field_idx
  let type := u16 (u16 mir.opcode - Instruction.SGET)
  (if u16 mir.opcode = Instruction.SGET_WIDE then Instruction.SGET_WIDE else Instruction.SGET,
    NO_VALUE, f.1,
    max (f.2.unresolved_sfield_version_.getD type 0) (f.2.GetMemoryVersion NO_VALUE f.1 type))

end LocalValueNumbering

/-! ## A block that wraps the memory version counter -/

namespace LocalValueNumbering

open Instruction in
/-- The instruction `iget vD, v0, f` for a resolved, non-volatile field `f` (field 7 of dex
file 1), defining register `def_reg`. -/
def getField (def_reg : Nat) : MIR := ⟨IGET, 0, 0, [0], [def_reg], 0, false, 1, 7⟩

open Instruction in
/-- The instruction `iput v3, v1, g` for an unresolved field `g` (no declaring dex file; the
annotation of an unresolved field is marked volatile). -/
def putUnresolved : MIR := ⟨IPUT, 0, 0, [3, 1], [], 0, true, 0, 0⟩

/-- The state after `new-instance v0` and `iget v2, v0, f`, started in `almostWrapped`. -/
def beforePuts : LocalValueNumbering :=
  ((almostWrapped.GetValueNumber ⟨Instruction.NEW_INSTANCE, 0, 0, [], [0], 0, false, 0, 0⟩
    none).2.1.GetValueNumber (getField 2) none).2.1

/-- The state after two further `iput v3, v1, g` to the unresolved field. -/
def afterPuts : LocalValueNumbering :=
  ((beforePuts.GetValueNumber putUnresolved none).2.1.GetValueNumber putUnresolved none).2.1

end LocalValueNumbering

/-! ## Calls on the value table and its debug checks -/

namespace GlobalValueNumbering

/-- The condition of the `DCHECK` in `StoreValue`: the key is absent from the value map or
bound to `value` already. -/
def StoreValueCheck (g : GlobalValueNumbering) (op operand1 operand2 modifier value : Nat) :
    Bool :=
  let key := BuildKey op operand1 operand2 modifier
  match g.global_value_map_.find key with
  | some v => decide (v = u16 value)
  | none => true

/-- Member `StoreValue` in a debug build, where the `DCHECK` is executed: a failing check
aborts (`none`), otherwise the binding is overwritten as in `StoreValue`. -/
def StoreValueDebug (g : GlobalValueNumbering) (op operand1 operand2 modifier value : Nat) :
    Option GlobalValueNumbering :=
  if g.StoreValueCheck op operand1 operand2 modifier value then
    some (g.StoreValue op operand1 operand2 modifier value)
  else none

/-- The conditions of the two checks at the head of `HasValue`,
`DCHECK(value != 0u || !Good())` and `DCHECK_LE(value, last_value_)`. -/
def HasValueCheck (g : GlobalValueNumbering) (value : Nat) : Bool :=
  (!decide (u16 value = 0) || !g.Good) && decide (u16 value ≤ g.last_value_)

/-- One call of `LookupValue`, `StoreValue`, `HasValue` or `AllowModifications`. -/
inductive ValueCall where
  | lookup (op operand1 operand2 modifier : Nat)
  | store (op operand1 operand2 modifier value : Nat)
  | has (op operand1 operand2 modifier value : Nat)
  | allow
deriving DecidableEq, Repr

/-- State after one call; `HasValue` is a `const` member and leaves the object alone. -/
def ValueCall.apply (g : GlobalValueNumbering) : ValueCall → GlobalValueNumbering
  | .lookup op o1 o2 m => (g.LookupValue op o1 o2 m).2
  | .store op o1 o2 m v => g.StoreValue op o1 o2 m v
  | .has _ _ _ _ _ => g
  | .allow => g.AllowModifications

/-- State after a sequence of calls, made in order. -/
def runCalls (g : GlobalValueNumbering) (calls : List ValueCall) : GlobalValueNumbering :=
  calls.foldl ValueCall.apply g

/-- The number of `LookupValue` calls in a sequence: the only calls that can allocate a value
name, one each at most. -/
def lookupCount : List ValueCall → Nat
  | [] => 0
  | .lookup _ _ _ _ :: rest => lookupCount rest + 1
  | _ :: rest => lookupCount rest

end GlobalValueNumbering

/-! ## Null checks, range checks and unique references -/

/-- Whether the case of `GetValueNumber` selected by the opcode calls `HandleNullCheck`: the
array gets and puts, the instance field gets and puts, and the invokes other than
`INVOKE_STATIC` and `INVOKE_STATIC_RANGE`. -/
def Arm.nullChecks : Arm → Bool
  | .aget | .aput | .aputObject | .iget | .iput | .iputObject | .invoke => true
  | _ => false

/-- Whether the case is an array get or an array put, the cases that call
`HandleRangeCheck`. -/
def Arm.isArrayAccess : Arm → Bool
  | .aget | .aput | .aputObject => true
  | _ => false

/-- Whether the case is `APUT_OBJECT`, `IPUT_OBJECT` or `SPUT_OBJECT`, the cases that call
`HandlePutObject`. -/
def Arm.isPutObject : Arm → Bool
  | .aputObject | .iputObject | .sputObject => true
  | _ => false

namespace LocalValueNumbering

open GlobalValueNumbering (u16 u32 u64)

/-- The state in which the shared body of the put cases starts: after `HandlePutObject` for
`APUT_OBJECT`, `IPUT_OBJECT` and `SPUT_OBJECT`, the given state for every other opcode. -/
def putEntry (s : LocalValueNumbering) (mir : MIR) : LocalValueNumbering :=
  if (armOf (u16 mir.opcode)).isPutObject then s.HandlePutObject mir else s

/-- The index in `ssa_rep->uses` of the reference that the case of the instruction reads
with `GetOperandValue` and hands to `HandleNullCheck`: `array_idx` for the array puts,
`base_reg` for the instance field puts, 0 for the gets and the invokes. -/
def nullCheckedUse (mir : MIR) : Nat :=
  match armOf (u16 mir.opcode) with
  | .aput | .aputObject => if u16 mir.opcode = Instruction.APUT_WIDE then 2 else 1
  | .iput | .iputObject => if u16 mir.opcode = Instruction.IPUT_WIDE then 2 else 1
  | _ => 0

/-- The `uint16_t` value name that `GetValueNumber`, started in state `s`, hands to
`HandleNullCheck` for the instruction. -/
def nullCheckedName (s : LocalValueNumbering) (mir : MIR) : Nat :=
  u16 ((s.putEntry mir).GetOperandValue (mir.uses.getD (nullCheckedUse mir) 0)).1

/-- The `uint16_t` value names `(array, index)` that `GetValueNumber`, started in state `s`,
hands to `HandleRangeCheck` for an array get or put: the index is read from the use after the
array, once the array has been null-checked. -/
def arrayAccessNames (s : LocalValueNumbering) (mir : MIR) : Nat × Nat :=
  let array := (s.putEntry mir).GetOperandValue (mir.uses.getD (nullCheckedUse mir) 0)
  let n := array.2.HandleNullCheck mir array.1
  let index := n.1.GetOperandValue (mir.uses.getD (nullCheckedUse mir + 1) 0)
  (u16 array.1, u16 index.1)

/-- The `(array, index)` pairs of the array gets and puts among a sequence of instructions
processed from state `s`, in order. -/
def rangeChecked (s : LocalValueNumbering) : List (MIR × Option MIR) → List (Nat × Nat)
  | [] => []
  | p :: rest =>
    (if (armOf (u16 p.1.opcode)).isArrayAccess then [s.arrayAccessNames p.1] else []) ++
      rangeChecked (s.GetValueNumber p.1 p.2).2.1 rest

/-- No key of the value table has the pseudo-opcode `ARRAY_REF`: no array access has been
range-checked with this table yet. -/
def NoArrayRef (s : LocalValueNumbering) : Prop :=
  ∀ a i m, s.gvn.global_value_map_.find (GlobalValueNumbering.BuildKey ARRAY_REF a i m) = none

end LocalValueNumbering

namespace LocalValueNumbering

/-- The state and the instruction right after the call of `HandleNullCheck` in the case of
`mir`, started in state `s`. -/
def nullChecked (s : LocalValueNumbering) (mir : MIR) : LocalValueNumbering × MIR :=
  let r := (s.putEntry mir).GetOperandValue (mir.uses.getD (nullCheckedUse mir) 0)
  r.2.HandleNullCheck mir r.1

/-- The state in which the case of an array get or put calls `HandleRangeCheck`: after the
array has been read and null-checked and the index has been read. -/
def rangeCheckState (s : LocalValueNumbering) (mir : MIR) : LocalValueNumbering :=
  ((s.nullChecked mir).1.GetOperandValue (mir.uses.getD (nullCheckedUse mir + 1) 0)).2

/-- The state and the instruction right after the call of `HandleRangeCheck` in the case of
an array get or put, started in state `s`. -/
def rangeChecks (s : LocalValueNumbering) (mir : MIR) : LocalValueNumbering × MIR :=
  let array := (s.putEntry mir).GetOperandValue (mir.uses.getD (nullCheckedUse mir) 0)
  let index := (s.nullChecked mir).1.GetOperandValue (mir.uses.getD (nullCheckedUse mir + 1) 0)
  index.2.HandleRangeCheck (s.nullChecked mir).2 array.1 index.1

end LocalValueNumbering

namespace LocalValueNumbering

/-- Every value name recorded for a narrow SSA register in `s` is still recorded for it in
`s'`. -/
def SregExt (s s' : LocalValueNumbering) : Prop :=
  ∀ r v, s.sreg_value_map_.find r = some v → s'.sreg_value_map_.find r = some v

end LocalValueNumbering

namespace LocalValueNumbering

/-- A state in which 0x10000 value names have been allocated, the first of them (name 1) for
the register `v1`: the 16-bit names have wrapped and the next one allocated is 1 again. Only
the binding of `v1` is kept in the table here; the others play no part below. -/
def wrappedNames : LocalValueNumbering :=
  { init with gvn := ⟨0x10000, false,
                [(GlobalValueNumbering.BuildKey NO_VALUE 1 NO_VALUE NO_VALUE, 1)]⟩
              sreg_value_map_ := [(1, 1)] }

/-- The instruction `filled-new-array {v1}`. -/
def filledNewArray1 : MIR := ⟨Instruction.FILLED_NEW_ARRAY, 0, 0, [1], [], 0, false, 0, 0⟩

/-- The instruction `move-result-object v2`. -/
def moveResultObject2 : MIR := ⟨Instruction.MOVE_RESULT_OBJECT, 0, 0, [], [2], 0, false, 0, 0⟩

end LocalValueNumbering

namespace LocalValueNumbering

/-- The memory version counter of `s` is reached from the one of `s0` by at most `b`
increments: as long as the 16-bit counter cannot wrap, it has not decreased and has grown by
at most `b`. -/
def CounterAdvance (s0 : LocalValueNumbering) (b : Nat) (s : LocalValueNumbering) : Prop :=
  s0.next_memory_version_ + b < 2 ^ 16 →
    s0.next_memory_version_ ≤ s.next_memory_version_ ∧
      s.next_memory_version_ ≤ s0.next_memory_version_ + b

/-- The instruction `iget vD, v0, f` for a volatile field `f`, defining register `def_reg`. -/
def getVolatile (def_reg : Nat) : MIR :=
  ⟨Instruction.IGET, 0, 0, [0], [def_reg], 0, true, 1, 7⟩

end LocalValueNumbering

namespace LocalValueNumbering

open GlobalValueNumbering (u16 u32 u64)

/-- A state property that every operation used by `GetValueNumber` outside the range check
carries along, when value table lookups are made under opcodes satisfying `L` only. -/
structure ThreadsOps (L : Nat → Prop) (P : LocalValueNumbering → Prop) : Prop where
  lookup : ∀ {s : LocalValueNumbering} (op x y m : Nat), L op → P s → P (s.LookupValue op x y m).2
  getOperand : ∀ {s : LocalValueNumbering} (r : Nat), P s → P (s.GetOperandValue r).2
  getOperandWide : ∀ {s : LocalValueNumbering} (r : Nat), P s → P (s.GetOperandValueWide r).2
  setOperand : ∀ {s : LocalValueNumbering} (r v : Nat), P s → P (s.SetOperandValue r v)
  setOperandWide : ∀ {s : LocalValueNumbering} (r v : Nat), P s → P (s.SetOperandValueWide r v)
  fieldId : ∀ {s : LocalValueNumbering} (d f : Nat), P s → P (s.GetFieldId d f).2
  globalMemory : ∀ {s : LocalValueNumbering}, P s → P s.AdvanceGlobalMemory
  memoryVersion : ∀ {s : LocalValueNumbering} (x f t : Nat), P s → P (s.AdvanceMemoryVersion x f t).2
  uniqueNonNull : ∀ {s : LocalValueNumbering} (mir : MIR), P s → P (s.MarkUniqueNonNull mir).2
  argsNonUnique : ∀ {s : LocalValueNumbering} (mir : MIR), P s → P (s.MakeArgsNonUnique mir)
  nullCheck : ∀ {s : LocalValueNumbering} (mir : MIR) (reg : Nat),
    P s → P (s.HandleNullCheck mir reg).1
  putObject : ∀ {s : LocalValueNumbering} (mir : MIR), P s → P (s.HandlePutObject mir)
  bump : ∀ {s : LocalValueNumbering},
    P s → P { s with next_memory_version_ := u16 (s.next_memory_version_ + 1) }
  unresolvedI : ∀ {s : LocalValueNumbering} (type : Nat),
    P s → P { s with unresolved_ifield_version_ :=
                       s.unresolved_ifield_version_.set type s.next_memory_version_
                     next_memory_version_ := u16 (s.next_memory_version_ + 1) }
  unresolvedS : ∀ {s : LocalValueNumbering} (type : Nat),
    P s → P { s with unresolved_sfield_version_ :=
                       s.unresolved_sfield_version_.set type s.next_memory_version_
                     next_memory_version_ := u16 (s.next_memory_version_ + 1) }

/-- The binding of the range-check key of `(array, index)` in the value table of `s`. -/
def rangeKey (s : LocalValueNumbering) (array index : Nat) : Option Nat :=
  s.gvn.global_value_map_.find (GlobalValueNumbering.BuildKey ARRAY_REF array index NO_VALUE)

end LocalValueNumbering

namespace LocalValueNumbering

/-- The instruction `aget vD, v0, v1`, defining register `def_reg`. -/
def getElement (def_reg : Nat) : MIR :=
  ⟨Instruction.AGET, 0, 0, [0, 1], [def_reg], 0, false, 0, 0⟩

end LocalValueNumbering

/-! ## Fault handlers and the whole compaction -/

/-- The two handler lists of a `FaultManager` (fault_handler.cc); a handler is identified by
its address. -/
structure FaultManager where
  /-- Field `generated_code_handlers_`. -/
  generated_code_handlers_ : List Nat
  /-- Field `other_handlers_`. -/
  other_handlers_ : List Nat
deriving DecidableEq, Repr

/-- How a call of `RemoveHandler` ends: the two lists at that point, and whether the
`LOG(FATAL)` statement "Attempted to remove non existent handler" has been reached. -/
structure RemoveHandlerResult where
  /-- The handler lists when the function ends. -/
  manager : FaultManager
  /-- Whether `LOG(FATAL)` has been reached. -/
  fatal : Bool
deriving DecidableEq, Repr

namespace FaultManager

/-- `FaultManager::AddHandler`. -/
def AddHandler (m : FaultManager) (handler : Nat) (generated_code : Bool) : FaultManager :=
  if generated_code then
    { m with generated_code_handlers_ := m.generated_code_handlers_ ++ [handler] }
  else
    { m with other_handlers_ := m.other_handlers_ ++ [handler] }

/-- `FaultManager::RemoveHandler`. `std::find` followed by `erase` of the iterator it
returns removes the first occurrence. The second `erase` is called on `other_handlers_` with
`it`, the iterator into `generated_code_handlers_`: the behaviour is undefined, which is
`none`. No branch returns, so every defined run reaches `LOG(FATAL)`. -/
def RemoveHandler (m : FaultManager) (handler : Nat) : Option RemoveHandlerResult :=
  let m1 :=
    if handler ∈ m.generated_code_handlers_ then
      { m with generated_code_handlers_ := m.generated_code_handlers_.erase handler }
    else m
  if handler ∈ m1.other_handlers_ then none
  else some { manager := m1, fatal := true }

end FaultManager

namespace gc

namespace MarkCompact

/-- The libc `memset` with the value 0. -/
def memset0 (mem : Mem) (dest len : Nat) : Mem :=
  fun x => if dest ≤ x ∧ x < dest + len then 0 else mem x

/-- `MarkCompact::Compact`. The result is the state after `SetEnd` and `memset`, followed by
`objects_freed` and `bytes_freed`, the two `int64_t` counts passed to both `RecordFree`
calls; `none` when `UpdateReferences` or `MoveObjects` fails. `GetObjectsAllocated` stands
for `space_->GetObjectsAllocated()` (bump_pointer_space.h is not among the sources);
`IsClass` and `visits` are the parameters of `UpdateReferences`. The counts are integers:
addresses and object counts are below `2 ^ 63`. The length of the `memset` is the count
converted to `size_t`. -/
def Compact (GetObjectsAllocated : Nat) (IsClass : Nat → Bool) (visits : List SlotVisit)
    (s : MarkCompact) : Option (MarkCompact × Int × Int) :=
  let s1 := s.CalculateObjectForwardingAddresses
  (s1.UpdateReferences IsClass visits).bind (fun s2 =>
    s2.MoveObjects.bind (fun s3 =>
      let objects_freed : Int := (GetObjectsAllocated : Int) - (s3.live_objects_in_space_ : Int)
      let bytes_freed : Int := (s3.space_end : Int) - (s3.bump_pointer_ : Int)
      some ({ s3 with space_end := s3.bump_pointer_
                      mem := memset0 s3.mem s3.bump_pointer_ (bytes_freed % 2 ^ 64).toNat },
        objects_freed, bytes_freed)))

/-- A space `[16, 64)` in which nothing is marked, at the start of a collection. -/
def nothingMarked : MarkCompact :=
  { space_begin := 16
    space_end := 64
    SizeOf := fun _ => 8
    mem := fun x => x % 7
    bump_pointer_ := 40
    live_objects_in_space_ := 0
    objects_before_forwarding_ := []
    objects_with_lockword_ := []
    lock_words_to_restore_ := [] }

end MarkCompact

end gc

namespace gc

namespace MarkCompact

/-- The value of `bump_pointer_` when the scan of `CalculateObjectForwardingAddresses`
reaches the object: `Begin` plus the aligned sizes of the marked objects below it. -/
def forwardOf (s : MarkCompact) (o : Nat) : Nat :=
  s.space_begin + ((s.markedObjects.filter (fun x => decide (x < o))).map s.alignedSize).sum

/-- The destinations of the objects of the list, read from their lock words, are
consecutive ranges that start at `lo` and end at `hi`: they tile `[lo, hi)`. -/
def Tiles (mem : Mem) : Nat → List (Nat × Nat) → Nat → Prop
  | lo, [], hi => lo = hi
  | lo, (o, size) :: rest, hi =>
    GetLockWord mem o = LockWord.FromForwardingAddress lo ∧ Tiles mem (lo + size) rest hi

end MarkCompact

end gc

/-! ## Sequences of field id requests -/

namespace LocalValueNumbering

/-- Calls `GetFieldId` for each `(dex_file, field_idx)` pair of the list, in order; returns
the ids in the order of the calls and the final state. -/
def fieldIds (s : LocalValueNumbering) : List (Nat × Nat) → List Nat × LocalValueNumbering
  | [] => ([], s)
  | p :: rest =>
    let r := s.GetFieldId p.1 p.2
    let t := fieldIds r.2 rest
    (r.1 :: t.1, t.2)

/-- The distinct pairs met so far, in the order in which they were first encountered:
`seen`, followed by the pairs of the list that are new when they are reached. -/
def encountered (seen : List (Nat × Nat)) : List (Nat × Nat) → List (Nat × Nat)
  | [] => seen
  | p :: rest => encountered (if p ∈ seen then seen else seen ++ [p]) rest

/-- The position of the first occurrence of a pair in a list (the length of the list when
there is none). -/
def position (p : Nat × Nat) : List (Nat × Nat) → Nat
  | [] => 0
  | q :: rest => if q = p then 0 else position p rest + 1

/-- The field index map of the state holds the pairs of `seen`, each with its position in
`seen` as id. -/
def FieldsSeen (seen : List (Nat × Nat)) (s : LocalValueNumbering) : Prop :=
  s.field_index_map_.size = seen.length ∧
    ∀ p, s.field_index_map_.find p = if p ∈ seen then some (position p seen) else none

/-- A field index map that holds the `2 ^ 16` fields of dex file 0, with the ids and in the
order that `GetFieldId` gives them when they are requested in ascending order. -/
def fullFieldMap : SafeMap (Nat × Nat) Nat :=
  (List.range 65536).reverse.map (fun i => ((0, i), i))

/-- A state whose field index map is `fullFieldMap`. -/
def allFieldsOfOneFile : LocalValueNumbering :=
  { init with field_index_map_ := fullFieldMap }

end LocalValueNumbering

/-! ## Moves followed by a conversion -/

namespace LocalValueNumbering

open GlobalValueNumbering (u16)

/-- The instruction `move vdst, vsrc`. -/
def moveReg (dst src : Nat) : MIR := ⟨Instruction.MOVE, 0, 0, [src], [dst], 0, false, 0, 0⟩

/-- The instruction `int-to-long vdst, vsrc`. -/
def intToLong (dst src : Nat) : MIR :=
  ⟨Instruction.INT_TO_LONG, 0, 0, [src], [dst], 0, false, 0, 0⟩

/-- The instruction `neg-int vdst, vsrc`. -/
def negInt (dst src : Nat) : MIR := ⟨Instruction.NEG_INT, 0, 0, [src], [dst], 0, false, 0, 0⟩

/-- The value name recorded for a register in the map of narrow registers, or in the map of
wide registers when `wide` is set. -/
def recordedName (s : LocalValueNumbering) (wide : Bool) (s_reg : Nat) : Option Nat :=
  if wide then s.sreg_wide_value_map_.find (u16 s_reg) else s.sreg_value_map_.find (u16 s_reg)

/-- `GetOperandValue`, or `GetOperandValueWide` when `wide` is set. -/
def readName (s : LocalValueNumbering) (wide : Bool) (s_reg : Nat) :
    Nat × LocalValueNumbering :=
  if wide then s.GetOperandValueWide s_reg else s.GetOperandValue s_reg

/-- The value names recorded for wide registers in `s` are recorded in `s'`. -/
def SregWideExt (s s' : LocalValueNumbering) : Prop :=
  ∀ r v, s.sreg_wide_value_map_.find r = some v → s'.sreg_wide_value_map_.find r = some v

end LocalValueNumbering

/-! ## Passes over a block -/

namespace LocalValueNumbering

open GlobalValueNumbering (u16)

/-- The instruction with its `optimization_flags` replaced. -/
def withFlags (mir : MIR) (flags : Nat) : MIR := { mir with optimization_flags := flags }

/-- Modelled from the spec: one pass of local value numbering over the instructions of a
block (the loop that calls `GetValueNumber` on each instruction in order is in
mir_optimization.cc, which is not among the sources). The result is the block with the
`optimization_flags` the pass leaves; `mir->next` is the next instruction of the block. -/
def lvnPass (s : LocalValueNumbering) : List MIR → List MIR
  | [] => []
  | mir :: rest =>
    (s.GetValueNumber mir rest.head?).2.2 :: lvnPass (s.GetValueNumber mir rest.head?).2.1 rest

/-- The bits a call of `GetValueNumber` adds to `optimization_flags`: the flags it leaves on
the instruction when the instruction comes without any. -/
def addedFlags (s : LocalValueNumbering) (mir : MIR) (next : Option MIR) : Nat :=
  (s.GetValueNumber (withFlags mir 0) next).2.2.optimization_flags

/-- For each instruction of a block, in order, whether it carries the flag. -/
def carrying (flag : Nat) (block : List MIR) : List Bool :=
  block.map (fun mir => decide (mir.optimization_flags &&& flag ≠ 0))

end LocalValueNumbering

/-! ## Instructions between two loads -/

/-- The `case` groups of the puts and the invokes. -/
def Arm.isWrite : Arm → Bool
  | .invoke | .invokeStatic | .aputObject | .aput | .iputObject | .iput | .sputObject
  | .sput => true
  | _ => false

namespace LocalValueNumbering

open GlobalValueNumbering (u16)

/-- Whether the instruction is a put, an invoke, or a get of a volatile field (an unresolved
field is marked volatile). -/
def writesOrVolatile (mir : MIR) : Bool :=
  (armOf (u16 mir.opcode)).isWrite ||
    ((decide (armOf (u16 mir.opcode) = .iget) || decide (armOf (u16 mir.opcode) = .sget)) &&
      mir.is_volatile)

/-- Closure of a predicate on states under the operations that `GetValueNumber` runs for an
instruction that is neither a put nor an invoke nor a get of a volatile field. -/
structure ThreadsReads (P : LocalValueNumbering → Prop) : Prop where
  lookup : ∀ {s : LocalValueNumbering} (op x y m : Nat), P s → P (s.LookupValue op x y m).2
  getOperand : ∀ {s : LocalValueNumbering} (r : Nat), P s → P (s.GetOperandValue r).2
  getOperandWide : ∀ {s : LocalValueNumbering} (r : Nat), P s → P (s.GetOperandValueWide r).2
  setOperand : ∀ {s : LocalValueNumbering} (r v : Nat), P s → P (s.SetOperandValue r v)
  setOperandWide : ∀ {s : LocalValueNumbering} (r v : Nat), P s → P (s.SetOperandValueWide r v)
  fieldId : ∀ {s : LocalValueNumbering} (d f : Nat), P s → P (s.GetFieldId d f).2
  uniqueNonNull : ∀ {s : LocalValueNumbering} (mir : MIR), P s → P (s.MarkUniqueNonNull mir).2
  argsNonUnique : ∀ {s : LocalValueNumbering} (mir : MIR), P s → P (s.MakeArgsNonUnique mir)
  nullCheck : ∀ {s : LocalValueNumbering} (mir : MIR) (reg : Nat),
    P s → P (s.HandleNullCheck mir reg).1
  rangeCheck : ∀ {s : LocalValueNumbering} (mir : MIR) (x i : Nat),
    P s → P (s.HandleRangeCheck mir x i).1

/-- Between `s0` and `s` no memory version has been advanced, no name has left the
null-checked set and no field has lost its id: the memory-version map, the global memory
version and the unresolved instance field versions are those of `s0`, and the null-checked
set and the field index map of `s0` are contained in those of `s`. -/
def Quiet (s0 s : LocalValueNumbering) : Prop :=
  s.memory_version_map_ = s0.memory_version_map_ ∧
    s.global_memory_version_ = s0.global_memory_version_ ∧
    s.unresolved_ifield_version_ = s0.unresolved_ifield_version_ ∧
    (∀ x ∈ s0.null_checked_, x ∈ s.null_checked_) ∧
    (∀ k v, s0.field_index_map_.find k = some v → s.field_index_map_.find k = some v)

/-- The instruction `invoke-static {}`. -/
def invokeStaticNoArgs : MIR := ⟨Instruction.INVOKE_STATIC, 0, 0, [], [], 0, false, 0, 0⟩

/-- The instruction `new-instance v0`. -/
def newInstance0 : MIR := ⟨Instruction.NEW_INSTANCE, 0, 0, [], [0], 0, false, 0, 0⟩

/-- The instruction `filled-new-array {v0}`. -/
def filledNewArray0 : MIR := ⟨Instruction.FILLED_NEW_ARRAY, 0, 0, [0], [], 0, false, 0, 0⟩

/-- The state after `invoke-static {}` and `new-instance v0`, processed from the initial
state: the global memory version has been advanced and `v0` names a unique object. -/
def afterAllocation : LocalValueNumbering :=
  init.processSeq [(invokeStaticNoArgs, none), (newInstance0, none)]

end LocalValueNumbering

/-! ## The value returned by `GetValueNumber` -/

/-- The cases of the switch that assign the value name they record for `defs[0]` to the
returned `res`: every case that records one, except the AGET case. -/
def Arm.returnsName : Arm → Bool
  | .moveResult | .uniqueNonNull | .moveResultWide | .move | .moveWide | .const | .constHigh16
  | .constWide32 | .constWide | .constWideHigh16 | .unary | .unaryFromWide | .unaryWide
  | .unaryToWide | .cmpWide | .binary | .binaryWide | .shiftWide | .binaryFloat | .literal
  | .iget | .sget => true
  | _ => false

/-- The cases in which no register is defined: those the switch comments "Nothing defined"
and the put cases. -/
def Arm.definesNothing : Arm → Bool
  | .noDef | .filledNewArray | .invoke | .invokeStatic | .aputObject | .aput | .iputObject
  | .iput | .sputObject | .sput => true
  | _ => false

/-- The indices `i` of the uses a case that returns a name reads with `GetOperandValue` or
`GetOperandValueWide` (`uses[i]`). -/
def Arm.usesRead : Arm → List Nat
  | .move | .moveWide | .unary | .unaryFromWide | .unaryWide | .unaryToWide | .literal
  | .iget => [0]
  | .binary | .binaryFloat => [0, 1]
  | .cmpWide | .binaryWide | .shiftWide => [0, 2]
  | _ => []

namespace LocalValueNumbering

open GlobalValueNumbering (u16)

/-- The instruction `v2 = phi(v0, v1)`. -/
def phiNode : MIR := ⟨kMirOpPhi, 0, 0, [0, 1], [2], 0, false, 0, 0⟩

/-- An instruction that defines `v2` and whose opcode, the extended MIR opcode 0x10d, the
switch has no case for. -/
def uncasedNode : MIR := ⟨0x10d, 0, 0, [0, 1, 3], [2], 0, false, 0, 0⟩

/-- The instruction `add-int/lit8 vdst, vsrc, #lit`: in the decoded instruction `vA` is the
destination, `vB` the source register and `vC` the literal; `vC` is not read by value
numbering and has no field here. -/
def addIntLit8 (dst src : Nat) : MIR :=
  ⟨Instruction.ADD_INT_LIT8, src, 0, [src], [dst], 0, false, 0, 0⟩

/-- The instruction `const/4 v0, 0`. -/
def constZero : MIR := ⟨Instruction.CONST_4, 0, 0, [], [0], 0, false, 0, 0⟩

/-- A fresh state whose value table has handed out 0xfffe names: the next name allocated
is 0xffff. -/
def oneNameLeft : LocalValueNumbering := { init with gvn := ⟨0xfffe, false, []⟩ }

/-- Whether the case of `mir` records the value name of `defs[0]` with `SetOperandValueWide`
(otherwise, when it records one, with `SetOperandValue`). -/
def defIsWide (mir : MIR) : Bool :=
  match armOf (u16 mir.opcode) with
  | .moveResultWide | .moveWide | .constWide32 | .constWide | .constWideHigh16 | .unaryWide
  | .unaryToWide | .binaryWide | .shiftWide => true
  | .aget => decide (u16 mir.opcode = Instruction.AGET_WIDE)
  | .iget => decide (u16 mir.opcode = Instruction.IGET_WIDE)
  | .sget => decide (u16 mir.opcode = Instruction.SGET_WIDE)
  | _ => false

/-- Every value name held by the value table and by the two register maps is a 16-bit value
(they are `uint16_t` in the code). -/
@[reducible] def Names16 (s : LocalValueNumbering) : Prop :=
  (∀ k v, s.gvn.global_value_map_.find k = some v → v < 2 ^ 16) ∧
    (∀ r v, s.sreg_value_map_.find r = some v → v < 2 ^ 16) ∧
    (∀ r v, s.sreg_wide_value_map_.find r = some v → v < 2 ^ 16)

end LocalValueNumbering

/-! # Theorems -/

/-! ## SafeMap -/

namespace SafeMap

variable {κ ν : Type} [DecidableEq κ]

theorem find_Put (m : SafeMap κ ν) (k k' : κ) (v : ν) :
    (m.Put k v).find k' = if k = k' then some v else m.find k' := by
  simp [Put, find]

theorem find_filter_ne (m : SafeMap κ ν) (k k' : κ) (h : k ≠ k') :
    find (m.filter (fun p => !decide (p.1 = k))) k' = find m k' := by
  induction m with
  | nil => rfl
  | cons p rest ih =>
    obtain ⟨a, b⟩ := p
    by_cases ha : a = k
    · subst ha
      simp [List.filter, find, h, ih]
    · simp [List.filter, find, ha, ih]

theorem find_filter_self (m : SafeMap κ ν) (k : κ) :
    find (m.filter (fun p => !decide (p.1 = k))) k = none := by
  induction m with
  | nil => rfl
  | cons p rest ih =>
    obtain ⟨a, b⟩ := p
    by_cases ha : a = k
    · subst ha
      simp [List.filter, ih]
    · simp [List.filter, find, ha, ih]

theorem find_Overwrite (m : SafeMap κ ν) (k k' : κ) (v : ν) :
    (m.Overwrite k v).find k' = if k = k' then some v else m.find k' := by
  unfold Overwrite
  by_cases h : k = k'
  · simp [find, h]
  · simp [find, h, find_filter_ne m k k' h]

end SafeMap

/-! ## The value table -/

namespace GlobalValueNumbering

theorem lor_mul_pow (a b i : Nat) (hb : b < 2 ^ i) : a * 2 ^ i ||| b = a * 2 ^ i + b := by
  rw [Nat.mul_comm]; exact (Nat.mul_add_lt_is_or hb a).symm

theorem u16_lt (x : Nat) : u16 x < 2 ^ 16 := Nat.mod_lt _ (by norm_num)

theorem u16_of_lt {x : Nat} (h : x < 2 ^ 16) : u16 x = x := Nat.mod_eq_of_lt h

/-- The packed key is the base-`2^16` numeral of the four truncated components. -/
theorem BuildKey_eq (op a b m : Nat) :
    BuildKey op a b m = u16 op * 2 ^ 48 + u16 a * 2 ^ 32 + u16 b * 2 ^ 16 + u16 m := by
  have h0 := u16_lt op
  have h1 := u16_lt a
  have h2 := u16_lt b
  have h3 := u16_lt m
  unfold BuildKey
  generalize u16 op = x at *
  generalize u16 a = y at *
  generalize u16 b = z at *
  generalize u16 m = w at *
  simp only [Nat.shiftLeft_eq, u64]
  rw [Nat.mod_eq_of_lt (show x < 2 ^ 64 by omega), Nat.mod_eq_of_lt (show y < 2 ^ 64 by omega),
    Nat.mod_eq_of_lt (show z < 2 ^ 64 by omega), Nat.mod_eq_of_lt (show w < 2 ^ 64 by omega),
    Nat.mod_eq_of_lt (show x * 2 ^ 48 < 2 ^ 64 by omega),
    Nat.mod_eq_of_lt (show y * 2 ^ 32 < 2 ^ 64 by omega),
    Nat.mod_eq_of_lt (show z * 2 ^ 16 < 2 ^ 64 by omega)]
  rw [lor_mul_pow x _ 48 (by omega)]
  have e1 : x * 2 ^ 48 + y * 2 ^ 32 = (x * 2 ^ 16 + y) * 2 ^ 32 := by ring
  rw [e1, lor_mul_pow _ _ 32 (by omega)]
  have e2 : (x * 2 ^ 16 + y) * 2 ^ 32 + z * 2 ^ 16 = ((x * 2 ^ 16 + y) * 2 ^ 16 + z) * 2 ^ 16 := by
    ring
  rw [e2, lor_mul_pow _ _ 16 (by omega)]

/-- Equal keys have equal truncated components. -/
theorem BuildKey_inj_u16 {op a b m op' a' b' m' : Nat}
    (h : BuildKey op a b m = BuildKey op' a' b' m') :
    u16 op = u16 op' ∧ u16 a = u16 a' ∧ u16 b = u16 b' ∧ u16 m = u16 m' := by
  rw [BuildKey_eq, BuildKey_eq] at h
  have h0 := u16_lt op
  have h1 := u16_lt a
  have h2 := u16_lt b
  have h3 := u16_lt m
  have h0' := u16_lt op'
  have h1' := u16_lt a'
  have h2' := u16_lt b'
  have h3' := u16_lt m'
  refine ⟨?_, ?_, ?_, ?_⟩ <;> omega

/-- C6: `BuildKey` is injective on 16-bit values: equal keys come from equal opcodes, equal
first operands, equal second operands and equal modifiers. -/
theorem BuildKey_injective (op a b m op' a' b' m' : Nat)
    (hop : op < 2 ^ 16) (ha : a < 2 ^ 16) (hb : b < 2 ^ 16) (hm : m < 2 ^ 16)
    (hop' : op' < 2 ^ 16) (ha' : a' < 2 ^ 16) (hb' : b' < 2 ^ 16) (hm' : m' < 2 ^ 16)
    (h : BuildKey op a b m = BuildKey op' a' b' m') :
    op = op' ∧ a = a' ∧ b = b' ∧ m = m' := by
  have := BuildKey_inj_u16 h
  rw [u16_of_lt hop, u16_of_lt ha, u16_of_lt hb, u16_of_lt hm, u16_of_lt hop', u16_of_lt ha',
    u16_of_lt hb', u16_of_lt hm'] at this
  exact this

/-- Witness for C6 at the keys of `(0x90, 1, 2, 0xffff)`. -/
theorem BuildKey_injective_witness :
    (0x90 : Nat) = 0x90 ∧ (1 : Nat) = 1 ∧ (2 : Nat) = 2 ∧ (0xffff : Nat) = 0xffff :=
  BuildKey_injective 0x90 1 2 0xffff 0x90 1 2 0xffff (by norm_num) (by norm_num) (by norm_num)
    (by norm_num) (by norm_num) (by norm_num) (by norm_num) (by norm_num) rfl

theorem LookupValue_of_find {g : GlobalValueNumbering} {op a b m n : Nat}
    (h : g.global_value_map_.find (BuildKey op a b m) = some n) :
    g.LookupValue op a b m = (n, g) := by
  simp [LookupValue, h]

theorem LookupValue_of_miss {g : GlobalValueNumbering} {op a b m : Nat}
    (h : g.global_value_map_.find (BuildKey op a b m) = none) :
    g.LookupValue op a b m =
      (u16 (u32 (g.last_value_ + 1)),
        { g with last_value_ := u32 (g.last_value_ + 1),
                 global_value_map_ :=
                   g.global_value_map_.Put (BuildKey op a b m) (u16 (u32 (g.last_value_ + 1))) }) := by
  simp [LookupValue, h, NewValueName]

theorem find_after_LookupValue (g : GlobalValueNumbering) (op a b m : Nat) :
    (g.LookupValue op a b m).2.global_value_map_.find (BuildKey op a b m) =
      some (g.LookupValue op a b m).1 := by
  cases h : g.global_value_map_.find (BuildKey op a b m) with
  | some n => rw [LookupValue_of_find h]; exact h
  | none => rw [LookupValue_of_miss h]; simp [SafeMap.find_Put]

theorem LookupValue_preserves (g : GlobalValueNumbering) (op a b m : Nat) {k v : Nat}
    (hk : g.global_value_map_.find k = some v) :
    (g.LookupValue op a b m).2.global_value_map_.find k = some v := by
  cases h : g.global_value_map_.find (BuildKey op a b m) with
  | some n => rw [LookupValue_of_find h]; exact hk
  | none =>
    rw [LookupValue_of_miss h]
    simp only [SafeMap.find_Put]
    split
    · next e => rw [e, hk] at h; cases h
    · exact hk

theorem TableCall_apply_preserves (g : GlobalValueNumbering) (c : TableCall) {k v : Nat}
    (hk : g.global_value_map_.find k = some v) :
    (TableCall.apply g c).global_value_map_.find k = some v := by
  cases c with
  | lookup op a b m => exact LookupValue_preserves g op a b m hk
  | has op a b m w => exact hk

theorem foldl_apply_preserves (calls : List TableCall) (g : GlobalValueNumbering) {k v : Nat}
    (hk : g.global_value_map_.find k = some v) :
    (calls.foldl TableCall.apply g).global_value_map_.find k = some v := by
  induction calls generalizing g with
  | nil => exact hk
  | cons c rest ih => exact ih _ (TableCall_apply_preserves g c hk)

/-- C4: `LookupValue` is stable: once a tuple has been looked up with result `n`, a later
`LookupValue` of the same tuple, after any sequence of `LookupValue` and `HasValue` calls,
returns `n` again and leaves the table (and so `last_value_`) unchanged: no new name is
allocated. -/
theorem LookupValue_stable (g : GlobalValueNumbering) (op a b m : Nat)
    (calls : List TableCall) :
    (calls.foldl TableCall.apply (g.LookupValue op a b m).2).LookupValue op a b m =
      ((g.LookupValue op a b m).1, calls.foldl TableCall.apply (g.LookupValue op a b m).2) :=
  LookupValue_of_find (foldl_apply_preserves calls _ (find_after_LookupValue g op a b m))

theorem Good_iff (g : GlobalValueNumbering) : g.Good = true ↔ g.last_value_ < 0xffff := by
  simp [Good, kNoValue]

theorem fresh_name_eq {g : GlobalValueNumbering} (hG : g.Good = true) :
    u16 (u32 (g.last_value_ + 1)) = g.last_value_ + 1 ∧
      u32 (g.last_value_ + 1) = g.last_value_ + 1 := by
  rw [Good_iff] at hG
  unfold u16 u32
  omega

theorem lookupT_step_inv {g : GlobalValueNumbering} (t : Tuple) (hG : g.Good = true)
    (hV : ValuesBelow g) (hI : InjectiveMap g) :
    ValuesBelow (lookupT g t).2 ∧ InjectiveMap (lookupT g t).2 := by
  unfold lookupT
  cases h : g.global_value_map_.find (BuildKey t.1 t.2.1 t.2.2.1 t.2.2.2) with
  | some n => rw [LookupValue_of_find h]; exact ⟨hV, hI⟩
  | none =>
    rw [LookupValue_of_miss h]
    obtain ⟨e1, e2⟩ := fresh_name_eq hG
    rw [e1, e2]
    constructor
    · intro k v hk
      simp only [SafeMap.find_Put] at hk
      split at hk
      · cases hk; exact le_refl _
      · exact Nat.le_succ_of_le (hV k v hk)
    · intro k k' v hk hk'
      simp only [SafeMap.find_Put] at hk hk'
      split at hk <;> split at hk'
      · next a b => exact a.symm.trans b
      · cases hk; have := hV _ _ hk'; omega
      · cases hk'; have := hV _ _ hk; omega
      · exact hI k k' v hk hk'

theorem lookupAll_length (ts : List Tuple) (g : GlobalValueNumbering) :
    (lookupAll g ts).1.length = ts.length := by
  induction ts generalizing g with
  | nil => rfl
  | cons t rest ih => simp [lookupAll, ih]

/-- Facts about a run of lookups that keeps `Good()`: the invariants survive, bindings are
kept, and the i-th returned name is bound to the i-th key in the final table. -/
theorem lookupAll_inv (ts : List Tuple) (g : GlobalValueNumbering)
    (hV : ValuesBelow g) (hI : InjectiveMap g) (hG : GoodThroughout g ts) :
    ValuesBelow (lookupAll g ts).2 ∧ InjectiveMap (lookupAll g ts).2 ∧
      (lookupAll g ts).2.Good = true ∧
      (∀ k v, g.global_value_map_.find k = some v →
        (lookupAll g ts).2.global_value_map_.find k = some v) ∧
      (∀ (i : Nat) t n, ts[i]? = some t → (lookupAll g ts).1[i]? = some n →
        (lookupAll g ts).2.global_value_map_.find (keyT t) = some n) := by
  induction ts generalizing g with
  | nil =>
    refine ⟨hV, hI, hG, fun _ _ h => h, ?_⟩
    intro i t n h
    simp at h
  | cons t rest ih =>
    obtain ⟨hG0, hGr⟩ := hG
    obtain ⟨hV1, hI1⟩ := lookupT_step_inv t hG0 hV hI
    obtain ⟨a1, a2, a3, a4, a5⟩ := ih (lookupT g t).2 hV1 hI1 hGr
    refine ⟨a1, a2, a3, ?_, ?_⟩
    · intro k v hk
      exact a4 k v (LookupValue_preserves g _ _ _ _ hk)
    · intro i u n hu hn
      cases i with
      | zero =>
        simp only [List.getElem?_cons_zero, Option.some.injEq] at hu
        simp only [lookupAll, List.getElem?_cons_zero, Option.some.injEq] at hn
        subst hu
        subst hn
        exact a4 _ _ (find_after_LookupValue g _ _ _ _)
      | succ j =>
        simp only [List.getElem?_cons_succ] at hu
        simp only [lookupAll, List.getElem?_cons_succ] at hn
        exact a5 j u n hu hn

theorem GoodThroughout_append (pre post : List Tuple) (g : GlobalValueNumbering)
    (h : GoodThroughout g (pre ++ post)) :
    GoodThroughout g pre ∧ GoodThroughout (lookupAll g pre).2 post := by
  induction pre generalizing g with
  | nil =>
    refine ⟨?_, h⟩
    cases post with
    | nil => exact h
    | cons t r => exact h.1
  | cons t rest ih =>
    obtain ⟨h0, hr⟩ := h
    obtain ⟨b1, b2⟩ := ih _ hr
    exact ⟨⟨h0, b1⟩, b2⟩

theorem keyT_inj {t u : Tuple} (ht : t.is16) (hu : u.is16) (h : keyT t = keyT u) : t = u := by
  obtain ⟨t1, t2, t3, t4⟩ := t
  obtain ⟨u1, u2, u3, u4⟩ := u
  obtain ⟨a1, a2, a3, a4⟩ := ht
  obtain ⟨b1, b2, b3, b4⟩ := hu
  have := BuildKey_inj_u16 h
  rw [u16_of_lt a1, u16_of_lt a2, u16_of_lt a3, u16_of_lt a4, u16_of_lt b1, u16_of_lt b2,
    u16_of_lt b3, u16_of_lt b4] at this
  simp only [Prod.mk.injEq]
  exact this

/-- C5: value names are never reused. Start from an empty value map and run `LookupValue` on
any list of 16-bit tuples so that `Good()` holds all along. Then (1) two different tuples
never receive the same value name, and (2) whenever a lookup allocates (its key is absent),
the name returned by `NewValueName` is strictly greater than every name returned before. -/
theorem value_names_never_reused (g0 : GlobalValueNumbering) (ts : List Tuple)
    (h0 : g0.global_value_map_ = []) (h16 : ∀ t ∈ ts, t.is16) (hG : GoodThroughout g0 ts) :
    (∀ (i j : Nat) t u n m, ts[i]? = some t → ts[j]? = some u → t ≠ u →
      (lookupAll g0 ts).1[i]? = some n → (lookupAll g0 ts).1[j]? = some m → n ≠ m) ∧
    (∀ pre t post, ts = pre ++ t :: post →
      (lookupAll g0 pre).2.global_value_map_.find (keyT t) = none →
      ∀ n ∈ (lookupAll g0 pre).1, n < (lookupT (lookupAll g0 pre).2 t).1) := by
  have hV0 : ValuesBelow g0 := by
    intro k v hk; rw [h0] at hk; cases hk
  have hI0 : InjectiveMap g0 := by
    intro k k' v hk; rw [h0] at hk; cases hk
  constructor
  · intro i j t u n m hi hj hne hn hm hnm
    obtain ⟨_, aI, _, _, a5⟩ := lookupAll_inv ts g0 hV0 hI0 hG
    subst hnm
    have hk := aI _ _ _ (a5 i t n hi hn) (a5 j u n hj hm)
    exact hne (keyT_inj (h16 t (List.getElem?_mem hi)) (h16 u (List.getElem?_mem hj)) hk)
  · intro pre t post hts hmiss n hn
    subst hts
    obtain ⟨hGpre, hGpost⟩ := GoodThroughout_append pre (t :: post) g0 hG
    obtain ⟨aV, _, aG, _, a5⟩ := lookupAll_inv pre g0 hV0 hI0 hGpre
    obtain ⟨i, hi, rfl⟩ := List.getElem_of_mem hn
    have hi' : i < pre.length := by rw [lookupAll_length] at hi; exact hi
    have hb := a5 i pre[i] _ (List.getElem?_eq_getElem hi') (List.getElem?_eq_getElem hi)
    have hle := aV _ _ hb
    unfold lookupT
    unfold keyT at hmiss
    rw [LookupValue_of_miss hmiss, (fresh_name_eq aG).1]
    exact Nat.lt_succ_of_le hle

/-- Witness for C5: three lookups, two of them of the same tuple, from an empty table. -/
theorem value_names_never_reused_witness :
    (∀ (i j : Nat) t u n m, [((0x90, 1, 2, 0xffff) : Tuple), (0x14, 5, 0, 0), (0x90, 1, 2, 0xffff)][i]? = some t →
      [((0x90, 1, 2, 0xffff) : Tuple), (0x14, 5, 0, 0), (0x90, 1, 2, 0xffff)][j]? = some u → t ≠ u →
      (lookupAll ⟨0, false, []⟩
        [(0x90, 1, 2, 0xffff), (0x14, 5, 0, 0), (0x90, 1, 2, 0xffff)]).1[i]? = some n →
      (lookupAll ⟨0, false, []⟩
        [(0x90, 1, 2, 0xffff), (0x14, 5, 0, 0), (0x90, 1, 2, 0xffff)]).1[j]? = some m → n ≠ m) ∧
    (∀ pre t post,
      [((0x90, 1, 2, 0xffff) : Tuple), (0x14, 5, 0, 0), (0x90, 1, 2, 0xffff)] = pre ++ t :: post →
      (lookupAll ⟨0, false, []⟩ pre).2.global_value_map_.find (keyT t) = none →
      ∀ n ∈ (lookupAll ⟨0, false, []⟩ pre).1, n < (lookupT (lookupAll ⟨0, false, []⟩ pre).2 t).1) :=
  value_names_never_reused ⟨0, false, []⟩
    [(0x90, 1, 2, 0xffff), (0x14, 5, 0, 0), (0x90, 1, 2, 0xffff)] rfl
    (by
      intro t ht
      simp only [List.mem_cons, List.mem_singleton, List.not_mem_nil, or_false] at ht
      rcases ht with h | h | h <;> subst h <;> simp [Tuple.is16])
    (by decide)

end GlobalValueNumbering

namespace LocalValueNumbering

open GlobalValueNumbering (u16 u32 u64 BuildKey)

/-! ## Frame lemmas: the fields an operation leaves alone -/

@[simp] theorem LookupValue_sreg_value_map_ (s : LocalValueNumbering) (op a b m : Nat) :
    (s.LookupValue op a b m).2.sreg_value_map_ = s.sreg_value_map_ := rfl

@[simp] theorem LookupValue_sreg_wide_value_map_ (s : LocalValueNumbering) (op a b m : Nat) :
    (s.LookupValue op a b m).2.sreg_wide_value_map_ = s.sreg_wide_value_map_ := rfl

@[simp] theorem LookupValue_memory_version_map_ (s : LocalValueNumbering) (op a b m : Nat) :
    (s.LookupValue op a b m).2.memory_version_map_ = s.memory_version_map_ := rfl

@[simp] theorem LookupValue_field_index_map_ (s : LocalValueNumbering) (op a b m : Nat) :
    (s.LookupValue op a b m).2.field_index_map_ = s.field_index_map_ := rfl

@[simp] theorem LookupValue_next_memory_version_ (s : LocalValueNumbering) (op a b m : Nat) :
    (s.LookupValue op a b m).2.next_memory_version_ = s.next_memory_version_ := rfl

@[simp] theorem LookupValue_global_memory_version_ (s : LocalValueNumbering) (op a b m : Nat) :
    (s.LookupValue op a b m).2.global_memory_version_ = s.global_memory_version_ := rfl

@[simp] theorem LookupValue_unresolved_sfield_version_ (s : LocalValueNumbering) (op a b m : Nat) :
    (s.LookupValue op a b m).2.unresolved_sfield_version_ = s.unresolved_sfield_version_ := rfl

@[simp] theorem LookupValue_unresolved_ifield_version_ (s : LocalValueNumbering) (op a b m : Nat) :
    (s.LookupValue op a b m).2.unresolved_ifield_version_ = s.unresolved_ifield_version_ := rfl

@[simp] theorem LookupValue_null_checked_ (s : LocalValueNumbering) (op a b m : Nat) :
    (s.LookupValue op a b m).2.null_checked_ = s.null_checked_ := rfl

@[simp] theorem LookupValue_unique_objects_ (s : LocalValueNumbering) (op a b m : Nat) :
    (s.LookupValue op a b m).2.unique_objects_ = s.unique_objects_ := rfl

@[simp] theorem GetOperandValue_sreg_wide_value_map_ (s : LocalValueNumbering) (r : Nat) :
    (s.GetOperandValue r).2.sreg_wide_value_map_ = s.sreg_wide_value_map_ := by unfold GetOperandValue; split <;> rfl

@[simp] theorem GetOperandValue_memory_version_map_ (s : LocalValueNumbering) (r : Nat) :
    (s.GetOperandValue r).2.memory_version_map_ = s.memory_version_map_ := by unfold GetOperandValue; split <;> rfl

@[simp] theorem GetOperandValue_field_index_map_ (s : LocalValueNumbering) (r : Nat) :
    (s.GetOperandValue r).2.field_index_map_ = s.field_index_map_ := by unfold GetOperandValue; split <;> rfl

@[simp] theorem GetOperandValue_next_memory_version_ (s : LocalValueNumbering) (r : Nat) :
    (s.GetOperandValue r).2.next_memory_version_ = s.next_memory_version_ := by unfold GetOperandValue; split <;> rfl

@[simp] theorem GetOperandValue_global_memory_version_ (s : LocalValueNumbering) (r : Nat) :
    (s.GetOperandValue r).2.global_memory_version_ = s.global_memory_version_ := by unfold GetOperandValue; split <;> rfl

@[simp] theorem GetOperandValue_unresolved_sfield_version_ (s : LocalValueNumbering) (r : Nat) :
    (s.GetOperandValue r).2.unresolved_sfield_version_ = s.unresolved_sfield_version_ := by unfold GetOperandValue; split <;> rfl

@[simp] theorem GetOperandValue_unresolved_ifield_version_ (s : LocalValueNumbering) (r : Nat) :
    (s.GetOperandValue r).2.unresolved_ifield_version_ = s.unresolved_ifield_version_ := by unfold GetOperandValue; split <;> rfl

@[simp] theorem GetOperandValue_null_checked_ (s : LocalValueNumbering) (r : Nat) :
    (s.GetOperandValue r).2.null_checked_ = s.null_checked_ := by unfold GetOperandValue; split <;> rfl

@[simp] theorem GetOperandValue_unique_objects_ (s : LocalValueNumbering) (r : Nat) :
    (s.GetOperandValue r).2.unique_objects_ = s.unique_objects_ := by unfold GetOperandValue; split <;> rfl

@[simp] theorem GetOperandValueWide_sreg_value_map_ (s : LocalValueNumbering) (r : Nat) :
    (s.GetOperandValueWide r).2.sreg_value_map_ = s.sreg_value_map_ := by unfold GetOperandValueWide; split <;> rfl

@[simp] theorem GetOperandValueWide_memory_version_map_ (s : LocalValueNumbering) (r : Nat) :
    (s.GetOperandValueWide r).2.memory_version_map_ = s.memory_version_map_ := by unfold GetOperandValueWide; split <;> rfl

@[simp] theorem GetOperandValueWide_field_index_map_ (s : LocalValueNumbering) (r : Nat) :
    (s.GetOperandValueWide r).2.field_index_map_ = s.field_index_map_ := by unfold GetOperandValueWide; split <;> rfl

@[simp] theorem GetOperandValueWide_next_memory_version_ (s : LocalValueNumbering) (r : Nat) :
    (s.GetOperandValueWide r).2.next_memory_version_ = s.next_memory_version_ := by unfold GetOperandValueWide; split <;> rfl

@[simp] theorem GetOperandValueWide_global_memory_version_ (s : LocalValueNumbering) (r : Nat) :
    (s.GetOperandValueWide r).2.global_memory_version_ = s.global_memory_version_ := by unfold GetOperandValueWide; split <;> rfl

@[simp] theorem GetOperandValueWide_unresolved_sfield_version_ (s : LocalValueNumbering) (r : Nat) :
    (s.GetOperandValueWide r).2.unresolved_sfield_version_ = s.unresolved_sfield_version_ := by unfold GetOperandValueWide; split <;> rfl

@[simp] theorem GetOperandValueWide_unresolved_ifield_version_ (s : LocalValueNumbering) (r : Nat) :
    (s.GetOperandValueWide r).2.unresolved_ifield_version_ = s.unresolved_ifield_version_ := by unfold GetOperandValueWide; split <;> rfl

@[simp] theorem GetOperandValueWide_null_checked_ (s : LocalValueNumbering) (r : Nat) :
    (s.GetOperandValueWide r).2.null_checked_ = s.null_checked_ := by unfold GetOperandValueWide; split <;> rfl

@[simp] theorem GetOperandValueWide_unique_objects_ (s : LocalValueNumbering) (r : Nat) :
    (s.GetOperandValueWide r).2.unique_objects_ = s.unique_objects_ := by unfold GetOperandValueWide; split <;> rfl

@[simp] theorem SetOperandValue_gvn (s : LocalValueNumbering) (r v : Nat) :
    (s.SetOperandValue r v).gvn = s.gvn := by unfold SetOperandValue; split <;> rfl

@[simp] theorem SetOperandValue_sreg_wide_value_map_ (s : LocalValueNumbering) (r v : Nat) :
    (s.SetOperandValue r v).sreg_wide_value_map_ = s.sreg_wide_value_map_ := by unfold SetOperandValue; split <;> rfl

@[simp] theorem SetOperandValue_memory_version_map_ (s : LocalValueNumbering) (r v : Nat) :
    (s.SetOperandValue r v).memory_version_map_ = s.memory_version_map_ := by unfold SetOperandValue; split <;> rfl

@[simp] theorem SetOperandValue_field_index_map_ (s : LocalValueNumbering) (r v : Nat) :
    (s.SetOperandValue r v).field_index_map_ = s.field_index_map_ := by unfold SetOperandValue; split <;> rfl

@[simp] theorem SetOperandValue_next_memory_version_ (s : LocalValueNumbering) (r v : Nat) :
    (s.SetOperandValue r v).next_memory_version_ = s.next_memory_version_ := by unfold SetOperandValue; split <;> rfl

@[simp] theorem SetOperandValue_global_memory_version_ (s : LocalValueNumbering) (r v : Nat) :
    (s.SetOperandValue r v).global_memory_version_ = s.global_memory_version_ := by unfold SetOperandValue; split <;> rfl

@[simp] theorem SetOperandValue_unresolved_sfield_version_ (s : LocalValueNumbering) (r v : Nat) :
    (s.SetOperandValue r v).unresolved_sfield_version_ = s.unresolved_sfield_version_ := by unfold SetOperandValue; split <;> rfl

@[simp] theorem SetOperandValue_unresolved_ifield_version_ (s : LocalValueNumbering) (r v : Nat) :
    (s.SetOperandValue r v).unresolved_ifield_version_ = s.unresolved_ifield_version_ := by unfold SetOperandValue; split <;> rfl

@[simp] theorem SetOperandValue_null_checked_ (s : LocalValueNumbering) (r v : Nat) :
    (s.SetOperandValue r v).null_checked_ = s.null_checked_ := by unfold SetOperandValue; split <;> rfl

@[simp] theorem SetOperandValue_unique_objects_ (s : LocalValueNumbering) (r v : Nat) :
    (s.SetOperandValue r v).unique_objects_ = s.unique_objects_ := by unfold SetOperandValue; split <;> rfl

@[simp] theorem SetOperandValueWide_gvn (s : LocalValueNumbering) (r v : Nat) :
    (s.SetOperandValueWide r v).gvn = s.gvn := by unfold SetOperandValueWide; split <;> rfl

@[simp] theorem SetOperandValueWide_sreg_value_map_ (s : LocalValueNumbering) (r v : Nat) :
    (s.SetOperandValueWide r v).sreg_value_map_ = s.sreg_value_map_ := by unfold SetOperandValueWide; split <;> rfl

@[simp] theorem SetOperandValueWide_memory_version_map_ (s : LocalValueNumbering) (r v : Nat) :
    (s.SetOperandValueWide r v).memory_version_map_ = s.memory_version_map_ := by unfold SetOperandValueWide; split <;> rfl

@[simp] theorem SetOperandValueWide_field_index_map_ (s : LocalValueNumbering) (r v : Nat) :
    (s.SetOperandValueWide r v).field_index_map_ = s.field_index_map_ := by unfold SetOperandValueWide; split <;> rfl

@[simp] theorem SetOperandValueWide_next_memory_version_ (s : LocalValueNumbering) (r v : Nat) :
    (s.SetOperandValueWide r v).next_memory_version_ = s.next_memory_version_ := by unfold SetOperandValueWide; split <;> rfl

@[simp] theorem SetOperandValueWide_global_memory_version_ (s : LocalValueNumbering) (r v : Nat) :
    (s.SetOperandValueWide r v).global_memory_version_ = s.global_memory_version_ := by unfold SetOperandValueWide; split <;> rfl

@[simp] theorem SetOperandValueWide_unresolved_sfield_version_ (s : LocalValueNumbering) (r v : Nat) :
    (s.SetOperandValueWide r v).unresolved_sfield_version_ = s.unresolved_sfield_version_ := by unfold SetOperandValueWide; split <;> rfl

@[simp] theorem SetOperandValueWide_unresolved_ifield_version_ (s : LocalValueNumbering) (r v : Nat) :
    (s.SetOperandValueWide r v).unresolved_ifield_version_ = s.unresolved_ifield_version_ := by unfold SetOperandValueWide; split <;> rfl

@[simp] theorem SetOperandValueWide_null_checked_ (s : LocalValueNumbering) (r v : Nat) :
    (s.SetOperandValueWide r v).null_checked_ = s.null_checked_ := by unfold SetOperandValueWide; split <;> rfl

@[simp] theorem SetOperandValueWide_unique_objects_ (s : LocalValueNumbering) (r v : Nat) :
    (s.SetOperandValueWide r v).unique_objects_ = s.unique_objects_ := by unfold SetOperandValueWide; split <;> rfl

@[simp] theorem GetFieldId_gvn (s : LocalValueNumbering) (d f : Nat) :
    (s.GetFieldId d f).2.gvn = s.gvn := by unfold GetFieldId; simp only []; split <;> rfl

@[simp] theorem GetFieldId_sreg_value_map_ (s : LocalValueNumbering) (d f : Nat) :
    (s.GetFieldId d f).2.sreg_value_map_ = s.sreg_value_map_ := by unfold GetFieldId; simp only []; split <;> rfl

@[simp] theorem GetFieldId_sreg_wide_value_map_ (s : LocalValueNumbering) (d f : Nat) :
    (s.GetFieldId d f).2.sreg_wide_value_map_ = s.sreg_wide_value_map_ := by unfold GetFieldId; simp only []; split <;> rfl

@[simp] theorem GetFieldId_memory_version_map_ (s : LocalValueNumbering) (d f : Nat) :
    (s.GetFieldId d f).2.memory_version_map_ = s.memory_version_map_ := by unfold GetFieldId; simp only []; split <;> rfl

@[simp] theorem GetFieldId_next_memory_version_ (s : LocalValueNumbering) (d f : Nat) :
    (s.GetFieldId d f).2.next_memory_version_ = s.next_memory_version_ := by unfold GetFieldId; simp only []; split <;> rfl

@[simp] theorem GetFieldId_global_memory_version_ (s : LocalValueNumbering) (d f : Nat) :
    (s.GetFieldId d f).2.global_memory_version_ = s.global_memory_version_ := by unfold GetFieldId; simp only []; split <;> rfl

@[simp] theorem GetFieldId_unresolved_sfield_version_ (s : LocalValueNumbering) (d f : Nat) :
    (s.GetFieldId d f).2.unresolved_sfield_version_ = s.unresolved_sfield_version_ := by unfold GetFieldId; simp only []; split <;> rfl

@[simp] theorem GetFieldId_unresolved_ifield_version_ (s : LocalValueNumbering) (d f : Nat) :
    (s.GetFieldId d f).2.unresolved_ifield_version_ = s.unresolved_ifield_version_ := by unfold GetFieldId; simp only []; split <;> rfl

@[simp] theorem GetFieldId_null_checked_ (s : LocalValueNumbering) (d f : Nat) :
    (s.GetFieldId d f).2.null_checked_ = s.null_checked_ := by unfold GetFieldId; simp only []; split <;> rfl

@[simp] theorem GetFieldId_unique_objects_ (s : LocalValueNumbering) (d f : Nat) :
    (s.GetFieldId d f).2.unique_objects_ = s.unique_objects_ := by unfold GetFieldId; simp only []; split <;> rfl

@[simp] theorem AdvanceGlobalMemory_gvn (s : LocalValueNumbering) :
    s.AdvanceGlobalMemory.gvn = s.gvn := rfl

@[simp] theorem AdvanceGlobalMemory_sreg_value_map_ (s : LocalValueNumbering) :
    s.AdvanceGlobalMemory.sreg_value_map_ = s.sreg_value_map_ := rfl

@[simp] theorem AdvanceGlobalMemory_sreg_wide_value_map_ (s : LocalValueNumbering) :
    s.AdvanceGlobalMemory.sreg_wide_value_map_ = s.sreg_wide_value_map_ := rfl

@[simp] theorem AdvanceGlobalMemory_memory_version_map_ (s : LocalValueNumbering) :
    s.AdvanceGlobalMemory.memory_version_map_ = s.memory_version_map_ := rfl

@[simp] theorem AdvanceGlobalMemory_field_index_map_ (s : LocalValueNumbering) :
    s.AdvanceGlobalMemory.field_index_map_ = s.field_index_map_ := rfl

@[simp] theorem AdvanceGlobalMemory_unresolved_sfield_version_ (s : LocalValueNumbering) :
    s.AdvanceGlobalMemory.unresolved_sfield_version_ = s.unresolved_sfield_version_ := rfl

@[simp] theorem AdvanceGlobalMemory_unresolved_ifield_version_ (s : LocalValueNumbering) :
    s.AdvanceGlobalMemory.unresolved_ifield_version_ = s.unresolved_ifield_version_ := rfl

@[simp] theorem AdvanceGlobalMemory_null_checked_ (s : LocalValueNumbering) :
    s.AdvanceGlobalMemory.null_checked_ = s.null_checked_ := rfl

@[simp] theorem AdvanceGlobalMemory_unique_objects_ (s : LocalValueNumbering) :
    s.AdvanceGlobalMemory.unique_objects_ = s.unique_objects_ := rfl

@[simp] theorem AdvanceMemoryVersion_gvn (s : LocalValueNumbering) (b f t : Nat) :
    (s.AdvanceMemoryVersion b f t).2.gvn = s.gvn := by unfold AdvanceMemoryVersion; simp only []; split <;> rfl

@[simp] theorem AdvanceMemoryVersion_sreg_value_map_ (s : LocalValueNumbering) (b f t : Nat) :
    (s.AdvanceMemoryVersion b f t).2.sreg_value_map_ = s.sreg_value_map_ := by unfold AdvanceMemoryVersion; simp only []; split <;> rfl

@[simp] theorem AdvanceMemoryVersion_sreg_wide_value_map_ (s : LocalValueNumbering) (b f t : Nat) :
    (s.AdvanceMemoryVersion b f t).2.sreg_wide_value_map_ = s.sreg_wide_value_map_ := by unfold AdvanceMemoryVersion; simp only []; split <;> rfl

@[simp] theorem AdvanceMemoryVersion_field_index_map_ (s : LocalValueNumbering) (b f t : Nat) :
    (s.AdvanceMemoryVersion b f t).2.field_index_map_ = s.field_index_map_ := by unfold AdvanceMemoryVersion; simp only []; split <;> rfl

@[simp] theorem AdvanceMemoryVersion_global_memory_version_ (s : LocalValueNumbering) (b f t : Nat) :
    (s.AdvanceMemoryVersion b f t).2.global_memory_version_ = s.global_memory_version_ := by unfold AdvanceMemoryVersion; simp only []; split <;> rfl

@[simp] theorem AdvanceMemoryVersion_unresolved_sfield_version_ (s : LocalValueNumbering) (b f t : Nat) :
    (s.AdvanceMemoryVersion b f t).2.unresolved_sfield_version_ = s.unresolved_sfield_version_ := by unfold AdvanceMemoryVersion; simp only []; split <;> rfl

@[simp] theorem AdvanceMemoryVersion_unresolved_ifield_version_ (s : LocalValueNumbering) (b f t : Nat) :
    (s.AdvanceMemoryVersion b f t).2.unresolved_ifield_version_ = s.unresolved_ifield_version_ := by unfold AdvanceMemoryVersion; simp only []; split <;> rfl

@[simp] theorem AdvanceMemoryVersion_null_checked_ (s : LocalValueNumbering) (b f t : Nat) :
    (s.AdvanceMemoryVersion b f t).2.null_checked_ = s.null_checked_ := by unfold AdvanceMemoryVersion; simp only []; split <;> rfl

@[simp] theorem AdvanceMemoryVersion_unique_objects_ (s : LocalValueNumbering) (b f t : Nat) :
    (s.AdvanceMemoryVersion b f t).2.unique_objects_ = s.unique_objects_ := by unfold AdvanceMemoryVersion; simp only []; split <;> rfl

@[simp] theorem HandleNullCheck_gvn (s : LocalValueNumbering) (mir : MIR) (reg : Nat) :
    (s.HandleNullCheck mir reg).1.gvn = s.gvn := by unfold HandleNullCheck; split <;> rfl

@[simp] theorem HandleNullCheck_sreg_value_map_ (s : LocalValueNumbering) (mir : MIR) (reg : Nat) :
    (s.HandleNullCheck mir reg).1.sreg_value_map_ = s.sreg_value_map_ := by unfold HandleNullCheck; split <;> rfl

@[simp] theorem HandleNullCheck_sreg_wide_value_map_ (s : LocalValueNumbering) (mir : MIR) (reg : Nat) :
    (s.HandleNullCheck mir reg).1.sreg_wide_value_map_ = s.sreg_wide_value_map_ := by unfold HandleNullCheck; split <;> rfl

@[simp] theorem HandleNullCheck_memory_version_map_ (s : LocalValueNumbering) (mir : MIR) (reg : Nat) :
    (s.HandleNullCheck mir reg).1.memory_version_map_ = s.memory_version_map_ := by unfold HandleNullCheck; split <;> rfl

@[simp] theorem HandleNullCheck_field_index_map_ (s : LocalValueNumbering) (mir : MIR) (reg : Nat) :
    (s.HandleNullCheck mir reg).1.field_index_map_ = s.field_index_map_ := by unfold HandleNullCheck; split <;> rfl

@[simp] theorem HandleNullCheck_next_memory_version_ (s : LocalValueNumbering) (mir : MIR) (reg : Nat) :
    (s.HandleNullCheck mir reg).1.next_memory_version_ = s.next_memory_version_ := by unfold HandleNullCheck; split <;> rfl

@[simp] theorem HandleNullCheck_global_memory_version_ (s : LocalValueNumbering) (mir : MIR) (reg : Nat) :
    (s.HandleNullCheck mir reg).1.global_memory_version_ = s.global_memory_version_ := by unfold HandleNullCheck; split <;> rfl

@[simp] theorem HandleNullCheck_unresolved_sfield_version_ (s : LocalValueNumbering) (mir : MIR) (reg : Nat) :
    (s.HandleNullCheck mir reg).1.unresolved_sfield_version_ = s.unresolved_sfield_version_ := by unfold HandleNullCheck; split <;> rfl

@[simp] theorem HandleNullCheck_unresolved_ifield_version_ (s : LocalValueNumbering) (mir : MIR) (reg : Nat) :
    (s.HandleNullCheck mir reg).1.unresolved_ifield_version_ = s.unresolved_ifield_version_ := by unfold HandleNullCheck; split <;> rfl

@[simp] theorem HandleNullCheck_unique_objects_ (s : LocalValueNumbering) (mir : MIR) (reg : Nat) :
    (s.HandleNullCheck mir reg).1.unique_objects_ = s.unique_objects_ := by unfold HandleNullCheck; split <;> rfl

@[simp] theorem HandleRangeCheck_sreg_value_map_ (s : LocalValueNumbering) (mir : MIR) (a i : Nat) :
    (s.HandleRangeCheck mir a i).1.sreg_value_map_ = s.sreg_value_map_ := rfl

@[simp] theorem HandleRangeCheck_sreg_wide_value_map_ (s : LocalValueNumbering) (mir : MIR) (a i : Nat) :
    (s.HandleRangeCheck mir a i).1.sreg_wide_value_map_ = s.sreg_wide_value_map_ := rfl

@[simp] theorem HandleRangeCheck_memory_version_map_ (s : LocalValueNumbering) (mir : MIR) (a i : Nat) :
    (s.HandleRangeCheck mir a i).1.memory_version_map_ = s.memory_version_map_ := rfl

@[simp] theorem HandleRangeCheck_field_index_map_ (s : LocalValueNumbering) (mir : MIR) (a i : Nat) :
    (s.HandleRangeCheck mir a i).1.field_index_map_ = s.field_index_map_ := rfl

@[simp] theorem HandleRangeCheck_next_memory_version_ (s : LocalValueNumbering) (mir : MIR) (a i : Nat) :
    (s.HandleRangeCheck mir a i).1.next_memory_version_ = s.next_memory_version_ := rfl

@[simp] theorem HandleRangeCheck_global_memory_version_ (s : LocalValueNumbering) (mir : MIR) (a i : Nat) :
    (s.HandleRangeCheck mir a i).1.global_memory_version_ = s.global_memory_version_ := rfl

@[simp] theorem HandleRangeCheck_unresolved_sfield_version_ (s : LocalValueNumbering) (mir : MIR) (a i : Nat) :
    (s.HandleRangeCheck mir a i).1.unresolved_sfield_version_ = s.unresolved_sfield_version_ := rfl

@[simp] theorem HandleRangeCheck_unresolved_ifield_version_ (s : LocalValueNumbering) (mir : MIR) (a i : Nat) :
    (s.HandleRangeCheck mir a i).1.unresolved_ifield_version_ = s.unresolved_ifield_version_ := rfl

@[simp] theorem HandleRangeCheck_null_checked_ (s : LocalValueNumbering) (mir : MIR) (a i : Nat) :
    (s.HandleRangeCheck mir a i).1.null_checked_ = s.null_checked_ := rfl

@[simp] theorem HandleRangeCheck_unique_objects_ (s : LocalValueNumbering) (mir : MIR) (a i : Nat) :
    (s.HandleRangeCheck mir a i).1.unique_objects_ = s.unique_objects_ := rfl

@[simp] theorem HandlePutObject_sreg_wide_value_map_ (s : LocalValueNumbering) (mir : MIR) :
    (s.HandlePutObject mir).sreg_wide_value_map_ = s.sreg_wide_value_map_ := by unfold HandlePutObject; simp only [GetOperandValue_sreg_wide_value_map_]

@[simp] theorem HandlePutObject_memory_version_map_ (s : LocalValueNumbering) (mir : MIR) :
    (s.HandlePutObject mir).memory_version_map_ = s.memory_version_map_ := by unfold HandlePutObject; simp only [GetOperandValue_memory_version_map_]

@[simp] theorem HandlePutObject_field_index_map_ (s : LocalValueNumbering) (mir : MIR) :
    (s.HandlePutObject mir).field_index_map_ = s.field_index_map_ := by unfold HandlePutObject; simp only [GetOperandValue_field_index_map_]

@[simp] theorem HandlePutObject_next_memory_version_ (s : LocalValueNumbering) (mir : MIR) :
    (s.HandlePutObject mir).next_memory_version_ = s.next_memory_version_ := by unfold HandlePutObject; simp only [GetOperandValue_next_memory_version_]

@[simp] theorem HandlePutObject_global_memory_version_ (s : LocalValueNumbering) (mir : MIR) :
    (s.HandlePutObject mir).global_memory_version_ = s.global_memory_version_ := by unfold HandlePutObject; simp only [GetOperandValue_global_memory_version_]

@[simp] theorem HandlePutObject_unresolved_sfield_version_ (s : LocalValueNumbering) (mir : MIR) :
    (s.HandlePutObject mir).unresolved_sfield_version_ = s.unresolved_sfield_version_ := by unfold HandlePutObject; simp only [GetOperandValue_unresolved_sfield_version_]

@[simp] theorem HandlePutObject_unresolved_ifield_version_ (s : LocalValueNumbering) (mir : MIR) :
    (s.HandlePutObject mir).unresolved_ifield_version_ = s.unresolved_ifield_version_ := by unfold HandlePutObject; simp only [GetOperandValue_unresolved_ifield_version_]

@[simp] theorem HandlePutObject_null_checked_ (s : LocalValueNumbering) (mir : MIR) :
    (s.HandlePutObject mir).null_checked_ = s.null_checked_ := by unfold HandlePutObject; simp only [GetOperandValue_null_checked_]

/-! ## Memory versioning -/

/-- C2: aliasing safety at the memory-version level. For every state, field `f`, type `t` and
16-bit value names `a`, `b` outside the unique-object set, `b` different from `NO_VALUE`: if
`v` is the version returned by `AdvanceMemoryVersion(a, f, t)`, a following
`GetMemoryVersion(b, f, t)` returns a version greater than or equal to `v`. -/
theorem GetMemoryVersion_after_Advance (s : LocalValueNumbering) (a b f t : Nat)
    (ha16 : a < 2 ^ 16) (hb16 : b < 2 ^ 16)
    (ha : a ∉ s.unique_objects_) (hb : b ∉ s.unique_objects_) (hbn : b ≠ NO_VALUE) :
    (s.AdvanceMemoryVersion a f t).1 ≤ (s.AdvanceMemoryVersion a f t).2.GetMemoryVersion b f t := by
  have ea : u16 a = a := Nat.mod_eq_of_lt ha16
  have eb : u16 b = b := Nat.mod_eq_of_lt hb16
  unfold AdvanceMemoryVersion GetMemoryVersion
  simp only [ea, eb]
  by_cases han : a = NO_VALUE
  · simp [han, hbn, hb, SafeMap.find_Overwrite]
    left
    split_ifs <;> omega
  · simp [han, hbn, ha, hb, SafeMap.find_Overwrite]
    left
    split_ifs <;> omega

/-- Witness for C2: a store through value name 3 and a load through value name 4 of field 0,
type 0, in the initial state. -/
theorem GetMemoryVersion_after_Advance_witness :
    (init.AdvanceMemoryVersion 3 0 0).1 ≤ (init.AdvanceMemoryVersion 3 0 0).2.GetMemoryVersion 4 0 0 :=
  GetMemoryVersion_after_Advance init 3 4 0 0 (by norm_num) (by norm_num) (by simp [init])
    (by simp [init]) (by decide)

end LocalValueNumbering

/-! ## Growth of the value map under value numbering -/

namespace GlobalValueNumbering

theorem MapExt_refl (g : GlobalValueNumbering) : MapExt g g := fun _ _ h => h

theorem MapExt_trans {g1 g2 g3 : GlobalValueNumbering} (h1 : MapExt g1 g2) (h2 : MapExt g2 g3) :
    MapExt g1 g3 := fun k v h => h2 k v (h1 k v h)

theorem MapExt_LookupValue (g : GlobalValueNumbering) (op a b m : Nat) :
    MapExt g (g.LookupValue op a b m).2 := fun _ _ h => LookupValue_preserves g op a b m h

/-- A tuple looked up once keeps its name in every later table that extends the map. -/
theorem LookupValue_later {g g' : GlobalValueNumbering} {op a b m : Nat}
    (h : MapExt (g.LookupValue op a b m).2 g') :
    g'.LookupValue op a b m = ((g.LookupValue op a b m).1, g') :=
  LookupValue_of_find (h _ _ (find_after_LookupValue g op a b m))

end GlobalValueNumbering

namespace LocalValueNumbering

open GlobalValueNumbering (MapExt)

theorem ext_LookupValue {g : GlobalValueNumbering} {s : LocalValueNumbering} (op a b m : Nat)
    (h : MapExt g s.gvn) : MapExt g (s.LookupValue op a b m).2.gvn :=
  GlobalValueNumbering.MapExt_trans h (GlobalValueNumbering.MapExt_LookupValue s.gvn op a b m)

theorem ext_GetOperandValue {g : GlobalValueNumbering} {s : LocalValueNumbering} (r : Nat)
    (h : MapExt g s.gvn) : MapExt g (s.GetOperandValue r).2.gvn := by
  unfold GetOperandValue
  split
  · exact h
  · exact ext_LookupValue _ _ _ _ h

theorem ext_GetOperandValueWide {g : GlobalValueNumbering} {s : LocalValueNumbering} (r : Nat)
    (h : MapExt g s.gvn) : MapExt g (s.GetOperandValueWide r).2.gvn := by
  unfold GetOperandValueWide
  split
  · exact h
  · exact ext_LookupValue _ _ _ _ h

theorem ext_SetOperandValue {g : GlobalValueNumbering} {s : LocalValueNumbering} (r v : Nat)
    (h : MapExt g s.gvn) : MapExt g (s.SetOperandValue r v).gvn := by
  unfold SetOperandValue
  split <;> exact h

theorem ext_SetOperandValueWide {g : GlobalValueNumbering} {s : LocalValueNumbering} (r v : Nat)
    (h : MapExt g s.gvn) : MapExt g (s.SetOperandValueWide r v).gvn := by
  unfold SetOperandValueWide
  split <;> exact h

theorem ext_GetFieldId {g : GlobalValueNumbering} {s : LocalValueNumbering} (d f : Nat)
    (h : MapExt g s.gvn) : MapExt g (s.GetFieldId d f).2.gvn := by
  unfold GetFieldId
  simp only []
  split <;> exact h

theorem ext_AdvanceGlobalMemory {g : GlobalValueNumbering} {s : LocalValueNumbering}
    (h : MapExt g s.gvn) : MapExt g s.AdvanceGlobalMemory.gvn := h

theorem ext_AdvanceMemoryVersion {g : GlobalValueNumbering} {s : LocalValueNumbering}
    (b f t : Nat) (h : MapExt g s.gvn) : MapExt g (s.AdvanceMemoryVersion b f t).2.gvn := by
  unfold AdvanceMemoryVersion
  simp only []
  split <;> exact h

theorem ext_MarkUniqueNonNull {g : GlobalValueNumbering} {s : LocalValueNumbering} (mir : MIR)
    (h : MapExt g s.gvn) : MapExt g (s.MarkUniqueNonNull mir).2.gvn :=
  ext_SetOperandValue _ _ (ext_GetOperandValue _ h)

theorem ext_MakeArgsNonUniqueLoop {g : GlobalValueNumbering} (uses : List Nat)
    {s : LocalValueNumbering} (h : MapExt g s.gvn) :
    MapExt g (s.MakeArgsNonUniqueLoop uses).gvn := by
  induction uses generalizing s with
  | nil => exact h
  | cons u rest ih => exact ih (ext_GetOperandValue u h)

theorem ext_MakeArgsNonUnique {g : GlobalValueNumbering} {s : LocalValueNumbering} (mir : MIR)
    (h : MapExt g s.gvn) : MapExt g (s.MakeArgsNonUnique mir).gvn :=
  ext_MakeArgsNonUniqueLoop mir.uses h

theorem ext_HandleNullCheck {g : GlobalValueNumbering} {s : LocalValueNumbering} (mir : MIR)
    (reg : Nat) (h : MapExt g s.gvn) : MapExt g (s.HandleNullCheck mir reg).1.gvn := by
  unfold HandleNullCheck
  split <;> exact h

theorem ext_HandleRangeCheck {g : GlobalValueNumbering} {s : LocalValueNumbering} (mir : MIR)
    (a i : Nat) (h : MapExt g s.gvn) : MapExt g (s.HandleRangeCheck mir a i).1.gvn :=
  ext_LookupValue _ _ _ _ h

theorem ext_HandlePutObject {g : GlobalValueNumbering} {s : LocalValueNumbering} (mir : MIR)
    (h : MapExt g s.gvn) : MapExt g (s.HandlePutObject mir).gvn :=
  ext_GetOperandValue _ h

theorem ext_aputBody {g : GlobalValueNumbering} {s : LocalValueNumbering} (mir : MIR)
    (h : MapExt g s.gvn) : MapExt g (s.aputBody mir).2.1.gvn :=
  ext_AdvanceMemoryVersion _ _ _ (ext_HandleRangeCheck _ _ _
    (ext_GetOperandValue _ (ext_HandleNullCheck _ _ (ext_GetOperandValue _ h))))

theorem ext_iputBody {g : GlobalValueNumbering} {s : LocalValueNumbering} (mir : MIR)
    (h : MapExt g s.gvn) : MapExt g (s.iputBody mir).2.1.gvn := by
  have h1 := ext_HandleNullCheck mir (s.GetOperandValue
    (mir.uses.getD (if u16 mir.opcode = Instruction.IPUT_WIDE then 2 else 1) 0)).1
    (ext_GetOperandValue (mir.uses.getD (if u16 mir.opcode = Instruction.IPUT_WIDE then 2 else 1) 0) h)
  unfold iputBody
  simp only []
  split
  · exact h1
  · split
    · exact h1
    · exact ext_AdvanceMemoryVersion _ _ _ (ext_GetFieldId _ _ h1)

theorem ext_sputBody {g : GlobalValueNumbering} {s : LocalValueNumbering} (mir : MIR)
    (h : MapExt g s.gvn) : MapExt g (s.sputBody mir).2.1.gvn := by
  unfold sputBody
  simp only []
  split
  · exact h
  · split
    · exact h
    · exact ext_AdvanceMemoryVersion _ _ _ (ext_GetFieldId _ _ h)

/-- Value numbering of one instruction only adds bindings to the value map. -/
theorem ext_GetValueNumber {g : GlobalValueNumbering} {s : LocalValueNumbering} (mir : MIR)
    (next : Option MIR) (h : MapExt g s.gvn) : MapExt g (s.GetValueNumber mir next).2.1.gvn := by
  unfold GetValueNumber
  simp only []
  split
  · exact h
  · refine ext_MakeArgsNonUnique _ ?_
    split
    · split
      · exact ext_MarkUniqueNonNull _ h
      · exact h
    · exact h
  · exact ext_MakeArgsNonUnique _
      (ext_AdvanceGlobalMemory (ext_HandleNullCheck _ _ (ext_GetOperandValue _ h)))
  · exact ext_MakeArgsNonUnique _ (ext_AdvanceGlobalMemory h)
  · exact ext_SetOperandValue _ _ (ext_GetOperandValue _ h)
  · exact ext_MarkUniqueNonNull _ h
  · exact ext_SetOperandValueWide _ _ (ext_GetOperandValueWide _ h)
  · exact h
  · exact ext_SetOperandValue _ _ (ext_GetOperandValue _ h)
  · exact ext_SetOperandValueWide _ _ (ext_GetOperandValueWide _ h)
  · exact ext_SetOperandValue _ _ (ext_LookupValue _ _ _ _ h)
  · exact ext_SetOperandValue _ _ (ext_LookupValue _ _ _ _ h)
  · refine ext_SetOperandValueWide _ _ (ext_LookupValue _ _ _ _ ?_)
    split
    · exact ext_LookupValue _ _ _ _ (ext_LookupValue _ _ _ _ h)
    · exact ext_LookupValue _ _ _ _ (ext_LookupValue _ _ _ _ h)
  · exact ext_SetOperandValueWide _ _
      (ext_LookupValue _ _ _ _ (ext_LookupValue _ _ _ _ (ext_LookupValue _ _ _ _ h)))
  · exact ext_SetOperandValueWide _ _
      (ext_LookupValue _ _ _ _ (ext_LookupValue _ _ _ _ (ext_LookupValue _ _ _ _ h)))
  · exact ext_SetOperandValue _ _ (ext_LookupValue _ _ _ _ (ext_GetOperandValue _ h))
  · exact ext_SetOperandValue _ _ (ext_LookupValue _ _ _ _ (ext_GetOperandValue _ h))
  · exact ext_SetOperandValueWide _ _ (ext_LookupValue _ _ _ _ (ext_GetOperandValueWide _ h))
  · exact ext_SetOperandValueWide _ _ (ext_LookupValue _ _ _ _ (ext_GetOperandValueWide _ h))
  · exact ext_SetOperandValue _ _
      (ext_LookupValue _ _ _ _ (ext_GetOperandValueWide _ (ext_GetOperandValueWide _ h)))
  · exact ext_SetOperandValue _ _
      (ext_LookupValue _ _ _ _ (ext_GetOperandValue _ (ext_GetOperandValue _ h)))
  · exact ext_SetOperandValueWide _ _
      (ext_LookupValue _ _ _ _ (ext_GetOperandValueWide _ (ext_GetOperandValueWide _ h)))
  · exact ext_SetOperandValueWide _ _
      (ext_LookupValue _ _ _ _ (ext_GetOperandValueWide _ (ext_GetOperandValueWide _ h)))
  · exact ext_SetOperandValue _ _
      (ext_LookupValue _ _ _ _ (ext_GetOperandValue _ (ext_GetOperandValue _ h)))
  · exact ext_SetOperandValue _ _
      (ext_LookupValue _ _ _ _ (ext_LookupValue _ _ _ _ (ext_GetOperandValue _ h)))
  · have hc := ext_HandleRangeCheck
      ((s.GetOperandValue (mir.uses.getD 0 0)).2.HandleNullCheck mir
        (s.GetOperandValue (mir.uses.getD 0 0)).1).2
      (s.GetOperandValue (mir.uses.getD 0 0)).1
      (((s.GetOperandValue (mir.uses.getD 0 0)).2.HandleNullCheck mir
        (s.GetOperandValue (mir.uses.getD 0 0)).1).1.GetOperandValue (mir.uses.getD 1 0)).1
      (ext_GetOperandValue (mir.uses.getD 1 0)
        (ext_HandleNullCheck mir (s.GetOperandValue (mir.uses.getD 0 0)).1
          (ext_GetOperandValue (mir.uses.getD 0 0) h)))
    split
    · exact ext_SetOperandValueWide _ _ (ext_LookupValue _ _ _ _ hc)
    · exact ext_SetOperandValue _ _ (ext_LookupValue _ _ _ _ hc)
  · exact ext_aputBody _ (ext_HandlePutObject _ h)
  · exact ext_aputBody _ h
  · have hn := ext_HandleNullCheck mir (s.GetOperandValue (mir.uses.getD 0 0)).1
      (ext_GetOperandValue (mir.uses.getD 0 0) h)
    split_ifs
    all_goals first
      | exact ext_SetOperandValueWide _ _ (ext_LookupValue _ _ _ _ hn)
      | exact ext_SetOperandValue _ _ (ext_LookupValue _ _ _ _ hn)
      | exact ext_SetOperandValueWide _ _ (ext_LookupValue _ _ _ _ (ext_GetFieldId _ _ hn))
      | exact ext_SetOperandValue _ _ (ext_LookupValue _ _ _ _ (ext_GetFieldId _ _ hn))
  · exact ext_iputBody _ (ext_HandlePutObject _ h)
  · exact ext_iputBody _ h
  · split_ifs
    all_goals first
      | exact ext_SetOperandValueWide _ _ (ext_LookupValue _ _ _ _ h)
      | exact ext_SetOperandValue _ _ (ext_LookupValue _ _ _ _ h)
      | exact ext_SetOperandValueWide _ _ (ext_LookupValue _ _ _ _ (ext_GetFieldId _ _ h))
      | exact ext_SetOperandValue _ _ (ext_LookupValue _ _ _ _ (ext_GetFieldId _ _ h))
  · exact ext_sputBody _ (ext_HandlePutObject _ h)
  · exact ext_sputBody _ h
  · exact h

theorem ext_processSeq {g : GlobalValueNumbering} (seq : List (MIR × Option MIR))
    {s : LocalValueNumbering} (h : MapExt g s.gvn) : MapExt g (s.processSeq seq).gvn := by
  induction seq generalizing s with
  | nil => exact h
  | cons p rest ih => exact ih (ext_GetValueNumber p.1 p.2 h)

/-! ## Congruence -/

theorem lvn_lookup_later {s s' : LocalValueNumbering} {op a b m : Nat}
    (h : MapExt (s.LookupValue op a b m).2.gvn s'.gvn) :
    (s'.LookupValue op a b m).1 = (s.LookupValue op a b m).1 := by
  unfold LocalValueNumbering.LookupValue at *
  simp only [] at *
  rw [GlobalValueNumbering.LookupValue_later h]

/-- Congruence on what the cases read. Let `mir1` have a unary, binary, comparison or
literal-arithmetic opcode and let `mir2` have the same opcode (and, in the literal forms, the
same `vB`). If the value names the case obtains from its accessors for the operands of
`mir2`, when it is processed, equal those it obtained for the operands of `mir1`, then
`GetValueNumber` returns for `mir2` the value name it returned for `mir1`, whatever
instructions `between` were processed in the meantime. -/
theorem GetValueNumber_congruence (s : LocalValueNumbering) (mir1 mir2 : MIR)
    (next1 next2 : Option MIR) (between : List (MIR × Option MIR))
    (harith : (armOf (u16 mir1.opcode)).isArith = true)
    (hop : mir2.opcode = mir1.opcode)
    (hlit : armOf (u16 mir1.opcode) = .literal → mir2.vB = mir1.vB)
    (hops : operandNames ((s.GetValueNumber mir1 next1).2.1.processSeq between) mir2 =
      operandNames s mir1) :
    (((s.GetValueNumber mir1 next1).2.1.processSeq between).GetValueNumber mir2 next2).1 =
      (s.GetValueNumber mir1 next1).1 := by
  generalize hs' : (s.GetValueNumber mir1 next1).2.1.processSeq between = s' at *
  cases hA : armOf (u16 mir1.opcode) <;> rw [hA] at harith <;>
    first
      | (exact absurd harith (by decide))
      | skip
  · have hst : MapExt ((s.GetOperandValue (mir1.uses.getD 0 0)).2.LookupValue (u16 mir1.opcode)
        (s.GetOperandValue (mir1.uses.getD 0 0)).1 NO_VALUE NO_VALUE).2.gvn s'.gvn := by
      rw [← hs']
      refine ext_processSeq _ ?_
      unfold GetValueNumber
      simp only [hA]
      exact ext_SetOperandValue _ _ (GlobalValueNumbering.MapExt_refl _)
    unfold operandNames at hops
    unfold GetValueNumber
    simp only [hop, hA] at hops ⊢
    simp only [Prod.mk.injEq, and_true] at hops
    rw [hops]
    exact lvn_lookup_later (ext_GetOperandValue _ hst)
  · have hst : MapExt ((s.GetOperandValue (mir1.uses.getD 0 0)).2.LookupValue (u16 mir1.opcode)
        (s.GetOperandValue (mir1.uses.getD 0 0)).1 NO_VALUE NO_VALUE).2.gvn s'.gvn := by
      rw [← hs']
      refine ext_processSeq _ ?_
      unfold GetValueNumber
      simp only [hA]
      exact ext_SetOperandValue _ _ (GlobalValueNumbering.MapExt_refl _)
    unfold operandNames at hops
    unfold GetValueNumber
    simp only [hop, hA] at hops ⊢
    simp only [Prod.mk.injEq, and_true] at hops
    rw [hops]
    exact lvn_lookup_later (ext_GetOperandValue _ hst)
  · have hst : MapExt ((s.GetOperandValueWide (mir1.uses.getD 0 0)).2.LookupValue (u16 mir1.opcode)
        (s.GetOperandValueWide (mir1.uses.getD 0 0)).1 NO_VALUE NO_VALUE).2.gvn s'.gvn := by
      rw [← hs']
      refine ext_processSeq _ ?_
      unfold GetValueNumber
      simp only [hA]
      exact ext_SetOperandValueWide _ _ (GlobalValueNumbering.MapExt_refl _)
    unfold operandNames at hops
    unfold GetValueNumber
    simp only [hop, hA] at hops ⊢
    simp only [Prod.mk.injEq, and_true] at hops
    rw [hops]
    exact lvn_lookup_later (ext_GetOperandValueWide _ hst)
  · have hst : MapExt ((s.GetOperandValueWide (mir1.uses.getD 0 0)).2.LookupValue (u16 mir1.opcode)
        (s.GetOperandValueWide (mir1.uses.getD 0 0)).1 NO_VALUE NO_VALUE).2.gvn s'.gvn := by
      rw [← hs']
      refine ext_processSeq _ ?_
      unfold GetValueNumber
      simp only [hA]
      exact ext_SetOperandValueWide _ _ (GlobalValueNumbering.MapExt_refl _)
    unfold operandNames at hops
    unfold GetValueNumber
    simp only [hop, hA] at hops ⊢
    simp only [Prod.mk.injEq, and_true] at hops
    rw [hops]
    exact lvn_lookup_later (ext_GetOperandValueWide _ hst)
  · have hst : MapExt (((s.GetOperandValueWide (mir1.uses.getD 0 0)).2.GetOperandValueWide
        (mir1.uses.getD 2 0)).2.LookupValue (u16 mir1.opcode)
        (s.GetOperandValueWide (mir1.uses.getD 0 0)).1
        ((s.GetOperandValueWide (mir1.uses.getD 0 0)).2.GetOperandValueWide (mir1.uses.getD 2 0)).1
        NO_VALUE).2.gvn s'.gvn := by
      rw [← hs']
      refine ext_processSeq _ ?_
      unfold GetValueNumber
      simp only [hA]
      exact ext_SetOperandValue _ _ (GlobalValueNumbering.MapExt_refl _)
    unfold operandNames at hops
    unfold GetValueNumber
    simp only [hop, hA] at hops ⊢
    simp only [Prod.mk.injEq, Option.some.injEq] at hops
    rw [hops.1, hops.2]
    exact lvn_lookup_later (ext_GetOperandValueWide _ (ext_GetOperandValueWide _ hst))
  · have hst : MapExt (((s.GetOperandValue (mir1.uses.getD 0 0)).2.GetOperandValue
        (mir1.uses.getD 1 0)).2.LookupValue (u16 mir1.opcode)
        (s.GetOperandValue (mir1.uses.getD 0 0)).1
        ((s.GetOperandValue (mir1.uses.getD 0 0)).2.GetOperandValue (mir1.uses.getD 1 0)).1
        NO_VALUE).2.gvn s'.gvn := by
      rw [← hs']
      refine ext_processSeq _ ?_
      unfold GetValueNumber
      simp only [hA]
      exact ext_SetOperandValue _ _ (GlobalValueNumbering.MapExt_refl _)
    unfold operandNames at hops
    unfold GetValueNumber
    simp only [hop, hA] at hops ⊢
    simp only [Prod.mk.injEq, Option.some.injEq] at hops
    rw [hops.1, hops.2]
    exact lvn_lookup_later (ext_GetOperandValue _ (ext_GetOperandValue _ hst))
  · have hst : MapExt (((s.GetOperandValueWide (mir1.uses.getD 0 0)).2.GetOperandValueWide
        (mir1.uses.getD 2 0)).2.LookupValue (u16 mir1.opcode)
        (s.GetOperandValueWide (mir1.uses.getD 0 0)).1
        ((s.GetOperandValueWide (mir1.uses.getD 0 0)).2.GetOperandValueWide (mir1.uses.getD 2 0)).1
        NO_VALUE).2.gvn s'.gvn := by
      rw [← hs']
      refine ext_processSeq _ ?_
      unfold GetValueNumber
      simp only [hA]
      exact ext_SetOperandValueWide _ _ (GlobalValueNumbering.MapExt_refl _)
    unfold operandNames at hops
    unfold GetValueNumber
    simp only [hop, hA] at hops ⊢
    simp only [Prod.mk.injEq, Option.some.injEq] at hops
    rw [hops.1, hops.2]
    exact lvn_lookup_later (ext_GetOperandValueWide _ (ext_GetOperandValueWide _ hst))
  · have hst : MapExt (((s.GetOperandValueWide (mir1.uses.getD 0 0)).2.GetOperandValueWide
        (mir1.uses.getD 2 0)).2.LookupValue (u16 mir1.opcode)
        (s.GetOperandValueWide (mir1.uses.getD 0 0)).1
        ((s.GetOperandValueWide (mir1.uses.getD 0 0)).2.GetOperandValueWide (mir1.uses.getD 2 0)).1
        NO_VALUE).2.gvn s'.gvn := by
      rw [← hs']
      refine ext_processSeq _ ?_
      unfold GetValueNumber
      simp only [hA]
      exact ext_SetOperandValueWide _ _ (GlobalValueNumbering.MapExt_refl _)
    unfold operandNames at hops
    unfold GetValueNumber
    simp only [hop, hA] at hops ⊢
    simp only [Prod.mk.injEq, Option.some.injEq] at hops
    rw [hops.1, hops.2]
    exact lvn_lookup_later (ext_GetOperandValueWide _ (ext_GetOperandValueWide _ hst))
  · have hst : MapExt (((s.GetOperandValue (mir1.uses.getD 0 0)).2.GetOperandValue
        (mir1.uses.getD 1 0)).2.LookupValue (u16 mir1.opcode)
        (s.GetOperandValue (mir1.uses.getD 0 0)).1
        ((s.GetOperandValue (mir1.uses.getD 0 0)).2.GetOperandValue (mir1.uses.getD 1 0)).1
        NO_VALUE).2.gvn s'.gvn := by
      rw [← hs']
      refine ext_processSeq _ ?_
      unfold GetValueNumber
      simp only [hA]
      exact ext_SetOperandValue _ _ (GlobalValueNumbering.MapExt_refl _)
    unfold operandNames at hops
    unfold GetValueNumber
    simp only [hop, hA] at hops ⊢
    simp only [Prod.mk.injEq, Option.some.injEq] at hops
    rw [hops.1, hops.2]
    exact lvn_lookup_later (ext_GetOperandValue _ (ext_GetOperandValue _ hst))
  · have hlit1 := hlit hA
    have hc : MapExt ((s.GetOperandValue (mir1.uses.getD 0 0)).2.LookupValue
        Instruction.CONST mir1.vB 0 0).2.gvn
        (((s.GetOperandValue (mir1.uses.getD 0 0)).2.LookupValue
          Instruction.CONST mir1.vB 0 0).2.LookupValue (u16 mir1.opcode)
          (s.GetOperandValue (mir1.uses.getD 0 0)).1
          ((s.GetOperandValue (mir1.uses.getD 0 0)).2.LookupValue
            Instruction.CONST mir1.vB 0 0).1 NO_VALUE).2.gvn :=
      ext_LookupValue _ _ _ _ (GlobalValueNumbering.MapExt_refl _)
    have hst : MapExt (((s.GetOperandValue (mir1.uses.getD 0 0)).2.LookupValue
          Instruction.CONST mir1.vB 0 0).2.LookupValue (u16 mir1.opcode)
          (s.GetOperandValue (mir1.uses.getD 0 0)).1
          ((s.GetOperandValue (mir1.uses.getD 0 0)).2.LookupValue
            Instruction.CONST mir1.vB 0 0).1 NO_VALUE).2.gvn s'.gvn := by
      rw [← hs']
      refine ext_processSeq _ ?_
      unfold GetValueNumber
      simp only [hA]
      exact ext_SetOperandValue _ _ (GlobalValueNumbering.MapExt_refl _)
    unfold operandNames at hops
    unfold GetValueNumber
    simp only [hop, hA, hlit1] at hops ⊢
    simp only [Prod.mk.injEq, and_true] at hops
    rw [hops, lvn_lookup_later (ext_GetOperandValue _ (GlobalValueNumbering.MapExt_trans hc hst))]
    exact lvn_lookup_later (ext_LookupValue _ _ _ _ (ext_GetOperandValue _ hst))

/-- An instance: `add-int v2, v0, v1`, then `const/4 v4, 5`, then `add-int v3, v0, v1`, from
the initial state. -/
theorem GetValueNumber_congruence_witness :
    (((init.GetValueNumber ⟨0x90, 0, 0, [0, 1], [2], 0, false, 0, 0⟩ none).2.1.processSeq
        [(⟨0x12, 5, 0, [], [4], 0, false, 0, 0⟩, none)]).GetValueNumber
        ⟨0x90, 0, 0, [0, 1], [3], 0, false, 0, 0⟩ none).1 =
      (init.GetValueNumber ⟨0x90, 0, 0, [0, 1], [2], 0, false, 0, 0⟩ none).1 :=
  GetValueNumber_congruence init ⟨0x90, 0, 0, [0, 1], [2], 0, false, 0, 0⟩
    ⟨0x90, 0, 0, [0, 1], [3], 0, false, 0, 0⟩ none none
    [(⟨0x12, 5, 0, [], [4], 0, false, 0, 0⟩, none)] (by decide) rfl (fun _ => rfl) (by decide)

/-! ## Constants -/

/-- C7 (evaluation at the failing input): `const v0, 0x00010005` followed by `const/4 v1, 5`,
from the initial state with `Good()` holding afterwards: both results get value name 1 although
the literals differ, because the key holds `High16Bits(vB >> 16)`, which is 0. -/
theorem const_high_half_dropped :
    (init.GetValueNumber ⟨Instruction.CONST, 0x00010005, 0, [], [0], 0, false, 0, 0⟩ none).1 = 1 ∧
    ((init.GetValueNumber ⟨Instruction.CONST, 0x00010005, 0, [], [0], 0, false, 0, 0⟩
        none).2.1.GetValueNumber
      ⟨Instruction.CONST_4, 5, 0, [], [1], 0, false, 0, 0⟩ none).1 = 1 ∧
    ((init.GetValueNumber ⟨Instruction.CONST, 0x00010005, 0, [], [0], 0, false, 0, 0⟩
        none).2.1.GetValueNumber
      ⟨Instruction.CONST_4, 5, 0, [], [1], 0, false, 0, 0⟩ none).2.1.gvn.Good = true := by
  decide

/-- C8 (evaluation at the failing inputs): from the initial state, `const-wide/32 v0, 0x10005`
and a following `const-wide/16 v2, 5` get the same value name although their 64-bit values
differ, and `const-wide v0, 0x10005` and a following `const-wide/32 v2, 0x10005` get different
value names although their 64-bit values are equal; `Good()` holds after both runs. -/
theorem const_wide_high_half_dropped :
    ((init.GetValueNumber ⟨Instruction.CONST_WIDE_32, 0x10005, 0, [], [0], 0, false, 0, 0⟩ none).1 =
      ((init.GetValueNumber ⟨Instruction.CONST_WIDE_32, 0x10005, 0, [], [0], 0, false, 0, 0⟩
          none).2.1.GetValueNumber
        ⟨Instruction.CONST_WIDE_16, 5, 0, [], [2], 0, false, 0, 0⟩ none).1) ∧
    ((init.GetValueNumber ⟨Instruction.CONST_WIDE, 0, 0x10005, [], [0], 0, false, 0, 0⟩ none).1 ≠
      ((init.GetValueNumber ⟨Instruction.CONST_WIDE, 0, 0x10005, [], [0], 0, false, 0, 0⟩
          none).2.1.GetValueNumber
        ⟨Instruction.CONST_WIDE_32, 0x10005, 0, [], [2], 0, false, 0, 0⟩ none).1) ∧
    ((init.GetValueNumber ⟨Instruction.CONST_WIDE_32, 0x10005, 0, [], [0], 0, false, 0, 0⟩
          none).2.1.GetValueNumber
        ⟨Instruction.CONST_WIDE_16, 5, 0, [], [2], 0, false, 0, 0⟩ none).2.1.gvn.Good = true ∧
    ((init.GetValueNumber ⟨Instruction.CONST_WIDE, 0, 0x10005, [], [0], 0, false, 0, 0⟩
          none).2.1.GetValueNumber
        ⟨Instruction.CONST_WIDE_32, 0x10005, 0, [], [2], 0, false, 0, 0⟩ none).2.1.gvn.Good = true := by
  decide

end LocalValueNumbering

/-! ## Evolution of the value table -/

namespace GlobalValueNumbering

theorem Evolves_refl (g : GlobalValueNumbering) : Evolves 0 g g :=
  ⟨MapExt_refl g, le_refl _, fun _ => ⟨le_refl _, fun hV hI _ => ⟨hV, hI⟩⟩⟩

theorem Evolves_mono {n m : Nat} {g g' : GlobalValueNumbering} (hnm : n ≤ m)
    (h : Evolves n g g') : Evolves m g g' := by
  obtain ⟨h1, h2, h3⟩ := h
  exact ⟨h1, by omega, fun hb => h3 (by omega)⟩

theorem Evolves_trans {n m : Nat} {g1 g2 g3 : GlobalValueNumbering}
    (h12 : Evolves n g1 g2) (h23 : Evolves m g2 g3) : Evolves (n + m) g1 g3 := by
  obtain ⟨a1, a2, a3⟩ := h12
  obtain ⟨b1, b2, b3⟩ := h23
  refine ⟨MapExt_trans a1 b1, by omega, fun hb => ?_⟩
  obtain ⟨c1, c2⟩ := a3 (by omega)
  obtain ⟨d1, d2⟩ := b3 (by omega)
  refine ⟨by omega, fun hV hI hG => ?_⟩
  have hG2 : g2.Good = true := by
    rw [Good_iff] at hG ⊢
    omega
  obtain ⟨e1, e2⟩ := c2 hV hI hG2
  exact d2 e1 e2 hG

theorem Evolves_LookupValue (g : GlobalValueNumbering) (op a b m : Nat) :
    Evolves 1 g (g.LookupValue op a b m).2 := by
  refine ⟨MapExt_LookupValue g op a b m, ?_, ?_⟩
  · cases h : g.global_value_map_.find (BuildKey op a b m) with
    | some n => rw [LookupValue_of_find h]; exact Nat.le_succ _
    | none =>
      rw [LookupValue_of_miss h]
      exact Nat.mod_le _ _
  · intro hb
    cases h : g.global_value_map_.find (BuildKey op a b m) with
    | some n =>
      rw [LookupValue_of_find h]
      exact ⟨le_refl _, fun hV hI _ => ⟨hV, hI⟩⟩
    | none =>
      rw [LookupValue_of_miss h]
      have e2 : u32 (g.last_value_ + 1) = g.last_value_ + 1 := Nat.mod_eq_of_lt hb
      simp only [e2]
      refine ⟨Nat.le_succ _, fun hV hI hG => ?_⟩
      rw [Good_iff] at hG
      simp only at hG
      have e1 : u16 (g.last_value_ + 1) = g.last_value_ + 1 := Nat.mod_eq_of_lt (by omega)
      rw [e1]
      constructor
      · intro k v hk
        simp only [SafeMap.find_Put] at hk
        split at hk
        · cases hk; exact le_refl _
        · exact Nat.le_succ_of_le (hV k v hk)
      · intro k k' v hk hk'
        simp only [SafeMap.find_Put] at hk hk'
        split at hk <;> split at hk'
        · next a b => exact a.symm.trans b
        · cases hk; have := hV _ _ hk'; omega
        · cases hk'; have := hV _ _ hk; omega
        · exact hI k k' v hk hk'

/-- In a table with the invariants, a tuple whose key differs from the key of an existing
binding is given a name different from the bound one, as long as `Good()` holds afterwards. -/
theorem LookupValue_ne_of_key_ne {g : GlobalValueNumbering} {op a b m k r : Nat}
    (hV : g.ValuesBelow) (hI : g.InjectiveMap) (hsmall : g.last_value_ + 1 < 2 ^ 32)
    (hG : (g.LookupValue op a b m).2.Good = true)
    (hk : g.global_value_map_.find k = some r) (hne : k ≠ BuildKey op a b m) :
    (g.LookupValue op a b m).1 ≠ r := by
  cases h : g.global_value_map_.find (BuildKey op a b m) with
  | some n =>
    rw [LookupValue_of_find h]
    intro e
    simp only at e
    subst e
    exact hne (hI _ _ _ hk h)
  | none =>
    rw [LookupValue_of_miss h] at hG ⊢
    rw [Good_iff] at hG
    have e2 : u32 (g.last_value_ + 1) = g.last_value_ + 1 := Nat.mod_eq_of_lt hsmall
    simp only [e2] at hG ⊢
    have e1 : u16 (g.last_value_ + 1) = g.last_value_ + 1 := Nat.mod_eq_of_lt (by omega)
    rw [e1]
    have := hV _ _ hk
    omega

end GlobalValueNumbering

namespace LocalValueNumbering

open GlobalValueNumbering (u16 u32 u64 BuildKey MapExt Evolves)

theorem ev_LookupValue (s : LocalValueNumbering) (op a b m : Nat) :
    Evolves 1 s.gvn (s.LookupValue op a b m).2.gvn :=
  GlobalValueNumbering.Evolves_LookupValue s.gvn op a b m

theorem ev_GetOperandValue (s : LocalValueNumbering) (r : Nat) :
    Evolves 1 s.gvn (s.GetOperandValue r).2.gvn := by
  unfold GetOperandValue
  split
  · exact GlobalValueNumbering.Evolves_mono (Nat.zero_le _) (GlobalValueNumbering.Evolves_refl _)
  · exact ev_LookupValue s _ _ _ _

theorem ev_HandlePutObject (s : LocalValueNumbering) (mir : MIR) :
    Evolves 1 s.gvn (s.HandlePutObject mir).gvn :=
  ev_GetOperandValue s _

end LocalValueNumbering

namespace LocalValueNumbering

open GlobalValueNumbering (u16 u32 u64 BuildKey MapExt Evolves)

/-! ## Loads and stores of instance fields -/

theorem getD_lt_of_forall {l : List Nat} {n : Nat} (i : Nat) (h : ∀ x ∈ l, x < n) (hn : 0 < n) :
    l.getD i 0 < n := by
  rw [List.getD_eq_getElem?_getD]
  cases hi : l[i]? with
  | none => simpa using hn
  | some x => simpa using h x (List.getElem?_mem hi)

/-- With all recorded versions older than the counter, so is every version read. -/
theorem GetMemoryVersion_lt (s : LocalValueNumbering) (base field type : Nat)
    (h : s.VersionsBelowNext) : s.GetMemoryVersion base field type < s.next_memory_version_ := by
  obtain ⟨h1, h2, _, _⟩ := h
  have hk : ∀ k, (s.memory_version_map_.find k).getD 0 < s.next_memory_version_ := by
    intro k
    cases hf : s.memory_version_map_.find k with
    | none => simpa using Nat.lt_of_le_of_lt (Nat.zero_le _) h2
    | some v => simpa using h1 k v hf
  unfold GetMemoryVersion
  simp only []
  split
  · have ha := hk (NO_VALUE, u16 field, u16 type)
    have hb := hk (u16 base, u16 field, u16 type)
    cases hf : s.memory_version_map_.find (NO_VALUE, u16 field, u16 type) with
    | none => simp only []; exact max_lt hb h2
    | some aa =>
      rw [hf] at ha
      simp only [Option.getD_some] at ha
      simp only []
      split
      · exact max_lt ha h2
      · exact max_lt hb h2
  · split
    · exact hk _
    · exact max_lt (hk _) h2

/-- The memory version read depends only on the memory-version map, the unique-object set and
the global memory version. -/
theorem GetMemoryVersion_congr {s s' : LocalValueNumbering}
    (h1 : s'.memory_version_map_ = s.memory_version_map_)
    (h2 : s'.unique_objects_ = s.unique_objects_)
    (h3 : s'.global_memory_version_ = s.global_memory_version_) (base field type : Nat) :
    s'.GetMemoryVersion base field type = s.GetMemoryVersion base field type := by
  unfold GetMemoryVersion
  rw [h1, h2, h3]

/-- A non-unique base sees at least the version bound to the aliased key. -/
theorem GetMemoryVersion_ge_aliased (s : LocalValueNumbering) (base field type v : Nat)
    (hu : u16 base ∉ s.unique_objects_)
    (hf : s.memory_version_map_.find (NO_VALUE, u16 field, u16 type) = some v) :
    v ≤ s.GetMemoryVersion base field type := by
  unfold GetMemoryVersion
  simp only []
  by_cases hb : u16 base = NO_VALUE
  · simp only [hb, ne_eq, not_true_eq_false, false_and, if_false, hf, Option.getD_some]
    exact le_max_left _ _
  · simp only [ne_eq, hb, not_false_eq_true, hu, and_self, if_true, hf]
    split <;> omega

/-- The field id assigned once is returned again, and the call changes nothing then. -/
theorem GetFieldId_of_find {s : LocalValueNumbering} {d f id : Nat}
    (h : s.field_index_map_.find (d, u16 f) = some id) : s.GetFieldId d f = (id, s) := by
  unfold GetFieldId
  simp only [h]

theorem find_after_GetFieldId (s : LocalValueNumbering) (d f : Nat) :
    (s.GetFieldId d f).2.field_index_map_.find (d, u16 f) = some (s.GetFieldId d f).1 := by
  unfold GetFieldId
  simp only []
  cases h : s.field_index_map_.find (d, u16 f) with
  | some id => simpa using h
  | none => simp [SafeMap.find_Put]

/-- What `AdvanceMemoryVersion` does to the state when the base is `NO_VALUE` or not unique. -/
theorem AdvanceMemoryVersion_aliased (s : LocalValueNumbering) (base field type : Nat)
    (hu : u16 base ∉ s.unique_objects_) :
    (s.AdvanceMemoryVersion base field type).2.memory_version_map_.find
        (NO_VALUE, u16 field, u16 type) = some s.next_memory_version_ ∧
      (∀ k v, (s.AdvanceMemoryVersion base field type).2.memory_version_map_.find k = some v →
        v = s.next_memory_version_ ∨ s.memory_version_map_.find k = some v) ∧
      (s.AdvanceMemoryVersion base field type).2.next_memory_version_ =
        u16 (s.next_memory_version_ + 1) := by
  unfold AdvanceMemoryVersion
  simp only []
  by_cases hb : u16 base = NO_VALUE
  · simp only [hb, ne_eq, not_true_eq_false, false_and, if_false, SafeMap.find_Overwrite,
      if_true, true_and, and_true]
    intro k v hk
    split at hk
    · left; cases hk; rfl
    · right; exact hk
  · simp only [ne_eq, hb, not_false_eq_true, hu, and_self, if_true, SafeMap.find_Overwrite,
      true_and, and_true]
    intro k v hk
    split at hk
    · left; cases hk; rfl
    · split at hk
      · left; cases hk; rfl
      · right; exact hk

end LocalValueNumbering

namespace LocalValueNumbering

open GlobalValueNumbering (u16 u32 u64 BuildKey MapExt Evolves)
open Instruction

/-- The instance-field-get cases on a non-volatile field: result and new value table. -/
theorem iget_result (s : LocalValueNumbering) (mir : MIR) (next : Option MIR)
    (harm : armOf (u16 mir.opcode) = .iget) (hvol : mir.is_volatile = false) :
    (s.GetValueNumber mir next).1 = (GlobalValueNumbering.lookupT (s.igetPre mir).gvn
        (s.igetTuple mir)).1 ∧
      (s.GetValueNumber mir next).2.1.gvn = (GlobalValueNumbering.lookupT (s.igetPre mir).gvn
        (s.igetTuple mir)).2 := by
  unfold GetValueNumber igetPre igetTuple GlobalValueNumbering.lookupT
  simp only [harm, hvol]
  split <;> simp [LookupValue]

/-- The instance-field-get cases on a non-volatile field leave the memory versions, the
unique-object set alone and keep the field index map of the state of the lookup. -/
theorem iget_frame (s : LocalValueNumbering) (mir : MIR) (next : Option MIR)
    (harm : armOf (u16 mir.opcode) = .iget) (hvol : mir.is_volatile = false) :
    (s.GetValueNumber mir next).2.1.memory_version_map_ = s.memory_version_map_ ∧
      (s.GetValueNumber mir next).2.1.next_memory_version_ = s.next_memory_version_ ∧
      (s.GetValueNumber mir next).2.1.global_memory_version_ = s.global_memory_version_ ∧
      (s.GetValueNumber mir next).2.1.unresolved_ifield_version_ =
        s.unresolved_ifield_version_ ∧
      (s.GetValueNumber mir next).2.1.unresolved_sfield_version_ =
        s.unresolved_sfield_version_ ∧
      (s.GetValueNumber mir next).2.1.unique_objects_ = s.unique_objects_ ∧
      (s.GetValueNumber mir next).2.1.field_index_map_ = (s.igetPre mir).field_index_map_ := by
  unfold GetValueNumber igetPre
  simp only [harm, hvol]
  split <;> simp

theorem igetPre_frame (s : LocalValueNumbering) (mir : MIR) :
    (s.igetPre mir).memory_version_map_ = s.memory_version_map_ ∧
      (s.igetPre mir).next_memory_version_ = s.next_memory_version_ ∧
      (s.igetPre mir).global_memory_version_ = s.global_memory_version_ ∧
      (s.igetPre mir).unresolved_ifield_version_ = s.unresolved_ifield_version_ ∧
      (s.igetPre mir).unique_objects_ = s.unique_objects_ ∧
      Evolves 1 s.gvn (s.igetPre mir).gvn := by
  unfold igetPre
  simp only [GetFieldId_memory_version_map_, HandleNullCheck_memory_version_map_,
    GetOperandValue_memory_version_map_, GetFieldId_next_memory_version_,
    HandleNullCheck_next_memory_version_, GetOperandValue_next_memory_version_,
    GetFieldId_global_memory_version_, HandleNullCheck_global_memory_version_,
    GetOperandValue_global_memory_version_, GetFieldId_unresolved_ifield_version_,
    HandleNullCheck_unresolved_ifield_version_, GetOperandValue_unresolved_ifield_version_,
    GetFieldId_unique_objects_, HandleNullCheck_unique_objects_,
    GetOperandValue_unique_objects_, GetFieldId_gvn, HandleNullCheck_gvn, true_and]
  exact ev_GetOperandValue s _

/-- The tuple of a non-volatile instance-field get, component by component. -/
theorem igetTuple_eq (s : LocalValueNumbering) (mir : MIR) :
    (s.igetTuple mir).1 =
        (if u16 mir.opcode = IGET_WIDE then IGET_WIDE else IGET) ∧
      (s.igetTuple mir).2.1 = (s.GetOperandValue (mir.uses.getD 0 0)).1 ∧
      (s.igetPre mir).field_index_map_.find (mir.declaring_dex_file, u16 mir.declaring_field_idx) =
        some (s.igetTuple mir).2.2.1 ∧
      (s.igetTuple mir).2.2.2 =
        max ((s.igetPre mir).unresolved_ifield_version_.getD (u16 (u16 mir.opcode - IGET)) 0)
          ((s.igetPre mir).GetMemoryVersion (s.igetTuple mir).2.1 (s.igetTuple mir).2.2.1
            (u16 (u16 mir.opcode - IGET))) := by
  unfold igetTuple igetPre
  exact ⟨rfl, rfl, find_after_GetFieldId _ _ _, rfl⟩

/-- If the field already has an id, the get case looks that id up. -/
theorem igetTuple_field_of_find (s : LocalValueNumbering) (mir : MIR) (id : Nat)
    (h : s.field_index_map_.find (mir.declaring_dex_file, u16 mir.declaring_field_idx) = some id) :
    (s.igetTuple mir).2.2.1 = id := by
  have h' : ((s.GetOperandValue (mir.uses.getD 0 0)).2.HandleNullCheck mir
      (s.GetOperandValue (mir.uses.getD 0 0)).1).1.field_index_map_.find
      (mir.declaring_dex_file, u16 mir.declaring_field_idx) = some id := by
    simpa using h
  unfold igetTuple
  simp only [GetFieldId_of_find h']

/-- The instance-field-put cases on a resolved, non-volatile field: the final state. -/
theorem iput_state (s : LocalValueNumbering) (mir : MIR) (next : Option MIR)
    (harm : armOf (u16 mir.opcode) = .iput ∨ armOf (u16 mir.opcode) = .iputObject)
    (hres : mir.declaring_dex_file ≠ 0) (hvol : mir.is_volatile = false) :
    (s.GetValueNumber mir next).2.1 =
      (let b := (s.iputEntry mir).GetOperandValue
         (mir.uses.getD (if u16 mir.opcode = IPUT_WIDE then 2 else 1) 0)
       let n := b.2.HandleNullCheck mir (s.iputBase mir)
       let f := n.1.GetFieldId mir.declaring_dex_file mir.declaring_field_idx
       (f.2.AdvanceMemoryVersion (s.iputBase mir) f.1 (u16 (u16 mir.opcode - IPUT))).2) := by
  unfold GetValueNumber iputEntry iputBase
  rcases harm with harm | harm
  · simp only [harm]
    unfold iputBody iputEntry
    simp [hres, hvol, harm]
  · simp only [harm]
    unfold iputBody iputEntry
    simp [hres, hvol, harm]

theorem iputEntry_frame (s : LocalValueNumbering) (mir : MIR) :
    (s.iputEntry mir).memory_version_map_ = s.memory_version_map_ ∧
      (s.iputEntry mir).next_memory_version_ = s.next_memory_version_ ∧
      (s.iputEntry mir).global_memory_version_ = s.global_memory_version_ ∧
      (s.iputEntry mir).unresolved_ifield_version_ = s.unresolved_ifield_version_ ∧
      (s.iputEntry mir).unresolved_sfield_version_ = s.unresolved_sfield_version_ ∧
      (s.iputEntry mir).field_index_map_ = s.field_index_map_ ∧
      Evolves 1 s.gvn (s.iputEntry mir).gvn := by
  unfold iputEntry
  split
  · simp only [HandlePutObject_memory_version_map_, HandlePutObject_next_memory_version_,
      HandlePutObject_global_memory_version_, HandlePutObject_unresolved_ifield_version_,
      HandlePutObject_unresolved_sfield_version_, HandlePutObject_field_index_map_, true_and]
    exact ev_HandlePutObject s mir
  · exact ⟨rfl, rfl, rfl, rfl, rfl, rfl, GlobalValueNumbering.Evolves_mono (Nat.zero_le _) (GlobalValueNumbering.Evolves_refl _)⟩

end LocalValueNumbering

namespace LocalValueNumbering

open GlobalValueNumbering (u16 u32 u64 BuildKey MapExt Evolves)
open Instruction

/-- C3: a load after a possibly aliasing store is not numbered like a load before it. The
block is `IGET b.f` (`g1`), `IPUT a.f` (`p`), `IGET b.f` (`g2`): `g1` and `g2` have the same
opcode of the IGET family, `p` has the opcode of the IPUT family for the same field type, and
the three name the same resolved, non-volatile field. `b` is the value name of the base of
the second load (the first load may go through `b` or through any other base), `a` that of
the base of the store; both are 16-bit and outside the unique-object set when the store has
been processed. If value names and memory versions do not overflow
(the table invariants hold at the start, `Good()` holds at the start and at the end, and the
memory version counter can be incremented), the two loads get different value names. -/
theorem load_after_aliasing_store (s s1 s2 : LocalValueNumbering) (g1 p g2 : MIR)
    (n1 n2 n3 : Option MIR) (a b : Nat)
    (hg1 : armOf (u16 g1.opcode) = .iget)
    (hp : armOf (u16 p.opcode) = .iput ∨ armOf (u16 p.opcode) = .iputObject)
    (hg2 : g2.opcode = g1.opcode)
    (htype : u16 p.opcode - IPUT = u16 g1.opcode - IGET)
    (hres : g1.declaring_dex_file ≠ 0) (hvol : g1.is_volatile = false)
    (hpf : p.declaring_dex_file = g1.declaring_dex_file ∧
      p.declaring_field_idx = g1.declaring_field_idx ∧ p.is_volatile = false)
    (hgf : g2.declaring_dex_file = g1.declaring_dex_file ∧
      g2.declaring_field_idx = g1.declaring_field_idx ∧ g2.is_volatile = false)
    (hs1 : s1 = (s.GetValueNumber g1 n1).2.1)
    (hs2 : s2 = (s1.GetValueNumber p n2).2.1)
    (ha : s1.iputBase p = a)
    (hb2 : (s2.GetOperandValue (g2.uses.getD 0 0)).1 = b)
    (ha16 : a < 2 ^ 16) (hb16 : b < 2 ^ 16)
    (hau : a ∉ s2.unique_objects_) (hbu : b ∉ s2.unique_objects_)
    (hGood0 : s.gvn.Good = true) (hV : s.gvn.ValuesBelow) (hI : s.gvn.InjectiveMap)
    (hver : s.VersionsBelowNext) (hnext : s.next_memory_version_ + 1 < 2 ^ 16)
    (hGood : (s2.GetValueNumber g2 n3).2.1.gvn.Good = true) :
    (s2.GetValueNumber g2 n3).1 ≠ (s.GetValueNumber g1 n1).1 := by
  obtain ⟨hpd, hpi, hpv⟩ := hpf
  obtain ⟨hgd, hgi, hgv⟩ := hgf
  have hg2arm : armOf (u16 g2.opcode) = .iget := by rw [hg2]; exact hg1
  have ea : u16 a = a := Nat.mod_eq_of_lt ha16
  have eb : u16 b = b := Nat.mod_eq_of_lt hb16
  -- the first load
  obtain ⟨r1, r1g⟩ := iget_result s g1 n1 hg1 hvol
  obtain ⟨f1m, f1n, f1g, f1u, f1su, f1q, f1f⟩ := iget_frame s g1 n1 hg1 hvol
  obtain ⟨q1m, q1n, q1g, q1u, q1q, q1e⟩ := igetPre_frame s g1
  obtain ⟨_, _, t1f, t1m⟩ := igetTuple_eq s g1
  -- its memory version is older than the counter
  have hpos : 0 < s.next_memory_version_ := Nat.lt_of_le_of_lt (Nat.zero_le _) hver.2.1
  have hm1 : (s.igetTuple g1).2.2.2 < s.next_memory_version_ := by
    rw [t1m, q1u, GetMemoryVersion_congr q1m q1q q1g]
    exact max_lt (getD_lt_of_forall _ hver.2.2.1 hpos) (GetMemoryVersion_lt s _ _ _ hver)
  have hfind1 : s1.field_index_map_.find (g1.declaring_dex_file, u16 g1.declaring_field_idx) =
      some (s.igetTuple g1).2.2.1 := by
    rw [hs1, f1f]; exact t1f
  have hkey1 : s1.gvn.global_value_map_.find (GlobalValueNumbering.keyT (s.igetTuple g1)) =
      some (s.GetValueNumber g1 n1).1 := by
    rw [hs1, r1g, r1]
    exact GlobalValueNumbering.find_after_LookupValue _ _ _ _ _
  have hev1 : Evolves 2 s.gvn s1.gvn := by
    rw [hs1, r1g]
    exact GlobalValueNumbering.Evolves_trans q1e (GlobalValueNumbering.Evolves_LookupValue _ _ _ _ _)
  -- the store
  have hs2e := iput_state s1 p n2 hp (by rw [hpd]; exact hres) hpv
  rw [← hs2, ha] at hs2e
  simp only [] at hs2e
  obtain ⟨e_m, e_n, e_g, e_u, e_su, e_f, e_e⟩ := iputEntry_frame s1 p
  have hfindP : (((s1.iputEntry p).GetOperandValue
      (p.uses.getD (if u16 p.opcode = IPUT_WIDE then 2 else 1) 0)).2.HandleNullCheck p
        a).1.field_index_map_.find (p.declaring_dex_file, u16 p.declaring_field_idx) =
      some (s.igetTuple g1).2.2.1 := by
    simp only [HandleNullCheck_field_index_map_, GetOperandValue_field_index_map_, e_f, hpd, hpi]
    exact hfind1
  rw [GetFieldId_of_find hfindP] at hs2e
  simp only [] at hs2e
  have hau2 : u16 a ∉ (((s1.iputEntry p).GetOperandValue
      (p.uses.getD (if u16 p.opcode = IPUT_WIDE then 2 else 1) 0)).2.HandleNullCheck p
        a).1.unique_objects_ := by
    rw [ea]
    rw [hs2e] at hau
    simpa using hau
  obtain ⟨am, akv, an⟩ := AdvanceMemoryVersion_aliased _ a (s.igetTuple g1).2.2.1
    (u16 (u16 p.opcode - IPUT)) hau2
  rw [← hs2e] at am akv an
  simp only [HandleNullCheck_next_memory_version_, GetOperandValue_next_memory_version_, e_n,
    HandleNullCheck_memory_version_map_, GetOperandValue_memory_version_map_, e_m] at am akv an
  rw [hs1, f1n] at am an
  rw [hs1, f1m] at akv
  have hn2 : s2.next_memory_version_ = s.next_memory_version_ + 1 := by
    rw [an]; exact Nat.mod_eq_of_lt hnext
  have hg2v : s2.global_memory_version_ = s.global_memory_version_ := by
    rw [hs2e]
    simp only [AdvanceMemoryVersion_global_memory_version_, HandleNullCheck_global_memory_version_,
      GetOperandValue_global_memory_version_, e_g]
    rw [hs1, f1g]
  have hu2 : s2.unresolved_ifield_version_ = s.unresolved_ifield_version_ := by
    rw [hs2e]
    simp only [AdvanceMemoryVersion_unresolved_ifield_version_,
      HandleNullCheck_unresolved_ifield_version_, GetOperandValue_unresolved_ifield_version_, e_u]
    rw [hs1, f1u]
  have hsu2 : s2.unresolved_sfield_version_ = s.unresolved_sfield_version_ := by
    rw [hs2e]
    simp only [AdvanceMemoryVersion_unresolved_sfield_version_,
      HandleNullCheck_unresolved_sfield_version_, GetOperandValue_unresolved_sfield_version_, e_su]
    rw [hs1, f1su]
  have hf2 : s2.field_index_map_.find (g2.declaring_dex_file, u16 g2.declaring_field_idx) =
      some (s.igetTuple g1).2.2.1 := by
    rw [hs2e, hgd, hgi]
    simp only [AdvanceMemoryVersion_field_index_map_, HandleNullCheck_field_index_map_,
      GetOperandValue_field_index_map_, e_f]
    exact hfind1
  have hev2 : Evolves 2 s1.gvn s2.gvn := by
    rw [hs2e]
    simp only [AdvanceMemoryVersion_gvn, HandleNullCheck_gvn]
    exact GlobalValueNumbering.Evolves_trans e_e (ev_GetOperandValue _ _)
  have hver2 : s2.VersionsBelowNext := by
    obtain ⟨v1, v2, v3, v4⟩ := hver
    refine ⟨?_, ?_, ?_, ?_⟩
    · intro k v hk
      rw [hn2]
      rcases akv k v hk with h | h
      · omega
      · exact Nat.lt_succ_of_lt (v1 k v h)
    · rw [hn2, hg2v]; omega
    · rw [hn2, hu2]; intro x hx; exact Nat.lt_succ_of_lt (v3 x hx)
    · rw [hn2, hsu2]; intro x hx; exact Nat.lt_succ_of_lt (v4 x hx)
  -- the second load
  obtain ⟨r2, r2g⟩ := iget_result s2 g2 n3 hg2arm hgv
  obtain ⟨q2m, q2n, q2g, q2u, q2q, q2e⟩ := igetPre_frame s2 g2
  obtain ⟨t2o, t2b, _, t2m⟩ := igetTuple_eq s2 g2
  have t2f := igetTuple_field_of_find s2 g2 _ hf2
  rw [hb2] at t2b
  have hty : u16 (u16 g2.opcode - IGET) = u16 (u16 p.opcode - IPUT) := by rw [hg2, htype]
  have hm2lo : s.next_memory_version_ ≤ (s2.igetTuple g2).2.2.2 := by
    rw [t2m, t2b, t2f, hty]
    refine le_trans ?_ (le_max_right _ _)
    refine GetMemoryVersion_ge_aliased _ b _ _ _ ?_ ?_
    · rw [eb, q2q]; exact hbu
    · rw [q2m]; exact am
  have hpos2 : 0 < s2.next_memory_version_ := by omega
  have hm2hi : (s2.igetTuple g2).2.2.2 < s.next_memory_version_ + 1 := by
    rw [← hn2, t2m, q2u, GetMemoryVersion_congr q2m q2q q2g]
    exact max_lt (getD_lt_of_forall _ hver2.2.2.1 hpos2) (GetMemoryVersion_lt s2 _ _ _ hver2)
  have hkne : GlobalValueNumbering.keyT (s.igetTuple g1) ≠
      GlobalValueNumbering.keyT (s2.igetTuple g2) := by
    intro hk
    have h4 := (GlobalValueNumbering.BuildKey_inj_u16 hk).2.2.2
    unfold u16 at h4
    omega
  -- the value table when the second load looks its tuple up
  have hev : Evolves 5 s.gvn (s2.igetPre g2).gvn := GlobalValueNumbering.Evolves_trans (GlobalValueNumbering.Evolves_trans hev1 hev2) q2e
  have hG0 := (GlobalValueNumbering.Good_iff _).1 hGood0
  obtain ⟨hext, hle, hrest⟩ := hev
  obtain ⟨_, hinv⟩ := hrest (by omega)
  have hevL := GlobalValueNumbering.Evolves_LookupValue (s2.igetPre g2).gvn
    (s2.igetTuple g2).1 (s2.igetTuple g2).2.1 (s2.igetTuple g2).2.2.1 (s2.igetTuple g2).2.2.2
  have hGoodL : ((s2.igetPre g2).gvn.LookupValue (s2.igetTuple g2).1 (s2.igetTuple g2).2.1
      (s2.igetTuple g2).2.2.1 (s2.igetTuple g2).2.2.2).2.Good = true := by
    rw [r2g] at hGood; exact hGood
  have hGoodP : (s2.igetPre g2).gvn.Good = true := by
    have h1 := (hevL.2.2 (by omega)).1
    rw [GlobalValueNumbering.Good_iff] at hGoodL ⊢
    omega
  obtain ⟨hVP, hIP⟩ := hinv hV hI hGoodP
  have hkeyP : (s2.igetPre g2).gvn.global_value_map_.find
      (GlobalValueNumbering.keyT (s.igetTuple g1)) = some (s.GetValueNumber g1 n1).1 :=
    q2e.1 _ _ (hev2.1 _ _ hkey1)
  rw [r2]
  exact GlobalValueNumbering.LookupValue_ne_of_key_ne hVP hIP (by omega) hGoodL hkeyP hkne

/-- Witness for C3: `iget v2, v0, f`; `iput v3, v1, f`; `iget v4, v0, f` from the initial
state (value names: 1 for `v0`, 3 for `v1`). -/
theorem load_after_aliasing_store_witness :
    (((init.GetValueNumber ⟨0x52, 0, 0, [0], [2], 0, false, 1, 7⟩ none).2.1.GetValueNumber
        ⟨0x59, 0, 0, [3, 1], [], 0, false, 1, 7⟩ none).2.1.GetValueNumber
        ⟨0x52, 0, 0, [0], [4], 0, false, 1, 7⟩ none).1 ≠
      (init.GetValueNumber ⟨0x52, 0, 0, [0], [2], 0, false, 1, 7⟩ none).1 :=
  load_after_aliasing_store init _ _ ⟨0x52, 0, 0, [0], [2], 0, false, 1, 7⟩
    ⟨0x59, 0, 0, [3, 1], [], 0, false, 1, 7⟩ ⟨0x52, 0, 0, [0], [4], 0, false, 1, 7⟩
    none none none 3 1 (by decide) (by decide) rfl (by decide) (by decide) rfl
    ⟨rfl, rfl, rfl⟩ ⟨rfl, rfl, rfl⟩ rfl rfl (by decide) (by decide) (by norm_num) (by norm_num)
    (by decide) (by decide) (by decide) (by intro k v h; cases h)
    (by intro k k' v h; cases h)
    ⟨(by intro k v h; cases h), (by decide), (by decide), (by decide)⟩ (by decide) (by decide)

end LocalValueNumbering

/-! ## Forwarding addresses -/

namespace gc

open GlobalValueNumbering (u32)

theorem RoundUp_mod (x : Nat) : RoundUp x kObjectAlignment % 8 = 0 := by
  unfold RoundUp
  exact Nat.mul_mod_left _ _

theorem FromForwardingAddress_lt (a : Nat) : LockWord.FromForwardingAddress a < 2 ^ 32 :=
  Nat.mod_lt _ (by norm_num)

theorem GetLockWord_SetLockWord_same (mem : Mem) (o v : Nat) (hv : v < 2 ^ 32) :
    GetLockWord (SetLockWord mem o v) o = v := by
  unfold GetLockWord SetLockWord
  simp
  omega

theorem GetLockWord_SetLockWord_other (mem : Mem) (o o' v : Nat)
    (h : o' + 4 ≤ o ∨ o + 4 ≤ o') :
    GetLockWord (SetLockWord mem o v) o' = GetLockWord mem o' := by
  unfold GetLockWord SetLockWord
  have e0 : ¬ (o' + kMonitorOffset = o + kMonitorOffset) := by omega
  have e1 : ¬ (o' + kMonitorOffset = o + kMonitorOffset + 1) := by omega
  have e2 : ¬ (o' + kMonitorOffset = o + kMonitorOffset + 2) := by omega
  have e3 : ¬ (o' + kMonitorOffset = o + kMonitorOffset + 3) := by omega
  have f0 : ¬ (o' + kMonitorOffset + 1 = o + kMonitorOffset) := by omega
  have f1 : ¬ (o' + kMonitorOffset + 1 = o + kMonitorOffset + 1) := by omega
  have f2 : ¬ (o' + kMonitorOffset + 1 = o + kMonitorOffset + 2) := by omega
  have f3 : ¬ (o' + kMonitorOffset + 1 = o + kMonitorOffset + 3) := by omega
  have g0 : ¬ (o' + kMonitorOffset + 2 = o + kMonitorOffset) := by omega
  have g1 : ¬ (o' + kMonitorOffset + 2 = o + kMonitorOffset + 1) := by omega
  have g2 : ¬ (o' + kMonitorOffset + 2 = o + kMonitorOffset + 2) := by omega
  have g3 : ¬ (o' + kMonitorOffset + 2 = o + kMonitorOffset + 3) := by omega
  have h0 : ¬ (o' + kMonitorOffset + 3 = o + kMonitorOffset) := by omega
  have h1 : ¬ (o' + kMonitorOffset + 3 = o + kMonitorOffset + 1) := by omega
  have h2 : ¬ (o' + kMonitorOffset + 3 = o + kMonitorOffset + 2) := by omega
  have h3 : ¬ (o' + kMonitorOffset + 3 = o + kMonitorOffset + 3) := by omega
  simp only [e0, e1, e2, e3, f0, f1, f2, f3, g0, g1, g2, g3, h0, h1, h2, h3, if_false]

theorem mem_bitmapSet (x obj : Nat) (bits : List Nat) :
    x ∈ bitmapSet obj bits ↔ x = obj ∨ x ∈ bits := by
  unfold bitmapSet
  split
  · constructor
    · exact Or.inr
    · rintro (h | h)
      · subst h; assumption
      · exact h
  · simp

namespace MarkCompact

/-- What one `FowardObject` does, field by field. -/
theorem FowardObject_fields (s : MarkCompact) (obj : Nat) :
    (s.FowardObject obj).space_begin = s.space_begin ∧
      (s.FowardObject obj).space_end = s.space_end ∧
      (s.FowardObject obj).SizeOf = s.SizeOf ∧
      (s.FowardObject obj).bump_pointer_ = s.bump_pointer_ + s.alignedSize obj ∧
      (s.FowardObject obj).live_objects_in_space_ = s.live_objects_in_space_ + 1 ∧
      (s.FowardObject obj).mem =
        SetLockWord s.mem obj (LockWord.FromForwardingAddress s.bump_pointer_) ∧
      (s.FowardObject obj).objects_before_forwarding_ =
        bitmapSet (obj + s.alignedSize obj - kObjectAlignment / 2) s.objects_before_forwarding_ := by
  unfold FowardObject alignedSize
  simp only []
  split <;> exact ⟨rfl, rfl, rfl, rfl, rfl, rfl, rfl⟩

/-- The bitmap scan of `CalculateObjectForwardingAddresses` forwards, in ascending order,
exactly the aligned addresses that were marked when the scan reached the range: the end
markers it sets on the way are not aligned. -/
theorem visitFrom_forward (n addr : Nat) (s : MarkCompact) :
    visitFrom (fun t => t.objects_before_forwarding_) CalculateObjectForwardingAddressVisitor
        n addr s =
      ((List.range' addr n).filter (fun x => decide (x % kObjectAlignment = 0) &&
        decide (x ∈ s.objects_before_forwarding_))).foldl FowardObject s := by
  induction n generalizing addr s with
  | zero => rfl
  | succ n ih =>
    rw [visitFrom, List.range'_succ, List.filter_cons]
    by_cases hm : addr ∈ s.objects_before_forwarding_
    · by_cases ha : addr % kObjectAlignment = 0
      · have hv : CalculateObjectForwardingAddressVisitor s addr = s.FowardObject addr := by
          simp [CalculateObjectForwardingAddressVisitor, IsAligned, ha]
        simp only [hm, if_true, ha, decide_True, Bool.and_self, List.foldl_cons, hv]
        rw [ih]
        congr 1
        apply List.filter_congr
        intro x hx
        rw [List.mem_range'] at hx
        obtain ⟨i, hi, rfl⟩ := hx
        rw [(FowardObject_fields s addr).2.2.2.2.2.2]
        simp only [one_mul]
        by_cases hx8 : (addr + 1 + i) % kObjectAlignment = 0
        · have hr := RoundUp_mod (s.SizeOf addr)
          have hne : addr + 1 + i ≠ addr + s.alignedSize addr - kObjectAlignment / 2 := by
            unfold alignedSize
            simp only [kObjectAlignment] at ha hx8 hr ⊢
            omega
          simp only [mem_bitmapSet, hne, false_or]
        · simp only [hx8, decide_False, Bool.false_and]
      · have hv : CalculateObjectForwardingAddressVisitor s addr = s := by
          simp [CalculateObjectForwardingAddressVisitor, IsAligned, ha]
        simp only [hm, if_true, ha, decide_False, Bool.false_and, hv]
        exact ih _ _
    · simp only [hm, if_false, decide_False, Bool.and_false]
      exact ih _ _

theorem alignedSize_FowardObject (s : MarkCompact) (obj x : Nat) :
    (s.FowardObject obj).alignedSize x = s.alignedSize x := by
  unfold alignedSize
  rw [(FowardObject_fields s obj).2.2.1]

/-- Forwarding the objects of an ascending list of aligned addresses, one after the other. -/
theorem foldl_FowardObject (L : List Nat) (s : MarkCompact)
    (hal : ∀ x ∈ L, x % 8 = 0) (hs : L.Pairwise (fun a b => a < b)) :
    (L.foldl FowardObject s).bump_pointer_ = s.bump_pointer_ + (L.map s.alignedSize).sum ∧
      (L.foldl FowardObject s).live_objects_in_space_ = s.live_objects_in_space_ + L.length ∧
      (∀ o ∈ L, GetLockWord (L.foldl FowardObject s).mem o =
        LockWord.FromForwardingAddress
          (s.bump_pointer_ + ((L.filter (fun x => decide (x < o))).map s.alignedSize).sum)) ∧
      (∀ y, y % 8 = 0 → y ∉ L →
        GetLockWord (L.foldl FowardObject s).mem y = GetLockWord s.mem y) := by
  induction L generalizing s with
  | nil => simp
  | cons x rest ih =>
    obtain ⟨hx, hrest⟩ := List.pairwise_cons.1 hs
    have hal' : ∀ y ∈ rest, y % 8 = 0 := fun y hy => hal y (List.mem_cons_of_mem _ hy)
    have hx8 : x % 8 = 0 := hal x (List.mem_cons_self _ _)
    obtain ⟨_, _, _, fb, fl, fm, _⟩ := FowardObject_fields s x
    obtain ⟨i1, i2, i3, i4⟩ := ih (s.FowardObject x) hal' hrest
    have hsz : (s.FowardObject x).alignedSize = s.alignedSize :=
      funext (alignedSize_FowardObject s x)
    rw [hsz] at i1 i3
    rw [List.foldl_cons]
    refine ⟨?_, ?_, ?_, ?_⟩
    · rw [i1, fb, List.map_cons, List.sum_cons]; omega
    · rw [i2, fl, List.length_cons]; omega
    · intro o ho
      rcases List.mem_cons.1 ho with h | h
      · subst h
        have hnot : o ∉ rest := fun hmem => Nat.lt_irrefl _ (hx o hmem)
        rw [i4 o hx8 hnot, fm, GetLockWord_SetLockWord_same _ _ _ (FromForwardingAddress_lt _)]
        have hf : (o :: rest).filter (fun x => decide (x < o)) = [] := by
          rw [List.filter_eq_nil_iff]
          intro y hy
          rcases List.mem_cons.1 hy with e | e
          · subst e; simp
          · have := hx y e
            simp only [decide_eq_true_eq]
            omega
        rw [hf]
        simp
      · have hlt : x < o := hx o h
        rw [i3 o h, fb]
        rw [List.filter_cons]
        simp only [hlt, decide_True, if_true, List.map_cons, List.sum_cons]
        congr 1
        omega
    · intro y hy hny
      have hyx : y ≠ x := fun e => hny (e ▸ List.mem_cons_self _ _)
      have hyr : y ∉ rest := fun hmem => hny (List.mem_cons_of_mem _ hmem)
      rw [i4 y hy hyr, fm]
      exact GetLockWord_SetLockWord_other _ _ _ _ (by omega)

theorem markedObjects_aligned (s : MarkCompact) : ∀ x ∈ s.markedObjects, x % 8 = 0 := by
  intro x hx
  unfold markedObjects at hx
  rw [List.mem_filter] at hx
  have h2 := hx.2
  simp only [Bool.and_eq_true, decide_eq_true_eq, kObjectAlignment] at h2
  exact h2.1

theorem markedObjects_sorted (s : MarkCompact) :
    s.markedObjects.Pairwise (fun a b => a < b) := by
  unfold markedObjects
  apply List.Pairwise.filter
  exact List.pairwise_lt_range' _ _

/-- `CalculateObjectForwardingAddresses` forwards the marked objects in ascending order,
starting with the bump pointer at `Begin`. -/
theorem CalculateObjectForwardingAddresses_eq_foldl (s : MarkCompact) :
    s.CalculateObjectForwardingAddresses =
      s.markedObjects.foldl FowardObject { s with bump_pointer_ := s.space_begin } := by
  unfold CalculateObjectForwardingAddresses VisitMarkedRange
  exact visitFrom_forward _ _ _

/-- C9: after `CalculateObjectForwardingAddresses`, the lock word of each marked object `o`
of the compacted space is the forwarding-address word for `Begin` plus the sum of
`RoundUp(SizeOf, kObjectAlignment)` over the marked objects at lower addresses than `o`;
`bump_pointer_` is `Begin` plus that sum over all marked objects; `live_objects_in_space_` has
grown by the number of marked objects. The end markers set during the scan are neither
forwarded nor counted. -/
theorem CalculateObjectForwardingAddresses_spec (s : MarkCompact) :
    (∀ o ∈ s.markedObjects,
      GetLockWord s.CalculateObjectForwardingAddresses.mem o =
        LockWord.FromForwardingAddress (s.space_begin +
          ((s.markedObjects.filter (fun x => decide (x < o))).map s.alignedSize).sum)) ∧
      s.CalculateObjectForwardingAddresses.bump_pointer_ =
        s.space_begin + (s.markedObjects.map s.alignedSize).sum ∧
      s.CalculateObjectForwardingAddresses.live_objects_in_space_ =
        s.live_objects_in_space_ + s.markedObjects.length := by
  have h := foldl_FowardObject s.markedObjects { s with bump_pointer_ := s.space_begin }
    (markedObjects_aligned s) (markedObjects_sorted s)
  rw [CalculateObjectForwardingAddresses_eq_foldl]
  exact ⟨h.2.2.1, h.1, h.2.1⟩

end MarkCompact

end gc

/-! ## Moving the objects -/

namespace gc

open GlobalValueNumbering (u32)

theorem lor_forwarding (t : Nat) (h : t < 2 ^ 30) : t ||| 3 <<< 30 = 3 * 2 ^ 30 + t := by
  rw [Nat.lor_comm, Nat.shiftLeft_eq]
  exact GlobalValueNumbering.lor_mul_pow 3 t 30 h

/-- A 4-aligned address below `2^32` is read back from its forwarding-address word. -/
theorem ForwardingAddress_FromForwardingAddress (a : Nat) (h4 : a % 4 = 0) (h : a < 2 ^ 32) :
    LockWord.ForwardingAddress (LockWord.FromForwardingAddress a) = a := by
  unfold LockWord.ForwardingAddress LockWord.FromForwardingAddress u32
  rw [Nat.shiftRight_eq_div_pow, lor_forwarding _ (by omega), Nat.shiftLeft_eq]
  omega

theorem memmove_of_in (mem : Mem) (dest src len k : Nat) (hk : k < len) :
    memmove mem dest src len (dest + k) = mem (src + k) := by
  unfold memmove
  have h1 : dest ≤ dest + k ∧ dest + k < dest + len := by omega
  rw [if_pos h1]
  congr 2
  omega

theorem memmove_of_out (mem : Mem) (dest src len x : Nat) (hx : x < dest ∨ dest + len ≤ x) :
    memmove mem dest src len x = mem x := by
  unfold memmove
  have h1 : ¬ (dest ≤ x ∧ x < dest + len) := by omega
  rw [if_neg h1]

theorem SetLockWord_of_out (mem : Mem) (obj v x : Nat) (hx : x < obj + 4 ∨ obj + 8 ≤ x) :
    SetLockWord mem obj v x = mem x := by
  unfold SetLockWord
  have e0 : ¬ (x = obj + kMonitorOffset) := by simp only [kMonitorOffset]; omega
  have e1 : ¬ (x = obj + kMonitorOffset + 1) := by simp only [kMonitorOffset]; omega
  have e2 : ¬ (x = obj + kMonitorOffset + 2) := by simp only [kMonitorOffset]; omega
  have e3 : ¬ (x = obj + kMonitorOffset + 3) := by simp only [kMonitorOffset]; omega
  simp only [e0, e1, e2, e3, if_false]

/-- The lock word read depends on the four bytes at the lock word offset only. -/
theorem GetLockWord_congr (mem mem' : Mem) (o : Nat)
    (h : ∀ x, o + 4 ≤ x → x < o + 8 → mem' x = mem x) :
    GetLockWord mem' o = GetLockWord mem o := by
  unfold GetLockWord
  simp only [kMonitorOffset]
  rw [h (o + 4) (by omega) (by omega), h (o + 4 + 1) (by omega) (by omega),
    h (o + 4 + 2) (by omega) (by omega), h (o + 4 + 3) (by omega) (by omega)]

namespace MarkCompact

theorem Layout_mono {lo lo' hi : Nat} {objs : List (Nat × Nat)} (h : Layout lo objs hi)
    (hlo : lo' ≤ lo) : Layout lo' objs hi := by
  cases objs with
  | nil => exact le_trans hlo h
  | cons p rest =>
    obtain ⟨o, size⟩ := p
    obtain ⟨h1, h2⟩ := h
    exact ⟨le_trans hlo h1, h2⟩

theorem Layout_le {lo hi : Nat} {objs : List (Nat × Nat)} (h : Layout lo objs hi) : lo ≤ hi := by
  induction objs generalizing lo with
  | nil => exact h
  | cons p rest ih =>
    obtain ⟨o, size⟩ := p
    obtain ⟨h1, _, _, _, h5⟩ := h
    have := ih h5
    omega

/-- The objects of a layout start at or after `lo` and end at or before `hi`. -/
theorem Layout_bounds {lo hi : Nat} {objs : List (Nat × Nat)} (h : Layout lo objs hi) :
    ∀ p ∈ objs, lo ≤ p.1 ∧ p.1 + p.2 ≤ hi ∧ p.1 % 8 = 0 ∧ p.2 % 8 = 0 ∧ 0 < p.2 := by
  induction objs generalizing lo with
  | nil => intro p hp; cases hp
  | cons q rest ih =>
    obtain ⟨o, size⟩ := q
    obtain ⟨h1, h2, h3, h4, h5⟩ := h
    intro p hp
    rcases List.mem_cons.1 hp with e | e
    · subst e
      exact ⟨h1, Layout_le h5, h2, h3, h4⟩
    · obtain ⟨b1, b2⟩ := ih h5 p e
      exact ⟨by omega, b2⟩

theorem Forwards_congr {mem mem' : Mem} {lo hi : Nat} (objs : List (Nat × Nat)) (fwd : Nat)
    (hl : Layout lo objs hi) (h : ∀ x, lo ≤ x → mem' x = mem x) (hf : Forwards mem fwd objs) :
    Forwards mem' fwd objs := by
  induction objs generalizing lo fwd with
  | nil => trivial
  | cons p rest ih =>
    obtain ⟨o, size⟩ := p
    obtain ⟨h1, h2, h3, h4, h5⟩ := hl
    obtain ⟨f1, f2⟩ := hf
    refine ⟨?_, ih (fwd + size) h5 (fun x hx => h x (by omega)) f2⟩
    rw [← f1]
    exact GetLockWord_congr _ _ _ (fun x hx _ => h x (by omega))

/-- What one `MoveObject` does when the lock word holds the forwarding address `fwd` and the
queue holds a word for the object if its bit is set in `objects_with_lockword_`. -/
theorem MoveObject_spec (s : MarkCompact) (o size fwd : Nat)
    (hf : GetLockWord s.mem o = LockWord.FromForwardingAddress fwd)
    (h4 : fwd % 4 = 0) (h32 : fwd < 2 ^ 32) (hsz : 8 ≤ size)
    (hq : o ∈ s.objects_with_lockword_ → s.lock_words_to_restore_ ≠ []) :
    ∃ s', s.MoveObject o size = some s' ∧
      s'.objects_with_lockword_ = s.objects_with_lockword_ ∧
      s'.objects_before_forwarding_ = s.objects_before_forwarding_ ∧
      s'.space_begin = s.space_begin ∧ s'.space_end = s.space_end ∧
      s'.lock_words_to_restore_.length + (if o ∈ s.objects_with_lockword_ then 1 else 0) =
        s.lock_words_to_restore_.length ∧
      (∀ x, x < fwd ∨ fwd + size ≤ x → s'.mem x = s.mem x) ∧
      (∀ k, k < size → ¬ (4 ≤ k ∧ k < 8) → s'.mem (fwd + k) = s.mem (o + k)) := by
  unfold MoveObject
  simp only [hf, ForwardingAddress_FromForwardingAddress fwd h4 h32]
  have hout : ∀ (w x : Nat), x < fwd ∨ fwd + size ≤ x →
      SetLockWord (memmove s.mem fwd o size) fwd w x = s.mem x := by
    intro w x hx
    rw [SetLockWord_of_out _ _ _ _ (by omega), memmove_of_out _ _ _ _ _ hx]
  have hin : ∀ (w k : Nat), k < size → ¬ (4 ≤ k ∧ k < 8) →
      SetLockWord (memmove s.mem fwd o size) fwd w (fwd + k) = s.mem (o + k) := by
    intro w k hk hk2
    rw [SetLockWord_of_out _ _ _ _ (by omega), memmove_of_in _ _ _ _ _ hk]
  by_cases hm : o ∈ s.objects_with_lockword_
  · simp only [hm, if_true]
    cases hl : s.lock_words_to_restore_ with
    | nil => exact absurd hl (hq hm)
    | cons w rest =>
      exact ⟨_, rfl, rfl, rfl, rfl, rfl, by simp, hout w, hin w⟩
  · simp only [hm, if_false]
    exact ⟨_, rfl, rfl, rfl, rfl, rfl, by simp, hout _, hin _⟩

theorem Layout_sum_le {lo hi : Nat} {objs : List (Nat × Nat)} (h : Layout lo objs hi) :
    lo + (objs.map Prod.snd).sum ≤ hi := by
  induction objs generalizing lo with
  | nil => simpa using h
  | cons p rest ih =>
    obtain ⟨o, size⟩ := p
    obtain ⟨h1, _, _, _, h5⟩ := h
    have := ih h5
    simp only [List.map_cons, List.sum_cons]
    omega

/-- Moving the objects of a layout whose lock words hold the forwarding addresses `fwd`,
`fwd + size₁`, ...: every call succeeds, only the destination range is written, and each
destination holds the bytes of its object, the lock word apart. -/
theorem moveAll_spec (objs : List (Nat × Nat)) : ∀ (s : MarkCompact) (fwd hi : Nat),
    fwd % 4 = 0 → hi ≤ 2 ^ 32 → Layout fwd objs hi → Forwards s.mem fwd objs →
    (objs.filter (fun p => decide (p.1 ∈ s.objects_with_lockword_))).length ≤
      s.lock_words_to_restore_.length →
    ∃ s', moveAll s objs = some s' ∧
      s'.objects_with_lockword_ = s.objects_with_lockword_ ∧
      s'.objects_before_forwarding_ = s.objects_before_forwarding_ ∧
      s'.space_begin = s.space_begin ∧ s'.space_end = s.space_end ∧
      s'.lock_words_to_restore_.length +
          (objs.filter (fun p => decide (p.1 ∈ s.objects_with_lockword_))).length =
        s.lock_words_to_restore_.length ∧
      (∀ x, x < fwd ∨ fwd + (objs.map Prod.snd).sum ≤ x → s'.mem x = s.mem x) ∧
      (∀ pre o size post, objs = pre ++ (o, size) :: post →
        ∀ k, k < size → ¬ (4 ≤ k ∧ k < 8) →
          s'.mem (fwd + (pre.map Prod.snd).sum + k) = s.mem (o + k)) := by
  induction objs with
  | nil =>
    intro s fwd hi _ _ _ _ _
    refine ⟨s, rfl, rfl, rfl, rfl, rfl, by simp, fun _ _ => rfl, ?_⟩
    intro pre o size post h
    exact absurd h (by simp)
  | cons p rest ih =>
    obtain ⟨o, size⟩ := p
    intro s fwd hi h4 h32 hl hf hq
    obtain ⟨l1, l2, l3, l4, l5⟩ := hl
    obtain ⟨f1, f2⟩ := hf
    have hhi := Layout_le l5
    have hq1 : o ∈ s.objects_with_lockword_ → s.lock_words_to_restore_ ≠ [] := by
      intro hm hnil
      rw [List.filter_cons] at hq
      simp only [hm, decide_True, if_true, List.length_cons, hnil, List.length_nil] at hq
      omega
    obtain ⟨s1, m1, m2, m3, m4, m5, m6, m7, m8⟩ :=
      MoveObject_spec s o size fwd f1 h4 (by omega) (by omega) hq1
    have hcount : (((o, size) :: rest).filter
        (fun p => decide (p.1 ∈ s.objects_with_lockword_))).length =
        (if o ∈ s.objects_with_lockword_ then 1 else 0) +
          (rest.filter (fun p => decide (p.1 ∈ s.objects_with_lockword_))).length := by
      rw [List.filter_cons]
      by_cases hm : o ∈ s.objects_with_lockword_
      · simp only [hm, decide_True, if_true, List.length_cons]; omega
      · simp only [hm, decide_False, if_false]; simp
    have hf1 : Forwards s1.mem (fwd + size) rest :=
      Forwards_congr rest (fwd + size) l5 (fun x hx => m7 x (by omega)) f2
    obtain ⟨s', n1, n2, n3, n4, n5, n6, n7, n8⟩ := ih s1 (fwd + size) hi (by omega) h32
      (Layout_mono l5 (by omega)) hf1 (by rw [m2]; omega)
    rw [m2] at n6
    refine ⟨s', ?_, n2.trans m2, n3.trans m3, n4.trans m4, n5.trans m5, by omega, ?_, ?_⟩
    · simp only [moveAll, m1, Option.bind_some]
      exact n1
    · intro x hx
      simp only [List.map_cons, List.sum_cons] at hx
      rw [n7 x (by omega), m7 x (by omega)]
    · intro pre o' size' post hsplit k hk hk2
      cases pre with
      | nil =>
        simp only [List.nil_append, List.cons.injEq, Prod.mk.injEq] at hsplit
        obtain ⟨⟨e1, e2⟩, _⟩ := hsplit
        subst e1; subst e2
        simp only [List.map_nil, List.sum_nil, Nat.add_zero]
        rw [n7 (fwd + k) (by omega), m8 k hk hk2]
      | cons q pre' =>
        simp only [List.cons_append, List.cons.injEq] at hsplit
        obtain ⟨e1, e2⟩ := hsplit
        subst e1
        have hb := Layout_bounds l5 (o', size') (by rw [e2]; simp)
        simp only [List.map_cons, List.sum_cons]
        have := n8 pre' o' size' post e2 k hk hk2
        rw [← Nat.add_assoc, this, m7 (o' + k) (by simp only at hb; omega)]

end MarkCompact

end gc

namespace gc

namespace MarkCompact

theorem MoveObject_obf {s s' : MarkCompact} {o len : Nat} (h : s.MoveObject o len = some s') :
    s'.objects_before_forwarding_ = s.objects_before_forwarding_ := by
  unfold MoveObject at h
  simp only [] at h
  split at h
  · split at h
    · cases h
    · cases h; rfl
  · cases h; rfl

theorem foldl_MoveObjectVisitor_none (l : List Nat) : l.foldl MoveObjectVisitor none = none := by
  induction l with
  | nil => rfl
  | cons x rest ih => exact ih

theorem visitFrom_move_none (n addr : Nat) :
    visitFrom (fun (v : Option (Nat × MarkCompact)) =>
        match v with
        | some (_, t) => t.objects_before_forwarding_
        | none => []) MoveObjectVisitor n addr none = none := by
  induction n generalizing addr with
  | zero => rfl
  | succ n ih =>
    rw [visitFrom]
    simp only [List.not_mem_nil, if_false]
    exact ih _

/-- The bitmap scan of `MoveObjects` calls the visitor, in ascending order, on the addresses
of the range whose bit is set: the visitor does not change the bitmap. -/
theorem visitFrom_move (n addr st : Nat) (s : MarkCompact) :
    visitFrom (fun (v : Option (Nat × MarkCompact)) =>
        match v with
        | some (_, t) => t.objects_before_forwarding_
        | none => []) MoveObjectVisitor n addr (some (st, s)) =
      ((List.range' addr n).filter (fun x => decide (x ∈ s.objects_before_forwarding_))).foldl
        MoveObjectVisitor (some (st, s)) := by
  induction n generalizing addr st s with
  | zero => rfl
  | succ n ih =>
    rw [visitFrom, List.range'_succ, List.filter_cons]
    by_cases hm : addr ∈ s.objects_before_forwarding_
    · simp only [hm, if_true, decide_True, List.foldl_cons]
      cases hv : MoveObjectVisitor (some (st, s)) addr with
      | none => rw [visitFrom_move_none, foldl_MoveObjectVisitor_none]
      | some r =>
        obtain ⟨st', s'⟩ := r
        have hb : s'.objects_before_forwarding_ = s.objects_before_forwarding_ := by
          unfold MoveObjectVisitor at hv
          simp only [] at hv
          split at hv
          · cases hv; rfl
          · cases hmv : s.MoveObject st (addr - st + kObjectAlignment / 2) with
            | none => rw [hmv] at hv; cases hv
            | some t =>
              rw [hmv] at hv
              simp only [Option.map_some', Option.some.injEq, Prod.mk.injEq] at hv
              rw [← hv.2]
              exact MoveObject_obf hmv
        rw [ih, hb]
    · simp only [hm, if_false, decide_False]
      exact ih _ _ _

/-- On the start bit and the end marker of each object in turn, the visitor of `MoveObjects`
makes exactly the calls `MoveObject(obj, size)`. -/
theorem foldl_marks (objs : List (Nat × Nat)) (st : Nat) (s : MarkCompact)
    (h : ∀ p ∈ objs, p.1 % 8 = 0 ∧ p.2 % 8 = 0 ∧ 0 < p.2) :
    ((marks objs).foldl MoveObjectVisitor (some (st, s))).map Prod.snd = moveAll s objs := by
  induction objs generalizing st s with
  | nil => rfl
  | cons p rest ih =>
    obtain ⟨o, size⟩ := p
    obtain ⟨h1, h2, h3⟩ := h (o, size) (List.mem_cons_self _ _)
    simp only at h1 h2 h3
    have hrest : ∀ p ∈ rest, p.1 % 8 = 0 ∧ p.2 % 8 = 0 ∧ 0 < p.2 :=
      fun p hp => h p (List.mem_cons_of_mem _ hp)
    have hv1 : MoveObjectVisitor (some (st, s)) o = some (o, s) := by
      simp [MoveObjectVisitor, IsAligned, kObjectAlignment, h1]
    have hna : ¬ ((o + size - 4) % 8 = 0) := by omega
    have hlen : o + size - 4 - o + 4 = size := by omega
    have hv2 : MoveObjectVisitor (some (o, s)) (o + size - kObjectAlignment / 2) =
        (s.MoveObject o size).map (fun s' => (o, s')) := by
      simp [MoveObjectVisitor, IsAligned, kObjectAlignment, hna, hlen]
    simp only [marks, List.foldl_cons, hv1, hv2, moveAll]
    cases hm : s.MoveObject o size with
    | none => simp [foldl_MoveObjectVisitor_none]
    | some s1 =>
      simp only [Option.map_some', Option.bind_some]
      exact ih o s1 hrest

theorem marks_mem (objs : List (Nat × Nat)) (x : Nat) :
    x ∈ marks objs ↔ ∃ p ∈ objs, x = p.1 ∨ x = p.1 + p.2 - kObjectAlignment / 2 := by
  induction objs with
  | nil => simp [marks]
  | cons p rest ih =>
    obtain ⟨o, size⟩ := p
    simp only [marks, List.mem_cons, ih, exists_eq_or_imp, or_assoc]

/-- The marks of a layout are strictly ascending and lie in `[lo, hi)`. -/
theorem marks_sorted {lo hi : Nat} {objs : List (Nat × Nat)} (h : Layout lo objs hi) :
    (marks objs).Pairwise (fun a b => a < b) ∧ ∀ x ∈ marks objs, lo ≤ x ∧ x < hi := by
  induction objs generalizing lo with
  | nil => exact ⟨List.Pairwise.nil, fun x hx => by cases hx⟩
  | cons p rest ih =>
    obtain ⟨o, size⟩ := p
    obtain ⟨h1, h2, h3, h4, h5⟩ := h
    obtain ⟨i1, i2⟩ := ih h5
    have hhi := Layout_le h5
    constructor
    · simp only [marks, List.pairwise_cons, List.mem_cons, kObjectAlignment]
      refine ⟨?_, ?_, i1⟩
      · rintro a (e | e)
        · omega
        · have := i2 a e; omega
      · intro a e
        have := i2 a e; omega
    · intro x hx
      simp only [marks, List.mem_cons, kObjectAlignment] at hx
      rcases hx with e | e | e
      · omega
      · omega
      · have := i2 x e; omega

/-- When the bits of the range are the marks of a layout, the scan meets exactly the marks, in
their order. -/
theorem filter_eq_marks {lo hi : Nat} {objs : List (Nat × Nat)} (bits : List Nat)
    (h : Layout lo objs hi) (hb : ∀ x, lo ≤ x → x < hi → (x ∈ bits ↔ x ∈ marks objs)) :
    (List.range' lo (hi - lo)).filter (fun x => decide (x ∈ bits)) = marks objs := by
  obtain ⟨m1, m2⟩ := marks_sorted h
  have s1 : ((List.range' lo (hi - lo)).filter (fun x => decide (x ∈ bits))).Pairwise
      (fun a b => a < b) := List.Pairwise.filter _ (List.pairwise_lt_range' _ _)
  have hperm : ((List.range' lo (hi - lo)).filter (fun x => decide (x ∈ bits))).Perm
      (marks objs) := by
    rw [List.perm_ext_iff_of_nodup (s1.imp (fun h => Nat.ne_of_lt h))
      (m1.imp (fun h => Nat.ne_of_lt h))]
    intro x
    rw [List.mem_filter, List.mem_range']
    simp only [decide_eq_true_eq, one_mul]
    constructor
    · rintro ⟨⟨i, hi1, rfl⟩, hx⟩
      exact (hb _ (by omega) (by omega)).1 hx
    · intro hx
      obtain ⟨b1, b2⟩ := m2 x hx
      exact ⟨⟨x - lo, by omega, by omega⟩, (hb x b1 b2).2 hx⟩
  exact List.eq_of_perm_of_sorted hperm s1 m1

end MarkCompact

end gc

namespace gc

namespace MarkCompact

/-- What one `FowardObject` does to the lock word bitmap and to the queue. -/
theorem FowardObject_queue (s : MarkCompact) (obj : Nat) :
    (s.FowardObject obj).objects_with_lockword_ =
        (if GetLockWord s.mem obj ≠ LockWord.default then bitmapSet obj s.objects_with_lockword_
          else s.objects_with_lockword_) ∧
      (s.FowardObject obj).lock_words_to_restore_ =
        (if GetLockWord s.mem obj ≠ LockWord.default then
          s.lock_words_to_restore_ ++ [GetLockWord s.mem obj]
          else s.lock_words_to_restore_) := by
  unfold FowardObject
  simp only []
  split <;> exact ⟨rfl, rfl⟩

/-- Forwarding the objects of an ascending list of aligned addresses: bitmaps and queue. -/
theorem foldl_FowardObject_bitmaps (L : List Nat) (s : MarkCompact)
    (hal : ∀ x ∈ L, x % 8 = 0) (hs : L.Pairwise (fun a b => a < b)) :
    (L.foldl FowardObject s).space_begin = s.space_begin ∧
      (L.foldl FowardObject s).space_end = s.space_end ∧
      (∀ x, x ∈ (L.foldl FowardObject s).objects_before_forwarding_ ↔
        x ∈ s.objects_before_forwarding_ ∨
          ∃ o ∈ L, x = o + s.alignedSize o - kObjectAlignment / 2) ∧
      (∀ x, x ∈ (L.foldl FowardObject s).objects_with_lockword_ ↔
        x ∈ s.objects_with_lockword_ ∨ (x ∈ L ∧ GetLockWord s.mem x ≠ LockWord.default)) ∧
      (L.foldl FowardObject s).lock_words_to_restore_.length =
        s.lock_words_to_restore_.length +
          (L.filter (fun o => decide (GetLockWord s.mem o ≠ LockWord.default))).length := by
  induction L generalizing s with
  | nil => simp
  | cons x rest ih =>
    obtain ⟨hx, hrest⟩ := List.pairwise_cons.1 hs
    have hal' : ∀ y ∈ rest, y % 8 = 0 := fun y hy => hal y (List.mem_cons_of_mem _ hy)
    have hx8 : x % 8 = 0 := hal x (List.mem_cons_self _ _)
    obtain ⟨fb, fe, _, _, _, fm, fo⟩ := FowardObject_fields s x
    obtain ⟨qo, qq⟩ := FowardObject_queue s x
    obtain ⟨i1, i2, i3, i4, i5⟩ := ih (s.FowardObject x) hal' hrest
    have hsz : (s.FowardObject x).alignedSize = s.alignedSize :=
      funext (alignedSize_FowardObject s x)
    have hlw : ∀ y ∈ rest, GetLockWord (s.FowardObject x).mem y = GetLockWord s.mem y := by
      intro y hy
      rw [fm]
      have := hx y hy
      have := hal' y hy
      exact GetLockWord_SetLockWord_other _ _ _ _ (by omega)
    rw [List.foldl_cons]
    refine ⟨i1.trans fb, i2.trans fe, ?_, ?_, ?_⟩
    · intro y
      rw [i3 y, fo, mem_bitmapSet, hsz]
      simp only [List.mem_cons, exists_eq_or_imp]
      tauto
    · intro y
      rw [i4 y, qo]
      by_cases hd : GetLockWord s.mem x ≠ LockWord.default
      · rw [if_pos hd]
        simp only [mem_bitmapSet, List.mem_cons]
        constructor
        · rintro ((e | e) | ⟨e1, e2⟩)
          · subst e; exact Or.inr ⟨Or.inl rfl, hd⟩
          · exact Or.inl e
          · exact Or.inr ⟨Or.inr e1, by rw [← hlw y e1]; exact e2⟩
        · rintro (e | ⟨e1 | e1, e2⟩)
          · exact Or.inl (Or.inr e)
          · exact Or.inl (Or.inl e1)
          · exact Or.inr ⟨e1, by rw [hlw y e1]; exact e2⟩
      · rw [if_neg hd]
        simp only [List.mem_cons]
        constructor
        · rintro (e | ⟨e1, e2⟩)
          · exact Or.inl e
          · exact Or.inr ⟨Or.inr e1, by rw [← hlw y e1]; exact e2⟩
        · rintro (e | ⟨e1 | e1, e2⟩)
          · exact Or.inl e
          · subst e1; exact absurd e2 hd
          · exact Or.inr ⟨e1, by rw [hlw y e1]; exact e2⟩
    · rw [i5, qq]
      have hfil : rest.filter
          (fun o => decide (GetLockWord (s.FowardObject x).mem o ≠ LockWord.default)) =
          rest.filter (fun o => decide (GetLockWord s.mem o ≠ LockWord.default)) := by
        apply List.filter_congr
        intro y hy
        rw [hlw y hy]
      rw [hfil, List.filter_cons]
      by_cases hd : GetLockWord s.mem x ≠ LockWord.default
      · rw [if_pos hd, if_pos (decide_eq_true hd)]
        simp only [List.length_append, List.length_cons, List.length_nil]
        omega
      · rw [if_neg hd, if_neg (by simpa using hd)]

/-- After forwarding, the lock words of the forwarded objects hold consecutive forwarding
addresses, starting at the bump pointer the forwarding started with. -/
theorem foldl_FowardObject_Forwards (L : List Nat) (s : MarkCompact)
    (hal : ∀ x ∈ L, x % 8 = 0) (hs : L.Pairwise (fun a b => a < b)) :
    Forwards (L.foldl FowardObject s).mem s.bump_pointer_
      (L.map (fun o => (o, s.alignedSize o))) := by
  induction L generalizing s with
  | nil => trivial
  | cons x rest ih =>
    obtain ⟨hx, hrest⟩ := List.pairwise_cons.1 hs
    have hal' : ∀ y ∈ rest, y % 8 = 0 := fun y hy => hal y (List.mem_cons_of_mem _ hy)
    have hx8 : x % 8 = 0 := hal x (List.mem_cons_self _ _)
    obtain ⟨_, _, _, fb, _, fm, _⟩ := FowardObject_fields s x
    have hsz : (s.FowardObject x).alignedSize = s.alignedSize :=
      funext (alignedSize_FowardObject s x)
    have hnot : x ∉ rest := fun hmem => Nat.lt_irrefl _ (hx x hmem)
    rw [List.foldl_cons, List.map_cons]
    refine ⟨?_, ?_⟩
    · rw [(foldl_FowardObject rest (s.FowardObject x) hal' hrest).2.2.2 x hx8 hnot, fm,
        GetLockWord_SetLockWord_same _ _ _ (FromForwardingAddress_lt _)]
    · have := ih (s.FowardObject x) hal' hrest
      rw [hsz, fb] at this
      exact this

theorem Layout_append {lo hi : Nat} (pre post : List (Nat × Nat))
    (h : Layout lo (pre ++ post) hi) : ∃ mid, Layout lo pre mid ∧ Layout mid post hi := by
  induction pre generalizing lo with
  | nil => exact ⟨lo, le_refl _, h⟩
  | cons p rest ih =>
    obtain ⟨o, size⟩ := p
    obtain ⟨h1, h2, h3, h4, h5⟩ := h
    obtain ⟨mid, m1, m2⟩ := ih h5
    exact ⟨mid, ⟨h1, h2, h3, h4, m1⟩, m2⟩

theorem Forwards_append {mem : Mem} (pre post : List (Nat × Nat)) (fwd : Nat)
    (h : Forwards mem fwd (pre ++ post)) : Forwards mem fwd pre := by
  induction pre generalizing fwd with
  | nil => trivial
  | cons p rest ih =>
    obtain ⟨o, size⟩ := p
    obtain ⟨h1, h2⟩ := h
    exact ⟨h1, ih _ h2⟩

theorem Forwards_of_lockwords {mem mem' : Mem} (objs : List (Nat × Nat)) (fwd : Nat)
    (h : ∀ p ∈ objs, GetLockWord mem' p.1 = GetLockWord mem p.1) (hf : Forwards mem fwd objs) :
    Forwards mem' fwd objs := by
  induction objs generalizing fwd with
  | nil => trivial
  | cons p rest ih =>
    obtain ⟨o, size⟩ := p
    obtain ⟨h1, h2⟩ := hf
    exact ⟨by rw [h (o, size) (List.mem_cons_self _ _)]; exact h1,
      ih _ (fun q hq => h q (List.mem_cons_of_mem _ hq)) h2⟩

end MarkCompact

end gc

namespace gc

namespace MarkCompact

theorem mem_markedObjects (s : MarkCompact) (x : Nat) :
    x ∈ s.markedObjects ↔
      (s.space_begin ≤ x ∧ x < s.space_end) ∧ x % 8 = 0 ∧ x ∈ s.objects_before_forwarding_ := by
  unfold markedObjects
  rw [List.mem_filter, List.mem_range']
  simp only [Bool.and_eq_true, decide_eq_true_eq, one_mul, kObjectAlignment]
  constructor
  · rintro ⟨⟨i, hi, rfl⟩, h⟩
    exact ⟨by omega, h⟩
  · rintro ⟨h1, h⟩
    exact ⟨⟨x - s.space_begin, by omega, by omega⟩, h⟩

/-- The state left by `CalculateObjectForwardingAddresses` on a heap whose marked objects
form a layout of the space: the bitmap bits of the space are the start bits and end markers
of the marked objects, the lock words hold the forwarding addresses, and the queue holds one
word for each marked object whose bit is set in `objects_with_lockword_`. -/
theorem forwarded_state (s0 : MarkCompact)
    (hclean : ∀ x ∈ s0.objects_before_forwarding_,
      s0.space_begin ≤ x → x < s0.space_end → x % 8 = 0)
    (hq : s0.lock_words_to_restore_ = [])
    (hlw : ∀ o ∈ s0.markedObjects, o ∉ s0.objects_with_lockword_) :
    s0.CalculateObjectForwardingAddresses.space_begin = s0.space_begin ∧
      s0.CalculateObjectForwardingAddresses.space_end = s0.space_end ∧
      (∀ x, s0.space_begin ≤ x → x < s0.space_end →
        (x ∈ s0.CalculateObjectForwardingAddresses.objects_before_forwarding_ ↔
          x ∈ marks s0.markedSlots)) ∧
      Forwards s0.CalculateObjectForwardingAddresses.mem s0.space_begin s0.markedSlots ∧
      (s0.markedSlots.filter (fun p =>
          decide (p.1 ∈ s0.CalculateObjectForwardingAddresses.objects_with_lockword_))).length =
        s0.CalculateObjectForwardingAddresses.lock_words_to_restore_.length := by
  rw [CalculateObjectForwardingAddresses_eq_foldl]
  obtain ⟨b1, b2, b3, b4, b5⟩ := foldl_FowardObject_bitmaps s0.markedObjects
    { s0 with bump_pointer_ := s0.space_begin } (markedObjects_aligned s0)
    (markedObjects_sorted s0)
  have hF := foldl_FowardObject_Forwards s0.markedObjects
    { s0 with bump_pointer_ := s0.space_begin } (markedObjects_aligned s0)
    (markedObjects_sorted s0)
  refine ⟨b1, b2, ?_, hF, ?_⟩
  · intro x hx1 hx2
    rw [b3 x, marks_mem]
    unfold markedSlots
    simp only [List.mem_map, exists_exists_and_eq_and]
    constructor
    · rintro (h | ⟨o, ho, rfl⟩)
      · exact ⟨x, (mem_markedObjects s0 x).2 ⟨⟨hx1, hx2⟩, hclean x h hx1 hx2, h⟩, Or.inl rfl⟩
      · exact ⟨o, ho, Or.inr rfl⟩
    · rintro ⟨o, ho, h | h⟩
      · subst h
        exact Or.inl ((mem_markedObjects s0 _).1 ho).2.2
      · exact Or.inr ⟨o, ho, h⟩
  · have hlen0 : ({ s0 with bump_pointer_ := s0.space_begin } :
        MarkCompact).lock_words_to_restore_.length = 0 := by
      show s0.lock_words_to_restore_.length = 0
      rw [hq]; rfl
    rw [b5, hlen0, Nat.zero_add]
    unfold markedSlots
    rw [List.filter_map, List.length_map]
    congr 1
    apply List.filter_congr
    intro o ho
    simp only [Function.comp]
    have hiff := b4 o
    have hno := hlw o ho
    by_cases hd : GetLockWord s0.mem o ≠ LockWord.default
    · rw [decide_eq_true (hiff.2 (Or.inr ⟨ho, hd⟩)), decide_eq_true hd]
    · have hnot : o ∉ (List.foldl FowardObject { s0 with bump_pointer_ := s0.space_begin }
          s0.markedObjects).objects_with_lockword_ := by
        intro hm
        rcases hiff.1 hm with h | ⟨_, h⟩
        · exact hno h
        · exact hd h
      rw [decide_eq_false hnot, decide_eq_false hd]

/-- `MoveObjects` on a state whose bitmap bits, lock words and queue describe a layout of
forwarded objects: it makes exactly the calls `MoveObject(obj, size)` in the order of the
layout and its final check succeeds. -/
theorem MoveObjects_eq_moveAll (s : MarkCompact) (objs : List (Nat × Nat))
    (h4 : s.space_begin % 4 = 0) (h32 : s.space_end ≤ 2 ^ 32)
    (hl : Layout s.space_begin objs s.space_end)
    (hb : ∀ x, s.space_begin ≤ x → x < s.space_end →
      (x ∈ s.objects_before_forwarding_ ↔ x ∈ marks objs))
    (hf : Forwards s.mem s.space_begin objs)
    (hq : (objs.filter (fun p => decide (p.1 ∈ s.objects_with_lockword_))).length =
      s.lock_words_to_restore_.length) :
    ∃ s', s.MoveObjects = some s' ∧ moveAll s objs = some s' := by
  obtain ⟨s', m1, _, _, _, _, m6, _, _⟩ :=
    moveAll_spec objs s s.space_begin s.space_end h4 h32 hl hf (le_of_eq hq)
  refine ⟨s', ?_, m1⟩
  have hfold := foldl_marks objs 0 s (fun p hp => (Layout_bounds hl p hp).2.2)
  rw [m1] at hfold
  unfold MoveObjects VisitMarkedRange
  simp only []
  rw [visitFrom_move, filter_eq_marks _ hl hb]
  cases hr : (marks objs).foldl MoveObjectVisitor (some (0, s)) with
  | none => rw [hr] at hfold; cases hfold
  | some r =>
    obtain ⟨st, t⟩ := r
    rw [hr] at hfold
    simp only [Option.map_some', Option.some.injEq] at hfold
    subst hfold
    have hnil : t.lock_words_to_restore_ = [] := by
      apply List.eq_nil_of_length_eq_zero
      omega
    simp only [hnil, if_true]

end MarkCompact

end gc

namespace gc

namespace MarkCompact

/-- C10: `MoveObjects` is overlap-safe. Let the marked objects of the space form a layout
(aligned, inside `[Begin, End)`, pairwise disjoint, with non-zero aligned sizes), with only
object bits set in the bitmap of the space, an empty queue and no lock word bit set, and let
`CalculateObjectForwardingAddresses` run. Then, started on the resulting state with any heap
memory `mem1` that still holds the lock words written by the forwarding (references may have
been updated), `MoveObjects` succeeds and (1) makes exactly the calls `MoveObject(obj, len)`,
one per marked object in ascending address order, with `len` the aligned size recorded at
forwarding time; (2) the `len` bytes at the forwarding address of each object, `Begin` plus
the aligned sizes of the objects before it, equal the bytes the object had at its old address
in `mem1`, the four bytes of the lock word apart; (3) after the moves of any initial part of
the objects, every object not yet moved still has its bytes. -/
theorem MoveObjects_overlap_safe (s0 : MarkCompact) (mem1 : Mem)
    (hbeg : s0.space_begin % 8 = 0) (hend : s0.space_end ≤ 2 ^ 32)
    (hlay : Layout s0.space_begin s0.markedSlots s0.space_end)
    (hclean : ∀ x ∈ s0.objects_before_forwarding_,
      s0.space_begin ≤ x → x < s0.space_end → x % 8 = 0)
    (hq : s0.lock_words_to_restore_ = [])
    (hlw : ∀ o ∈ s0.markedObjects, o ∉ s0.objects_with_lockword_)
    (hmem1 : ∀ o ∈ s0.markedObjects,
      GetLockWord mem1 o = GetLockWord s0.CalculateObjectForwardingAddresses.mem o) :
    ∃ s', MoveObjects { s0.CalculateObjectForwardingAddresses with mem := mem1 } = some s' ∧
      moveAll { s0.CalculateObjectForwardingAddresses with mem := mem1 } s0.markedSlots =
        some s' ∧
      (∀ pre o size post, s0.markedSlots = pre ++ (o, size) :: post →
        ∀ k, k < size → ¬ (4 ≤ k ∧ k < 8) →
          s'.mem (s0.space_begin + (pre.map Prod.snd).sum + k) = mem1 (o + k)) ∧
      (∀ pre post, s0.markedSlots = pre ++ post →
        ∃ t, moveAll { s0.CalculateObjectForwardingAddresses with mem := mem1 } pre = some t ∧
          ∀ p ∈ post, ∀ k, k < p.2 → t.mem (p.1 + k) = mem1 (p.1 + k)) := by
  obtain ⟨c1, c2, c3, c4, c5⟩ := forwarded_state s0 hclean hq hlw
  have hF : Forwards mem1 s0.space_begin s0.markedSlots := by
    refine Forwards_of_lockwords _ _ ?_ c4
    intro p hp
    unfold markedSlots at hp
    rw [List.mem_map] at hp
    obtain ⟨o, ho, rfl⟩ := hp
    exact hmem1 o ho
  have h4 : s0.space_begin % 4 = 0 := by omega
  obtain ⟨s', e1, e2⟩ := MoveObjects_eq_moveAll
    { s0.CalculateObjectForwardingAddresses with mem := mem1 } s0.markedSlots
    (by rw [c1]; exact h4) (by rw [c2]; exact hend)
    (by rw [c1, c2]; exact hlay) (by rw [c1, c2]; exact c3) (by rw [c1]; exact hF) c5
  obtain ⟨s'', m1, _, _, _, _, _, _, m8⟩ := moveAll_spec s0.markedSlots
    { s0.CalculateObjectForwardingAddresses with mem := mem1 } s0.space_begin s0.space_end
    h4 hend hlay hF (le_of_eq c5)
  rw [e2] at m1
  cases m1
  refine ⟨s', e1, e2, m8, ?_⟩
  intro pre post hsplit
  rw [hsplit] at hlay hF c5
  obtain ⟨mid, l1, l2⟩ := Layout_append pre post hlay
  have hmid : mid ≤ 2 ^ 32 := le_trans (Layout_le l2) hend
  have hcount : (pre.filter (fun p => decide (p.1 ∈
      ({ s0.CalculateObjectForwardingAddresses with mem := mem1 } :
        MarkCompact).objects_with_lockword_))).length ≤
      ({ s0.CalculateObjectForwardingAddresses with mem := mem1 } :
        MarkCompact).lock_words_to_restore_.length := by
    rw [List.filter_append, List.length_append] at c5
    show (pre.filter (fun p => decide (p.1 ∈
      s0.CalculateObjectForwardingAddresses.objects_with_lockword_))).length ≤
      s0.CalculateObjectForwardingAddresses.lock_words_to_restore_.length
    omega
  obtain ⟨t, t1, _, _, _, _, _, t7, _⟩ := moveAll_spec pre
    { s0.CalculateObjectForwardingAddresses with mem := mem1 } s0.space_begin mid
    h4 hmid l1 (Forwards_append pre post _ hF) hcount
  refine ⟨t, t1, ?_⟩
  intro p hp k _
  have hb := Layout_bounds l2 p hp
  have hs := Layout_sum_le l1
  exact t7 (p.1 + k) (by omega)

/-- Witness for C10: the example heap, moved with the memory left by the forwarding. -/
theorem MoveObjects_overlap_safe_witness :
    ∃ s', MoveObjects { exampleHeap.CalculateObjectForwardingAddresses with
        mem := exampleHeap.CalculateObjectForwardingAddresses.mem } = some s' ∧
      moveAll { exampleHeap.CalculateObjectForwardingAddresses with
        mem := exampleHeap.CalculateObjectForwardingAddresses.mem } exampleHeap.markedSlots =
        some s' ∧
      (∀ pre o size post, exampleHeap.markedSlots = pre ++ (o, size) :: post →
        ∀ k, k < size → ¬ (4 ≤ k ∧ k < 8) →
          s'.mem (exampleHeap.space_begin + (pre.map Prod.snd).sum + k) =
            exampleHeap.CalculateObjectForwardingAddresses.mem (o + k)) ∧
      (∀ pre post, exampleHeap.markedSlots = pre ++ post →
        ∃ t, moveAll { exampleHeap.CalculateObjectForwardingAddresses with
            mem := exampleHeap.CalculateObjectForwardingAddresses.mem } pre = some t ∧
          ∀ p ∈ post, ∀ k, k < p.2 →
            t.mem (p.1 + k) = exampleHeap.CalculateObjectForwardingAddresses.mem (p.1 + k)) :=
  MoveObjects_overlap_safe exampleHeap exampleHeap.CalculateObjectForwardingAddresses.mem
    (by decide) (by decide)
    (by
      have h : exampleHeap.markedSlots = [(16, 8), (32, 16)] := by decide
      rw [h]
      exact ⟨by decide, by decide, by decide, by decide, by decide, by decide, by decide,
        by decide, (by show 32 + 16 ≤ exampleHeap.space_end; decide)⟩)
    (by decide) rfl (by decide) (fun _ _ => rfl)

end MarkCompact

end gc

/-! ## Reading and advancing memory versions -/

namespace LocalValueNumbering

open GlobalValueNumbering (u16 u32 u64 BuildKey MapExt Evolves)
open Instruction

/-- C16: for 16-bit `base`, `field`, `type` with `base` outside the unique-object set
(`base` may be `NO_VALUE`), `GetMemoryVersion(base, field, type)` is the maximum of the
version stored for `(base, field, type)`, the version stored for the aliased key
`(NO_VALUE, field, type)` and the global memory version, a missing entry counting as 0. The
function only reads the state: it returns the version and nothing else. -/
theorem GetMemoryVersion_non_unique (s : LocalValueNumbering) (base field type : Nat)
    (hb16 : base < 2 ^ 16) (hf16 : field < 2 ^ 16) (ht16 : type < 2 ^ 16)
    (hu : base ∉ s.unique_objects_) :
    s.GetMemoryVersion base field type =
      max (max ((s.memory_version_map_.find (base, field, type)).getD 0)
            ((s.memory_version_map_.find (NO_VALUE, field, type)).getD 0))
        s.global_memory_version_ := by
  have eb : u16 base = base := Nat.mod_eq_of_lt hb16
  have ef : u16 field = field := Nat.mod_eq_of_lt hf16
  have et : u16 type = type := Nat.mod_eq_of_lt ht16
  unfold GetMemoryVersion
  simp only [eb, ef, et]
  by_cases hb : base = NO_VALUE
  · subst hb
    simp
  · simp only [ne_eq, hb, not_false_eq_true, hu, and_self, if_true]
    cases hf : s.memory_version_map_.find (NO_VALUE, field, type) with
    | none => simp
    | some aa =>
      simp only [Option.getD_some]
      split
      · rename_i h; rw [max_eq_right (le_of_lt h)]
      · rename_i h; rw [max_eq_left (not_lt.mp h)]

/-- Witness for C16: after `AdvanceMemoryVersion(3, 0, 0)` and `AdvanceGlobalMemory()` from
the initial state, a load through value name 4 of field 0, type 0. -/
theorem GetMemoryVersion_non_unique_witness :
    (init.AdvanceMemoryVersion 3 0 0).2.AdvanceGlobalMemory.GetMemoryVersion 4 0 0 =
      max (max (((init.AdvanceMemoryVersion 3 0 0).2.AdvanceGlobalMemory.memory_version_map_.find
              (4, 0, 0)).getD 0)
            (((init.AdvanceMemoryVersion 3 0 0).2.AdvanceGlobalMemory.memory_version_map_.find
              (NO_VALUE, 0, 0)).getD 0))
        (init.AdvanceMemoryVersion 3 0 0).2.AdvanceGlobalMemory.global_memory_version_ :=
  GetMemoryVersion_non_unique _ 4 0 0 (by norm_num) (by norm_num) (by norm_num) (by decide)

/-- C17 (evaluation at the failing input): in the state reached by `new-instance v0` when
0xfffe value names have been handed out, `NO_VALUE` (0xffff) is in the unique-object set;
nothing is stored for `(NO_VALUE, 0, 0)`, and `GetMemoryVersion(NO_VALUE, 0, 0)` is 0 before
`AdvanceGlobalMemory()` and 1, the global memory version, after it. -/
theorem GetMemoryVersion_unique_sentinel :
    NO_VALUE ∈ lastNameUnique.unique_objects_ ∧
      lastNameUnique.AdvanceGlobalMemory.memory_version_map_.find (NO_VALUE, 0, 0) = none ∧
      lastNameUnique.GetMemoryVersion NO_VALUE 0 0 = 0 ∧
      lastNameUnique.AdvanceGlobalMemory.GetMemoryVersion NO_VALUE 0 0 = 1 := by
  decide

/-- C17 (amended): for every 16-bit base other than `NO_VALUE` that is in the unique-object
set, `GetMemoryVersion(base, field, type)` is the version stored for exactly
`(base, field, type)` (0 if none), and the result is the same after `AdvanceGlobalMemory()`
and after `AdvanceMemoryVersion` through any different base; both calls leave the
unique-object set as it is. -/
theorem GetMemoryVersion_unique (s : LocalValueNumbering) (base field type : Nat)
    (hb16 : base < 2 ^ 16) (hf16 : field < 2 ^ 16) (ht16 : type < 2 ^ 16)
    (hu : base ∈ s.unique_objects_) (hn : base ≠ NO_VALUE) :
    s.GetMemoryVersion base field type
        = (s.memory_version_map_.find (base, field, type)).getD 0 ∧
      s.AdvanceGlobalMemory.GetMemoryVersion base field type
        = s.GetMemoryVersion base field type ∧
      s.AdvanceGlobalMemory.unique_objects_ = s.unique_objects_ ∧
      (∀ b f t, u16 b ≠ base →
        (s.AdvanceMemoryVersion b f t).2.GetMemoryVersion base field type
            = s.GetMemoryVersion base field type ∧
          (s.AdvanceMemoryVersion b f t).2.unique_objects_ = s.unique_objects_) := by
  have eb : u16 base = base := Nat.mod_eq_of_lt hb16
  have ef : u16 field = field := Nat.mod_eq_of_lt hf16
  have et : u16 type = type := Nat.mod_eq_of_lt ht16
  have key : ∀ s' : LocalValueNumbering, s'.unique_objects_ = s.unique_objects_ →
      s'.GetMemoryVersion base field type
        = (s'.memory_version_map_.find (base, field, type)).getD 0 := by
    intro s' hs'
    unfold GetMemoryVersion
    simp only [eb, ef, et, hs']
    simp [hn, hu]
  refine ⟨key s rfl, ?_, by simp, ?_⟩
  · rw [key _ (by simp), key s rfl]
    simp
  · intro b f t hb
    refine ⟨?_, by simp⟩
    rw [key _ (by simp), key s rfl]
    unfold AdvanceMemoryVersion
    simp only []
    have hn2 : ¬ (NO_VALUE = base) := fun h => hn h.symm
    split <;> simp [SafeMap.find_Overwrite, hb, hn2]

/-- Witness for C17: value name 1, made unique by `new-instance v0` in the initial state. -/
theorem GetMemoryVersion_unique_witness :
    oneUnique.GetMemoryVersion 1 0 0
        = (oneUnique.memory_version_map_.find (1, 0, 0)).getD 0 ∧
      oneUnique.AdvanceGlobalMemory.GetMemoryVersion 1 0 0 = oneUnique.GetMemoryVersion 1 0 0 ∧
      oneUnique.AdvanceGlobalMemory.unique_objects_ = oneUnique.unique_objects_ ∧
      (∀ b f t, u16 b ≠ 1 →
        (oneUnique.AdvanceMemoryVersion b f t).2.GetMemoryVersion 1 0 0
            = oneUnique.GetMemoryVersion 1 0 0 ∧
          (oneUnique.AdvanceMemoryVersion b f t).2.unique_objects_ = oneUnique.unique_objects_) :=
  GetMemoryVersion_unique oneUnique 1 0 0 (by norm_num) (by norm_num) (by norm_num)
    (by decide) (by decide)

/-- C18: `AdvanceMemoryVersion(base, field, type)` with 16-bit arguments returns the previous
`next_memory_version_`, increments that 16-bit counter by one, binds `(base, field, type)`
to the returned version, binds the aliased key `(NO_VALUE, field, type)` to it as well when
`base` is not `NO_VALUE` and not in the unique-object set, and leaves every other entry of
the memory-version map, the global memory version, the unique-object set and the
null-checked set unchanged. -/
theorem AdvanceMemoryVersion_spec (s : LocalValueNumbering) (base field type : Nat)
    (hb16 : base < 2 ^ 16) (hf16 : field < 2 ^ 16) (ht16 : type < 2 ^ 16) :
    (s.AdvanceMemoryVersion base field type).1 = s.next_memory_version_ ∧
      (s.AdvanceMemoryVersion base field type).2.next_memory_version_ =
        (s.next_memory_version_ + 1) % 2 ^ 16 ∧
      (∀ k, (s.AdvanceMemoryVersion base field type).2.memory_version_map_.find k =
        if k = (base, field, type) ∨
            (base ≠ NO_VALUE ∧ base ∉ s.unique_objects_ ∧ k = (NO_VALUE, field, type))
        then some s.next_memory_version_ else s.memory_version_map_.find k) ∧
      (s.AdvanceMemoryVersion base field type).2.global_memory_version_ =
        s.global_memory_version_ ∧
      (s.AdvanceMemoryVersion base field type).2.unique_objects_ = s.unique_objects_ ∧
      (s.AdvanceMemoryVersion base field type).2.null_checked_ = s.null_checked_ := by
  have eb : u16 base = base := Nat.mod_eq_of_lt hb16
  have ef : u16 field = field := Nat.mod_eq_of_lt hf16
  have et : u16 type = type := Nat.mod_eq_of_lt ht16
  refine ⟨?_, ?_, ?_, by simp, by simp, by simp⟩
  · unfold AdvanceMemoryVersion
    simp only []
    split <;> rfl
  · unfold AdvanceMemoryVersion
    simp only []
    split <;> rfl
  · intro k
    unfold AdvanceMemoryVersion
    simp only [eb, ef, et]
    by_cases hc : base ≠ NO_VALUE ∧ base ∉ s.unique_objects_
    · rw [if_pos hc]
      simp only [SafeMap.find_Overwrite]
      by_cases h1 : k = (NO_VALUE, field, type)
      · simp [h1, hc.1, hc.2]
      · by_cases h2 : k = (base, field, type)
        · simp [h2]
        · simp [h1, h2, Ne.symm h1, Ne.symm h2]
    · rw [if_neg hc]
      simp only [SafeMap.find_Overwrite]
      have : ¬ (base ≠ NO_VALUE ∧ base ∉ s.unique_objects_ ∧ k = (NO_VALUE, field, type)) :=
        fun h => hc ⟨h.1, h.2.1⟩
      simp only [this, or_false, eq_comm]

/-- Witness for C18: `AdvanceMemoryVersion(3, 0, 0)` in the initial state. -/
theorem AdvanceMemoryVersion_spec_witness :
    (init.AdvanceMemoryVersion 3 0 0).1 = init.next_memory_version_ ∧
      (init.AdvanceMemoryVersion 3 0 0).2.next_memory_version_ =
        (init.next_memory_version_ + 1) % 2 ^ 16 ∧
      (∀ k, (init.AdvanceMemoryVersion 3 0 0).2.memory_version_map_.find k =
        if k = (3, 0, 0) ∨
            (3 ≠ NO_VALUE ∧ 3 ∉ init.unique_objects_ ∧ k = (NO_VALUE, 0, 0))
        then some init.next_memory_version_ else init.memory_version_map_.find k) ∧
      (init.AdvanceMemoryVersion 3 0 0).2.global_memory_version_ =
        init.global_memory_version_ ∧
      (init.AdvanceMemoryVersion 3 0 0).2.unique_objects_ = init.unique_objects_ ∧
      (init.AdvanceMemoryVersion 3 0 0).2.null_checked_ = init.null_checked_ :=
  AdvanceMemoryVersion_spec init 3 0 0 (by norm_num) (by norm_num) (by norm_num)

end LocalValueNumbering

/-! ## Calls and the global memory version -/

namespace LocalValueNumbering

open GlobalValueNumbering (u16 u32 u64 BuildKey MapExt Evolves)
open Instruction

/-- A base that is `NO_VALUE` or not unique sees at least the global memory version. -/
theorem GetMemoryVersion_ge_global (s : LocalValueNumbering) (base field type : Nat)
    (hu : u16 base ∉ s.unique_objects_) :
    s.global_memory_version_ ≤ s.GetMemoryVersion base field type := by
  unfold GetMemoryVersion
  simp only []
  by_cases hb : u16 base = NO_VALUE
  · simp only [hb, ne_eq, not_true_eq_false, false_and, if_false]
    exact le_max_right _ _
  · simp only [ne_eq, hb, not_false_eq_true, hu, and_self, if_true]
    exact le_max_right _ _

/-- `MakeArgsNonUnique` does not touch the memory versions. -/
theorem MakeArgsNonUniqueLoop_memory (uses : List Nat) : ∀ s : LocalValueNumbering,
    (s.MakeArgsNonUniqueLoop uses).memory_version_map_ = s.memory_version_map_ ∧
      (s.MakeArgsNonUniqueLoop uses).next_memory_version_ = s.next_memory_version_ ∧
      (s.MakeArgsNonUniqueLoop uses).global_memory_version_ = s.global_memory_version_ ∧
      (s.MakeArgsNonUniqueLoop uses).unresolved_ifield_version_ =
        s.unresolved_ifield_version_ ∧
      (s.MakeArgsNonUniqueLoop uses).unresolved_sfield_version_ =
        s.unresolved_sfield_version_ := by
  induction uses with
  | nil => intro s; exact ⟨rfl, rfl, rfl, rfl, rfl⟩
  | cons u rest ih =>
    intro s
    unfold MakeArgsNonUniqueLoop
    obtain ⟨h1, h2, h3, h4, h5⟩ := ih
      { (s.GetOperandValue u).2 with
        unique_objects_ := setErase (s.GetOperandValue u).1 (s.GetOperandValue u).2.unique_objects_ }
    simp only [] at h1 h2 h3 h4 h5 ⊢
    rw [h1, h2, h3, h4, h5]
    simp

/-- The invoke cases keep the memory-version map and make the old counter value the global
memory version. -/
theorem invoke_memory (s : LocalValueNumbering) (mir : MIR) (next : Option MIR)
    (harm : armOf (u16 mir.opcode) = .invoke ∨ armOf (u16 mir.opcode) = .invokeStatic) :
    (s.GetValueNumber mir next).2.1.memory_version_map_ = s.memory_version_map_ ∧
      (s.GetValueNumber mir next).2.1.global_memory_version_ = s.next_memory_version_ := by
  unfold GetValueNumber
  rcases harm with harm | harm
  · simp only [harm]
    unfold MakeArgsNonUnique
    obtain ⟨h1, _, h3, _, _⟩ := MakeArgsNonUniqueLoop_memory
      ((s.GetOperandValue (mir.uses.getD 0 0)).2.HandleNullCheck mir
        (s.GetOperandValue (mir.uses.getD 0 0)).1).2.uses
      ((s.GetOperandValue (mir.uses.getD 0 0)).2.HandleNullCheck mir
        (s.GetOperandValue (mir.uses.getD 0 0)).1).1.AdvanceGlobalMemory
    rw [h1, h3]
    simp [AdvanceGlobalMemory]
  · simp only [harm]
    unfold MakeArgsNonUnique
    obtain ⟨h1, _, h3, _, _⟩ := MakeArgsNonUniqueLoop_memory mir.uses s.AdvanceGlobalMemory
    rw [h1, h3]
    simp [AdvanceGlobalMemory]

/-- C19 (evaluation at the failing input): in the state reached by
`AdvanceMemoryVersion(3, 0, 0)` when the memory version counter stands at 0xffff, value name
4 is not unique and `GetMemoryVersion(4, 0, 0)` returns 0xffff; after `AdvanceGlobalMemory()`
the new global memory version is 0 and `GetMemoryVersion(4, 1, 0)` returns 0, which is not
greater than the version returned before the call. -/
theorem AdvanceGlobalMemory_after_wrap :
    4 ∉ wrappedVersions.unique_objects_ ∧
      wrappedVersions.GetMemoryVersion 4 0 0 = 0xffff ∧
      wrappedVersions.AdvanceGlobalMemory.global_memory_version_ = 0 ∧
      wrappedVersions.AdvanceGlobalMemory.GetMemoryVersion 4 1 0 = 0 ∧
      ¬ (wrappedVersions.GetMemoryVersion 4 0 0
          < wrappedVersions.AdvanceGlobalMemory.GetMemoryVersion 4 1 0) := by
  decide

/-- C19 (amended): as long as the memory version counter has not wrapped (every recorded
version is smaller than `next_memory_version_`), after `AdvanceGlobalMemory()`
`GetMemoryVersion(base, field, type)` for a base outside the unique-object set is at least
the new global memory version and greater than the version `GetMemoryVersion(b, f, t)`
returned before the call, for every `b`, `f`, `t`. The same holds for the state left by an
invoke instruction, each of which calls `AdvanceGlobalMemory()`. -/
theorem AdvanceGlobalMemory_invalidates (s : LocalValueNumbering) (hV : s.VersionsBelowNext)
    (base field type b f t : Nat) :
    (u16 base ∉ s.unique_objects_ →
      s.AdvanceGlobalMemory.global_memory_version_
          ≤ s.AdvanceGlobalMemory.GetMemoryVersion base field type ∧
        s.GetMemoryVersion b f t < s.AdvanceGlobalMemory.GetMemoryVersion base field type) ∧
      (∀ (mir : MIR) (next : Option MIR),
        armOf (u16 mir.opcode) = .invoke ∨ armOf (u16 mir.opcode) = .invokeStatic →
        u16 base ∉ (s.GetValueNumber mir next).2.1.unique_objects_ →
        (s.GetValueNumber mir next).2.1.global_memory_version_
            ≤ (s.GetValueNumber mir next).2.1.GetMemoryVersion base field type ∧
          s.GetMemoryVersion b f t
            < (s.GetValueNumber mir next).2.1.GetMemoryVersion base field type) := by
  have hlt := GetMemoryVersion_lt s b f t hV
  constructor
  · intro hu
    have hge := GetMemoryVersion_ge_global s.AdvanceGlobalMemory base field type (by simpa using hu)
    refine ⟨hge, lt_of_lt_of_le hlt ?_⟩
    simpa [AdvanceGlobalMemory] using hge
  · intro mir next harm hu
    have hge := GetMemoryVersion_ge_global (s.GetValueNumber mir next).2.1 base field type hu
    refine ⟨hge, lt_of_lt_of_le hlt ?_⟩
    rw [(invoke_memory s mir next harm).2] at hge
    exact hge

/-- Witness for C19: the state after `AdvanceMemoryVersion(3, 0, 0)` from the initial state,
read through value name 4 after the call and through value name 3 before it. -/
theorem AdvanceGlobalMemory_invalidates_witness :
    (init.AdvanceMemoryVersion 3 0 0).2.VersionsBelowNext ∧
      (init.AdvanceMemoryVersion 3 0 0).2.GetMemoryVersion 3 0 0
        < (init.AdvanceMemoryVersion 3 0 0).2.AdvanceGlobalMemory.GetMemoryVersion 4 0 0 :=
  have hV : (init.AdvanceMemoryVersion 3 0 0).2.VersionsBelowNext :=
    ⟨(by
        intro k v h
        have h' : (if (NO_VALUE, 0, 0) = k then some 1
            else if (3, 0, 0) = k then some 1 else none) = some v := h
        split at h'
        · cases h'; decide
        · split at h'
          · cases h'; decide
          · cases h'),
      (by decide), (by decide), (by decide)⟩
  ⟨hV, ((AdvanceGlobalMemory_invalidates _ hV 4 0 0 3 0 0).1 (by decide)).2⟩

end LocalValueNumbering

/-! ## Saved lock words -/

namespace gc

theorem GetLockWord_lt (mem : Mem) (o : Nat) : GetLockWord mem o < 2 ^ 32 := by
  unfold GetLockWord
  have h0 := Nat.mod_lt (mem (o + kMonitorOffset)) (by norm_num : 256 > 0)
  have h1 := Nat.mod_lt (mem (o + kMonitorOffset + 1)) (by norm_num : 256 > 0)
  have h2 := Nat.mod_lt (mem (o + kMonitorOffset + 2)) (by norm_num : 256 > 0)
  have h3 := Nat.mod_lt (mem (o + kMonitorOffset + 3)) (by norm_num : 256 > 0)
  omega

namespace MarkCompact

/-- Forwarding the objects of an ascending list of aligned addresses: the queue receives the
lock words of the objects whose lock word is not the default one, in the order of the list. -/
theorem foldl_FowardObject_saved (L : List Nat) (s : MarkCompact)
    (hal : ∀ x ∈ L, x % 8 = 0) (hs : L.Pairwise (fun a b => a < b)) :
    (L.foldl FowardObject s).lock_words_to_restore_ =
      s.lock_words_to_restore_ ++
        (L.filter (fun o => decide (GetLockWord s.mem o ≠ LockWord.default))).map
          (GetLockWord s.mem) := by
  induction L generalizing s with
  | nil => simp
  | cons x rest ih =>
    obtain ⟨hx, hrest⟩ := List.pairwise_cons.1 hs
    have hal' : ∀ y ∈ rest, y % 8 = 0 := fun y hy => hal y (List.mem_cons_of_mem _ hy)
    have hx8 : x % 8 = 0 := hal x (List.mem_cons_self _ _)
    obtain ⟨_, _, _, _, _, fm, _⟩ := FowardObject_fields s x
    obtain ⟨_, qq⟩ := FowardObject_queue s x
    have hlw : ∀ y ∈ rest, GetLockWord (s.FowardObject x).mem y = GetLockWord s.mem y := by
      intro y hy
      rw [fm]
      have := hx y hy
      have := hal' y hy
      exact GetLockWord_SetLockWord_other _ _ _ _ (by omega)
    rw [List.foldl_cons, ih (s.FowardObject x) hal' hrest, qq]
    have hfil : (rest.filter
        (fun o => decide (GetLockWord (s.FowardObject x).mem o ≠ LockWord.default))).map
          (GetLockWord (s.FowardObject x).mem) =
        (rest.filter (fun o => decide (GetLockWord s.mem o ≠ LockWord.default))).map
          (GetLockWord s.mem) := by
      have h1 : rest.filter
          (fun o => decide (GetLockWord (s.FowardObject x).mem o ≠ LockWord.default)) =
          rest.filter (fun o => decide (GetLockWord s.mem o ≠ LockWord.default)) := by
        apply List.filter_congr
        intro y hy
        rw [hlw y hy]
      rw [h1]
      apply List.map_congr_left
      intro y hy
      exact hlw y (List.mem_of_mem_filter hy)
    rw [hfil, List.filter_cons]
    by_cases hd : GetLockWord s.mem x ≠ LockWord.default
    · rw [if_pos hd, if_pos (decide_eq_true hd)]
      simp
    · rw [if_neg hd, if_neg (by simpa using hd)]

/-- The lock word one `MoveObject` leaves at the destination, and the queue it leaves. -/
theorem MoveObject_lockword (s : MarkCompact) (o size fwd : Nat)
    (hf : GetLockWord s.mem o = LockWord.FromForwardingAddress fwd)
    (h4 : fwd % 4 = 0) (h32 : fwd < 2 ^ 32) :
    (o ∉ s.objects_with_lockword_ →
      ∃ s', s.MoveObject o size = some s' ∧ GetLockWord s'.mem fwd = LockWord.default ∧
        s'.lock_words_to_restore_ = s.lock_words_to_restore_) ∧
    (∀ w rest, o ∈ s.objects_with_lockword_ → s.lock_words_to_restore_ = w :: rest →
      w < 2 ^ 32 →
      ∃ s', s.MoveObject o size = some s' ∧ GetLockWord s'.mem fwd = w ∧
        s'.lock_words_to_restore_ = rest) := by
  unfold MoveObject
  simp only [hf, ForwardingAddress_FromForwardingAddress fwd h4 h32]
  constructor
  · intro hm
    simp only [hm, if_false]
    exact ⟨_, rfl, GetLockWord_SetLockWord_same _ _ _ (by decide), rfl⟩
  · intro w rest hm hq hw
    simp only [hm, if_true, hq]
    exact ⟨_, rfl, GetLockWord_SetLockWord_same _ _ _ hw, rfl⟩

/-- Moving the objects of a layout, with the queue holding the words `orig o` of the objects
whose bit is set in `objects_with_lockword_`, in order, followed by `tail`: each destination
gets the lock word `orig o` of its object and `tail` is what is left of the queue. -/
theorem moveAll_lockwords (orig : Nat → Nat) (objs : List (Nat × Nat)) :
    ∀ (s : MarkCompact) (fwd hi : Nat) (tail : List Nat),
    fwd % 4 = 0 → hi ≤ 2 ^ 32 → Layout fwd objs hi → Forwards s.mem fwd objs →
    (∀ p ∈ objs, orig p.1 < 2 ^ 32) →
    (∀ p ∈ objs, p.1 ∉ s.objects_with_lockword_ → orig p.1 = LockWord.default) →
    s.lock_words_to_restore_ =
      (objs.filter (fun p => decide (p.1 ∈ s.objects_with_lockword_))).map
        (fun p => orig p.1) ++ tail →
    ∃ s', moveAll s objs = some s' ∧ s'.lock_words_to_restore_ = tail ∧
      (∀ pre o size post, objs = pre ++ (o, size) :: post →
        GetLockWord s'.mem (fwd + (pre.map Prod.snd).sum) = orig o) := by
  induction objs with
  | nil =>
    intro s fwd hi tail _ _ _ _ _ _ hq
    refine ⟨s, rfl, by simpa using hq, ?_⟩
    intro pre o size post h
    exact absurd h (by simp)
  | cons p rest ih =>
    obtain ⟨o, size⟩ := p
    intro s fwd hi tail h4 h32 hl hf h32o hdef hq
    obtain ⟨l1, l2, l3, l4, l5⟩ := hl
    obtain ⟨f1, f2⟩ := hf
    have hhi := Layout_le l5
    have hfwd : fwd < 2 ^ 32 := by omega
    obtain ⟨k1, k2⟩ := MoveObject_lockword s o size fwd f1 h4 hfwd
    have hstep : ∃ s1, s.MoveObject o size = some s1 ∧ GetLockWord s1.mem fwd = orig o ∧
        s1.lock_words_to_restore_ =
          (rest.filter (fun p => decide (p.1 ∈ s.objects_with_lockword_))).map
            (fun p => orig p.1) ++ tail := by
      by_cases hm : o ∈ s.objects_with_lockword_
      · rw [List.filter_cons, if_pos (by simpa using hm)] at hq
        simp only [List.map_cons, List.cons_append] at hq
        obtain ⟨s1, a1, a2, a3⟩ := k2 _ _ hm hq (h32o (o, size) (List.mem_cons_self _ _))
        exact ⟨s1, a1, a2, a3⟩
      · rw [List.filter_cons, if_neg (by simpa using hm)] at hq
        obtain ⟨s1, a1, a2, a3⟩ := k1 hm
        exact ⟨s1, a1, by rw [a2, hdef (o, size) (List.mem_cons_self _ _) hm], a3.trans hq⟩
    obtain ⟨s1, a1, a2, a3⟩ := hstep
    have hq1 : o ∈ s.objects_with_lockword_ → s.lock_words_to_restore_ ≠ [] := by
      intro hm hnil
      rw [List.filter_cons, if_pos (by simpa using hm), hnil] at hq
      simp at hq
    obtain ⟨s1', m1, m2, m3, m4, m5, m6, m7, m8⟩ :=
      MoveObject_spec s o size fwd f1 h4 hfwd (by omega) hq1
    rw [a1] at m1
    cases m1
    have hf1 : Forwards s1.mem (fwd + size) rest :=
      Forwards_congr rest (fwd + size) l5 (fun x hx => m7 x (by omega)) f2
    rw [← m2] at a3
    obtain ⟨s', n1, n2, n3⟩ := ih s1 (fwd + size) hi tail (by omega) h32
      (Layout_mono l5 (by omega)) hf1
      (fun p hp => h32o p (List.mem_cons_of_mem _ hp))
      (fun p hp hn => hdef p (List.mem_cons_of_mem _ hp) (by rw [← m2]; exact hn)) a3
    have hcount : (rest.filter (fun p => decide (p.1 ∈ s1.objects_with_lockword_))).length ≤
        s1.lock_words_to_restore_.length := by
      rw [a3]; simp
    obtain ⟨s'', r1, _, _, _, _, _, r7, _⟩ := moveAll_spec rest s1 (fwd + size) hi
      (by omega) h32 (Layout_mono l5 (by omega)) hf1 hcount
    rw [n1] at r1
    cases r1
    refine ⟨s', ?_, n2, ?_⟩
    · simp only [moveAll, a1, Option.bind_some]
      exact n1
    · intro pre o' size' post hsplit
      cases pre with
      | nil =>
        simp only [List.nil_append, List.cons.injEq, Prod.mk.injEq] at hsplit
        obtain ⟨⟨e1, e2⟩, _⟩ := hsplit
        subst e1
        simp only [List.map_nil, List.sum_nil, Nat.add_zero]
        rw [← a2]
        exact GetLockWord_congr _ _ _ (fun x hx1 hx2 => r7 x (by omega))
      | cons q pre' =>
        simp only [List.cons_append, List.cons.injEq] at hsplit
        obtain ⟨e1, e2⟩ := hsplit
        subst e1
        have := n3 pre' o' size' post e2
        simp only [List.map_cons, List.sum_cons]
        rw [← this]
        congr 1
        omega


/-- The state left by `CalculateObjectForwardingAddresses` on a heap with an empty queue and
no lock word bit set for a marked object: the queue holds the lock words of the marked
objects whose lock word is not the default one, in ascending address order, and these
objects are the marked objects whose bit is set in `objects_with_lockword_`. -/
theorem forwarded_queue (s0 : MarkCompact)
    (hq : s0.lock_words_to_restore_ = [])
    (hlw : ∀ o ∈ s0.markedObjects, o ∉ s0.objects_with_lockword_) :
    s0.CalculateObjectForwardingAddresses.lock_words_to_restore_ =
        (s0.markedObjects.filter
          (fun o => decide (GetLockWord s0.mem o ≠ LockWord.default))).map
          (GetLockWord s0.mem) ∧
      (∀ o ∈ s0.markedObjects,
        (o ∈ s0.CalculateObjectForwardingAddresses.objects_with_lockword_ ↔
          GetLockWord s0.mem o ≠ LockWord.default)) ∧
      s0.CalculateObjectForwardingAddresses.lock_words_to_restore_ =
        (s0.markedSlots.filter (fun p =>
          decide (p.1 ∈ s0.CalculateObjectForwardingAddresses.objects_with_lockword_))).map
          (fun p => GetLockWord s0.mem p.1) ++ [] := by
  have hsaved := foldl_FowardObject_saved s0.markedObjects
    { s0 with bump_pointer_ := s0.space_begin } (markedObjects_aligned s0)
    (markedObjects_sorted s0)
  obtain ⟨_, _, _, b4, _⟩ := foldl_FowardObject_bitmaps s0.markedObjects
    { s0 with bump_pointer_ := s0.space_begin } (markedObjects_aligned s0)
    (markedObjects_sorted s0)
  rw [← CalculateObjectForwardingAddresses_eq_foldl] at hsaved b4
  have hq0 : ({ s0 with bump_pointer_ := s0.space_begin } :
      MarkCompact).lock_words_to_restore_ = [] := hq
  rw [hq0, List.nil_append] at hsaved
  have hiff : ∀ o ∈ s0.markedObjects,
      (o ∈ s0.CalculateObjectForwardingAddresses.objects_with_lockword_ ↔
        GetLockWord s0.mem o ≠ LockWord.default) := by
    intro o ho
    rw [b4 o]
    constructor
    · rintro (h | ⟨_, h⟩)
      · exact absurd h (hlw o ho)
      · exact h
    · intro h
      exact Or.inr ⟨ho, h⟩
  refine ⟨hsaved, hiff, ?_⟩
  rw [List.append_nil, hsaved]
  unfold markedSlots
  rw [List.filter_map, List.map_map]
  have hfil : s0.markedObjects.filter
      ((fun p : Nat × Nat =>
        decide (p.1 ∈ s0.CalculateObjectForwardingAddresses.objects_with_lockword_)) ∘
        fun o => (o, s0.alignedSize o)) =
      s0.markedObjects.filter (fun o => decide (GetLockWord s0.mem o ≠ LockWord.default)) := by
    apply List.filter_congr
    intro o ho
    simp only [Function.comp]
    by_cases hd : GetLockWord s0.mem o ≠ LockWord.default
    · rw [decide_eq_true ((hiff o ho).2 hd), decide_eq_true hd]
    · rw [decide_eq_false (fun h => hd ((hiff o ho).1 h)), decide_eq_false hd]
  rw [hfil]
  rfl

/-- C11: lock-word round trip. Let the marked objects of the space form a layout (aligned,
inside `[Begin, End)`, pairwise disjoint), with only object bits set in the bitmap of the
space, an empty queue and no lock word bit set, and let `CalculateObjectForwardingAddresses`
run. The queue then holds the lock words of the marked objects whose lock word was not the
default one, in ascending address order. `MoveObjects`, started on the resulting state with
any heap memory `mem1` that still holds the lock words written by the forwarding, succeeds,
and the lock word read afterwards at the destination of each marked object, `Begin` plus the
aligned sizes of the marked objects before it, is the lock word the object had before the
forwarding: the saved word when it was not the default word, the default word otherwise. -/
theorem lock_word_round_trip (s0 : MarkCompact) (mem1 : Mem)
    (hbeg : s0.space_begin % 8 = 0) (hend : s0.space_end ≤ 2 ^ 32)
    (hlay : Layout s0.space_begin s0.markedSlots s0.space_end)
    (hclean : ∀ x ∈ s0.objects_before_forwarding_,
      s0.space_begin ≤ x → x < s0.space_end → x % 8 = 0)
    (hq : s0.lock_words_to_restore_ = [])
    (hlw : ∀ o ∈ s0.markedObjects, o ∉ s0.objects_with_lockword_)
    (hmem1 : ∀ o ∈ s0.markedObjects,
      GetLockWord mem1 o = GetLockWord s0.CalculateObjectForwardingAddresses.mem o) :
    s0.CalculateObjectForwardingAddresses.lock_words_to_restore_ =
        (s0.markedObjects.filter
          (fun o => decide (GetLockWord s0.mem o ≠ LockWord.default))).map
          (GetLockWord s0.mem) ∧
      ∃ s', MoveObjects { s0.CalculateObjectForwardingAddresses with mem := mem1 } = some s' ∧
        (∀ pre o size post, s0.markedSlots = pre ++ (o, size) :: post →
          GetLockWord s'.mem (s0.space_begin + (pre.map Prod.snd).sum) =
            GetLockWord s0.mem o) := by
  obtain ⟨c1, c2, c3, c4, c5⟩ := forwarded_state s0 hclean hq hlw
  obtain ⟨q1, q2, q3⟩ := forwarded_queue s0 hq hlw
  have hF : Forwards mem1 s0.space_begin s0.markedSlots := by
    refine Forwards_of_lockwords _ _ ?_ c4
    intro p hp
    unfold markedSlots at hp
    rw [List.mem_map] at hp
    obtain ⟨o, ho, rfl⟩ := hp
    exact hmem1 o ho
  have h4 : s0.space_begin % 4 = 0 := by omega
  obtain ⟨s', e1, e2⟩ := MoveObjects_eq_moveAll
    { s0.CalculateObjectForwardingAddresses with mem := mem1 } s0.markedSlots
    (by rw [c1]; exact h4) (by rw [c2]; exact hend)
    (by rw [c1, c2]; exact hlay) (by rw [c1, c2]; exact c3) (by rw [c1]; exact hF) c5
  have hmemb : ∀ p ∈ s0.markedSlots, p.1 ∈ s0.markedObjects := by
    intro p hp
    unfold markedSlots at hp
    rw [List.mem_map] at hp
    obtain ⟨o, ho, rfl⟩ := hp
    exact ho
  obtain ⟨s'', m1, _, m3⟩ := moveAll_lockwords (GetLockWord s0.mem) s0.markedSlots
    { s0.CalculateObjectForwardingAddresses with mem := mem1 } s0.space_begin s0.space_end []
    h4 hend hlay hF (fun p _ => GetLockWord_lt _ _)
    (fun p hp hn => by
      by_contra hd
      exact hn ((q2 p.1 (hmemb p hp)).2 hd))
    q3
  rw [e2] at m1
  cases m1
  exact ⟨q1, s', e1, m3⟩

/-- C12: the queue of saved lock words never underflows. Let the marked objects of the space
form a layout, with only object bits set in the bitmap of the space, no lock word bit set
and `lock_words_to_restore_` empty before `CalculateObjectForwardingAddresses`. Then
`MoveObjects`, started after the forwarding with any heap memory `mem1` that still holds the
lock words written by it, succeeds: it makes the calls `MoveObject(obj, len)` for the marked
objects in ascending order; in the state `t` in which the call for an object is made, the
queue is not empty if the object has its bit set in `objects_with_lockword_`, so the call
succeeds; and the queue is empty at the end, so the final check passes. -/
theorem MoveObjects_queue_safe (s0 : MarkCompact) (mem1 : Mem)
    (hbeg : s0.space_begin % 8 = 0) (hend : s0.space_end ≤ 2 ^ 32)
    (hlay : Layout s0.space_begin s0.markedSlots s0.space_end)
    (hclean : ∀ x ∈ s0.objects_before_forwarding_,
      s0.space_begin ≤ x → x < s0.space_end → x % 8 = 0)
    (hq : s0.lock_words_to_restore_ = [])
    (hlw : ∀ o ∈ s0.markedObjects, o ∉ s0.objects_with_lockword_)
    (hmem1 : ∀ o ∈ s0.markedObjects,
      GetLockWord mem1 o = GetLockWord s0.CalculateObjectForwardingAddresses.mem o) :
    ∃ s', MoveObjects { s0.CalculateObjectForwardingAddresses with mem := mem1 } = some s' ∧
      moveAll { s0.CalculateObjectForwardingAddresses with mem := mem1 } s0.markedSlots =
        some s' ∧
      s'.lock_words_to_restore_ = [] ∧
      (∀ pre o size post, s0.markedSlots = pre ++ (o, size) :: post →
        ∃ t, moveAll { s0.CalculateObjectForwardingAddresses with mem := mem1 } pre = some t ∧
          (o ∈ t.objects_with_lockword_ → t.lock_words_to_restore_ ≠ []) ∧
          (t.MoveObject o size).isSome = true) := by
  obtain ⟨c1, c2, c3, c4, c5⟩ := forwarded_state s0 hclean hq hlw
  have hF : Forwards mem1 s0.space_begin s0.markedSlots := by
    refine Forwards_of_lockwords _ _ ?_ c4
    intro p hp
    unfold markedSlots at hp
    rw [List.mem_map] at hp
    obtain ⟨o, ho, rfl⟩ := hp
    exact hmem1 o ho
  have h4 : s0.space_begin % 4 = 0 := by omega
  obtain ⟨s', e1, e2⟩ := MoveObjects_eq_moveAll
    { s0.CalculateObjectForwardingAddresses with mem := mem1 } s0.markedSlots
    (by rw [c1]; exact h4) (by rw [c2]; exact hend)
    (by rw [c1, c2]; exact hlay) (by rw [c1, c2]; exact c3) (by rw [c1]; exact hF) c5
  obtain ⟨s'', m1, _, _, _, _, m6, _, _⟩ := moveAll_spec s0.markedSlots
    { s0.CalculateObjectForwardingAddresses with mem := mem1 } s0.space_begin s0.space_end
    h4 hend hlay hF (le_of_eq c5)
  rw [e2] at m1
  cases m1
  refine ⟨s', e1, e2, ?_, ?_⟩
  · apply List.eq_nil_of_length_eq_zero
    have c5' : (s0.markedSlots.filter (fun p => decide (p.1 ∈
        ({ s0.CalculateObjectForwardingAddresses with mem := mem1 } :
          MarkCompact).objects_with_lockword_))).length =
        ({ s0.CalculateObjectForwardingAddresses with mem := mem1 } :
          MarkCompact).lock_words_to_restore_.length := c5
    omega
  · intro pre o size post hsplit
    rw [hsplit] at hlay hF c5
    obtain ⟨mid, l1, l2⟩ := Layout_append pre ((o, size) :: post) hlay
    have hmid : mid ≤ 2 ^ 32 := le_trans (Layout_le l2) hend
    rw [List.filter_append, List.length_append, List.filter_cons] at c5
    have hcount : (pre.filter (fun p => decide (p.1 ∈
        ({ s0.CalculateObjectForwardingAddresses with mem := mem1 } :
          MarkCompact).objects_with_lockword_))).length ≤
        ({ s0.CalculateObjectForwardingAddresses with mem := mem1 } :
          MarkCompact).lock_words_to_restore_.length := by
      show (pre.filter (fun p => decide (p.1 ∈
        s0.CalculateObjectForwardingAddresses.objects_with_lockword_))).length ≤
        s0.CalculateObjectForwardingAddresses.lock_words_to_restore_.length
      omega
    obtain ⟨t, t1, t2, _, _, _, t6, t7, _⟩ := moveAll_spec pre
      { s0.CalculateObjectForwardingAddresses with mem := mem1 } s0.space_begin mid
      h4 hmid l1 (Forwards_append pre _ _ hF) hcount
    have hne : o ∈ t.objects_with_lockword_ → t.lock_words_to_restore_ ≠ [] := by
      intro hm hnil
      rw [t2] at hm
      have hm' : o ∈ s0.CalculateObjectForwardingAddresses.objects_with_lockword_ := hm
      rw [if_pos (by simpa using hm')] at c5
      rw [hnil] at t6
      simp only [List.length_cons, List.length_nil] at c5 t6
      have t6' : 0 + (pre.filter (fun p => decide (p.1 ∈
          s0.CalculateObjectForwardingAddresses.objects_with_lockword_))).length =
          s0.CalculateObjectForwardingAddresses.lock_words_to_restore_.length := t6
      omega
    refine ⟨t, t1, hne, ?_⟩
    unfold MoveObject
    simp only []
    split
    · rename_i hm
      cases hl : t.lock_words_to_restore_ with
      | nil => exact absurd hl (hne hm)
      | cons w rest => rfl
    · rfl

/-- Witness for C11: the example heap, moved with the memory left by the forwarding. -/
theorem lock_word_round_trip_witness :
    exampleHeap.CalculateObjectForwardingAddresses.lock_words_to_restore_ =
        (exampleHeap.markedObjects.filter
          (fun o => decide (GetLockWord exampleHeap.mem o ≠ LockWord.default))).map
          (GetLockWord exampleHeap.mem) ∧
      ∃ s', MoveObjects { exampleHeap.CalculateObjectForwardingAddresses with
          mem := exampleHeap.CalculateObjectForwardingAddresses.mem } = some s' ∧
        (∀ pre o size post, exampleHeap.markedSlots = pre ++ (o, size) :: post →
          GetLockWord s'.mem (exampleHeap.space_begin + (pre.map Prod.snd).sum) =
            GetLockWord exampleHeap.mem o) :=
  lock_word_round_trip exampleHeap exampleHeap.CalculateObjectForwardingAddresses.mem
    (by decide) (by decide)
    (by
      have h : exampleHeap.markedSlots = [(16, 8), (32, 16)] := by decide
      rw [h]
      exact ⟨by decide, by decide, by decide, by decide, by decide, by decide, by decide,
        by decide, (by show 32 + 16 ≤ exampleHeap.space_end; decide)⟩)
    (by decide) rfl (by decide) (fun _ _ => rfl)

/-- Witness for C12: the example heap, moved with the memory left by the forwarding. -/
theorem MoveObjects_queue_safe_witness :
    ∃ s', MoveObjects { exampleHeap.CalculateObjectForwardingAddresses with
        mem := exampleHeap.CalculateObjectForwardingAddresses.mem } = some s' ∧
      moveAll { exampleHeap.CalculateObjectForwardingAddresses with
        mem := exampleHeap.CalculateObjectForwardingAddresses.mem } exampleHeap.markedSlots =
        some s' ∧
      s'.lock_words_to_restore_ = [] ∧
      (∀ pre o size post, exampleHeap.markedSlots = pre ++ (o, size) :: post →
        ∃ t, moveAll { exampleHeap.CalculateObjectForwardingAddresses with
            mem := exampleHeap.CalculateObjectForwardingAddresses.mem } pre = some t ∧
          (o ∈ t.objects_with_lockword_ → t.lock_words_to_restore_ ≠ []) ∧
          (t.MoveObject o size).isSome = true) :=
  MoveObjects_queue_safe exampleHeap exampleHeap.CalculateObjectForwardingAddresses.mem
    (by decide) (by decide)
    (by
      have h : exampleHeap.markedSlots = [(16, 8), (32, 16)] := by decide
      rw [h]
      exact ⟨by decide, by decide, by decide, by decide, by decide, by decide, by decide,
        by decide, (by show 32 + 16 ≤ exampleHeap.space_end; decide)⟩)
    (by decide) rfl (by decide) (fun _ _ => rfl)

end MarkCompact

end gc

/-! ## Updating the references -/

namespace gc

theorem AsMirrorPtr_Assign_same (mem : Mem) (a v : Nat) (hv : v < 2 ^ 32) :
    AsMirrorPtr (Assign mem a v) a = v := by
  unfold AsMirrorPtr Assign
  simp
  omega

theorem Assign_of_out (mem : Mem) (a v x : Nat) (hx : x < a ∨ a + 4 ≤ x) :
    Assign mem a v x = mem x := by
  unfold Assign
  have e0 : ¬ (x = a) := by omega
  have e1 : ¬ (x = a + 1) := by omega
  have e2 : ¬ (x = a + 2) := by omega
  have e3 : ¬ (x = a + 3) := by omega
  simp only [e0, e1, e2, e3, if_false]

/-- The address read from a slot depends on the four bytes of the slot only. -/
theorem AsMirrorPtr_congr (mem mem' : Mem) (a : Nat)
    (h : ∀ x, a ≤ x → x < a + 4 → mem' x = mem x) :
    AsMirrorPtr mem' a = AsMirrorPtr mem a := by
  unfold AsMirrorPtr
  rw [h a (by omega) (by omega), h (a + 1) (by omega) (by omega),
    h (a + 2) (by omega) (by omega), h (a + 3) (by omega) (by omega)]

theorem ForwardingAddress_lt (v : Nat) : LockWord.ForwardingAddress v < 2 ^ 32 :=
  Nat.mod_lt _ (by norm_num)

namespace MarkCompact

/-- A reference outside the compacted space is its own forwarding address. -/
theorem GetMarkedForwardAddress_of_out (s : MarkCompact) (obj : Nat)
    (h : s.HasAddress obj = false) : s.GetMarkedForwardAddress obj = obj := by
  unfold GetMarkedForwardAddress
  simp [h]

/-- One callback of `UpdateReferences` on a slot whose root, if it is one, is not null: it
succeeds, writes at most the four bytes of the slot and, unless it is the class root
callback, leaves in the slot the forwarding address of a referent that is a non-class object
in the address range of the space. -/
theorem visitSlot_spec (IsClass : Nat → Bool) (s : MarkCompact) (v : SlotVisit)
    (hroot : ∀ a, v = .root a → AsMirrorPtr s.mem a ≠ 0) :
    ∃ s', visitSlot IsClass (some s) v = some s' ∧ s' = { s with mem := s'.mem } ∧
      (∀ x, x < v.slot ∨ v.slot + 4 ≤ x → s'.mem x = s.mem x) ∧
      ((∀ a, v ≠ .classRoot a) → AsMirrorPtr s.mem v.slot ≠ 0 →
        IsClass (AsMirrorPtr s.mem v.slot) = false →
        s.HasAddress (AsMirrorPtr s.mem v.slot) = true →
        AsMirrorPtr s'.mem v.slot =
          LockWord.ForwardingAddress (GetLockWord s.mem (AsMirrorPtr s.mem v.slot))) := by
  cases v with
  | root a =>
    have h0 := hroot a rfl
    simp only [visitSlot, UpdateRootCallback, SlotVisit.slot, h0, if_false]
    by_cases hc : IsClass (AsMirrorPtr s.mem a) = true
    · simp only [hc, not_true_eq_false, if_false]
      exact ⟨s, rfl, rfl, fun _ _ => rfl, fun _ _ h => by cases h⟩
    · simp only [hc, not_false_eq_true, if_true]
      by_cases hn : AsMirrorPtr s.mem a ≠ s.GetMarkedForwardAddress (AsMirrorPtr s.mem a)
      · rw [if_pos hn]
        refine ⟨_, rfl, rfl, fun x hx => Assign_of_out _ _ _ _ hx, fun _ _ _ hh => ?_⟩
        show AsMirrorPtr (Assign s.mem a _) a = _
        unfold GetMarkedForwardAddress
        simp only [hh, if_true]
        exact AsMirrorPtr_Assign_same _ _ _ (ForwardingAddress_lt _)
      · rw [if_neg hn]
        refine ⟨s, rfl, rfl, fun _ _ => rfl, fun _ _ _ hh => ?_⟩
        have hn' := not_not.1 hn
        unfold GetMarkedForwardAddress at hn'
        simp only [hh, if_true] at hn'
        exact hn'
  | field a =>
    simp only [visitSlot, UpdateHeapReference, SlotVisit.slot]
    by_cases hc : AsMirrorPtr s.mem a ≠ 0 ∧ ¬ IsClass (AsMirrorPtr s.mem a) = true
    · rw [if_pos hc]
      by_cases hn : AsMirrorPtr s.mem a ≠ s.GetMarkedForwardAddress (AsMirrorPtr s.mem a)
      · rw [if_pos hn]
        refine ⟨_, rfl, rfl, fun x hx => Assign_of_out _ _ _ _ hx, fun _ _ _ hh => ?_⟩
        show AsMirrorPtr (Assign s.mem a _) a = _
        unfold GetMarkedForwardAddress
        simp only [hh, if_true]
        exact AsMirrorPtr_Assign_same _ _ _ (ForwardingAddress_lt _)
      · rw [if_neg hn]
        refine ⟨s, rfl, rfl, fun _ _ => rfl, fun _ _ _ hh => ?_⟩
        have hn' := not_not.1 hn
        unfold GetMarkedForwardAddress at hn'
        simp only [hh, if_true] at hn'
        exact hn'
    · rw [if_neg hc]
      refine ⟨s, rfl, rfl, fun _ _ => rfl, fun _ h0 h1 _ => ?_⟩
      exact absurd ⟨h0, by simp [h1]⟩ hc
  | classRoot a =>
    simp only [visitSlot, UpdateClassRootCallback, SlotVisit.slot]
    by_cases hn : AsMirrorPtr s.mem a ≠ s.GetMarkedForwardAddress (AsMirrorPtr s.mem a)
    · rw [if_pos hn]
      exact ⟨_, rfl, rfl, fun x hx => Assign_of_out _ _ _ _ hx, fun h => absurd rfl (h a)⟩
    · rw [if_neg hn]
      exact ⟨s, rfl, rfl, fun _ _ => rfl, fun h => absurd rfl (h a)⟩

/-- The callbacks of `UpdateReferences` on pairwise disjoint slots, the roots not null: all
succeed, only the slots are written, and each root or field slot whose referent is a
non-class object in the address range of the space, with a lock word no slot overlaps, holds
the forwarding address read from that lock word. -/
theorem UpdateReferences_spec (IsClass : Nat → Bool) (visits : List SlotVisit) :
    ∀ s : MarkCompact,
    visits.Pairwise (fun a b => a.slot + 4 ≤ b.slot ∨ b.slot + 4 ≤ a.slot) →
    (∀ a, SlotVisit.root a ∈ visits → AsMirrorPtr s.mem a ≠ 0) →
    ∃ s', s.UpdateReferences IsClass visits = some s' ∧ s' = { s with mem := s'.mem } ∧
      (∀ x, (∀ v ∈ visits, x < v.slot ∨ v.slot + 4 ≤ x) → s'.mem x = s.mem x) ∧
      (∀ v ∈ visits, (∀ a, v ≠ .classRoot a) → AsMirrorPtr s.mem v.slot ≠ 0 →
        IsClass (AsMirrorPtr s.mem v.slot) = false →
        s.HasAddress (AsMirrorPtr s.mem v.slot) = true →
        (∀ w ∈ visits, w.slot + 4 ≤ AsMirrorPtr s.mem v.slot + 4 ∨
          AsMirrorPtr s.mem v.slot + 8 ≤ w.slot) →
        AsMirrorPtr s'.mem v.slot =
          LockWord.ForwardingAddress (GetLockWord s.mem (AsMirrorPtr s.mem v.slot))) := by
  induction visits with
  | nil =>
    intro s _ _
    exact ⟨s, rfl, rfl, fun _ _ => rfl, fun v hv => absurd hv (List.not_mem_nil _)⟩
  | cons v rest ih =>
    intro s hp hroot
    obtain ⟨hv, hrest⟩ := List.pairwise_cons.1 hp
    obtain ⟨s1, a1, a2, a3, a4⟩ := visitSlot_spec IsClass s v
      (fun a e => hroot a (by rw [e]; exact List.mem_cons_self _ _))
    have hslot : ∀ w ∈ rest, AsMirrorPtr s1.mem w.slot = AsMirrorPtr s.mem w.slot := by
      intro w hw
      apply AsMirrorPtr_congr
      intro x hx1 hx2
      have := hv w hw
      exact a3 x (by omega)
    have hHas : ∀ o, s1.HasAddress o = s.HasAddress o := by
      intro o
      rw [a2]
      rfl
    obtain ⟨s', b1, b2, b3, b4⟩ := ih s1 hrest (fun a ha => by
      have := hslot (.root a) ha
      simp only [SlotVisit.slot] at this
      rw [this]
      exact hroot a (List.mem_cons_of_mem _ ha))
    refine ⟨s', ?_, ?_, ?_, ?_⟩
    · unfold UpdateReferences
      rw [List.foldl_cons, a1]
      exact b1
    · rw [b2, a2]
    · intro x hx
      rw [b3 x (fun w hw => hx w (List.mem_cons_of_mem _ hw)),
        a3 x (hx v (List.mem_cons_self _ _))]
    · intro w hw hncl h0 hcls hhas hlock
      rcases List.mem_cons.1 hw with e | e
      · subst e
        have := a4 hncl h0 hcls hhas
        rw [← this]
        apply AsMirrorPtr_congr
        intro x hx1 hx2
        apply b3
        intro u hu
        have := hv u hu
        omega
      · have e1 := hslot w e
        have hl : GetLockWord s1.mem (AsMirrorPtr s.mem w.slot) =
            GetLockWord s.mem (AsMirrorPtr s.mem w.slot) := by
          apply GetLockWord_congr
          intro x hx1 hx2
          apply a3
          have := hlock v (List.mem_cons_self _ _)
          omega
        have := b4 w e hncl (by rw [e1]; exact h0) (by rw [e1]; exact hcls)
          (by rw [e1, hHas]; exact hhas)
          (by rw [e1]; exact fun u hu => hlock u (List.mem_cons_of_mem _ hu))
        rw [this, e1, hl]


theorem Layout_sum_mod {lo hi : Nat} {objs : List (Nat × Nat)} (h : Layout lo objs hi) :
    (objs.map Prod.snd).sum % 8 = 0 := by
  induction objs generalizing lo with
  | nil => rfl
  | cons p rest ih =>
    obtain ⟨o, size⟩ := p
    obtain ⟨_, _, h3, _, h5⟩ := h
    have := ih h5
    simp only [List.map_cons, List.sum_cons]
    omega

/-- In a list of forwarded objects, the lock word of an object holds the start address plus
the sizes of the objects before it. -/
theorem Forwards_at {mem : Mem} (pre : List (Nat × Nat)) (o size : Nat)
    (post : List (Nat × Nat)) (fwd : Nat) (h : Forwards mem fwd (pre ++ (o, size) :: post)) :
    GetLockWord mem o = LockWord.FromForwardingAddress (fwd + (pre.map Prod.snd).sum) := by
  induction pre generalizing fwd with
  | nil => simpa using h.1
  | cons p rest ih =>
    obtain ⟨o', size'⟩ := p
    obtain ⟨_, h2⟩ := h
    have := ih _ h2
    simp only [List.map_cons, List.sum_cons]
    rw [this]
    congr 1
    omega

/-- C14: references to objects outside the compacted space are left alone.
`GetMarkedForwardAddress(obj)` returns `obj` for every `obj` outside `[Begin, End)`. For a
slot whose referent is such an object, or null, `UpdateHeapReference` leaves the collector
and the heap as they are, and so does every `UpdateRootCallback` that returns; the root
callback returns when the referent of the root is not null (on a null root it reads the
class of no object). -/
theorem references_outside_left_alone (IsClass : Nat → Bool) (s : MarkCompact) :
    (∀ obj, obj < s.space_begin ∨ s.space_end ≤ obj → s.GetMarkedForwardAddress obj = obj) ∧
      (∀ slot, (AsMirrorPtr s.mem slot < s.space_begin ∨ s.space_end ≤ AsMirrorPtr s.mem slot) ∨
          AsMirrorPtr s.mem slot = 0 →
        s.UpdateHeapReference IsClass slot = s ∧
          (∀ s', s.UpdateRootCallback IsClass slot = some s' → s' = s)) ∧
      (∀ slot, AsMirrorPtr s.mem slot < s.space_begin ∨ s.space_end ≤ AsMirrorPtr s.mem slot →
        AsMirrorPtr s.mem slot ≠ 0 → s.UpdateRootCallback IsClass slot = some s) := by
  have hout : ∀ obj, obj < s.space_begin ∨ s.space_end ≤ obj →
      s.GetMarkedForwardAddress obj = obj := by
    intro obj h
    apply GetMarkedForwardAddress_of_out
    unfold HasAddress
    apply decide_eq_false
    omega
  refine ⟨hout, ?_, ?_⟩
  · intro slot h
    rcases h with h | h
    · have e := hout _ h
      constructor
      · unfold UpdateHeapReference
        simp only [e, ne_eq, not_true_eq_false, if_false, ite_self]
      · intro s' hs'
        unfold UpdateRootCallback at hs'
        simp only [e, ne_eq, not_true_eq_false, if_false, ite_self] at hs'
        split at hs'
        · cases hs'
        · cases hs'; rfl
    · constructor
      · unfold UpdateHeapReference
        simp only [h, ne_eq, not_true_eq_false, false_and, if_false]
      · intro s' hs'
        unfold UpdateRootCallback at hs'
        simp only [h, if_true] at hs'
        cases hs'
  · intro slot h h0
    have e := hout _ h
    unfold UpdateRootCallback
    simp only [e, ne_eq, not_true_eq_false, if_false, ite_self, h0]

/-- Witness for C14: in the example heap with references, the root at address 72 refers to
an object at address 200, outside the space `[16, 64)`. -/
theorem references_outside_left_alone_witness :
    exampleGraph.GetMarkedForwardAddress 200 = 200 ∧
      exampleGraph.UpdateHeapReference (fun _ => false) 72 = exampleGraph ∧
      exampleGraph.UpdateRootCallback (fun _ => false) 72 = some exampleGraph :=
  ⟨(references_outside_left_alone (fun _ => false) exampleGraph).1 200 (by decide),
    ((references_outside_left_alone (fun _ => false) exampleGraph).2.1 72 (by decide)).1,
    (references_outside_left_alone (fun _ => false) exampleGraph).2.2 72 (by decide)
      (by decide)⟩

/-- C13: reference rewriting preserves the object graph. Let the marked objects of the space
form a layout of `[Begin, End)` with `0 < Begin` and `End ≤ 2^32`, with an empty queue and no
lock word bit set, and let `CalculateObjectForwardingAddresses` run. Let `UpdateReferences`
make its callbacks for the slots `visits`, each slot visited once (the slots are pairwise
disjoint), no slot overlapping the lock word of a marked object, no root null. Then
`UpdateReferences` succeeds and `MoveObjects` succeeds after it, and every root or field
slot whose referent was a marked non-class object `o` of the space holds the forwarding
address of `o`, `Begin` plus the aligned sizes of the marked objects before `o`; after
`MoveObjects` the bytes at that address are the bytes `o` had after the update, the lock word
apart: the slot points to the moved copy of the same object. -/
theorem references_follow_objects (IsClass : Nat → Bool) (s0 : MarkCompact)
    (visits : List SlotVisit)
    (hpos : 0 < s0.space_begin)
    (hbeg : s0.space_begin % 8 = 0) (hend : s0.space_end ≤ 2 ^ 32)
    (hlay : Layout s0.space_begin s0.markedSlots s0.space_end)
    (hclean : ∀ x ∈ s0.objects_before_forwarding_,
      s0.space_begin ≤ x → x < s0.space_end → x % 8 = 0)
    (hq : s0.lock_words_to_restore_ = [])
    (hlw : ∀ o ∈ s0.markedObjects, o ∉ s0.objects_with_lockword_)
    (hdisj : visits.Pairwise (fun a b => a.slot + 4 ≤ b.slot ∨ b.slot + 4 ≤ a.slot))
    (hroot : ∀ a, SlotVisit.root a ∈ visits →
      AsMirrorPtr s0.CalculateObjectForwardingAddresses.mem a ≠ 0)
    (hlock : ∀ v ∈ visits, ∀ o ∈ s0.markedObjects, v.slot + 4 ≤ o + 4 ∨ o + 8 ≤ v.slot) :
    ∃ s2 s3, s0.CalculateObjectForwardingAddresses.UpdateReferences IsClass visits = some s2 ∧
      s2.MoveObjects = some s3 ∧
      (∀ v ∈ visits, (∀ a, v ≠ .classRoot a) →
        ∀ pre o size post, s0.markedSlots = pre ++ (o, size) :: post →
        AsMirrorPtr s0.CalculateObjectForwardingAddresses.mem v.slot = o →
        IsClass o = false →
        AsMirrorPtr s2.mem v.slot = s0.space_begin + (pre.map Prod.snd).sum ∧
          (∀ k, k < size → ¬ (4 ≤ k ∧ k < 8) →
            s3.mem (s0.space_begin + (pre.map Prod.snd).sum + k) = s2.mem (o + k))) := by
  obtain ⟨c1, c2, c3, c4, c5⟩ := forwarded_state s0 hclean hq hlw
  obtain ⟨s2, u1, u2, u3, u4⟩ := UpdateReferences_spec IsClass visits
    s0.CalculateObjectForwardingAddresses hdisj hroot
  have hmemb : ∀ p ∈ s0.markedSlots, p.1 ∈ s0.markedObjects := by
    intro p hp
    unfold markedSlots at hp
    rw [List.mem_map] at hp
    obtain ⟨o, ho, rfl⟩ := hp
    exact ho
  have hmem1 : ∀ o ∈ s0.markedObjects,
      GetLockWord s2.mem o = GetLockWord s0.CalculateObjectForwardingAddresses.mem o := by
    intro o ho
    apply GetLockWord_congr
    intro x hx1 hx2
    apply u3
    intro v hv
    have := hlock v hv o ho
    omega
  have hF : Forwards s2.mem s0.space_begin s0.markedSlots := by
    refine Forwards_of_lockwords _ _ ?_ c4
    intro p hp
    exact hmem1 p.1 (hmemb p hp)
  have h4 : s0.space_begin % 4 = 0 := by omega
  obtain ⟨s3, e1, e2⟩ := MoveObjects_eq_moveAll
    { s0.CalculateObjectForwardingAddresses with mem := s2.mem } s0.markedSlots
    (by rw [c1]; exact h4) (by rw [c2]; exact hend)
    (by rw [c1, c2]; exact hlay) (by rw [c1, c2]; exact c3) (by rw [c1]; exact hF) c5
  obtain ⟨s3', m1, _, _, _, _, _, _, m8⟩ := moveAll_spec s0.markedSlots
    { s0.CalculateObjectForwardingAddresses with mem := s2.mem } s0.space_begin s0.space_end
    h4 hend hlay hF (le_of_eq c5)
  rw [e2] at m1
  cases m1
  rw [← u2] at e1
  refine ⟨s2, s3, u1, e1, ?_⟩
  intro v hv hncl pre o size post hsplit hslot hcls
  have ho : o ∈ s0.markedObjects :=
    hmemb (o, size) (by rw [hsplit]; exact List.mem_append_right _ (List.mem_cons_self _ _))
  obtain ⟨⟨hb1, hb2⟩, _, _⟩ := (mem_markedObjects s0 o).1 ho
  have hlay' := hlay
  rw [hsplit] at hlay'
  obtain ⟨mid, l1, l2⟩ := Layout_append pre ((o, size) :: post) hlay'
  have hsum := Layout_sum_le l1
  have hmod := Layout_sum_mod l1
  have hmid : mid ≤ o := l2.1
  have hfw := Forwards_at pre o size post s0.space_begin (by rw [← hsplit]; exact c4)
  refine ⟨?_, m8 pre o size post hsplit⟩
  have := u4 v hv hncl (by rw [hslot]; omega) (by rw [hslot]; exact hcls)
    (by
      rw [hslot]
      unfold HasAddress
      rw [c1, c2]
      exact decide_eq_true ⟨hb1, hb2⟩)
    (by rw [hslot]; exact fun w hw => hlock w hw o ho)
  rw [this, hslot, hfw]
  exact ForwardingAddress_FromForwardingAddress _ (by omega) (by omega)

set_option maxRecDepth 20000 in
/-- Witness for C13: the example heap with references and the callbacks for its three
slots. -/
theorem references_follow_objects_witness :
    ∃ s2 s3, exampleGraph.CalculateObjectForwardingAddresses.UpdateReferences (fun _ => false)
        [.root 8, .field 48, .root 72] = some s2 ∧
      s2.MoveObjects = some s3 ∧
      (∀ v ∈ [SlotVisit.root 8, .field 48, .root 72], (∀ a, v ≠ .classRoot a) →
        ∀ pre o size post, exampleGraph.markedSlots = pre ++ (o, size) :: post →
        AsMirrorPtr exampleGraph.CalculateObjectForwardingAddresses.mem v.slot = o →
        (fun _ => false) o = false →
        AsMirrorPtr s2.mem v.slot = exampleGraph.space_begin + (pre.map Prod.snd).sum ∧
          (∀ k, k < size → ¬ (4 ≤ k ∧ k < 8) →
            s3.mem (exampleGraph.space_begin + (pre.map Prod.snd).sum + k) =
              s2.mem (o + k))) :=
  references_follow_objects (fun _ => false) exampleGraph [.root 8, .field 48, .root 72]
    (by decide) (by decide) (by decide)
    (by
      have h : exampleGraph.markedSlots = [(24, 8), (40, 16)] := by decide
      rw [h]
      exact ⟨by decide, by decide, by decide, by decide, by decide, by decide, by decide,
        by decide, (by show 40 + 16 ≤ exampleGraph.space_end; decide)⟩)
    (by decide) rfl (by decide) (by decide)
    (by
      intro a h
      simp only [List.mem_cons, SlotVisit.root.injEq, List.mem_singleton, reduceCtorEq,
        false_or, or_false, List.not_mem_nil] at h
      rcases h with rfl | rfl <;> decide)
    (by decide)

end MarkCompact

end gc

/-! ## Marking -/

namespace gc

namespace MarkCompact

/-- Pushing a list of elements onto a stack with room for all of them. -/
theorem foldl_PushBack (l : List Nat) : ∀ (st : Marking),
    st.mark_stack_.length + l.length ≤ st.mark_stack_capacity_ →
    l.foldl (fun acc obj => acc.bind (fun t => PushBack t obj)) (some st) =
      some { st with mark_stack_ := l.reverse ++ st.mark_stack_ } := by
  induction l with
  | nil => intro st _; rfl
  | cons x rest ih =>
    intro st h
    simp only [List.length_cons] at h
    have hp : PushBack st x = some { st with mark_stack_ := x :: st.mark_stack_ } := by
      unfold PushBack
      rw [if_pos (by omega)]
    rw [List.foldl_cons, Option.some_bind, hp, ih _ (by simp only [List.length_cons]; omega)]
    simp

/-- `ResizeMarkStack` to a size the elements fit in changes the capacity only. -/
theorem ResizeMarkStack_ok (st : Marking) (new_size : Nat)
    (h : st.mark_stack_.length ≤ new_size) :
    ResizeMarkStack st new_size = some { st with mark_stack_capacity_ := new_size } := by
  unfold ResizeMarkStack
  simp only []
  rw [if_pos h, foldl_PushBack _ _ (by simpa using h)]
  simp

/-- `MarkStackPush` on a stack within its non-zero capacity: the element is pushed, the
capacity doubled when the stack was full. -/
theorem MarkStackPush_ok (st : Marking) (obj : Nat)
    (hcap : 0 < st.mark_stack_capacity_) (hlen : st.mark_stack_.length ≤ st.mark_stack_capacity_) :
    MarkStackPush st obj =
      some { st with mark_stack_ := obj :: st.mark_stack_
                     mark_stack_capacity_ :=
                       if st.mark_stack_.length ≥ st.mark_stack_capacity_ then
                         st.mark_stack_capacity_ * 2
                       else st.mark_stack_capacity_ } := by
  unfold MarkStackPush
  by_cases hfull : st.mark_stack_.length ≥ st.mark_stack_capacity_
  · rw [if_pos hfull, if_pos hfull, ResizeMarkStack_ok _ _ (by omega), Option.some_bind]
    unfold PushBack
    rw [if_pos (by show st.mark_stack_.length < st.mark_stack_capacity_ * 2; omega)]
  · rw [if_neg hfull, if_neg hfull]
    unfold PushBack
    rw [if_pos (by omega)]

theorem length_filter_lt {p q : Nat → Bool} (l : List Nat) (x : Nat) (hx : x ∈ l)
    (hpq : ∀ y, q y = true → p y = true) (hp : p x = true) (hq : q x = false) :
    (l.filter q).length < (l.filter p).length := by
  induction l with
  | nil => cases hx
  | cons y rest ih =>
    have hle : (rest.filter q).length ≤ (rest.filter p).length := by
      apply List.Sublist.length_le
      exact List.monotone_filter_right rest (fun z hz => hpq z hz)
    rcases List.mem_cons.1 hx with e | e
    · subst e
      rw [List.filter_cons, List.filter_cons, hp, hq]
      simp only [if_true, List.length_cons]
      simp
      omega
    · have := ih e
      rw [List.filter_cons, List.filter_cons]
      by_cases h1 : q y = true
      · rw [h1, hpq y h1]
        simp only [if_true, List.length_cons]
        omega
      · have h1' : q y = false := by simpa using h1
        rw [h1']
        by_cases h2 : p y = true
        · rw [h2]
          simp only [if_true, List.length_cons]
          simp
          omega
        · have h2' : p y = false := by simpa using h2
          rw [h2']
          simpa using this


theorem IsMarked_congr {st st' : Marking} (h : SameHeap st st')
    (h1 : st'.objects_before_forwarding_ = st.objects_before_forwarding_)
    (h2 : st'.mark_bitmap_ = st.mark_bitmap_) (x : Nat) : IsMarked st' x = IsMarked st x := by
  obtain ⟨a1, a2, a3, a4, _⟩ := h
  unfold IsMarked ContainsObject Marking.HasAddress
  rw [a1, a2, a3, a4, h1, h2]

/-- What a call of `MarkObject` that marks and pushes its object does to the invariants. -/
theorem mark_push_facts (heap : List Nat) (st st' : Marking) (r : Nat)
    (hiff : ∀ x, IsMarked st' x = true ↔ (IsMarked st x = true ∨ x = r))
    (hnot : IsMarked st r = false) (hstack : st'.mark_stack_ = r :: st.mark_stack_)
    (hheap : r ∈ heap) :
    (∀ x, IsMarked st x = true → IsMarked st' x = true) ∧
      (∀ x, IsMarked st' x = true → IsMarked st x = true ∨ x ∈ st'.mark_stack_) ∧
      (∀ x ∈ st.mark_stack_, x ∈ st'.mark_stack_) ∧
      (∀ x ∈ st'.mark_stack_, x ∈ st.mark_stack_ ∨ x ∈ heap) ∧
      (r ≠ 0 → IsMarked st' r = true) ∧
      st'.mark_stack_.length + unmarkedCount st' heap ≤
        st.mark_stack_.length + unmarkedCount st heap := by
  refine ⟨fun x hx => (hiff x).2 (Or.inl hx), ?_, ?_, ?_, fun _ => (hiff r).2 (Or.inr rfl), ?_⟩
  · intro x hx
    rcases (hiff x).1 hx with h | h
    · exact Or.inl h
    · right; rw [hstack, h]; exact List.mem_cons_self _ _
  · intro x hx
    rw [hstack]; exact List.mem_cons_of_mem _ hx
  · intro x hx
    rw [hstack] at hx
    rcases List.mem_cons.1 hx with h | h
    · right; rw [h]; exact hheap
    · exact Or.inl h
  · have hlt : unmarkedCount st' heap < unmarkedCount st heap := by
      unfold unmarkedCount
      apply length_filter_lt heap r hheap
      · intro y hy
        simp only [Bool.not_eq_true', ] at hy ⊢
        cases h : IsMarked st y with
        | false => rfl
        | true => rw [(hiff y).2 (Or.inl h)] at hy; cases hy
      · simp [hnot]
      · simp [(hiff r).2 (Or.inr rfl)]
    rw [hstack, List.length_cons]
    omega

/-- One call of `MarkObject` on a null reference, a marked object or an object of the heap:
it succeeds, marks nothing but its object, pushes the object if it was not marked, and does
not increase the number of stack elements plus unmarked objects. -/
theorem MarkObject_spec (heap : List Nat) (st : Marking) (r : Nat) (hok : StackOk st)
    (hr : r = 0 ∨ IsMarked st r = true ∨ r ∈ heap) :
    ∃ st', MarkObject st r = some st' ∧ SameHeap st st' ∧ StackOk st' ∧
      (∀ x, IsMarked st x = true → IsMarked st' x = true) ∧
      (∀ x, IsMarked st' x = true → IsMarked st x = true ∨ x ∈ st'.mark_stack_) ∧
      (∀ x ∈ st.mark_stack_, x ∈ st'.mark_stack_) ∧
      (∀ x ∈ st'.mark_stack_, x ∈ st.mark_stack_ ∨ x ∈ heap) ∧
      (r ≠ 0 → IsMarked st' r = true) ∧
      st'.mark_stack_.length + unmarkedCount st' heap ≤
        st.mark_stack_.length + unmarkedCount st heap := by
  have hsame : ∀ (hm : r ≠ 0 → IsMarked st r = true),
      ∃ st', some st = some st' ∧ SameHeap st st' ∧ StackOk st' ∧
      (∀ x, IsMarked st x = true → IsMarked st' x = true) ∧
      (∀ x, IsMarked st' x = true → IsMarked st x = true ∨ x ∈ st'.mark_stack_) ∧
      (∀ x ∈ st.mark_stack_, x ∈ st'.mark_stack_) ∧
      (∀ x ∈ st'.mark_stack_, x ∈ st.mark_stack_ ∨ x ∈ heap) ∧
      (r ≠ 0 → IsMarked st' r = true) ∧
      st'.mark_stack_.length + unmarkedCount st' heap ≤
        st.mark_stack_.length + unmarkedCount st heap :=
    fun hm => ⟨st, rfl, ⟨rfl, rfl, rfl, rfl, rfl⟩, hok, fun _ h => h, fun _ h => Or.inl h,
      fun _ h => h, fun _ h => Or.inl h, hm, le_refl _⟩
  obtain ⟨hcap, hlen⟩ := hok
  unfold MarkObject
  by_cases h0 : r = 0
  · rw [if_pos h0]
    exact hsame (fun h => absurd h0 h)
  rw [if_neg h0]
  by_cases hi : ContainsObject st r = true
  · rw [if_pos hi]
    exact hsame (fun _ => by unfold IsMarked; rw [if_pos hi])
  rw [if_neg hi]
  by_cases ha : st.HasAddress r = true
  · rw [if_pos ha]
    by_cases hm : r ∈ st.objects_before_forwarding_
    · rw [if_pos hm]
      exact hsame (fun _ => by
        unfold IsMarked
        rw [if_neg hi, if_pos ha]
        exact decide_eq_true hm)
    · rw [if_neg hm]
      have hnot : IsMarked st r = false := by
        unfold IsMarked
        rw [if_neg hi, if_pos ha]
        exact decide_eq_false hm
      have hheap : r ∈ heap := by
        rcases hr with h | h | h
        · exact absurd h h0
        · rw [hnot] at h; cases h
        · exact h
      rw [MarkStackPush_ok
        { st with objects_before_forwarding_ := bitmapSet r st.objects_before_forwarding_ }
        r hcap hlen]
      refine ⟨_, rfl, ⟨rfl, rfl, rfl, rfl, rfl⟩, ?_, ?_⟩
      · constructor
        · show 0 < (if st.mark_stack_.length ≥ st.mark_stack_capacity_ then
            st.mark_stack_capacity_ * 2 else st.mark_stack_capacity_)
          split <;> omega
        · show (r :: st.mark_stack_).length ≤
            (if st.mark_stack_.length ≥ st.mark_stack_capacity_ then
              st.mark_stack_capacity_ * 2 else st.mark_stack_capacity_)
          simp only [List.length_cons]
          split <;> omega
      · apply mark_push_facts heap st _ r _ hnot rfl hheap
        intro x
        unfold IsMarked ContainsObject Marking.HasAddress
        simp only [mem_bitmapSet]
        by_cases hx : x = r
        · subst hx
          unfold ContainsObject at hi
          unfold Marking.HasAddress at ha
          simp [hi, ha]
        · simp only [hx, false_or, or_false]
  · rw [if_neg ha]
    by_cases hm : r ∈ st.mark_bitmap_
    · rw [if_pos hm]
      exact hsame (fun _ => by
        unfold IsMarked
        rw [if_neg hi, if_neg ha]
        exact decide_eq_true hm)
    · rw [if_neg hm]
      have hnot : IsMarked st r = false := by
        unfold IsMarked
        rw [if_neg hi, if_neg ha]
        exact decide_eq_false hm
      have hheap : r ∈ heap := by
        rcases hr with h | h | h
        · exact absurd h h0
        · rw [hnot] at h; cases h
        · exact h
      rw [MarkStackPush_ok { st with mark_bitmap_ := bitmapSet r st.mark_bitmap_ } r hcap hlen]
      refine ⟨_, rfl, ⟨rfl, rfl, rfl, rfl, rfl⟩, ?_, ?_⟩
      · constructor
        · show 0 < (if st.mark_stack_.length ≥ st.mark_stack_capacity_ then
            st.mark_stack_capacity_ * 2 else st.mark_stack_capacity_)
          split <;> omega
        · show (r :: st.mark_stack_).length ≤
            (if st.mark_stack_.length ≥ st.mark_stack_capacity_ then
              st.mark_stack_capacity_ * 2 else st.mark_stack_capacity_)
          simp only [List.length_cons]
          split <;> omega
      · apply mark_push_facts heap st _ r _ hnot rfl hheap
        intro x
        unfold IsMarked ContainsObject Marking.HasAddress
        simp only [mem_bitmapSet]
        by_cases hx : x = r
        · subst hx
          unfold ContainsObject at hi
          unfold Marking.HasAddress at ha
          simp [hi, ha]
        · simp only [hx, false_or, or_false]


theorem SameHeap_trans {a b c : Marking} (h1 : SameHeap a b) (h2 : SameHeap b c) :
    SameHeap a c := by
  obtain ⟨a1, a2, a3, a4, a5⟩ := h1
  obtain ⟨b1, b2, b3, b4, b5⟩ := h2
  exact ⟨b1.trans a1, b2.trans a2, b3.trans a3, b4.trans a4, b5.trans a5⟩

/-- `MarkObject` on each reference of a list, all of them null, marked or in the heap. -/
theorem foldl_MarkObject (heap : List Nat) (fs : List Nat) : ∀ (st : Marking), StackOk st →
    (∀ r ∈ fs, r = 0 ∨ IsMarked st r = true ∨ r ∈ heap) →
    ∃ st', fs.foldl (fun acc ref => acc.bind (fun t => MarkObject t ref)) (some st) = some st' ∧
      SameHeap st st' ∧ StackOk st' ∧
      (∀ x, IsMarked st x = true → IsMarked st' x = true) ∧
      (∀ x, IsMarked st' x = true → IsMarked st x = true ∨ x ∈ st'.mark_stack_) ∧
      (∀ x ∈ st.mark_stack_, x ∈ st'.mark_stack_) ∧
      (∀ x ∈ st'.mark_stack_, x ∈ st.mark_stack_ ∨ x ∈ heap) ∧
      (∀ r ∈ fs, r ≠ 0 → IsMarked st' r = true) ∧
      st'.mark_stack_.length + unmarkedCount st' heap ≤
        st.mark_stack_.length + unmarkedCount st heap := by
  induction fs with
  | nil =>
    intro st hok _
    exact ⟨st, rfl, ⟨rfl, rfl, rfl, rfl, rfl⟩, hok, fun _ h => h, fun _ h => Or.inl h,
      fun _ h => h, fun _ h => Or.inl h, fun r hr => absurd hr (List.not_mem_nil _), le_refl _⟩
  | cons r rest ih =>
    intro st hok hfs
    obtain ⟨st1, a1, a2, a3, a4, a5, a6, a7, a8, a9⟩ :=
      MarkObject_spec heap st r hok (hfs r (List.mem_cons_self _ _))
    obtain ⟨st', b1, b2, b3, b4, b5, b6, b7, b8, b9⟩ := ih st1 a3 (fun x hx => by
      rcases hfs x (List.mem_cons_of_mem _ hx) with h | h | h
      · exact Or.inl h
      · exact Or.inr (Or.inl (a4 x h))
      · exact Or.inr (Or.inr h))
    refine ⟨st', ?_, SameHeap_trans a2 b2, b3, fun x h => b4 x (a4 x h), ?_,
      fun x h => b6 x (a6 x h), ?_, ?_, by omega⟩
    · rw [List.foldl_cons, Option.some_bind, a1]
      exact b1
    · intro x hx
      rcases b5 x hx with h | h
      · rcases a5 x h with h' | h'
        · exact Or.inl h'
        · exact Or.inr (b6 x h')
      · exact Or.inr h
    · intro x hx
      rcases b7 x hx with h | h
      · exact a7 x h
      · exact Or.inr h
    · intro x hx hx0
      rcases List.mem_cons.1 hx with e | e
      · subst e
        exact b4 x (a8 hx0)
      · exact b8 x e hx0

/-- On a finite heap `ProcessMarkStack` empties the mark stack within as many iterations as
there are stack elements and unmarked objects, and keeps the marking invariant. -/
theorem ProcessMarkStack_closes (heap : List Nat) : ∀ (n : Nat) (st : Marking),
    StackOk st → MarkInv st → (∀ o ∈ st.mark_stack_, o ∈ heap) →
    (∀ o ∈ heap, ∀ r ∈ st.fields o, r = 0 ∨ ContainsObject st r = true ∨ r ∈ heap) →
    st.mark_stack_.length + unmarkedCount st heap ≤ n →
    ∃ st', ProcessMarkStack n st = some st' ∧ st'.mark_stack_ = [] ∧ SameHeap st st' ∧
      (∀ x, IsMarked st x = true → IsMarked st' x = true) ∧ MarkInv st' := by
  intro n
  induction n with
  | zero =>
    intro st _ hinv _ _ hn
    have hnil : st.mark_stack_ = [] := List.eq_nil_of_length_eq_zero (by omega)
    refine ⟨st, ?_, hnil, ⟨rfl, rfl, rfl, rfl, rfl⟩, fun _ h => h, hinv⟩
    unfold ProcessMarkStack
    rw [hnil]
  | succ n ih =>
    intro st hok hinv hstack hheap hn
    cases hs : st.mark_stack_ with
    | nil =>
      refine ⟨st, ?_, hs, ⟨rfl, rfl, rfl, rfl, rfl⟩, fun _ h => h, hinv⟩
      unfold ProcessMarkStack
      rw [hs]
    | cons o rest =>
      have ho : o ∈ heap := hstack o (by rw [hs]; exact List.mem_cons_self _ _)
      have hsame0 : SameHeap st { st with mark_stack_ := rest } := ⟨rfl, rfl, rfl, rfl, rfl⟩
      have hIs0 : ∀ x, IsMarked { st with mark_stack_ := rest } x = IsMarked st x :=
        IsMarked_congr hsame0 rfl rfl
      have hok0 : StackOk { st with mark_stack_ := rest } := by
        obtain ⟨h1, h2⟩ := hok
        rw [hs] at h2
        simp only [List.length_cons] at h2
        exact ⟨h1, by show rest.length ≤ st.mark_stack_capacity_; omega⟩
      have hcnt0 : unmarkedCount { st with mark_stack_ := rest } heap = unmarkedCount st heap := by
        unfold unmarkedCount
        simp only [hIs0]
      obtain ⟨st1, a1, a2, a3, a4, a5, a6, a7, a8, a9⟩ := foldl_MarkObject heap (st.fields o)
        { st with mark_stack_ := rest } hok0 (fun r hr => by
          rcases hheap o ho r hr with h | h | h
          · exact Or.inl h
          · right; left
            rw [hIs0]
            unfold IsMarked
            rw [if_pos h]
          · exact Or.inr (Or.inr h))
      have hscan : ScanObject { st with mark_stack_ := rest } o = some st1 := a1
      have hfields : st1.fields = st.fields := a2.2.2.2.2
      have hCont : ∀ x, ContainsObject st1 x = ContainsObject st x := by
        intro x
        unfold ContainsObject
        rw [a2.2.2.1, a2.2.2.2.1]
      have hinv1 : MarkInv st1 := by
        intro x hx hxi
        rcases a5 x hx with h | h
        · rw [hIs0] at h
          rw [hCont] at hxi
          rcases hinv x h hxi with h' | h'
          · rw [hs] at h'
            rcases List.mem_cons.1 h' with e | e
            · right
              subst e
              intro r hr hr0
              rw [hfields] at hr
              exact a8 r hr hr0
            · exact Or.inl (a6 x e)
          · right
            intro r hr hr0
            rw [hfields] at hr
            have := h' r hr hr0
            rw [← hIs0] at this
            exact a4 r this
        · exact Or.inl h
      have hstack1 : ∀ x ∈ st1.mark_stack_, x ∈ heap := by
        intro x hx
        rcases a7 x hx with h | h
        · exact hstack x (by rw [hs]; exact List.mem_cons_of_mem _ h)
        · exact h
      have hheap1 : ∀ x ∈ heap, ∀ r ∈ st1.fields x,
          r = 0 ∨ ContainsObject st1 r = true ∨ r ∈ heap := by
        intro x hx r hr
        rw [hfields] at hr
        rw [hCont]
        exact hheap x hx r hr
      have hn1 : st1.mark_stack_.length + unmarkedCount st1 heap ≤ n := by
        rw [hcnt0] at a9
        rw [hs] at hn
        simp only [List.length_cons] at hn
        have : ({ st with mark_stack_ := rest } : Marking).mark_stack_.length = rest.length := rfl
        omega
      obtain ⟨st', b1, b2, b3, b4, b5⟩ := ih st1 a3 hinv1 hstack1 hheap1 hn1
      refine ⟨st', ?_, b2, SameHeap_trans (SameHeap_trans hsame0 a2) b3, ?_, b5⟩
      · unfold ProcessMarkStack
        rw [hs]
        simp only []
        rw [hscan, Option.some_bind]
        exact b1
      · intro x hx
        rw [← hIs0] at hx
        exact b4 x (a4 x hx)

/-- A run of `ProcessMarkStack` that ends within `n` iterations ends the same way when it is
allowed more. -/
theorem ProcessMarkStack_fuel : ∀ (n m : Nat), n ≤ m → ∀ (st st' : Marking),
    ProcessMarkStack n st = some st' → ProcessMarkStack m st = some st' := by
  intro n
  induction n with
  | zero =>
    intro m _ st st' h
    unfold ProcessMarkStack at h ⊢
    cases hs : st.mark_stack_ with
    | nil => rw [hs] at h; exact h
    | cons o rest => rw [hs] at h; cases h
  | succ n ih =>
    intro m hm st st' h
    obtain ⟨j, rfl⟩ : ∃ j, m = j + 1 := ⟨m - 1, by omega⟩
    unfold ProcessMarkStack at h ⊢
    cases hs : st.mark_stack_ with
    | nil => rw [hs] at h; exact h
    | cons o rest =>
      rw [hs] at h
      simp only [] at h ⊢
      cases hsc : ScanObject { st with mark_stack_ := rest } o with
      | none => rw [hsc] at h; cases h
      | some st1 =>
        rw [hsc, Option.some_bind] at h
        rw [Option.some_bind]
        exact ih j (by omega) st1 st' h

/-- An object that is marked (or immune), and a null reference, are left alone by
`MarkObject`: nothing is marked, nothing is pushed. -/
theorem MarkObject_of_marked (st : Marking) (r : Nat) (h : r = 0 ∨ IsMarked st r = true) :
    MarkObject st r = some st := by
  unfold MarkObject
  rcases h with h | h
  · rw [if_pos h]
  · unfold IsMarked at h
    by_cases h0 : r = 0
    · rw [if_pos h0]
    rw [if_neg h0]
    by_cases hi : ContainsObject st r = true
    · rw [if_pos hi]
    rw [if_neg hi] at h ⊢
    by_cases ha : st.HasAddress r = true
    · rw [if_pos ha] at h ⊢
      rw [if_pos (of_decide_eq_true h)]
    · rw [if_neg ha] at h ⊢
      rw [if_pos (of_decide_eq_true h)]

/-- C15: marking reaches a closed set. Let the heap be finite (`heap` lists its objects
outside the immune region: the objects on the mark stack, and every non-null, non-immune
referent of a strong reference field of a listed object), let the mark stack be within its
non-zero capacity, and let every marked object outside the immune region be on the mark stack
or have marked referents only. Then `ProcessMarkStack` terminates: it returns the same state
`st'` for every number of iterations allowed that is at least the number of stack elements
plus the number of unmarked objects of the heap, since `MarkObject` leaves a marked object
alone and so pushes each object at most once. In `st'` the mark stack is empty, what was
marked is still marked, and every non-null strong reference field of every marked object
outside the immune region refers to an object that is immune or marked. -/
theorem ProcessMarkStack_terminates (st : Marking) (heap : List Nat)
    (hcap : 0 < st.mark_stack_capacity_)
    (hlen : st.mark_stack_.length ≤ st.mark_stack_capacity_)
    (hstack : ∀ o ∈ st.mark_stack_, o ∈ heap)
    (hheap : ∀ o ∈ heap, ∀ r ∈ st.fields o, r = 0 ∨ ContainsObject st r = true ∨ r ∈ heap)
    (hinv : ∀ o, IsMarked st o = true → ContainsObject st o = false →
      o ∈ st.mark_stack_ ∨ ∀ r ∈ st.fields o, r ≠ 0 → IsMarked st r = true) :
    ∃ st', (∀ fuel, st.mark_stack_.length + unmarkedCount st heap ≤ fuel →
        ProcessMarkStack fuel st = some st') ∧
      (∀ (t : Marking) (r : Nat), IsMarked t r = true → MarkObject t r = some t) ∧
      st'.mark_stack_ = [] ∧
      (∀ x, IsMarked st x = true → IsMarked st' x = true) ∧
      (∀ o, IsMarked st' o = true → ContainsObject st' o = false →
        ∀ r ∈ st'.fields o, r ≠ 0 → IsMarked st' r = true) := by
  obtain ⟨st', b1, b2, b3, b4, b5⟩ := ProcessMarkStack_closes heap
    (st.mark_stack_.length + unmarkedCount st heap) st ⟨hcap, hlen⟩ hinv hstack hheap (le_refl _)
  refine ⟨st', ?_, fun t r h => MarkObject_of_marked t r (Or.inr h), b2, b4, ?_⟩
  · intro fuel hfuel
    exact ProcessMarkStack_fuel _ fuel hfuel st st' b1
  · intro o ho hoi
    rcases b5 o ho hoi with h | h
    · rw [b2] at h; cases h
    · exact h


/-- Witness for C15: the example heap for marking, whose objects outside the immune region
are those at 24, 40 and 300. -/
theorem ProcessMarkStack_terminates_witness :
    ∃ st', (∀ fuel, exampleMarking.mark_stack_.length +
          unmarkedCount exampleMarking [24, 40, 300] ≤ fuel →
        ProcessMarkStack fuel exampleMarking = some st') ∧
      (∀ (t : Marking) (r : Nat), IsMarked t r = true → MarkObject t r = some t) ∧
      st'.mark_stack_ = [] ∧
      (∀ x, IsMarked exampleMarking x = true → IsMarked st' x = true) ∧
      (∀ o, IsMarked st' o = true → ContainsObject st' o = false →
        ∀ r ∈ st'.fields o, r ≠ 0 → IsMarked st' r = true) :=
  ProcessMarkStack_terminates exampleMarking [24, 40, 300] (by decide) (by decide) (by decide)
    (by decide)
    (by
      intro o h hi
      left
      unfold IsMarked at h
      rw [hi] at h
      simp only [Bool.false_eq_true, if_false] at h
      split at h
      · simpa [exampleMarking] using h
      · simp [exampleMarking] at h)

end MarkCompact

end gc

/-! ## Properties carried along by value numbering -/

namespace LocalValueNumbering

open GlobalValueNumbering (u16 u32 u64 BuildKey MapExt Evolves)
open Instruction

theorem HandleNullCheck_uses (s : LocalValueNumbering) (mir : MIR) (reg : Nat) :
    (s.HandleNullCheck mir reg).2.uses = mir.uses := by
  unfold HandleNullCheck
  split <;> rfl

theorem thread_aputBody {P : Nat → Nat → LocalValueNumbering → Prop} (cl : Threads P)
    {a b : Nat} {s : LocalValueNumbering} (mir : MIR) (h : P a b s) :
    P (a + 3) (b + 1) (s.aputBody mir).2.1 :=
  cl.memoryVersion _ _ _ (cl.rangeCheck _ _ _
    (cl.getOperand _ (cl.nullCheck _ _ (cl.getOperand _ h))))

theorem thread_iputBody {P : Nat → Nat → LocalValueNumbering → Prop} (cl : Threads P)
    {a b : Nat} {s : LocalValueNumbering} (mir : MIR) (h : P a b s) :
    P (a + 1) (b + 1) (s.iputBody mir).2.1 := by
  have h1 := cl.nullCheck mir (s.GetOperandValue
    (mir.uses.getD (if u16 mir.opcode = Instruction.IPUT_WIDE then 2 else 1) 0)).1
    (cl.getOperand (mir.uses.getD (if u16 mir.opcode = Instruction.IPUT_WIDE then 2 else 1) 0) h)
  unfold iputBody
  simp only []
  split
  · exact cl.unresolvedI _ h1
  · split
    · exact cl.mono (le_refl _) (Nat.le_succ _) h1
    · exact cl.memoryVersion _ _ _ (cl.fieldId _ _ h1)

theorem thread_sputBody {P : Nat → Nat → LocalValueNumbering → Prop} (cl : Threads P)
    {a b : Nat} {s : LocalValueNumbering} (mir : MIR) (h : P a b s) :
    P a (b + 1) (s.sputBody mir).2.1 := by
  unfold sputBody
  simp only []
  split
  · exact cl.unresolvedS _ h
  · split
    · exact cl.mono (le_refl _) (Nat.le_succ _) h
    · exact cl.memoryVersion _ _ _ (cl.fieldId _ _ h)

/-- Value numbering of one instruction carries every such family along, with at most
`allocBound mir` allocations and one memory version increment more. -/
theorem thread_GetValueNumber {P : Nat → Nat → LocalValueNumbering → Prop} (cl : Threads P)
    {a b : Nat} {s : LocalValueNumbering} (mir : MIR) (next : Option MIR) (h : P a b s) :
    P (a + allocBound mir) (b + 1) (s.GetValueNumber mir next).2.1 := by
  unfold GetValueNumber allocBound
  simp only []
  split
  · exact cl.mono (by omega) (by omega) h
  · refine cl.mono (a := a + 1 + mir.uses.length) (by omega) (Nat.le_succ _)
      (cl.argsNonUnique _ ?_)
    split
    · split
      · exact cl.uniqueNonNull _ h
      · exact cl.mono (by omega) (le_refl _) h
    · exact cl.mono (by omega) (le_refl _) h
  · have hu := HandleNullCheck_uses (s.GetOperandValue (mir.uses.getD 0 0)).2 mir
      (s.GetOperandValue (mir.uses.getD 0 0)).1
    have := cl.argsNonUnique ((s.GetOperandValue (mir.uses.getD 0 0)).2.HandleNullCheck mir
        (s.GetOperandValue (mir.uses.getD 0 0)).1).2
      (cl.globalMemory (cl.nullCheck mir (s.GetOperandValue (mir.uses.getD 0 0)).1
        (cl.getOperand (mir.uses.getD 0 0) h)))
    rw [hu] at this
    exact cl.mono (by omega) (by omega) this
  · exact cl.mono (a := a + mir.uses.length) (b := b + 1) (by omega) (by omega)
      (cl.argsNonUnique mir (cl.globalMemory h))
  · exact cl.mono (by omega) (by omega) (cl.setOperand _ _ (cl.getOperand _ h))
  · exact cl.mono (by omega) (by omega) (cl.uniqueNonNull _ h)
  · exact cl.mono (by omega) (by omega) (cl.setOperandWide _ _ (cl.getOperandWide _ h))
  · exact cl.mono (by omega) (by omega) h
  · exact cl.mono (by omega) (by omega) (cl.setOperand _ _ (cl.getOperand _ h))
  · exact cl.mono (by omega) (by omega) (cl.setOperandWide _ _ (cl.getOperandWide _ h))
  · exact cl.mono (by omega) (by omega) (cl.setOperand _ _ (cl.lookup _ _ _ _ h))
  · exact cl.mono (by omega) (by omega) (cl.setOperand _ _ (cl.lookup _ _ _ _ h))
  · refine cl.mono (a := a + 1 + 1 + 1) (b := b) (by omega) (by omega)
      (cl.setOperandWide _ _ (cl.lookup _ _ _ _ ?_))
    split
    · exact cl.lookup _ _ _ _ (cl.lookup _ _ _ _ h)
    · exact cl.lookup _ _ _ _ (cl.lookup _ _ _ _ h)
  · exact cl.mono (by omega) (by omega) (cl.setOperandWide _ _
      (cl.lookup _ _ _ _ (cl.lookup _ _ _ _ (cl.lookup _ _ _ _ h))))
  · exact cl.mono (by omega) (by omega) (cl.setOperandWide _ _
      (cl.lookup _ _ _ _ (cl.lookup _ _ _ _ (cl.lookup _ _ _ _ h))))
  · exact cl.mono (by omega) (by omega)
      (cl.setOperand _ _ (cl.lookup _ _ _ _ (cl.getOperand _ h)))
  · exact cl.mono (by omega) (by omega)
      (cl.setOperand _ _ (cl.lookup _ _ _ _ (cl.getOperand _ h)))
  · exact cl.mono (by omega) (by omega)
      (cl.setOperandWide _ _ (cl.lookup _ _ _ _ (cl.getOperandWide _ h)))
  · exact cl.mono (by omega) (by omega)
      (cl.setOperandWide _ _ (cl.lookup _ _ _ _ (cl.getOperandWide _ h)))
  · exact cl.mono (by omega) (by omega) (cl.setOperand _ _
      (cl.lookup _ _ _ _ (cl.getOperandWide _ (cl.getOperandWide _ h))))
  · exact cl.mono (by omega) (by omega) (cl.setOperand _ _
      (cl.lookup _ _ _ _ (cl.getOperand _ (cl.getOperand _ h))))
  · exact cl.mono (by omega) (by omega) (cl.setOperandWide _ _
      (cl.lookup _ _ _ _ (cl.getOperandWide _ (cl.getOperandWide _ h))))
  · exact cl.mono (by omega) (by omega) (cl.setOperandWide _ _
      (cl.lookup _ _ _ _ (cl.getOperandWide _ (cl.getOperandWide _ h))))
  · exact cl.mono (by omega) (by omega) (cl.setOperand _ _
      (cl.lookup _ _ _ _ (cl.getOperand _ (cl.getOperand _ h))))
  · exact cl.mono (by omega) (by omega) (cl.setOperand _ _
      (cl.lookup _ _ _ _ (cl.lookup _ _ _ _ (cl.getOperand _ h))))
  · have hc := cl.rangeCheck
      ((s.GetOperandValue (mir.uses.getD 0 0)).2.HandleNullCheck mir
        (s.GetOperandValue (mir.uses.getD 0 0)).1).2
      (s.GetOperandValue (mir.uses.getD 0 0)).1
      (((s.GetOperandValue (mir.uses.getD 0 0)).2.HandleNullCheck mir
        (s.GetOperandValue (mir.uses.getD 0 0)).1).1.GetOperandValue (mir.uses.getD 1 0)).1
      (cl.getOperand (mir.uses.getD 1 0)
        (cl.nullCheck mir (s.GetOperandValue (mir.uses.getD 0 0)).1
          (cl.getOperand (mir.uses.getD 0 0) h)))
    split
    · exact cl.mono (by omega) (by omega) (cl.setOperandWide _ _ (cl.lookup _ _ _ _ hc))
    · exact cl.mono (by omega) (by omega) (cl.setOperand _ _ (cl.lookup _ _ _ _ hc))
  · exact cl.mono (by omega) (by omega) (thread_aputBody cl _ (cl.putObject _ h))
  · exact cl.mono (by omega) (by omega) (thread_aputBody cl _ h)
  · have hn := cl.nullCheck mir (s.GetOperandValue (mir.uses.getD 0 0)).1
      (cl.getOperand (mir.uses.getD 0 0) h)
    split_ifs
    all_goals first
      | exact cl.mono (by omega) (by omega)
          (cl.setOperandWide _ _ (cl.lookup _ _ _ _ (cl.bump hn)))
      | exact cl.mono (by omega) (by omega)
          (cl.setOperand _ _ (cl.lookup _ _ _ _ (cl.bump hn)))
      | exact cl.mono (by omega) (by omega)
          (cl.setOperandWide _ _ (cl.lookup _ _ _ _ (cl.fieldId _ _ hn)))
      | exact cl.mono (by omega) (by omega)
          (cl.setOperand _ _ (cl.lookup _ _ _ _ (cl.fieldId _ _ hn)))
  · exact cl.mono (by omega) (by omega) (thread_iputBody cl _ (cl.putObject _ h))
  · exact cl.mono (by omega) (by omega) (thread_iputBody cl _ h)
  · split_ifs
    all_goals first
      | exact cl.mono (by omega) (by omega)
          (cl.setOperandWide _ _ (cl.lookup _ _ _ _ (cl.bump h)))
      | exact cl.mono (by omega) (by omega)
          (cl.setOperand _ _ (cl.lookup _ _ _ _ (cl.bump h)))
      | exact cl.mono (by omega) (by omega)
          (cl.setOperandWide _ _ (cl.lookup _ _ _ _ (cl.fieldId _ _ h)))
      | exact cl.mono (by omega) (by omega)
          (cl.setOperand _ _ (cl.lookup _ _ _ _ (cl.fieldId _ _ h)))
  · exact cl.mono (by omega) (by omega) (thread_sputBody cl _ (cl.putObject _ h))
  · exact cl.mono (by omega) (by omega) (thread_sputBody cl _ h)
  · exact cl.mono (by omega) (by omega) h

/-- Value numbering of a sequence of instructions carries every such family along. -/
theorem thread_processSeq {P : Nat → Nat → LocalValueNumbering → Prop} (cl : Threads P)
    (seq : List (MIR × Option MIR)) : ∀ {a b : Nat} {s : LocalValueNumbering}, P a b s →
    P (a + seqAllocBound seq) (b + seq.length) (s.processSeq seq) := by
  induction seq with
  | nil => intro a b s h; exact h
  | cons p rest ih =>
    intro a b s h
    have := ih (thread_GetValueNumber cl p.1 p.2 h)
    unfold processSeq
    refine cl.mono ?_ ?_ this
    · unfold seqAllocBound
      simp only [List.map_cons, List.sum_cons]
      omega
    · simp only [List.length_cons]
      omega

end LocalValueNumbering

/-! ## The value table and the memory versions along a block -/

namespace LocalValueNumbering

open GlobalValueNumbering (u16 u32 u64 BuildKey MapExt Evolves)
open Instruction

theorem ev_GetOperandValueWide (s : LocalValueNumbering) (r : Nat) :
    Evolves 1 s.gvn (s.GetOperandValueWide r).2.gvn := by
  unfold GetOperandValueWide
  split
  · exact GlobalValueNumbering.Evolves_mono (Nat.zero_le _) (GlobalValueNumbering.Evolves_refl _)
  · exact ev_LookupValue s _ _ _ _

theorem ev_MakeArgsNonUniqueLoop (g0 : GlobalValueNumbering) (uses : List Nat) :
    ∀ {a : Nat} {s : LocalValueNumbering}, Evolves a g0 s.gvn →
    Evolves (a + uses.length) g0 (s.MakeArgsNonUniqueLoop uses).gvn := by
  induction uses with
  | nil => intro a s h; exact h
  | cons u rest ih =>
    intro a s h
    unfold MakeArgsNonUniqueLoop
    have h1 : Evolves (a + 1) g0 ({ (s.GetOperandValue u).2 with
        unique_objects_ := setErase (s.GetOperandValue u).1
          (s.GetOperandValue u).2.unique_objects_ } : LocalValueNumbering).gvn :=
      GlobalValueNumbering.Evolves_trans h (ev_GetOperandValue s u)
    have := ih h1
    simp only [List.length_cons]
    exact GlobalValueNumbering.Evolves_mono (by omega) this

/-- The value table evolves along every operation of `GetValueNumber`. -/
theorem Threads_Evolves (g0 : GlobalValueNumbering) :
    Threads (fun a _ s => Evolves a g0 s.gvn) where
  mono := fun ha _ h => GlobalValueNumbering.Evolves_mono ha h
  lookup := fun op x y m h => GlobalValueNumbering.Evolves_trans h (ev_LookupValue _ op x y m)
  getOperand := fun r h => GlobalValueNumbering.Evolves_trans h (ev_GetOperandValue _ r)
  getOperandWide := fun r h => GlobalValueNumbering.Evolves_trans h (ev_GetOperandValueWide _ r)
  setOperand := fun r v h => by rw [SetOperandValue_gvn]; exact h
  setOperandWide := fun r v h => by rw [SetOperandValueWide_gvn]; exact h
  fieldId := fun d f h => by rw [GetFieldId_gvn]; exact h
  globalMemory := fun h => h
  memoryVersion := fun x f t h => by rw [AdvanceMemoryVersion_gvn]; exact h
  uniqueNonNull := fun mir h => by
    unfold MarkUniqueNonNull
    simp only [SetOperandValue_gvn]
    exact GlobalValueNumbering.Evolves_trans h (ev_GetOperandValue _ _)
  argsNonUnique := fun mir h => ev_MakeArgsNonUniqueLoop g0 mir.uses h
  nullCheck := fun mir reg h => by rw [HandleNullCheck_gvn]; exact h
  rangeCheck := fun mir x i h =>
    GlobalValueNumbering.Evolves_trans h (ev_LookupValue _ ARRAY_REF x i NO_VALUE)
  putObject := fun mir h => GlobalValueNumbering.Evolves_trans h (ev_HandlePutObject _ mir)
  bump := fun h => h
  unresolvedI := fun _ h => h
  unresolvedS := fun _ h => h

theorem VersionsBelowNext_of_eq {s s' : LocalValueNumbering}
    (h1 : s'.memory_version_map_ = s.memory_version_map_)
    (h2 : s'.next_memory_version_ = s.next_memory_version_)
    (h3 : s'.global_memory_version_ = s.global_memory_version_)
    (h4 : s'.unresolved_ifield_version_ = s.unresolved_ifield_version_)
    (h5 : s'.unresolved_sfield_version_ = s.unresolved_sfield_version_)
    (h : s.VersionsBelowNext) : s'.VersionsBelowNext := by
  unfold VersionsBelowNext at h ⊢
  rw [h1, h2, h3, h4, h5]
  exact h

/-- An operation that leaves the memory versions alone keeps `VersionsAdvance`. -/
theorem VersionsAdvance_of_eq {s0 s s' : LocalValueNumbering} {b : Nat}
    (h1 : s'.memory_version_map_ = s.memory_version_map_)
    (h2 : s'.next_memory_version_ = s.next_memory_version_)
    (h3 : s'.global_memory_version_ = s.global_memory_version_)
    (h4 : s'.unresolved_ifield_version_ = s.unresolved_ifield_version_)
    (h5 : s'.unresolved_sfield_version_ = s.unresolved_sfield_version_)
    (h : VersionsAdvance s0 b s) : VersionsAdvance s0 b s' := by
  intro hb hV
  obtain ⟨a1, a2, a3, a4, a5, a6, a7⟩ := h hb hV
  rw [h2, h4, h5]
  exact ⟨VersionsBelowNext_of_eq h1 h2 h3 h4 h5 a1, a2, a3, a4, a5, a6, a7⟩

theorem getD_set_le (l : List Nat) (i j v : Nat) (h : ∀ x ∈ l, x ≤ v) :
    l.getD j 0 ≤ (l.set i v).getD j 0 := by
  rw [List.getD_eq_getElem?_getD, List.getD_eq_getElem?_getD, List.getElem?_set]
  by_cases hij : i = j
  · subst hij
    rw [if_pos rfl]
    by_cases hi : i < l.length
    · rw [if_pos hi]
      simp only [Option.getD_some]
      have := List.getElem?_eq_getElem hi
      rw [this]
      simp only [Option.getD_some]
      exact h _ (List.getElem_mem hi)
    · rw [if_neg hi, List.getElem?_eq_none (by omega)]
  · rw [if_neg hij]

theorem mem_set_le (l : List Nat) (i v n : Nat) (h : ∀ x ∈ l, x < n) (hv : v < n) :
    ∀ x ∈ l.set i v, x < n := by
  intro x hx
  rcases List.mem_or_eq_of_mem_set hx with h' | h'
  · exact h x h'
  · rw [h']; exact hv


theorem AdvanceMemoryVersion_find (s : LocalValueNumbering) (base field type : Nat) :
    (∀ k v, (s.AdvanceMemoryVersion base field type).2.memory_version_map_.find k = some v →
        v = s.next_memory_version_ ∨ s.memory_version_map_.find k = some v) ∧
      (s.AdvanceMemoryVersion base field type).2.next_memory_version_ =
        u16 (s.next_memory_version_ + 1) := by
  unfold AdvanceMemoryVersion
  simp only []
  split
  · refine ⟨?_, rfl⟩
    intro k v hk
    simp only [SafeMap.find_Overwrite] at hk
    split at hk
    · left; cases hk; rfl
    · split at hk
      · left; cases hk; rfl
      · right; exact hk
  · refine ⟨?_, rfl⟩
    intro k v hk
    simp only [SafeMap.find_Overwrite] at hk
    split at hk
    · left; cases hk; rfl
    · right; exact hk

/-- What an operation that increments the counter and records its old value does to
`VersionsAdvance`. -/
theorem VersionsAdvance_step {s0 s s' : LocalValueNumbering} {b : Nat}
    (h : VersionsAdvance s0 b s)
    (hnext : s'.next_memory_version_ = u16 (s.next_memory_version_ + 1))
    (hmap : ∀ k v, s'.memory_version_map_.find k = some v →
      v = s.next_memory_version_ ∨ s.memory_version_map_.find k = some v)
    (hglobal : s'.global_memory_version_ = s.next_memory_version_ ∨
      s'.global_memory_version_ = s.global_memory_version_)
    (hi : s'.unresolved_ifield_version_ = s.unresolved_ifield_version_ ∨
      ∃ t, s'.unresolved_ifield_version_ =
        s.unresolved_ifield_version_.set t s.next_memory_version_)
    (hs : s'.unresolved_sfield_version_ = s.unresolved_sfield_version_ ∨
      ∃ t, s'.unresolved_sfield_version_ =
        s.unresolved_sfield_version_.set t s.next_memory_version_) :
    VersionsAdvance s0 (b + 1) s' := by
  intro hb hV
  obtain ⟨⟨v1, v2, v3, v4⟩, a2, a3, a4, a5, a6, a7⟩ := h (by omega) hV
  have e : u16 (s.next_memory_version_ + 1) = s.next_memory_version_ + 1 :=
    Nat.mod_eq_of_lt (by omega)
  rw [e] at hnext
  refine ⟨⟨?_, ?_, ?_, ?_⟩, by omega, by omega, ?_, ?_, ?_, ?_⟩
  · intro k v hk
    rw [hnext]
    rcases hmap k v hk with h' | h'
    · omega
    · have := v1 k v h'; omega
  · rw [hnext]
    rcases hglobal with h' | h' <;> rw [h'] <;> omega
  · rw [hnext]
    rcases hi with h' | ⟨t, h'⟩ <;> rw [h']
    · intro x hx; have := v3 x hx; omega
    · exact mem_set_le _ _ _ _ (fun x hx => by have := v3 x hx; omega) (by omega)
  · rw [hnext]
    rcases hs with h' | ⟨t, h'⟩ <;> rw [h']
    · intro x hx; have := v4 x hx; omega
    · exact mem_set_le _ _ _ _ (fun x hx => by have := v4 x hx; omega) (by omega)
  · intro i
    rcases hi with h' | ⟨t, h'⟩ <;> rw [h']
    · exact a4 i
    · exact le_trans (a4 i) (getD_set_le _ _ _ _ (fun x hx => le_of_lt (v3 x hx)))
  · intro i
    rcases hs with h' | ⟨t, h'⟩ <;> rw [h']
    · exact a5 i
    · exact le_trans (a5 i) (getD_set_le _ _ _ _ (fun x hx => le_of_lt (v4 x hx)))
  · rcases hi with h' | ⟨t, h'⟩ <;> rw [h']
    · exact a6
    · rw [List.length_set]; exact a6
  · rcases hs with h' | ⟨t, h'⟩ <;> rw [h']
    · exact a7
    · rw [List.length_set]; exact a7

theorem MarkUniqueNonNull_memory (s : LocalValueNumbering) (mir : MIR) :
    (s.MarkUniqueNonNull mir).2.memory_version_map_ = s.memory_version_map_ ∧
      (s.MarkUniqueNonNull mir).2.next_memory_version_ = s.next_memory_version_ ∧
      (s.MarkUniqueNonNull mir).2.global_memory_version_ = s.global_memory_version_ ∧
      (s.MarkUniqueNonNull mir).2.unresolved_ifield_version_ = s.unresolved_ifield_version_ ∧
      (s.MarkUniqueNonNull mir).2.unresolved_sfield_version_ =
        s.unresolved_sfield_version_ := by
  unfold MarkUniqueNonNull
  simp

/-- The memory versions advance along every operation of `GetValueNumber`. -/
theorem Threads_VersionsAdvance (s0 : LocalValueNumbering) :
    Threads (fun _ b s => VersionsAdvance s0 b s) where
  mono := fun _ hb h => by
    intro hb' hV
    obtain ⟨a1, a2, a3, a4⟩ := h (by omega) hV
    exact ⟨a1, a2, by omega, a4⟩
  lookup := fun op x y m h =>
    VersionsAdvance_of_eq (by simp) (by simp) (by simp) (by simp) (by simp) h
  getOperand := fun r h =>
    VersionsAdvance_of_eq (by simp) (by simp) (by simp) (by simp) (by simp) h
  getOperandWide := fun r h =>
    VersionsAdvance_of_eq (by simp) (by simp) (by simp) (by simp) (by simp) h
  setOperand := fun r v h =>
    VersionsAdvance_of_eq (by simp) (by simp) (by simp) (by simp) (by simp) h
  setOperandWide := fun r v h =>
    VersionsAdvance_of_eq (by simp) (by simp) (by simp) (by simp) (by simp) h
  fieldId := fun d f h =>
    VersionsAdvance_of_eq (by simp) (by simp) (by simp) (by simp) (by simp) h
  globalMemory := fun h =>
    VersionsAdvance_step h rfl (fun _ _ hk => Or.inr hk) (Or.inl rfl) (Or.inl rfl) (Or.inl rfl)
  memoryVersion := fun x f t h =>
    VersionsAdvance_step h (AdvanceMemoryVersion_find _ x f t).2
      (AdvanceMemoryVersion_find _ x f t).1 (Or.inr (by simp)) (Or.inl (by simp))
      (Or.inl (by simp))
  uniqueNonNull := fun mir h =>
    VersionsAdvance_of_eq (MarkUniqueNonNull_memory _ mir).1 (MarkUniqueNonNull_memory _ mir).2.1
      (MarkUniqueNonNull_memory _ mir).2.2.1 (MarkUniqueNonNull_memory _ mir).2.2.2.1
      (MarkUniqueNonNull_memory _ mir).2.2.2.2 h
  argsNonUnique := fun mir h =>
    VersionsAdvance_of_eq (MakeArgsNonUniqueLoop_memory mir.uses _).1
      (MakeArgsNonUniqueLoop_memory mir.uses _).2.1
      (MakeArgsNonUniqueLoop_memory mir.uses _).2.2.1
      (MakeArgsNonUniqueLoop_memory mir.uses _).2.2.2.1
      (MakeArgsNonUniqueLoop_memory mir.uses _).2.2.2.2 h
  nullCheck := fun mir reg h =>
    VersionsAdvance_of_eq (by simp) (by simp) (by simp) (by simp) (by simp) h
  rangeCheck := fun mir x i h =>
    VersionsAdvance_of_eq (by simp) (by simp) (by simp) (by simp) (by simp) h
  putObject := fun mir h =>
    VersionsAdvance_of_eq (by simp) (by simp) (by simp) (by simp) (by simp) h
  bump := fun h =>
    VersionsAdvance_step h rfl (fun _ _ hk => Or.inr hk) (Or.inr rfl) (Or.inl rfl) (Or.inl rfl)
  unresolvedI := fun t h =>
    VersionsAdvance_step h rfl (fun _ _ hk => Or.inr hk) (Or.inr rfl) (Or.inr ⟨t, rfl⟩)
      (Or.inl rfl)
  unresolvedS := fun t h =>
    VersionsAdvance_step h rfl (fun _ _ hk => Or.inr hk) (Or.inr rfl) (Or.inl rfl)
      (Or.inr ⟨t, rfl⟩)

theorem VersionsAdvance_refl (s : LocalValueNumbering) : VersionsAdvance s 0 s :=
  fun _ hV => ⟨hV, le_refl _, le_refl _, fun _ => le_refl _, fun _ => le_refl _, rfl, rfl⟩

end LocalValueNumbering

/-! ## Field gets and puts -/

namespace LocalValueNumbering

open GlobalValueNumbering (u16 u32 u64 BuildKey MapExt Evolves)
open Instruction

/-- The opcodes that select the field-get and field-put cases. -/
theorem field_opcode_of_arm (x : Nat) :
    (armOf x = .iget → x ∈ [IGET_OBJECT, IGET, IGET_WIDE, IGET_BOOLEAN, IGET_BYTE, IGET_CHAR,
        IGET_SHORT]) ∧
      (armOf x = .iputObject → x = IPUT_OBJECT) ∧
      (armOf x = .iput → x ∈ [IPUT, IPUT_WIDE, IPUT_BOOLEAN, IPUT_BYTE, IPUT_CHAR,
        IPUT_SHORT]) ∧
      (armOf x = .sget → x ∈ [SGET_OBJECT, SGET, SGET_WIDE, SGET_BOOLEAN, SGET_BYTE, SGET_CHAR,
        SGET_SHORT]) ∧
      (armOf x = .sputObject → x = SPUT_OBJECT) ∧
      (armOf x = .sput → x ∈ [SPUT, SPUT_WIDE, SPUT_BOOLEAN, SPUT_BYTE, SPUT_CHAR,
        SPUT_SHORT]) := by
  unfold armOf
  by_cases c1 : x ∈ [NOP, RETURN_VOID, RETURN, RETURN_OBJECT, RETURN_WIDE, MONITOR_ENTER,
        MONITOR_EXIT, GOTO, GOTO_16, GOTO_32, CHECK_CAST, THROW, FILL_ARRAY_DATA,
        PACKED_SWITCH, SPARSE_SWITCH, IF_EQ, IF_NE, IF_LT, IF_GE, IF_GT, IF_LE, IF_EQZ,
        IF_NEZ, IF_LTZ, IF_GEZ, IF_GTZ, IF_LEZ, kMirOpFusedCmplFloat, kMirOpFusedCmpgFloat,
        kMirOpFusedCmplDouble, kMirOpFusedCmpgDouble, kMirOpFusedCmpLong]
  · rw [if_pos c1]
    refine ⟨?_, ?_, ?_, ?_, ?_, ?_⟩ <;> intro h <;> first | assumption | cases h
  rw [if_neg c1]
  by_cases c2 : x ∈ [FILLED_NEW_ARRAY, FILLED_NEW_ARRAY_RANGE]
  · rw [if_pos c2]
    refine ⟨?_, ?_, ?_, ?_, ?_, ?_⟩ <;> intro h <;> first | assumption | cases h
  rw [if_neg c2]
  by_cases c3 : x ∈ [INVOKE_DIRECT, INVOKE_DIRECT_RANGE, INVOKE_VIRTUAL, INVOKE_VIRTUAL_RANGE,
        INVOKE_SUPER, INVOKE_SUPER_RANGE, INVOKE_INTERFACE, INVOKE_INTERFACE_RANGE]
  · rw [if_pos c3]
    refine ⟨?_, ?_, ?_, ?_, ?_, ?_⟩ <;> intro h <;> first | assumption | cases h
  rw [if_neg c3]
  by_cases c4 : x ∈ [INVOKE_STATIC, INVOKE_STATIC_RANGE]
  · rw [if_pos c4]
    refine ⟨?_, ?_, ?_, ?_, ?_, ?_⟩ <;> intro h <;> first | assumption | cases h
  rw [if_neg c4]
  by_cases c5 : x ∈ [MOVE_RESULT, MOVE_RESULT_OBJECT, INSTANCE_OF]
  · rw [if_pos c5]
    refine ⟨?_, ?_, ?_, ?_, ?_, ?_⟩ <;> intro h <;> first | assumption | cases h
  rw [if_neg c5]
  by_cases c6 : x ∈ [MOVE_EXCEPTION, NEW_INSTANCE, CONST_STRING, CONST_STRING_JUMBO,
        CONST_CLASS, NEW_ARRAY]
  · rw [if_pos c6]
    refine ⟨?_, ?_, ?_, ?_, ?_, ?_⟩ <;> intro h <;> first | assumption | cases h
  rw [if_neg c6]
  by_cases c7 : x = MOVE_RESULT_WIDE
  · rw [if_pos c7]
    refine ⟨?_, ?_, ?_, ?_, ?_, ?_⟩ <;> intro h <;> first | assumption | cases h
  rw [if_neg c7]
  by_cases c8 : x = kMirOpPhi
  · rw [if_pos c8]
    refine ⟨?_, ?_, ?_, ?_, ?_, ?_⟩ <;> intro h <;> first | assumption | cases h
  rw [if_neg c8]
  by_cases c9 : x ∈ [MOVE, MOVE_OBJECT, MOVE_16, MOVE_OBJECT_16, MOVE_FROM16,
        MOVE_OBJECT_FROM16, kMirOpCopy]
  · rw [if_pos c9]
    refine ⟨?_, ?_, ?_, ?_, ?_, ?_⟩ <;> intro h <;> first | assumption | cases h
  rw [if_neg c9]
  by_cases c10 : x ∈ [MOVE_WIDE, MOVE_WIDE_16, MOVE_WIDE_FROM16]
  · rw [if_pos c10]
    refine ⟨?_, ?_, ?_, ?_, ?_, ?_⟩ <;> intro h <;> first | assumption | cases h
  rw [if_neg c10]
  by_cases c11 : x ∈ [CONST, CONST_4, CONST_16]
  · rw [if_pos c11]
    refine ⟨?_, ?_, ?_, ?_, ?_, ?_⟩ <;> intro h <;> first | assumption | cases h
  rw [if_neg c11]
  by_cases c12 : x = CONST_HIGH16
  · rw [if_pos c12]
    refine ⟨?_, ?_, ?_, ?_, ?_, ?_⟩ <;> intro h <;> first | assumption | cases h
  rw [if_neg c12]
  by_cases c13 : x ∈ [CONST_WIDE_16, CONST_WIDE_32]
  · rw [if_pos c13]
    refine ⟨?_, ?_, ?_, ?_, ?_, ?_⟩ <;> intro h <;> first | assumption | cases h
  rw [if_neg c13]
  by_cases c14 : x = CONST_WIDE
  · rw [if_pos c14]
    refine ⟨?_, ?_, ?_, ?_, ?_, ?_⟩ <;> intro h <;> first | assumption | cases h
  rw [if_neg c14]
  by_cases c15 : x = CONST_WIDE_HIGH16
  · rw [if_pos c15]
    refine ⟨?_, ?_, ?_, ?_, ?_, ?_⟩ <;> intro h <;> first | assumption | cases h
  rw [if_neg c15]
  by_cases c16 : x ∈ [ARRAY_LENGTH, NEG_INT, NOT_INT, NEG_FLOAT, INT_TO_BYTE, INT_TO_SHORT,
        INT_TO_CHAR, INT_TO_FLOAT, FLOAT_TO_INT]
  · rw [if_pos c16]
    refine ⟨?_, ?_, ?_, ?_, ?_, ?_⟩ <;> intro h <;> first | assumption | cases h
  rw [if_neg c16]
  by_cases c17 : x ∈ [LONG_TO_FLOAT, LONG_TO_INT, DOUBLE_TO_FLOAT, DOUBLE_TO_INT]
  · rw [if_pos c17]
    refine ⟨?_, ?_, ?_, ?_, ?_, ?_⟩ <;> intro h <;> first | assumption | cases h
  rw [if_neg c17]
  by_cases c18 : x ∈ [DOUBLE_TO_LONG, LONG_TO_DOUBLE, NEG_LONG, NOT_LONG, NEG_DOUBLE]
  · rw [if_pos c18]
    refine ⟨?_, ?_, ?_, ?_, ?_, ?_⟩ <;> intro h <;> first | assumption | cases h
  rw [if_neg c18]
  by_cases c19 : x ∈ [FLOAT_TO_DOUBLE, FLOAT_TO_LONG, INT_TO_DOUBLE, INT_TO_LONG]
  · rw [if_pos c19]
    refine ⟨?_, ?_, ?_, ?_, ?_, ?_⟩ <;> intro h <;> first | assumption | cases h
  rw [if_neg c19]
  by_cases c20 : x ∈ [CMPL_DOUBLE, CMPG_DOUBLE, CMP_LONG]
  · rw [if_pos c20]
    refine ⟨?_, ?_, ?_, ?_, ?_, ?_⟩ <;> intro h <;> first | assumption | cases h
  rw [if_neg c20]
  by_cases c21 : x ∈ [CMPG_FLOAT, CMPL_FLOAT, ADD_INT, ADD_INT_2ADDR, MUL_INT, MUL_INT_2ADDR,
        AND_INT, AND_INT_2ADDR, OR_INT, OR_INT_2ADDR, XOR_INT, XOR_INT_2ADDR, SUB_INT,
        SUB_INT_2ADDR, DIV_INT, DIV_INT_2ADDR, REM_INT, REM_INT_2ADDR, SHL_INT, SHL_INT_2ADDR,
        SHR_INT, SHR_INT_2ADDR, USHR_INT, USHR_INT_2ADDR]
  · rw [if_pos c21]
    refine ⟨?_, ?_, ?_, ?_, ?_, ?_⟩ <;> intro h <;> first | assumption | cases h
  rw [if_neg c21]
  by_cases c22 : x ∈ [ADD_LONG, SUB_LONG, MUL_LONG, DIV_LONG, REM_LONG, AND_LONG, OR_LONG,
        XOR_LONG, ADD_LONG_2ADDR, SUB_LONG_2ADDR, MUL_LONG_2ADDR, DIV_LONG_2ADDR,
        REM_LONG_2ADDR, AND_LONG_2ADDR, OR_LONG_2ADDR, XOR_LONG_2ADDR, ADD_DOUBLE, SUB_DOUBLE,
        MUL_DOUBLE, DIV_DOUBLE, REM_DOUBLE, ADD_DOUBLE_2ADDR, SUB_DOUBLE_2ADDR,
        MUL_DOUBLE_2ADDR, DIV_DOUBLE_2ADDR, REM_DOUBLE_2ADDR]
  · rw [if_pos c22]
    refine ⟨?_, ?_, ?_, ?_, ?_, ?_⟩ <;> intro h <;> first | assumption | cases h
  rw [if_neg c22]
  by_cases c23 : x ∈ [SHL_LONG, SHR_LONG, USHR_LONG, SHL_LONG_2ADDR, SHR_LONG_2ADDR,
        USHR_LONG_2ADDR]
  · rw [if_pos c23]
    refine ⟨?_, ?_, ?_, ?_, ?_, ?_⟩ <;> intro h <;> first | assumption | cases h
  rw [if_neg c23]
  by_cases c24 : x ∈ [ADD_FLOAT, SUB_FLOAT, MUL_FLOAT, DIV_FLOAT, REM_FLOAT, ADD_FLOAT_2ADDR,
        SUB_FLOAT_2ADDR, MUL_FLOAT_2ADDR, DIV_FLOAT_2ADDR, REM_FLOAT_2ADDR]
  · rw [if_pos c24]
    refine ⟨?_, ?_, ?_, ?_, ?_, ?_⟩ <;> intro h <;> first | assumption | cases h
  rw [if_neg c24]
  by_cases c25 : x ∈ [RSUB_INT, ADD_INT_LIT16, MUL_INT_LIT16, DIV_INT_LIT16, REM_INT_LIT16,
        AND_INT_LIT16, OR_INT_LIT16, XOR_INT_LIT16, ADD_INT_LIT8, RSUB_INT_LIT8, MUL_INT_LIT8,
        DIV_INT_LIT8, REM_INT_LIT8, AND_INT_LIT8, OR_INT_LIT8, XOR_INT_LIT8, SHL_INT_LIT8,
        SHR_INT_LIT8, USHR_INT_LIT8]
  · rw [if_pos c25]
    refine ⟨?_, ?_, ?_, ?_, ?_, ?_⟩ <;> intro h <;> first | assumption | cases h
  rw [if_neg c25]
  by_cases c26 : x ∈ [AGET_OBJECT, AGET, AGET_WIDE, AGET_BOOLEAN, AGET_BYTE, AGET_CHAR,
        AGET_SHORT]
  · rw [if_pos c26]
    refine ⟨?_, ?_, ?_, ?_, ?_, ?_⟩ <;> intro h <;> first | assumption | cases h
  rw [if_neg c26]
  by_cases c27 : x = APUT_OBJECT
  · rw [if_pos c27]
    refine ⟨?_, ?_, ?_, ?_, ?_, ?_⟩ <;> intro h <;> first | assumption | cases h
  rw [if_neg c27]
  by_cases c28 : x ∈ [APUT, APUT_WIDE, APUT_BYTE, APUT_BOOLEAN, APUT_SHORT, APUT_CHAR]
  · rw [if_pos c28]
    refine ⟨?_, ?_, ?_, ?_, ?_, ?_⟩ <;> intro h <;> first | assumption | cases h
  rw [if_neg c28]
  by_cases c29 : x ∈ [IGET_OBJECT, IGET, IGET_WIDE, IGET_BOOLEAN, IGET_BYTE, IGET_CHAR,
        IGET_SHORT]
  · rw [if_pos c29]
    refine ⟨?_, ?_, ?_, ?_, ?_, ?_⟩ <;> intro h <;> first | assumption | cases h
  rw [if_neg c29]
  by_cases c30 : x = IPUT_OBJECT
  · rw [if_pos c30]
    refine ⟨?_, ?_, ?_, ?_, ?_, ?_⟩ <;> intro h <;> first | assumption | cases h
  rw [if_neg c30]
  by_cases c31 : x ∈ [IPUT, IPUT_WIDE, IPUT_BOOLEAN, IPUT_BYTE, IPUT_CHAR, IPUT_SHORT]
  · rw [if_pos c31]
    refine ⟨?_, ?_, ?_, ?_, ?_, ?_⟩ <;> intro h <;> first | assumption | cases h
  rw [if_neg c31]
  by_cases c32 : x ∈ [SGET_OBJECT, SGET, SGET_WIDE, SGET_BOOLEAN, SGET_BYTE, SGET_CHAR,
        SGET_SHORT]
  · rw [if_pos c32]
    refine ⟨?_, ?_, ?_, ?_, ?_, ?_⟩ <;> intro h <;> first | assumption | cases h
  rw [if_neg c32]
  by_cases c33 : x = SPUT_OBJECT
  · rw [if_pos c33]
    refine ⟨?_, ?_, ?_, ?_, ?_, ?_⟩ <;> intro h <;> first | assumption | cases h
  rw [if_neg c33]
  by_cases c34 : x ∈ [SPUT, SPUT_WIDE, SPUT_BOOLEAN, SPUT_BYTE, SPUT_CHAR, SPUT_SHORT]
  · rw [if_pos c34]
    refine ⟨?_, ?_, ?_, ?_, ?_, ?_⟩ <;> intro h <;> first | assumption | cases h
  rw [if_neg c34]
  refine ⟨?_, ?_, ?_, ?_, ?_, ?_⟩ <;> intro h <;> cases h

/-- The field type of a field-put instruction is one of the seven field types. -/
theorem put_type_lt (mir : MIR) :
    (armOf (u16 mir.opcode) = .iput ∨ armOf (u16 mir.opcode) = .iputObject →
        u16 (u16 mir.opcode - IPUT) < 7) ∧
      (armOf (u16 mir.opcode) = .sput ∨ armOf (u16 mir.opcode) = .sputObject →
        u16 (u16 mir.opcode - SPUT) < 7) := by
  obtain ⟨_, h2, h3, _, h5, h6⟩ := field_opcode_of_arm (u16 mir.opcode)
  constructor
  · intro h
    have key : u16 mir.opcode = IPUT_OBJECT ∨ u16 mir.opcode ∈
        [IPUT, IPUT_WIDE, IPUT_BOOLEAN, IPUT_BYTE, IPUT_CHAR, IPUT_SHORT] := by
      rcases h with h | h
      · exact Or.inr (h3 h)
      · exact Or.inl (h2 h)
    simp only [List.mem_cons, List.mem_singleton, List.not_mem_nil, or_false] at key
    rcases key with h | h | h | h | h | h | h <;> rw [h] <;> decide
  · intro h
    have key : u16 mir.opcode = SPUT_OBJECT ∨ u16 mir.opcode ∈
        [SPUT, SPUT_WIDE, SPUT_BOOLEAN, SPUT_BYTE, SPUT_CHAR, SPUT_SHORT] := by
      rcases h with h | h
      · exact Or.inr (h6 h)
      · exact Or.inl (h5 h)
    simp only [List.mem_cons, List.mem_singleton, List.not_mem_nil, or_false] at key
    rcases key with h | h | h | h | h | h | h <;> rw [h] <;> decide

theorem getD_set_self (l : List Nat) (i v : Nat) (h : i < l.length) :
    (l.set i v).getD i 0 = v := by
  rw [List.getD_eq_getElem?_getD, List.getElem?_set, if_pos rfl, if_pos h]
  rfl

/-- An instance-field put to an unresolved field records the counter value as the
unresolved version of its field type. -/
theorem iput_unresolved (s : LocalValueNumbering) (mir : MIR) (next : Option MIR)
    (harm : armOf (u16 mir.opcode) = .iput ∨ armOf (u16 mir.opcode) = .iputObject)
    (hres : mir.declaring_dex_file = 0) :
    (s.GetValueNumber mir next).2.1.unresolved_ifield_version_ =
      s.unresolved_ifield_version_.set (u16 (u16 mir.opcode - IPUT)) s.next_memory_version_ := by
  unfold GetValueNumber
  rcases harm with harm | harm
  · simp only [harm]
    unfold iputBody
    simp [hres]
  · simp only [harm]
    unfold iputBody
    simp [hres]

/-- A static-field put to an unresolved field records the counter value as the unresolved
version of its field type. -/
theorem sput_unresolved (s : LocalValueNumbering) (mir : MIR) (next : Option MIR)
    (harm : armOf (u16 mir.opcode) = .sput ∨ armOf (u16 mir.opcode) = .sputObject)
    (hres : mir.declaring_dex_file = 0) :
    (s.GetValueNumber mir next).2.1.unresolved_sfield_version_ =
      s.unresolved_sfield_version_.set (u16 (u16 mir.opcode - SPUT)) s.next_memory_version_ := by
  unfold GetValueNumber
  rcases harm with harm | harm
  · simp only [harm]
    unfold sputBody
    simp [hres]
  · simp only [harm]
    unfold sputBody
    simp [hres]

/-- The static-field-get cases on a non-volatile field: result and new value table. -/
theorem sget_result (s : LocalValueNumbering) (mir : MIR) (next : Option MIR)
    (harm : armOf (u16 mir.opcode) = .sget) (hvol : mir.is_volatile = false) :
    (s.GetValueNumber mir next).1 = (GlobalValueNumbering.lookupT (s.sgetPre mir).gvn
        (s.sgetTuple mir)).1 ∧
      (s.GetValueNumber mir next).2.1.gvn = (GlobalValueNumbering.lookupT (s.sgetPre mir).gvn
        (s.sgetTuple mir)).2 := by
  unfold GetValueNumber sgetPre sgetTuple GlobalValueNumbering.lookupT
  simp only [harm, hvol]
  split <;> simp [LookupValue]

/-- A field get, volatile or not: its value name is bound in the value table it leaves to a
key whose memory version is older than the counter it leaves. -/
theorem get_key (s : LocalValueNumbering) (mir : MIR) (next : Option MIR)
    (harm : armOf (u16 mir.opcode) = .iget ∨ armOf (u16 mir.opcode) = .sget)
    (hV : s.VersionsBelowNext) (hn : s.next_memory_version_ + 1 < 2 ^ 16) :
    ∃ op x f m, (s.GetValueNumber mir next).2.1.gvn.global_value_map_.find (BuildKey op x f m) =
        some (s.GetValueNumber mir next).1 ∧
      m < (s.GetValueNumber mir next).2.1.next_memory_version_ := by
  have e : u16 (s.next_memory_version_ + 1) = s.next_memory_version_ + 1 :=
    Nat.mod_eq_of_lt hn
  have hpos : 0 < s.next_memory_version_ := Nat.lt_of_le_of_lt (Nat.zero_le _) hV.2.1
  have hver : ∀ (t : LocalValueNumbering) (x f type : Nat) (l : List Nat),
      t.memory_version_map_ = s.memory_version_map_ →
      t.next_memory_version_ = s.next_memory_version_ →
      t.global_memory_version_ = s.global_memory_version_ →
      t.unresolved_ifield_version_ = s.unresolved_ifield_version_ →
      t.unresolved_sfield_version_ = s.unresolved_sfield_version_ →
      (∀ y ∈ l, y < s.next_memory_version_) →
      max (l.getD type 0) (t.GetMemoryVersion x f type) < s.next_memory_version_ := by
    intro t x f type l h1 h2 h3 h4 h5 hl
    have := GetMemoryVersion_lt t x f type (VersionsBelowNext_of_eq h1 h2 h3 h4 h5 hV)
    rw [h2] at this
    exact max_lt (getD_lt_of_forall type hl hpos) this
  unfold GetValueNumber
  rcases harm with harm | harm
  · simp only [harm]
    by_cases hvol : mir.is_volatile = true
    · simp only [hvol, if_true]
      split
      · refine ⟨IGET_WIDE, (s.GetOperandValue (mir.uses.getD 0 0)).1, 0,
          ((s.GetOperandValue (mir.uses.getD 0 0)).2.HandleNullCheck mir
            (s.GetOperandValue (mir.uses.getD 0 0)).1).1.next_memory_version_, ?_, ?_⟩
        · simp only [SetOperandValueWide_gvn]
          exact GlobalValueNumbering.find_after_LookupValue _ _ _ _ _
        · simp [e]
      · refine ⟨IGET, (s.GetOperandValue (mir.uses.getD 0 0)).1, 0,
          ((s.GetOperandValue (mir.uses.getD 0 0)).2.HandleNullCheck mir
            (s.GetOperandValue (mir.uses.getD 0 0)).1).1.next_memory_version_, ?_, ?_⟩
        · simp only [SetOperandValue_gvn]
          exact GlobalValueNumbering.find_after_LookupValue _ _ _ _ _
        · simp [e]
    · simp only [hvol, Bool.false_eq_true, if_false]
      split
      · refine ⟨IGET_WIDE, (s.GetOperandValue (mir.uses.getD 0 0)).1,
          (((s.GetOperandValue (mir.uses.getD 0 0)).2.HandleNullCheck mir
            (s.GetOperandValue (mir.uses.getD 0 0)).1).1.GetFieldId mir.declaring_dex_file
            mir.declaring_field_idx).1,
          max ((((s.GetOperandValue (mir.uses.getD 0 0)).2.HandleNullCheck mir
            (s.GetOperandValue (mir.uses.getD 0 0)).1).1.GetFieldId mir.declaring_dex_file
            mir.declaring_field_idx).2.unresolved_ifield_version_.getD
              (u16 (u16 mir.opcode - IGET)) 0)
            ((((s.GetOperandValue (mir.uses.getD 0 0)).2.HandleNullCheck mir
            (s.GetOperandValue (mir.uses.getD 0 0)).1).1.GetFieldId mir.declaring_dex_file
            mir.declaring_field_idx).2.GetMemoryVersion
              (s.GetOperandValue (mir.uses.getD 0 0)).1
              (((s.GetOperandValue (mir.uses.getD 0 0)).2.HandleNullCheck mir
                (s.GetOperandValue (mir.uses.getD 0 0)).1).1.GetFieldId mir.declaring_dex_file
                mir.declaring_field_idx).1 (u16 (u16 mir.opcode - IGET))), ?_, ?_⟩
        · simp only [SetOperandValueWide_gvn]
          exact GlobalValueNumbering.find_after_LookupValue _ _ _ _ _
        · simp only [SetOperandValueWide_next_memory_version_, LookupValue_next_memory_version_,
            GetFieldId_next_memory_version_, HandleNullCheck_next_memory_version_,
            GetOperandValue_next_memory_version_]
          exact hver _ _ _ _ _ (by simp) (by simp) (by simp) (by simp) (by simp)
            (by simpa using hV.2.2.1)
      · refine ⟨IGET, (s.GetOperandValue (mir.uses.getD 0 0)).1,
          (((s.GetOperandValue (mir.uses.getD 0 0)).2.HandleNullCheck mir
            (s.GetOperandValue (mir.uses.getD 0 0)).1).1.GetFieldId mir.declaring_dex_file
            mir.declaring_field_idx).1,
          max ((((s.GetOperandValue (mir.uses.getD 0 0)).2.HandleNullCheck mir
            (s.GetOperandValue (mir.uses.getD 0 0)).1).1.GetFieldId mir.declaring_dex_file
            mir.declaring_field_idx).2.unresolved_ifield_version_.getD
              (u16 (u16 mir.opcode - IGET)) 0)
            ((((s.GetOperandValue (mir.uses.getD 0 0)).2.HandleNullCheck mir
            (s.GetOperandValue (mir.uses.getD 0 0)).1).1.GetFieldId mir.declaring_dex_file
            mir.declaring_field_idx).2.GetMemoryVersion
              (s.GetOperandValue (mir.uses.getD 0 0)).1
              (((s.GetOperandValue (mir.uses.getD 0 0)).2.HandleNullCheck mir
                (s.GetOperandValue (mir.uses.getD 0 0)).1).1.GetFieldId mir.declaring_dex_file
                mir.declaring_field_idx).1 (u16 (u16 mir.opcode - IGET))), ?_, ?_⟩
        · simp only [SetOperandValue_gvn]
          exact GlobalValueNumbering.find_after_LookupValue _ _ _ _ _
        · simp only [SetOperandValue_next_memory_version_, LookupValue_next_memory_version_,
            GetFieldId_next_memory_version_, HandleNullCheck_next_memory_version_,
            GetOperandValue_next_memory_version_]
          exact hver _ _ _ _ _ (by simp) (by simp) (by simp) (by simp) (by simp)
            (by simpa using hV.2.2.1)
  · simp only [harm]
    by_cases hvol : mir.is_volatile = true
    · simp only [hvol, if_true]
      split
      · refine ⟨SGET_WIDE, NO_VALUE, 0, s.next_memory_version_, ?_, ?_⟩
        · simp only [SetOperandValueWide_gvn]
          exact GlobalValueNumbering.find_after_LookupValue _ _ _ _ _
        · simp [e]
      · refine ⟨SGET, NO_VALUE, 0, s.next_memory_version_, ?_, ?_⟩
        · simp only [SetOperandValue_gvn]
          exact GlobalValueNumbering.find_after_LookupValue _ _ _ _ _
        · simp [e]
    · simp only [hvol, Bool.false_eq_true, if_false]
      split
      · refine ⟨SGET_WIDE, NO_VALUE,
          (s.GetFieldId mir.declaring_dex_file mir.declaring_field_idx).1,
          max ((s.GetFieldId mir.declaring_dex_file
              mir.declaring_field_idx).2.unresolved_sfield_version_.getD
                (u16 (u16 mir.opcode - SGET)) 0)
            ((s.GetFieldId mir.declaring_dex_file mir.declaring_field_idx).2.GetMemoryVersion
              NO_VALUE (s.GetFieldId mir.declaring_dex_file mir.declaring_field_idx).1
              (u16 (u16 mir.opcode - SGET))), ?_, ?_⟩
        · simp only [SetOperandValueWide_gvn]
          exact GlobalValueNumbering.find_after_LookupValue _ _ _ _ _
        · simp only [SetOperandValueWide_next_memory_version_, LookupValue_next_memory_version_,
            GetFieldId_next_memory_version_]
          exact hver _ _ _ _ _ (by simp) (by simp) (by simp) (by simp) (by simp)
            (by simpa using hV.2.2.2)
      · refine ⟨SGET, NO_VALUE,
          (s.GetFieldId mir.declaring_dex_file mir.declaring_field_idx).1,
          max ((s.GetFieldId mir.declaring_dex_file
              mir.declaring_field_idx).2.unresolved_sfield_version_.getD
                (u16 (u16 mir.opcode - SGET)) 0)
            ((s.GetFieldId mir.declaring_dex_file mir.declaring_field_idx).2.GetMemoryVersion
              NO_VALUE (s.GetFieldId mir.declaring_dex_file mir.declaring_field_idx).1
              (u16 (u16 mir.opcode - SGET))), ?_, ?_⟩
        · simp only [SetOperandValue_gvn]
          exact GlobalValueNumbering.find_after_LookupValue _ _ _ _ _
        · simp only [SetOperandValue_next_memory_version_, LookupValue_next_memory_version_,
            GetFieldId_next_memory_version_]
          exact hver _ _ _ _ _ (by simp) (by simp) (by simp) (by simp) (by simp)
            (by simpa using hV.2.2.2)

end LocalValueNumbering

/-! ## Gets after a put to an unresolved field -/

namespace LocalValueNumbering

open GlobalValueNumbering (u16 u32 u64 BuildKey MapExt Evolves)
open Instruction

/-- The memory versions along a block `g1; mid1; p; mid2` that cannot wrap the counter. -/
theorem versions_along (s s1 sB sC sD : LocalValueNumbering) (g1 p : MIR)
    (n1 n2 : Option MIR) (mid1 mid2 : List (MIR × Option MIR))
    (hVB : s.VersionsBelowNext)
    (hwrap : s.next_memory_version_ + (mid1.length + mid2.length + 3) < 2 ^ 16)
    (hs1 : s1 = (s.GetValueNumber g1 n1).2.1) (hsB : sB = s1.processSeq mid1)
    (hsC : sC = (sB.GetValueNumber p n2).2.1) (hsD : sD = sC.processSeq mid2) :
    s1.next_memory_version_ ≤ sB.next_memory_version_ ∧
      sB.unresolved_ifield_version_.length = s.unresolved_ifield_version_.length ∧
      sB.unresolved_sfield_version_.length = s.unresolved_sfield_version_.length ∧
      (∀ i, sC.unresolved_ifield_version_.getD i 0 ≤ sD.unresolved_ifield_version_.getD i 0) ∧
      (∀ i, sC.unresolved_sfield_version_.getD i 0 ≤ sD.unresolved_sfield_version_.getD i 0) ∧
      sD.VersionsBelowNext ∧ sD.next_memory_version_ + 1 < 2 ^ 16 := by
  have cl := fun s0 => Threads_VersionsAdvance s0
  have a1 : VersionsAdvance s (0 + 1) s1 := by
    rw [hs1]
    exact thread_GetValueNumber (a := 0) (cl s) g1 n1 (VersionsAdvance_refl s)
  obtain ⟨v1, b1, c1, _, _, l1, m1⟩ := a1 (by omega) hVB
  have a2 : VersionsAdvance s1 (0 + mid1.length) sB := by
    rw [hsB]
    exact thread_processSeq (a := 0) (cl s1) mid1 (VersionsAdvance_refl s1)
  obtain ⟨v2, b2, c2, _, _, l2, m2⟩ := a2 (by omega) v1
  have a3 : VersionsAdvance sB (0 + 1) sC := by
    rw [hsC]
    exact thread_GetValueNumber (a := 0) (cl sB) p n2 (VersionsAdvance_refl sB)
  obtain ⟨v3, b3, c3, _, _, _, _⟩ := a3 (by omega) v2
  have a4 : VersionsAdvance sC (0 + mid2.length) sD := by
    rw [hsD]
    exact thread_processSeq (a := 0) (cl sC) mid2 (VersionsAdvance_refl sC)
  obtain ⟨v4, b4, c4, d4, e4, _, _⟩ := a4 (by omega) v3
  exact ⟨b2, l2.trans l1, m2.trans m1, d4, e4, v4, by omega⟩

/-- The value table along a block `g1; mid1; p; mid2` followed by `k` allocations: the value
name of a field get `g1` at the head of the block differs from the name of every tuple
looked up at the end whose memory version is at least the counter value when `p` is
processed, as long as neither the value names nor the memory versions overflow. -/
theorem get_after_put_core (s s1 sB sC sD : LocalValueNumbering) (g1 p : MIR)
    (n1 n2 : Option MIR) (mid1 mid2 : List (MIR × Option MIR))
    (g : GlobalValueNumbering) (t : GlobalValueNumbering.Tuple) (k : Nat)
    (hV : s.gvn.ValuesBelow) (hI : s.gvn.InjectiveMap) (hVB : s.VersionsBelowNext)
    (hwrap : s.next_memory_version_ + (mid1.length + mid2.length + 3) < 2 ^ 16)
    (hsmall : s.gvn.last_value_ + (allocBound g1 + seqAllocBound mid1 + allocBound p +
      seqAllocBound mid2 + k + 1) < 2 ^ 32)
    (harm1 : armOf (u16 g1.opcode) = .iget ∨ armOf (u16 g1.opcode) = .sget)
    (hs1 : s1 = (s.GetValueNumber g1 n1).2.1) (hsB : sB = s1.processSeq mid1)
    (hsC : sC = (sB.GetValueNumber p n2).2.1) (hsD : sD = sC.processSeq mid2)
    (hg : Evolves k sD.gvn g)
    (hrec : sB.next_memory_version_ ≤ t.2.2.2) (ht16 : t.2.2.2 < 2 ^ 16)
    (hGood : (GlobalValueNumbering.lookupT g t).2.Good = true) :
    (GlobalValueNumbering.lookupT g t).1 ≠ (s.GetValueNumber g1 n1).1 := by
  obtain ⟨w1, _, _, _, _, _, _⟩ := versions_along s s1 sB sC sD g1 p n1 n2 mid1 mid2 hVB hwrap
    hs1 hsB hsC hsD
  obtain ⟨op, x, f, m, k1, k2⟩ := get_key s g1 n1 harm1 hVB (by omega)
  rw [← hs1] at k1 k2
  have cl := fun g0 => Threads_Evolves g0
  -- the table from the start to the end
  have e1 : Evolves (0 + allocBound g1) s.gvn s1.gvn := by
    rw [hs1]
    exact thread_GetValueNumber (b := 0) (cl s.gvn) g1 n1 (GlobalValueNumbering.Evolves_refl _)
  have e2 : Evolves (0 + seqAllocBound mid1) s1.gvn sB.gvn := by
    rw [hsB]
    exact thread_processSeq (b := 0) (cl s1.gvn) mid1 (GlobalValueNumbering.Evolves_refl _)
  have e3 : Evolves (0 + allocBound p) sB.gvn sC.gvn := by
    rw [hsC]
    exact thread_GetValueNumber (b := 0) (cl sB.gvn) p n2 (GlobalValueNumbering.Evolves_refl _)
  have e4 : Evolves (0 + seqAllocBound mid2) sC.gvn sD.gvn := by
    rw [hsD]
    exact thread_processSeq (b := 0) (cl sC.gvn) mid2 (GlobalValueNumbering.Evolves_refl _)
  have e15 := GlobalValueNumbering.Evolves_trans (GlobalValueNumbering.Evolves_trans
    (GlobalValueNumbering.Evolves_trans e2 e3) e4) hg
  have e05 := GlobalValueNumbering.Evolves_trans e1 e15
  have hk : g.global_value_map_.find (BuildKey op x f m) = some (s.GetValueNumber g1 n1).1 :=
    e15.1 _ _ k1
  have hlast : g.last_value_ + 1 < 2 ^ 32 := by
    have := e05.2.1
    omega
  have hstep := GlobalValueNumbering.Evolves_LookupValue g t.1 t.2.1 t.2.2.1 t.2.2.2
  have hGg : g.Good = true := by
    have h1 := (hstep.2.2 hlast).1
    rw [GlobalValueNumbering.Good_iff] at hGood ⊢
    unfold GlobalValueNumbering.lookupT at hGood
    omega
  obtain ⟨hVg, hIg⟩ := (e05.2.2 (by omega)).2 hV hI hGg
  have hne : BuildKey op x f m ≠ BuildKey t.1 t.2.1 t.2.2.1 t.2.2.2 := by
    intro h
    have h4 := (GlobalValueNumbering.BuildKey_inj_u16 h).2.2.2
    have em : u16 m = m := Nat.mod_eq_of_lt (by omega)
    have et : u16 t.2.2.2 = t.2.2.2 := Nat.mod_eq_of_lt ht16
    rw [em, et] at h4
    omega
  exact GlobalValueNumbering.LookupValue_ne_of_key_ne hVg hIg hlast hGood hk hne


theorem igetPre_versions (s : LocalValueNumbering) (mir : MIR) (h : s.VersionsBelowNext) :
    (s.igetPre mir).VersionsBelowNext ∧
      (s.igetPre mir).next_memory_version_ = s.next_memory_version_ := by
  unfold igetPre
  exact ⟨VersionsBelowNext_of_eq (by simp) (by simp) (by simp) (by simp) (by simp) h, by simp⟩

theorem sgetPre_versions (s : LocalValueNumbering) (mir : MIR) (h : s.VersionsBelowNext) :
    (s.sgetPre mir).VersionsBelowNext ∧
      (s.sgetPre mir).next_memory_version_ = s.next_memory_version_ ∧
      (s.sgetPre mir).unresolved_sfield_version_ = s.unresolved_sfield_version_ ∧
      (s.sgetPre mir).gvn = s.gvn := by
  unfold sgetPre
  exact ⟨VersionsBelowNext_of_eq (by simp) (by simp) (by simp) (by simp) (by simp) h, by simp,
    by simp, by simp⟩

set_option maxRecDepth 100000 in
/-- C20 (evaluation at the failing input): started with the memory version counter at
0xffff, the block `new-instance v0; iget v2, v0, f; iput v3, v1, g; iput v3, v1, g;
iget v4, v0, f` with `g` unresolved and `f` resolved, non-volatile and of the same type: the
first put records the unresolved version 0xffff and wraps the counter, the second records 0;
the last get is keyed with memory version 0 and gets the value name of the first get, with
`Good()` holding at the end. -/
theorem unresolved_put_after_wrap :
    ((almostWrapped.GetValueNumber ⟨NEW_INSTANCE, 0, 0, [], [0], 0, false, 0, 0⟩
        none).2.1.GetValueNumber (getField 2) none).1 =
      (afterPuts.GetValueNumber (getField 4) none).1 ∧
    (beforePuts.GetValueNumber putUnresolved none).2.1.unresolved_ifield_version_.getD 0 0 =
      0xffff ∧
    (afterPuts.igetTuple (getField 4)).2.2.2 = 0 ∧
    (afterPuts.GetValueNumber (getField 4) none).2.1.gvn.Good = true := by
  decide

/-- C20 (amended): as long as value names and memory versions do not overflow. Let the block
be `g1; mid1; p; mid2; g2` with `g1` any field get, `p` a put to an unresolved field and `g2`
a get of a non-volatile (hence resolved) field of the same kind (instance or static) and the
same field type as `p`, with any instructions `mid1` and `mid2` between them. The table
invariants and `VersionsBelowNext` hold at the start, the counters cannot wrap along the
block and `Good()` holds at the end. Then the unresolved version recorded by `p` is the
counter value when `p` is processed, the memory version of the tuple `g2` looks up is at
least that version, through any base, and `g2` gets a value name different from that of
`g1`. This holds for IGET after IPUT and for SGET after SPUT. -/
theorem unresolved_put_invalidates (s s1 sB sC sD : LocalValueNumbering) (g1 p g2 : MIR)
    (n1 n2 n3 : Option MIR) (mid1 mid2 : List (MIR × Option MIR))
    (hV : s.gvn.ValuesBelow) (hI : s.gvn.InjectiveMap) (hVB : s.VersionsBelowNext)
    (hlenI : s.unresolved_ifield_version_.length = 7)
    (hlenS : s.unresolved_sfield_version_.length = 7)
    (hwrap : s.next_memory_version_ + (mid1.length + mid2.length + 3) < 2 ^ 16)
    (hsmall : s.gvn.last_value_ + (allocBound g1 + seqAllocBound mid1 + allocBound p +
      seqAllocBound mid2 + allocBound g2) < 2 ^ 32)
    (harm1 : armOf (u16 g1.opcode) = .iget ∨ armOf (u16 g1.opcode) = .sget)
    (hres : p.declaring_dex_file = 0) (hvol : g2.is_volatile = false)
    (hs1 : s1 = (s.GetValueNumber g1 n1).2.1) (hsB : sB = s1.processSeq mid1)
    (hsC : sC = (sB.GetValueNumber p n2).2.1) (hsD : sD = sC.processSeq mid2)
    (hGood : (sD.GetValueNumber g2 n3).2.1.gvn.Good = true) :
    (armOf (u16 p.opcode) = .iput ∨ armOf (u16 p.opcode) = .iputObject →
      armOf (u16 g2.opcode) = .iget →
      u16 (u16 g2.opcode - IGET) = u16 (u16 p.opcode - IPUT) →
        sC.unresolved_ifield_version_.getD (u16 (u16 p.opcode - IPUT)) 0 =
            sB.next_memory_version_ ∧
          sC.unresolved_ifield_version_.getD (u16 (u16 p.opcode - IPUT)) 0 ≤
            (sD.igetTuple g2).2.2.2 ∧
          (sD.GetValueNumber g2 n3).1 =
            (GlobalValueNumbering.lookupT (sD.igetPre g2).gvn (sD.igetTuple g2)).1 ∧
          (sD.GetValueNumber g2 n3).1 ≠ (s.GetValueNumber g1 n1).1) ∧
      (armOf (u16 p.opcode) = .sput ∨ armOf (u16 p.opcode) = .sputObject →
        armOf (u16 g2.opcode) = .sget →
        u16 (u16 g2.opcode - SGET) = u16 (u16 p.opcode - SPUT) →
          sC.unresolved_sfield_version_.getD (u16 (u16 p.opcode - SPUT)) 0 =
              sB.next_memory_version_ ∧
            sC.unresolved_sfield_version_.getD (u16 (u16 p.opcode - SPUT)) 0 ≤
              (sD.sgetTuple g2).2.2.2 ∧
            (sD.GetValueNumber g2 n3).1 =
              (GlobalValueNumbering.lookupT (sD.sgetPre g2).gvn (sD.sgetTuple g2)).1 ∧
            (sD.GetValueNumber g2 n3).1 ≠ (s.GetValueNumber g1 n1).1) := by
  obtain ⟨_, lI, lS, mI, mS, vD, nD⟩ := versions_along s s1 sB sC sD g1 p n1 n2 mid1 mid2 hVB
    hwrap hs1 hsB hsC hsD
  have hab : 4 ≤ allocBound g2 := by unfold allocBound; omega
  constructor
  · intro hp hg2 htype
    have hrec : sC.unresolved_ifield_version_.getD (u16 (u16 p.opcode - IPUT)) 0 =
        sB.next_memory_version_ := by
      rw [hsC, iput_unresolved sB p n2 hp hres]
      exact getD_set_self _ _ _ (by rw [lI, hlenI]; exact (put_type_lt p).1 hp)
    obtain ⟨r1, r2⟩ := iget_result sD g2 n3 hg2 hvol
    obtain ⟨_, _, _, t4⟩ := igetTuple_eq sD g2
    obtain ⟨_, _, _, f4, _, f6⟩ := igetPre_frame sD g2
    obtain ⟨pv, pn⟩ := igetPre_versions sD g2 vD
    have hle : sC.unresolved_ifield_version_.getD (u16 (u16 p.opcode - IPUT)) 0 ≤
        (sD.igetTuple g2).2.2.2 := by
      rw [t4, f4, htype]
      exact le_trans (mI _) (le_max_left _ _)
    have hlt : (sD.igetTuple g2).2.2.2 < 2 ^ 16 := by
      rw [t4]
      have h1 := GetMemoryVersion_lt (sD.igetPre g2) (sD.igetTuple g2).2.1
        (sD.igetTuple g2).2.2.1 (u16 (u16 g2.opcode - IGET)) pv
      have h2 := getD_lt_of_forall (u16 (u16 g2.opcode - IGET)) pv.2.2.1
        (Nat.lt_of_le_of_lt (Nat.zero_le _) pv.2.1)
      rw [pn] at h1 h2
      have := max_lt h2 h1
      omega
    refine ⟨hrec, hle, r1, ?_⟩
    rw [r1]
    rw [r2] at hGood
    exact get_after_put_core s s1 sB sC sD g1 p n1 n2 mid1 mid2 _ _ 1 hV hI hVB hwrap
      (by omega) harm1 hs1 hsB hsC hsD f6 (by rw [← hrec]; exact hle) hlt hGood
  · intro hp hg2 htype
    have hrec : sC.unresolved_sfield_version_.getD (u16 (u16 p.opcode - SPUT)) 0 =
        sB.next_memory_version_ := by
      rw [hsC, sput_unresolved sB p n2 hp hres]
      exact getD_set_self _ _ _ (by rw [lS, hlenS]; exact (put_type_lt p).2 hp)
    obtain ⟨r1, r2⟩ := sget_result sD g2 n3 hg2 hvol
    obtain ⟨pv, pn, pu, pg⟩ := sgetPre_versions sD g2 vD
    have t4 : (sD.sgetTuple g2).2.2.2 =
        max ((sD.sgetPre g2).unresolved_sfield_version_.getD (u16 (u16 g2.opcode - SGET)) 0)
          ((sD.sgetPre g2).GetMemoryVersion NO_VALUE (sD.sgetTuple g2).2.2.1
            (u16 (u16 g2.opcode - SGET))) := rfl
    have hle : sC.unresolved_sfield_version_.getD (u16 (u16 p.opcode - SPUT)) 0 ≤
        (sD.sgetTuple g2).2.2.2 := by
      rw [t4, pu, htype]
      exact le_trans (mS _) (le_max_left _ _)
    have hlt : (sD.sgetTuple g2).2.2.2 < 2 ^ 16 := by
      rw [t4]
      have h1 := GetMemoryVersion_lt (sD.sgetPre g2) NO_VALUE
        (sD.sgetTuple g2).2.2.1 (u16 (u16 g2.opcode - SGET)) pv
      have h2 := getD_lt_of_forall (u16 (u16 g2.opcode - SGET)) pv.2.2.2
        (Nat.lt_of_le_of_lt (Nat.zero_le _) pv.2.1)
      rw [pn] at h1 h2
      have := max_lt h2 h1
      omega
    refine ⟨hrec, hle, r1, ?_⟩
    rw [r1]
    rw [r2] at hGood
    exact get_after_put_core s s1 sB sC sD g1 p n1 n2 mid1 mid2 _ _ 0 hV hI hVB hwrap
      (by omega) harm1 hs1 hsB hsC hsD
      (by rw [pg]; exact GlobalValueNumbering.Evolves_refl _)
      (by rw [← hrec]; exact hle) hlt hGood

/-- Witness for C20: from the initial state, `iget v2, v0, f`, `iput v3, v1, g` with `g`
unresolved, `const/4 v5, 1`, `iget v4, v0, f`. -/
theorem unresolved_put_invalidates_witness :
    (((((init.GetValueNumber (getField 2) none).2.1.processSeq []).GetValueNumber putUnresolved
        none).2.1.processSeq
          [(⟨CONST_4, 1, 0, [], [5], 0, false, 0, 0⟩, none)]).GetValueNumber (getField 4) none).1 ≠
      (init.GetValueNumber (getField 2) none).1 :=
  ((unresolved_put_invalidates init _ _ _ _ (getField 2) putUnresolved (getField 4)
    none none none [] [(⟨CONST_4, 1, 0, [], [5], 0, false, 0, 0⟩, none)]
    (by intro k v h; cases h) (by intro k k' v h; cases h)
    ⟨(by intro k v h; cases h), (by decide), (by decide), (by decide)⟩
    (by decide) (by decide) (by decide) (by decide) (by decide) rfl rfl rfl rfl rfl rfl
    (by decide)).1 (by decide) (by decide) (by decide)).2.2.2


end LocalValueNumbering

/-! ## Overflow, the rewrite phase and exact values of the value table -/

namespace GlobalValueNumbering

theorem ValueCall_apply_last (g : GlobalValueNumbering) (c : ValueCall) :
    (c.apply g).last_value_ = g.last_value_ ∨
      ((c.apply g).last_value_ = u32 (g.last_value_ + 1) ∧ ∃ op a b m, c = .lookup op a b m) := by
  cases c with
  | lookup op a b m =>
    cases h : g.global_value_map_.find (BuildKey op a b m) with
    | some n => left; simp [ValueCall.apply, LookupValue_of_find h]
    | none => right; exact ⟨by simp [ValueCall.apply, LookupValue_of_miss h], op, a, b, m, rfl⟩
  | store op a b m v => left; rfl
  | has op a b m v => left; rfl
  | allow => left; rfl

theorem runCalls_last (calls : List ValueCall) : ∀ (g : GlobalValueNumbering),
    g.last_value_ + lookupCount calls < 2 ^ 32 →
    g.last_value_ ≤ (g.runCalls calls).last_value_ ∧
      (g.runCalls calls).last_value_ ≤ g.last_value_ + lookupCount calls := by
  induction calls with
  | nil => intro g _; exact ⟨le_refl _, le_refl _⟩
  | cons c rest ih =>
    intro g h
    have hrun : g.runCalls (c :: rest) = (c.apply g).runCalls rest := rfl
    rw [hrun]
    rcases ValueCall_apply_last g c with e | ⟨e, op, a, b, m, rfl⟩
    · have hc : lookupCount rest ≤ lookupCount (c :: rest) := by
        cases c <;> simp [lookupCount]
      have := ih (c.apply g) (by rw [e]; omega)
      rw [e] at this
      omega
    · have hc : lookupCount (ValueCall.lookup op a b m :: rest) = lookupCount rest + 1 := rfl
      rw [hc] at h ⊢
      have e2 : u32 (g.last_value_ + 1) = g.last_value_ + 1 := Nat.mod_eq_of_lt (by omega)
      rw [e2] at e
      have := ih _ (by rw [e]; omega)
      rw [e] at this
      omega

/-- C27: overflow is sticky. Once `Good()` is false, it is false after every further sequence
of `LookupValue`, `StoreValue`, `HasValue` and `AllowModifications` calls, and `CanModify()`
is false in every such state, whether `AllowModifications()` was called or not. The sequence
is one the 32-bit counter can count: it has fewer than `2^32 - last_value_` lookups (every
value name allocated is bound in the value map, so a longer one needs a map of `2^32 - 1`
bindings). -/
theorem overflow_sticky (g : GlobalValueNumbering) (calls : List ValueCall)
    (hbad : g.Good = false) (hfew : g.last_value_ + lookupCount calls < 2 ^ 32) :
    (g.runCalls calls).Good = false ∧ (g.runCalls calls).CanModify = false := by
  have h := (runCalls_last calls g hfew).1
  have hg : ¬ g.last_value_ < 0xffff := by
    intro hlt
    rw [(Good_iff g).2 hlt] at hbad
    exact absurd hbad (by decide)
  have hG : (g.runCalls calls).Good = false := by
    cases hc : (g.runCalls calls).Good with
    | false => rfl
    | true =>
      rw [Good_iff] at hc
      omega
  exact ⟨hG, by simp [CanModify, hG]⟩

/-- Witness for C27: the counter at 0xffff, then a lookup, `AllowModifications`, a store, a
`HasValue` and another lookup. -/
theorem overflow_sticky_witness :
    ((⟨0xffff, false, []⟩ : GlobalValueNumbering).runCalls
        [.lookup 1 2 3 4, .allow, .store 5 6 7 8 9, .has 1 2 3 4 0, .lookup 9 9 9 9]).Good =
        false ∧
      ((⟨0xffff, false, []⟩ : GlobalValueNumbering).runCalls
        [.lookup 1 2 3 4, .allow, .store 5 6 7 8 9, .has 1 2 3 4 0, .lookup 9 9 9 9]).CanModify =
        false :=
  overflow_sticky ⟨0xffff, false, []⟩ _ (by decide) (by decide)

/-- C28 (evaluation at the failing input): on a new value table, after `AllowModifications()`
a `LookupValue` of an unbound key allocates value name 1 and advances `last_value_` from 0 to
1; nothing rejects the call, and `CanModify()` holds before and after it. -/
theorem LookupValue_allocates_when_modifying :
    ((⟨0, false, []⟩ : GlobalValueNumbering).AllowModifications).CanModify = true ∧
      ((⟨0, false, []⟩ : GlobalValueNumbering).AllowModifications.LookupValue 0 0 0 0).1 = 1 ∧
      ((⟨0, false, []⟩ : GlobalValueNumbering).AllowModifications.LookupValue
        0 0 0 0).2.last_value_ = 1 ∧
      ((⟨0, false, []⟩ : GlobalValueNumbering).AllowModifications.LookupValue
        0 0 0 0).2.CanModify = true := by
  decide

end GlobalValueNumbering

namespace GlobalValueNumbering

/-- C29: `StoreValue` round trip. When the key of `(op, o1, o2, mod)` is absent from the value
map or bound to `v` already, the debug check of `StoreValue(op, o1, o2, mod, v)` passes, and
in the state the call leaves `HasValue(op, o1, o2, mod, v)` is true, `LookupValue(op, o1, o2,
mod)` returns `v` and leaves the state as it is (no value name is allocated), every other key
is bound as before and `last_value_` is unchanged; the two checks at the head of that
`HasValue` pass when `v` is an allocated name (not 0, at most `last_value_`). When the key is
bound to a value other than `v`, the check of `StoreValue` fails: the debug build rejects the
call. -/
theorem StoreValue_round_trip (g : GlobalValueNumbering) (op o1 o2 m v : Nat)
    (hv : v < 2 ^ 16) :
    (g.global_value_map_.find (BuildKey op o1 o2 m) = none ∨
        g.global_value_map_.find (BuildKey op o1 o2 m) = some v →
      g.StoreValueDebug op o1 o2 m v = some (g.StoreValue op o1 o2 m v) ∧
        (g.StoreValue op o1 o2 m v).HasValue op o1 o2 m v = true ∧
        (g.StoreValue op o1 o2 m v).LookupValue op o1 o2 m = (v, g.StoreValue op o1 o2 m v) ∧
        (∀ k, k ≠ BuildKey op o1 o2 m →
          (g.StoreValue op o1 o2 m v).global_value_map_.find k = g.global_value_map_.find k) ∧
        (g.StoreValue op o1 o2 m v).last_value_ = g.last_value_ ∧
        (v ≠ 0 → v ≤ g.last_value_ → (g.StoreValue op o1 o2 m v).HasValueCheck v = true)) ∧
      (∀ w, g.global_value_map_.find (BuildKey op o1 o2 m) = some w → w ≠ v →
        g.StoreValueDebug op o1 o2 m v = none) := by
  have ev : u16 v = v := u16_of_lt hv
  have hfind : (g.StoreValue op o1 o2 m v).global_value_map_.find (BuildKey op o1 o2 m) =
      some v := by
    simp [StoreValue, SafeMap.find_Overwrite, ev]
  constructor
  · intro hk
    refine ⟨?_, ?_, LookupValue_of_find hfind, ?_, rfl, ?_⟩
    rotate_right
    · intro h0 hle
      have hl : (g.StoreValue op o1 o2 m v).last_value_ = g.last_value_ := rfl
      simp [HasValueCheck, ev, h0, hl, hle]
    · have : g.StoreValueCheck op o1 o2 m v = true := by
        unfold StoreValueCheck
        rcases hk with hk | hk <;> simp [hk, ev]
      simp [StoreValueDebug, this]
    · unfold HasValue
      simp only [hfind, ev, decide_True]
    · intro k hne
      simp only [StoreValue, SafeMap.find_Overwrite]
      rw [if_neg (Ne.symm hne)]
  · intro w hw hne
    have : g.StoreValueCheck op o1 o2 m v = false := by
      unfold StoreValueCheck
      simp [hw, ev, hne]
    simp [StoreValueDebug, this]

/-- Witness for C29: storing value name 1 for the key of `(0x52, 1, 0, 3)` in a table that
binds another key to 1. -/
theorem StoreValue_round_trip_witness :
    (⟨1, false, [(BuildKey 0xffff 0 0xffff 0xffff, 1)]⟩ : GlobalValueNumbering).StoreValueDebug
        0x52 1 0 3 1 =
      some ((⟨1, false, [(BuildKey 0xffff 0 0xffff 0xffff, 1)]⟩ :
        GlobalValueNumbering).StoreValue 0x52 1 0 3 1) ∧
    ((⟨1, false, [(BuildKey 0xffff 0 0xffff 0xffff, 1)]⟩ :
        GlobalValueNumbering).StoreValue 0x52 1 0 3 1).HasValue 0x52 1 0 3 1 = true :=
  let h := (StoreValue_round_trip ⟨1, false, [(BuildKey 0xffff 0 0xffff 0xffff, 1)]⟩
    0x52 1 0 3 1 (by decide)).1 (Or.inl (by decide))
  ⟨h.1, h.2.1⟩

/-- C30: `HasValue` agrees with `LookupValue`. In every state in which `Good()` holds, for
every 4-tuple and every value `v` with `v <= last_value_`, `HasValue(op, o1, o2, mod, v)` is
true if and only if `LookupValue(op, o1, o2, mod)` called in that state returns `v`; for
`v` other than 0 the two checks at the head of `HasValue` pass. `HasValue` is a `const` member
that only calls `find`: it returns its answer and no state. -/
theorem HasValue_iff_LookupValue (g : GlobalValueNumbering) (op o1 o2 m v : Nat)
    (hG : g.Good = true) (hv : v ≤ g.last_value_) :
    (g.HasValue op o1 o2 m v = true ↔ (g.LookupValue op o1 o2 m).1 = v) ∧
      (v ≠ 0 → g.HasValueCheck v = true) := by
  have hlt := (Good_iff g).1 hG
  have ev : u16 v = v := u16_of_lt (by omega)
  constructor
  · cases h : g.global_value_map_.find (BuildKey op o1 o2 m) with
    | some w =>
      rw [LookupValue_of_find h]
      unfold HasValue
      simp [h, ev]
    | none =>
      rw [LookupValue_of_miss h]
      unfold HasValue
      have := (fresh_name_eq hG).1
      simp only [h, this]
      constructor
      · intro hf
        exact absurd hf (by decide)
      · intro hf
        omega
  · intro hne
    simp [HasValueCheck, ev, hne, hv]

/-- Witness for C30: a table with one binding, asked for the bound key and value. -/
theorem HasValue_iff_LookupValue_witness :
    ((⟨1, false, [(BuildKey 0x90 1 2 0xffff, 1)]⟩ : GlobalValueNumbering).HasValue
        0x90 1 2 0xffff 1 = true ↔
      ((⟨1, false, [(BuildKey 0x90 1 2 0xffff, 1)]⟩ : GlobalValueNumbering).LookupValue
        0x90 1 2 0xffff).1 = 1) :=
  (HasValue_iff_LookupValue ⟨1, false, [(BuildKey 0x90 1 2 0xffff, 1)]⟩ 0x90 1 2 0xffff 1
    (by decide) (by decide)).1

end GlobalValueNumbering

/-! ## Null checks -/

namespace LocalValueNumbering

open GlobalValueNumbering (u16 u32 u64 BuildKey MapExt Evolves)
open Instruction

theorem HandleNullCheck_flags (s : LocalValueNumbering) (mir : MIR) (reg : Nat) :
    (s.HandleNullCheck mir reg).2.optimization_flags =
      if u16 reg ∈ s.null_checked_ then mir.optimization_flags ||| MIR_IGNORE_NULL_CHECK
      else mir.optimization_flags := by
  unfold HandleNullCheck
  split <;> rfl

theorem HandleNullCheck_mem (s : LocalValueNumbering) (mir : MIR) (reg : Nat) :
    u16 reg ∈ (s.HandleNullCheck mir reg).1.null_checked_ := by
  unfold HandleNullCheck
  split
  · assumption
  · rename_i hn
    simp [setInsert, hn]

theorem HandleRangeCheck_flags (s : LocalValueNumbering) (mir : MIR) (a i : Nat) :
    (s.HandleRangeCheck mir a i).2.optimization_flags =
      if s.ValueExists ARRAY_REF a i NO_VALUE then
        mir.optimization_flags ||| MIR_IGNORE_RANGE_CHECK
      else mir.optimization_flags := by
  unfold HandleRangeCheck
  split <;> simp [*]

theorem MakeArgsNonUniqueLoop_null_checked_ (uses : List Nat) : ∀ s : LocalValueNumbering,
    (s.MakeArgsNonUniqueLoop uses).null_checked_ = s.null_checked_ := by
  induction uses with
  | nil => intro s; rfl
  | cons u rest ih =>
    intro s
    unfold MakeArgsNonUniqueLoop
    rw [ih]
    simp

/-- The array gets and puts return the instruction and the null-checked set that the range
check leaves. -/
theorem array_access_out (s : LocalValueNumbering) (mir : MIR) (next : Option MIR)
    (h : (armOf (u16 mir.opcode)).isArrayAccess = true) :
    (s.GetValueNumber mir next).2.2 = (s.rangeChecks mir).2 ∧
      (s.GetValueNumber mir next).2.1.null_checked_ = (s.nullChecked mir).1.null_checked_ := by
  unfold rangeChecks nullChecked putEntry nullCheckedUse
  cases harm : armOf (u16 mir.opcode) <;> rw [harm] at h <;>
    first
      | exact absurd h (by decide)
      | (unfold GetValueNumber; simp only [harm, Arm.isPutObject, Bool.false_eq_true, if_false, if_true])
  · split <;> simp
  · simp [aputBody]
  · simp [aputBody]

/-- The instance field gets and puts and the invokes with a receiver return the instruction
and the null-checked set that the null check leaves. -/
theorem field_access_out (s : LocalValueNumbering) (mir : MIR) (next : Option MIR)
    (h : (armOf (u16 mir.opcode)).nullChecks = true)
    (h2 : (armOf (u16 mir.opcode)).isArrayAccess = false) :
    (s.GetValueNumber mir next).2.2 = (s.nullChecked mir).2 ∧
      (s.GetValueNumber mir next).2.1.null_checked_ = (s.nullChecked mir).1.null_checked_ := by
  unfold nullChecked putEntry nullCheckedUse
  cases harm : armOf (u16 mir.opcode) <;> rw [harm] at h h2 <;>
    first
      | exact absurd h (by decide)
      | exact absurd h2 (by decide)
      | (unfold GetValueNumber; simp only [harm, Arm.isPutObject, Bool.false_eq_true, if_false, if_true])
  · simp [MakeArgsNonUnique, MakeArgsNonUniqueLoop_null_checked_]
  · split_ifs <;> simp
  · unfold iputBody
    simp only []
    split_ifs <;> simp
  · unfold iputBody
    simp only []
    split_ifs <;> simp

theorem HandleNullCheck_mir (s : LocalValueNumbering) (mir : MIR) (reg : Nat) :
    (s.HandleNullCheck mir reg).2 =
      { mir with optimization_flags := (if u16 reg ∈ s.null_checked_ then
          mir.optimization_flags ||| MIR_IGNORE_NULL_CHECK else mir.optimization_flags) } := by
  unfold HandleNullCheck
  split <;> simp [*]

theorem nullChecked_spec (s : LocalValueNumbering) (mir : MIR) :
    (s.nullChecked mir).2 =
        { mir with optimization_flags := (if s.nullCheckedName mir ∈ s.null_checked_ then
            mir.optimization_flags ||| MIR_IGNORE_NULL_CHECK else mir.optimization_flags) } ∧
      s.nullCheckedName mir ∈ (s.nullChecked mir).1.null_checked_ := by
  unfold nullChecked nullCheckedName
  refine ⟨?_, HandleNullCheck_mem _ _ _⟩
  rw [HandleNullCheck_mir]
  have : ((s.putEntry mir).GetOperandValue (mir.uses.getD (nullCheckedUse mir) 0)).2.null_checked_ =
      s.null_checked_ := by
    unfold putEntry
    split <;> simp
  rw [this]

theorem testBit_null_flag (i : Nat) : Nat.testBit 1 i = decide (i = 0) := by
  have : (1 : Nat) = 2 ^ 0 := rfl
  rw [this, Nat.testBit_two_pow]
  simp [eq_comm]

theorem testBit_range_flag (i : Nat) : Nat.testBit 4 i = decide (i = 2) := by
  have : (4 : Nat) = 2 ^ 2 := rfl
  rw [this, Nat.testBit_two_pow]
  simp [eq_comm]

/-- C22: for every instruction on which a reference is null-checked (array get or put, get
or put of an instance field, invoke with a receiver), with `r` the value name handed to
`HandleNullCheck`: the instruction leaves the bit `MIR_IGNORE_NULL_CHECK` set exactly when it
was set before or `r` was in the null-checked set before the instruction; afterwards `r` is
in the set; the null check itself changes nothing of the instruction but that bit, every bit
other than the null-check and the range-check bit is as before the instruction, and off the
array accesses the instruction is returned as the null check leaves it. -/
theorem null_check_elimination (s : LocalValueNumbering) (mir : MIR) (next : Option MIR)
    (h : (armOf (u16 mir.opcode)).nullChecks = true) :
    ((s.GetValueNumber mir next).2.2.optimization_flags.testBit 0 =
        (mir.optimization_flags.testBit 0 || decide (s.nullCheckedName mir ∈ s.null_checked_))) ∧
      s.nullCheckedName mir ∈ (s.GetValueNumber mir next).2.1.null_checked_ ∧
      (s.nullChecked mir).2 =
        { mir with optimization_flags := (if s.nullCheckedName mir ∈ s.null_checked_ then
            mir.optimization_flags ||| MIR_IGNORE_NULL_CHECK else mir.optimization_flags) } ∧
      (∀ i, i ≠ 0 → i ≠ 2 → (s.GetValueNumber mir next).2.2.optimization_flags.testBit i =
        mir.optimization_flags.testBit i) ∧
      ((armOf (u16 mir.opcode)).isArrayAccess = false →
        (s.GetValueNumber mir next).2.2 = (s.nullChecked mir).2) := by
  obtain ⟨n1, n2⟩ := nullChecked_spec s mir
  have hout : (s.GetValueNumber mir next).2.1.null_checked_ = (s.nullChecked mir).1.null_checked_ ∧
      ((s.GetValueNumber mir next).2.2.optimization_flags =
          (s.nullChecked mir).2.optimization_flags ∨
        (s.GetValueNumber mir next).2.2.optimization_flags =
          (s.nullChecked mir).2.optimization_flags ||| MIR_IGNORE_RANGE_CHECK) := by
    cases ha : (armOf (u16 mir.opcode)).isArrayAccess with
    | true =>
      obtain ⟨a1, a2⟩ := array_access_out s mir next ha
      refine ⟨a2, ?_⟩
      rw [a1]
      unfold rangeChecks
      simp only [HandleRangeCheck_flags]
      split
      · right; rfl
      · left; rfl
    | false =>
      obtain ⟨a1, a2⟩ := field_access_out s mir next h ha
      exact ⟨a2, Or.inl (by rw [a1])⟩
  have hfl : (s.nullChecked mir).2.optimization_flags =
      if s.nullCheckedName mir ∈ s.null_checked_ then
        mir.optimization_flags ||| MIR_IGNORE_NULL_CHECK
      else mir.optimization_flags := by rw [n1]
  have e1 : MIR_IGNORE_NULL_CHECK = 1 := rfl
  have e4 : MIR_IGNORE_RANGE_CHECK = 4 := rfl
  rw [e1] at hfl
  rw [e4] at hout
  refine ⟨?_, ?_, n1, ?_, fun ha => (field_access_out s mir next h ha).1⟩
  · rcases hout.2 with e | e <;> rw [e, hfl] <;> split <;>
      simp [Nat.testBit_or, testBit_null_flag, testBit_range_flag, *]
  · rw [hout.1]
    exact n2
  · intro i h0 h2
    rcases hout.2 with e | e <;> rw [e, hfl] <;> split <;>
      simp [Nat.testBit_or, testBit_null_flag, testBit_range_flag, *]

/-- Witness for C22: `iget v1, v0, f` twice from the initial state; the second one gets the
flag, the first one does not. -/
theorem null_check_elimination_witness :
    ((init.GetValueNumber (getField 1) none).2.2.optimization_flags.testBit 0 = false) ∧
      (((init.GetValueNumber (getField 1) none).2.1.GetValueNumber (getField 2)
        none).2.2.optimization_flags.testBit 0 = true) :=
  ⟨((null_check_elimination init (getField 1) none (by decide)).1).trans (by decide),
    ((null_check_elimination (init.GetValueNumber (getField 1) none).2.1 (getField 2) none
      (by decide)).1).trans (by decide)⟩

end LocalValueNumbering

/-! ## Value names of registers and unique references -/

namespace LocalValueNumbering

open GlobalValueNumbering (u16 u32 u64 BuildKey MapExt Evolves)
open Instruction

theorem SregExt_refl (s : LocalValueNumbering) : SregExt s s := fun _ _ h => h

theorem SregExt_trans {a b c : LocalValueNumbering} (h1 : SregExt a b) (h2 : SregExt b c) :
    SregExt a c := fun r v h => h2 r v (h1 r v h)

theorem SregExt_of_eq {s s' : LocalValueNumbering}
    (h : s'.sreg_value_map_ = s.sreg_value_map_) : SregExt s s' := by
  intro r v hr
  rw [h]
  exact hr

/-- Reading a narrow register records its value name and keeps the names recorded before. -/
theorem GetOperandValue_sreg (s : LocalValueNumbering) (r : Nat) :
    (s.GetOperandValue r).2.sreg_value_map_.find (u16 r) = some (s.GetOperandValue r).1 ∧
      SregExt s (s.GetOperandValue r).2 := by
  unfold GetOperandValue
  cases h : s.sreg_value_map_.find (u16 r) with
  | some v => exact ⟨h, SregExt_refl s⟩
  | none =>
    refine ⟨by simp [SafeMap.find_Put], ?_⟩
    intro r' v hr
    simp only [SafeMap.find_Put, LookupValue]
    rw [if_neg]
    · exact hr
    · intro e
      rw [← e, h] at hr
      cases hr

/-- A register with a recorded value name reads as that name and leaves the state alone. -/
theorem GetOperandValue_of_find {s : LocalValueNumbering} {r v : Nat}
    (h : s.sreg_value_map_.find (u16 r) = some v) : s.GetOperandValue r = (v, s) := by
  unfold GetOperandValue
  simp [h]

theorem SetOperandValue_sreg (s : LocalValueNumbering) (r v : Nat) :
    SregExt s (s.SetOperandValue r v) := by
  unfold SetOperandValue
  cases h : s.sreg_value_map_.find (u16 r) with
  | some w => exact SregExt_refl s
  | none =>
    intro r' v' hr
    simp only [SafeMap.find_Put]
    rw [if_neg]
    · exact hr
    · intro e
      rw [← e, h] at hr
      cases hr

theorem SetOperandValue_of_find {s : LocalValueNumbering} {r v w : Nat}
    (h : s.sreg_value_map_.find (u16 r) = some w) : s.SetOperandValue r v = s := by
  unfold SetOperandValue
  simp [h]

/-- The loop of `MakeArgsNonUnique`: the names recorded before are kept, every use has a
recorded name afterwards, and a name is in the unique-object set afterwards exactly when it
was before and is not the name of a use. -/
theorem MakeArgsNonUniqueLoop_spec (uses : List Nat) : ∀ s : LocalValueNumbering,
    SregExt s (s.MakeArgsNonUniqueLoop uses) ∧
      (∀ u ∈ uses, ∃ n, (s.MakeArgsNonUniqueLoop uses).sreg_value_map_.find (u16 u) = some n) ∧
      (∀ x, x ∈ (s.MakeArgsNonUniqueLoop uses).unique_objects_ ↔
        x ∈ s.unique_objects_ ∧
          ∀ u ∈ uses, (s.MakeArgsNonUniqueLoop uses).sreg_value_map_.find (u16 u) ≠ some x) := by
  induction uses with
  | nil =>
    intro s
    exact ⟨SregExt_refl s, by simp, by simp [MakeArgsNonUniqueLoop]⟩
  | cons u rest ih =>
    intro s
    obtain ⟨g1, g2⟩ := GetOperandValue_sreg s u
    obtain ⟨s1, hs1⟩ : ∃ s1 : LocalValueNumbering, s1 = { (s.GetOperandValue u).2 with
      unique_objects_ := setErase (s.GetOperandValue u).1
        (s.GetOperandValue u).2.unique_objects_ } := ⟨_, rfl⟩
    have hstep : s.MakeArgsNonUniqueLoop (u :: rest) = s1.MakeArgsNonUniqueLoop rest := by
      rw [hs1]
      rfl
    have e1 : s1.sreg_value_map_ = (s.GetOperandValue u).2.sreg_value_map_ := by rw [hs1]
    have e2 : ∀ x, x ∈ s1.unique_objects_ ↔ x ∈ s.unique_objects_ ∧ x ≠ (s.GetOperandValue u).1 := by
      intro x
      rw [hs1]
      simp [setErase]
    rw [hstep]
    obtain ⟨i1, i2, i3⟩ := ih s1
    have hu : (s1.MakeArgsNonUniqueLoop rest).sreg_value_map_.find (u16 u) =
        some (s.GetOperandValue u).1 := i1 _ _ (by rw [e1]; exact g1)
    refine ⟨SregExt_trans (SregExt_trans g2 (SregExt_of_eq e1)) i1, ?_, ?_⟩
    · intro u' hu'
      rcases List.mem_cons.1 hu' with rfl | hm
      · exact ⟨_, hu⟩
      · exact i2 u' hm
    · intro x
      rw [i3 x, e2 x]
      simp only [List.mem_cons, forall_eq_or_imp, hu, ne_eq, Option.some.injEq]
      constructor
      · rintro ⟨⟨a, b⟩, c⟩
        exact ⟨a, fun e => b e.symm, c⟩
      · rintro ⟨a, b, c⟩
        exact ⟨⟨a, fun e => b e.symm⟩, c⟩

theorem HandlePutObject_sreg (s : LocalValueNumbering) (mir : MIR) :
    SregExt s (s.HandlePutObject mir) ∧
      (s.HandlePutObject mir).sreg_value_map_.find (u16 (mir.uses.getD 0 0)) =
        some (s.GetOperandValue (mir.uses.getD 0 0)).1 ∧
      (s.GetOperandValue (mir.uses.getD 0 0)).1 ∉ (s.HandlePutObject mir).unique_objects_ := by
  obtain ⟨g1, g2⟩ := GetOperandValue_sreg s (mir.uses.getD 0 0)
  unfold HandlePutObject
  exact ⟨g2, g1, by simp [setErase]⟩

theorem MarkUniqueNonNull_sreg (s : LocalValueNumbering) (mir : MIR) :
    SregExt s (s.MarkUniqueNonNull mir).2 ∧
      (s.MarkUniqueNonNull mir).2.sreg_value_map_.find (u16 (mir.defs.getD 0 0)) =
        some (s.MarkUniqueNonNull mir).1 ∧
      (s.MarkUniqueNonNull mir).1 = (s.GetOperandValue (mir.defs.getD 0 0)).1 ∧
      (s.MarkUniqueNonNull mir).1 ∈ (s.MarkUniqueNonNull mir).2.null_checked_ ∧
      (s.MarkUniqueNonNull mir).1 ∈ (s.MarkUniqueNonNull mir).2.unique_objects_ := by
  obtain ⟨g1, g2⟩ := GetOperandValue_sreg s (mir.defs.getD 0 0)
  unfold MarkUniqueNonNull
  simp only [SetOperandValue_of_find g1]
  refine ⟨g2, g1, trivial, ?_, ?_⟩ <;>
  · simp only [setInsert]
    split
    · assumption
    · exact List.mem_cons_self _ _

/-- The value names recorded for narrow registers are kept by every operation of
`GetValueNumber`. -/
theorem Threads_SregExt (s0 : LocalValueNumbering) : Threads (fun _ _ s => SregExt s0 s) where
  mono := fun _ _ h => h
  lookup := fun op x y m h => SregExt_trans h (SregExt_of_eq (by simp))
  getOperand := fun r h => SregExt_trans h (GetOperandValue_sreg _ r).2
  getOperandWide := fun r h => SregExt_trans h (SregExt_of_eq (by simp))
  setOperand := fun r v h => SregExt_trans h (SetOperandValue_sreg _ r v)
  setOperandWide := fun r v h => SregExt_trans h (SregExt_of_eq (by simp))
  fieldId := fun d f h => SregExt_trans h (SregExt_of_eq (by simp))
  globalMemory := fun h => SregExt_trans h (SregExt_of_eq (by simp))
  memoryVersion := fun x f t h => SregExt_trans h (SregExt_of_eq (by simp))
  uniqueNonNull := fun mir h => SregExt_trans h (MarkUniqueNonNull_sreg _ mir).1
  argsNonUnique := fun mir h => SregExt_trans h (MakeArgsNonUniqueLoop_spec mir.uses _).1
  nullCheck := fun mir reg h => SregExt_trans h (SregExt_of_eq (by simp))
  rangeCheck := fun mir x i h => SregExt_trans h (SregExt_of_eq (by simp))
  putObject := fun mir h => SregExt_trans h (HandlePutObject_sreg _ mir).1
  bump := fun h => h
  unresolvedI := fun _ h => h
  unresolvedS := fun _ h => h

end LocalValueNumbering

/-! ## Stores of references and arguments of calls -/

namespace LocalValueNumbering

open GlobalValueNumbering (u16 u32 u64 BuildKey MapExt Evolves)
open Instruction

theorem aputBody_unique_objects_ (s : LocalValueNumbering) (mir : MIR) :
    (s.aputBody mir).2.1.unique_objects_ = s.unique_objects_ := by
  simp [aputBody]

theorem iputBody_unique_objects_ (s : LocalValueNumbering) (mir : MIR) :
    (s.iputBody mir).2.1.unique_objects_ = s.unique_objects_ := by
  unfold iputBody
  simp only []
  split_ifs <;> simp

theorem sputBody_unique_objects_ (s : LocalValueNumbering) (mir : MIR) :
    (s.sputBody mir).2.1.unique_objects_ = s.unique_objects_ := by
  unfold sputBody
  simp only []
  split_ifs <;> simp

/-- C24: after an `aput-object`, `iput-object` or `sput-object` has been processed, the value
name of the stored reference `uses[0]` is not in the unique-object set, whatever the state
before (also right after the `new-instance` that made it unique), and it is still the name
of that register. The revocation comes first: the rest of the case (null check, range check,
memory version update) runs from the state `HandlePutObject` leaves, in which the name is
already out of the set. -/
theorem put_object_revokes_uniqueness (s : LocalValueNumbering) (mir : MIR) (next : Option MIR)
    (h : (armOf (u16 mir.opcode)).isPutObject = true) :
    (s.GetOperandValue (mir.uses.getD 0 0)).1 ∉ (s.GetValueNumber mir next).2.1.unique_objects_ ∧
      ((s.GetValueNumber mir next).2.1.GetOperandValue (mir.uses.getD 0 0)).1 =
        (s.GetOperandValue (mir.uses.getD 0 0)).1 ∧
      (s.GetOperandValue (mir.uses.getD 0 0)).1 ∉ (s.HandlePutObject mir).unique_objects_ ∧
      s.GetValueNumber mir next =
        (match armOf (u16 mir.opcode) with
          | .aputObject => (s.HandlePutObject mir).aputBody mir
          | .iputObject => (s.HandlePutObject mir).iputBody mir
          | _ => (s.HandlePutObject mir).sputBody mir) := by
  obtain ⟨p1, p2, p3⟩ := HandlePutObject_sreg s mir
  have key : ∀ t : LocalValueNumbering, SregExt (s.HandlePutObject mir) t →
      t.unique_objects_ = (s.HandlePutObject mir).unique_objects_ →
      (s.GetOperandValue (mir.uses.getD 0 0)).1 ∉ t.unique_objects_ ∧
        (t.GetOperandValue (mir.uses.getD 0 0)).1 = (s.GetOperandValue (mir.uses.getD 0 0)).1 := by
    intro t ht hu
    rw [hu]
    exact ⟨p3, by rw [GetOperandValue_of_find (ht _ _ p2)]⟩
  have cl := Threads_SregExt (s.HandlePutObject mir)
  cases harm : armOf (u16 mir.opcode) <;> rw [harm] at h <;>
    first
      | exact absurd h (by decide)
      | skip
  · have e : s.GetValueNumber mir next = (s.HandlePutObject mir).aputBody mir := by
      unfold GetValueNumber
      simp only [harm]
    obtain ⟨k1, k2⟩ := key _ (thread_aputBody (a := 0) (b := 0) cl mir (SregExt_refl _))
      (aputBody_unique_objects_ _ mir)
    rw [e]
    exact ⟨k1, k2, p3, rfl⟩
  · have e : s.GetValueNumber mir next = (s.HandlePutObject mir).iputBody mir := by
      unfold GetValueNumber
      simp only [harm]
    obtain ⟨k1, k2⟩ := key _ (thread_iputBody (a := 0) (b := 0) cl mir (SregExt_refl _))
      (iputBody_unique_objects_ _ mir)
    rw [e]
    exact ⟨k1, k2, p3, rfl⟩
  · have e : s.GetValueNumber mir next = (s.HandlePutObject mir).sputBody mir := by
      unfold GetValueNumber
      simp only [harm]
    obtain ⟨k1, k2⟩ := key _ (thread_sputBody (a := 0) (b := 0) cl mir (SregExt_refl _))
      (sputBody_unique_objects_ _ mir)
    rw [e]
    exact ⟨k1, k2, p3, rfl⟩

/-- Witness for C24: `new-instance v0` followed by `aput-object v0, v1, v2`. -/
theorem put_object_revokes_uniqueness_witness :
    (oneUnique.GetOperandValue 0).1 ∈ oneUnique.unique_objects_ ∧
      (oneUnique.GetOperandValue 0).1 ∉
        (oneUnique.GetValueNumber ⟨APUT_OBJECT, 0, 0, [0, 1, 2], [], 0, false, 0, 0⟩
          none).2.1.unique_objects_ :=
  ⟨by decide, (put_object_revokes_uniqueness oneUnique
    ⟨APUT_OBJECT, 0, 0, [0, 1, 2], [], 0, false, 0, 0⟩ none (by decide)).1⟩

/-- C25: after an invoke (static or not, range or not) or a `filled-new-array` has been
processed, every SSA use of the instruction has a recorded value name, and none of these
names is in the unique-object set. -/
theorem invoke_args_not_unique (s : LocalValueNumbering) (mir : MIR) (next : Option MIR)
    (h : armOf (u16 mir.opcode) = .invoke ∨ armOf (u16 mir.opcode) = .invokeStatic ∨
      armOf (u16 mir.opcode) = .filledNewArray) :
    ∀ u ∈ mir.uses,
      ((s.GetValueNumber mir next).2.1.GetOperandValue u).1 ∉
          (s.GetValueNumber mir next).2.1.unique_objects_ ∧
        ((s.GetValueNumber mir next).2.1.GetOperandValue u).2 = (s.GetValueNumber mir next).2.1 := by
  have key : ∀ t : LocalValueNumbering, ∀ u ∈ mir.uses,
      ((t.MakeArgsNonUniqueLoop mir.uses).GetOperandValue u).1 ∉
          (t.MakeArgsNonUniqueLoop mir.uses).unique_objects_ ∧
        ((t.MakeArgsNonUniqueLoop mir.uses).GetOperandValue u).2 =
          t.MakeArgsNonUniqueLoop mir.uses := by
    intro t u hu
    obtain ⟨_, m2, m3⟩ := MakeArgsNonUniqueLoop_spec mir.uses t
    obtain ⟨n, hn⟩ := m2 u hu
    rw [GetOperandValue_of_find hn]
    refine ⟨?_, rfl⟩
    intro hmem
    exact ((m3 n).1 hmem).2 u hu hn
  rcases h with harm | harm | harm
  · have e : (s.GetValueNumber mir next).2.1 =
        ((s.GetOperandValue (mir.uses.getD 0 0)).2.HandleNullCheck mir
          (s.GetOperandValue (mir.uses.getD 0 0)).1).1.AdvanceGlobalMemory.MakeArgsNonUniqueLoop
            mir.uses := by
      unfold GetValueNumber
      simp only [harm, MakeArgsNonUnique, HandleNullCheck_uses]
    rw [e]
    exact key _
  · have e : (s.GetValueNumber mir next).2.1 =
        s.AdvanceGlobalMemory.MakeArgsNonUniqueLoop mir.uses := by
      unfold GetValueNumber
      simp only [harm, MakeArgsNonUnique]
    rw [e]
    exact key _
  · have e : ∃ t : LocalValueNumbering, (s.GetValueNumber mir next).2.1 =
        t.MakeArgsNonUniqueLoop mir.uses := by
      unfold GetValueNumber
      simp only [harm, MakeArgsNonUnique]
      exact ⟨_, rfl⟩
    obtain ⟨t, ht⟩ := e
    rw [ht]
    exact key t

/-- Witness for C25: `new-instance v0` followed by `invoke-static {v0}`. -/
theorem invoke_args_not_unique_witness :
    (oneUnique.GetOperandValue 0).1 ∈ oneUnique.unique_objects_ ∧
      ((oneUnique.GetValueNumber ⟨INVOKE_STATIC, 0, 0, [0], [], 0, false, 0, 0⟩
          none).2.1.GetOperandValue 0).1 ∉
        (oneUnique.GetValueNumber ⟨INVOKE_STATIC, 0, 0, [0], [], 0, false, 0, 0⟩
          none).2.1.unique_objects_ :=
  ⟨by decide, (invoke_args_not_unique oneUnique ⟨INVOKE_STATIC, 0, 0, [0], [], 0, false, 0, 0⟩
    none (Or.inr (Or.inl (by decide))) 0 (by decide)).1⟩

end LocalValueNumbering

/-! ## Results of allocations -/

namespace LocalValueNumbering

open GlobalValueNumbering (u16 u32 u64 BuildKey MapExt Evolves)
open Instruction

/-- A `filled-new-array` followed by `move-result-object`: the state it leaves. -/
theorem filledNewArray_state (s : LocalValueNumbering) (mir mro : MIR)
    (harm : armOf (u16 mir.opcode) = .filledNewArray)
    (hmro : mro.opcode = MOVE_RESULT_OBJECT) :
    (s.GetValueNumber mir (some mro)).2.1 =
      (s.MarkUniqueNonNull mro).2.MakeArgsNonUniqueLoop mir.uses := by
  unfold GetValueNumber
  simp only [harm, hmro, if_true, MakeArgsNonUnique]

/-- The `move-result-object` of a register with a recorded name returns that name and leaves
the state alone. -/
theorem moveResult_of_find (s : LocalValueNumbering) (mro : MIR) (next : Option MIR) (n : Nat)
    (hmro : mro.opcode = MOVE_RESULT_OBJECT)
    (hn : s.sreg_value_map_.find (u16 (mro.defs.getD 0 0)) = some n) :
    (s.GetValueNumber mro next).1 = n ∧ (s.GetValueNumber mro next).2.1 = s := by
  have harm : armOf (u16 mro.opcode) = .moveResult := by rw [hmro]; decide
  unfold GetValueNumber
  simp only [harm, GetOperandValue_of_find hn, SetOperandValue_of_find hn, and_self]

/-- A register without a recorded value name is given the name of its own key, which is then
recorded. -/
theorem GetOperandValue_of_miss {s : LocalValueNumbering} {r : Nat}
    (h : s.sreg_value_map_.find (u16 r) = none) :
    s.GetOperandValue r =
      ((s.LookupValue NO_VALUE r NO_VALUE NO_VALUE).1,
        { (s.LookupValue NO_VALUE r NO_VALUE NO_VALUE).2 with
          sreg_value_map_ := (s.LookupValue NO_VALUE r NO_VALUE NO_VALUE).2.sreg_value_map_.Put
            (u16 r) (s.LookupValue NO_VALUE r NO_VALUE NO_VALUE).1 }) := by
  unfold GetOperandValue
  simp [h]

/-- The loop of `MakeArgsNonUnique` gives no register other than `d` the name `n` bound to
the key of `d`, as long as value names do not overflow. -/
theorem MakeArgsNonUniqueLoop_fresh (d n : Nat) (uses : List Nat) :
    ∀ t : LocalValueNumbering, (∀ u ∈ uses, u16 u ≠ u16 d) →
      t.gvn.ValuesBelow → t.gvn.InjectiveMap →
      t.gvn.global_value_map_.find (BuildKey NO_VALUE d NO_VALUE NO_VALUE) = some n →
      (∀ r v, t.sreg_value_map_.find r = some v → r ≠ u16 d → v ≠ n) →
      t.gvn.last_value_ + uses.length < 2 ^ 32 →
      (t.MakeArgsNonUniqueLoop uses).gvn.Good = true →
      ∀ r v, (t.MakeArgsNonUniqueLoop uses).sreg_value_map_.find r = some v → r ≠ u16 d →
        v ≠ n := by
  induction uses with
  | nil => intro t _ _ _ _ hb _ _; exact hb
  | cons u rest ih =>
    intro t hu hV hI hk hb hsmall hG
    obtain ⟨s1, hs1⟩ : ∃ s1 : LocalValueNumbering, s1 = { (t.GetOperandValue u).2 with
      unique_objects_ := setErase (t.GetOperandValue u).1
        (t.GetOperandValue u).2.unique_objects_ } := ⟨_, rfl⟩
    have hstep : t.MakeArgsNonUniqueLoop (u :: rest) = s1.MakeArgsNonUniqueLoop rest := by
      rw [hs1]
      rfl
    rw [hstep] at hG ⊢
    have g1 : s1.gvn = (t.GetOperandValue u).2.gvn := by rw [hs1]
    have g2 : s1.sreg_value_map_ = (t.GetOperandValue u).2.sreg_value_map_ := by rw [hs1]
    simp only [List.length_cons] at hsmall
    have ev1 := ev_GetOperandValue t u
    rw [← g1] at ev1
    have ev2 : Evolves (0 + rest.length) s1.gvn (s1.MakeArgsNonUniqueLoop rest).gvn :=
      ev_MakeArgsNonUniqueLoop s1.gvn rest (GlobalValueNumbering.Evolves_refl _)
    have hl1 : s1.gvn.last_value_ ≤ t.gvn.last_value_ + 1 := ev1.2.1
    have hG1 : s1.gvn.Good = true := by
      have := (ev2.2.2 (by omega)).1
      rw [GlobalValueNumbering.Good_iff] at hG ⊢
      omega
    obtain ⟨hV1, hI1⟩ := (ev1.2.2 (by omega)).2 hV hI hG1
    refine ih s1 (fun u' h' => hu u' (List.mem_cons_of_mem _ h')) hV1 hI1 (ev1.1 _ _ hk) ?_
      (by omega) hG
    intro r v hr hne
    rw [g2] at hr
    cases hf : t.sreg_value_map_.find (u16 u) with
    | some w =>
      rw [GetOperandValue_of_find hf] at hr
      exact hb r v hr hne
    | none =>
      have e := GetOperandValue_of_miss hf
      rw [e] at hr g1
      simp only [SafeMap.find_Put, LookupValue_sreg_value_map_] at hr
      by_cases hru : u16 u = r
      · rw [if_pos hru] at hr
        simp only [Option.some.injEq] at hr
        rw [← hr]
        have hG1' : (t.gvn.LookupValue NO_VALUE u NO_VALUE NO_VALUE).2.Good = true := by
          rw [g1] at hG1
          exact hG1
        have hkey : BuildKey NO_VALUE d NO_VALUE NO_VALUE ≠
            BuildKey NO_VALUE u NO_VALUE NO_VALUE := by
          intro h
          exact hu u (List.mem_cons_self _ _) (GlobalValueNumbering.BuildKey_inj_u16 h).2.1.symm
        exact GlobalValueNumbering.LookupValue_ne_of_key_ne hV hI (by omega) hG1' hk hkey
      · rw [if_neg hru] at hr
        exact hb r v hr hne

/-- A `filled-new-array` followed by `move-result-object` of a register that has no value
name yet and is not among the uses: no use has the name of the result afterwards, as long as
value names do not overflow. -/
theorem filledNewArray_result_fresh (s : LocalValueNumbering) (mir mro : MIR)
    (harm : armOf (u16 mir.opcode) = .filledNewArray) (hmro : mro.opcode = MOVE_RESULT_OBJECT)
    (hV : s.gvn.ValuesBelow) (hI : s.gvn.InjectiveMap)
    (hS : ∀ r v, s.sreg_value_map_.find r = some v → v ≤ s.gvn.last_value_)
    (hd1 : s.sreg_value_map_.find (u16 (mro.defs.getD 0 0)) = none)
    (hd2 : s.gvn.global_value_map_.find
      (BuildKey NO_VALUE (mro.defs.getD 0 0) NO_VALUE NO_VALUE) = none)
    (hdu : ∀ u ∈ mir.uses, u16 u ≠ u16 (mro.defs.getD 0 0))
    (hsmall : s.gvn.last_value_ + allocBound mir < 2 ^ 32)
    (hGood : (s.GetValueNumber mir (some mro)).2.1.gvn.Good = true) :
    ∀ u ∈ mir.uses, ((s.GetValueNumber mir (some mro)).2.1.GetOperandValue u).1 ≠
      (s.MarkUniqueNonNull mro).1 := by
  have hab : allocBound mir = mir.uses.length + 4 := rfl
  have e0 : Evolves (0 + allocBound mir) s.gvn (s.GetValueNumber mir (some mro)).2.1.gvn :=
    thread_GetValueNumber (b := 0) (Threads_Evolves s.gvn) mir (some mro)
      (GlobalValueNumbering.Evolves_refl _)
  have hG0 : s.gvn.Good = true := by
    have := (e0.2.2 (by omega)).1
    rw [GlobalValueNumbering.Good_iff] at hGood ⊢
    omega
  obtain ⟨f1, f2⟩ := GlobalValueNumbering.fresh_name_eq hG0
  rw [filledNewArray_state s mir mro harm hmro] at hGood ⊢
  obtain ⟨_, m2, m3, _, _⟩ := MarkUniqueNonNull_sreg s mro
  -- the state after `MarkUniqueNonNull`
  have eG := GetOperandValue_of_miss hd1
  have eL := GlobalValueNumbering.LookupValue_of_miss hd2
  rw [f1, f2] at eL
  have hn : (s.MarkUniqueNonNull mro).1 = s.gvn.last_value_ + 1 := by
    rw [m3, eG]
    simp only [LookupValue, eL]
  have hg : (s.MarkUniqueNonNull mro).2.gvn =
      (s.gvn.LookupValue NO_VALUE (mro.defs.getD 0 0) NO_VALUE NO_VALUE).2 := by
    have e1 : (s.MarkUniqueNonNull mro).2.gvn = (s.GetOperandValue (mro.defs.getD 0 0)).2.gvn := by
      simp [MarkUniqueNonNull]
    rw [e1, eG]
    rfl
  have hsr : ∀ r v, (s.MarkUniqueNonNull mro).2.sreg_value_map_.find r = some v →
      r ≠ u16 (mro.defs.getD 0 0) → v ≠ (s.MarkUniqueNonNull mro).1 := by
    intro r v hr hne
    have e : (s.MarkUniqueNonNull mro).2.sreg_value_map_ =
        s.sreg_value_map_.Put (u16 (mro.defs.getD 0 0)) (s.GetOperandValue (mro.defs.getD 0 0)).1 := by
      unfold MarkUniqueNonNull
      simp only []
      rw [SetOperandValue_of_find (GetOperandValue_sreg s _).1]
      rw [eG]
      simp
    rw [e, SafeMap.find_Put, if_neg (Ne.symm hne)] at hr
    have := hS r v hr
    omega
  obtain ⟨hV1, hI1⟩ := GlobalValueNumbering.lookupT_step_inv
    (NO_VALUE, mro.defs.getD 0 0, NO_VALUE, NO_VALUE) hG0 hV hI
  have hk : (s.MarkUniqueNonNull mro).2.gvn.global_value_map_.find
      (BuildKey NO_VALUE (mro.defs.getD 0 0) NO_VALUE NO_VALUE) =
      some (s.MarkUniqueNonNull mro).1 := by
    rw [hg, hn, eL]
    simp [SafeMap.find_Put]
  have hl : (s.MarkUniqueNonNull mro).2.gvn.last_value_ = s.gvn.last_value_ + 1 := by
    rw [hg, eL]
  have key := MakeArgsNonUniqueLoop_fresh (mro.defs.getD 0 0) (s.MarkUniqueNonNull mro).1
    mir.uses (s.MarkUniqueNonNull mro).2 hdu (by rw [hg]; exact hV1) (by rw [hg]; exact hI1)
    hk hsr (by omega) hGood
  intro u hu
  obtain ⟨n, hfn⟩ := (MakeArgsNonUniqueLoop_spec mir.uses (s.MarkUniqueNonNull mro).2).2.1 u hu
  rw [GetOperandValue_of_find hfn]
  exact key _ _ hfn (hdu u hu)

/-- C26 (evaluation at the failing input): in the state `wrappedNames`, where value names
have wrapped, `filled-new-array {v1}` followed by `move-result-object v2` gives `v2` the value
name 1 that `v1` has; the name is made unique and then revoked as the name of an argument, so
after the `move-result-object` it is in the null-checked set but not in the unique-object
set. -/
theorem move_result_name_collides :
    ((wrappedNames.GetValueNumber filledNewArray1 (some moveResultObject2)).2.1.GetValueNumber
        moveResultObject2 none).1 = 1 ∧
      1 ∈ ((wrappedNames.GetValueNumber filledNewArray1
        (some moveResultObject2)).2.1.GetValueNumber moveResultObject2 none).2.1.null_checked_ ∧
      1 ∉ ((wrappedNames.GetValueNumber filledNewArray1
        (some moveResultObject2)).2.1.GetValueNumber moveResultObject2 none).2.1.unique_objects_ := by
  decide

/-- C26 (amended): after `new-instance`, `new-array`, `const-string`, `const-string/jumbo`,
`const-class` or `move-exception` has been processed, the value name returned, which is the
name of the defined register, is in the null-checked set and in the unique-object set. For a
`move-result-object` processed right after its `filled-new-array`, the name returned is in
the null-checked set, and it is in the unique-object set exactly when no use of the
`filled-new-array` has that value name. That is the case when the defined register is a new
SSA register (it has no value name yet and is not among the uses), the table invariants hold
and value names do not overflow. -/
theorem allocation_results_unique (s : LocalValueNumbering) (mir : MIR) (next : Option MIR) :
    (armOf (u16 mir.opcode) = .uniqueNonNull →
      (s.GetValueNumber mir next).1 ∈ (s.GetValueNumber mir next).2.1.null_checked_ ∧
        (s.GetValueNumber mir next).1 ∈ (s.GetValueNumber mir next).2.1.unique_objects_ ∧
        ((s.GetValueNumber mir next).2.1.GetOperandValue (mir.defs.getD 0 0)).1 =
          (s.GetValueNumber mir next).1) ∧
      (∀ (mro : MIR) (n2 : Option MIR), armOf (u16 mir.opcode) = .filledNewArray →
        mro.opcode = MOVE_RESULT_OBJECT →
        (((s.GetValueNumber mir (some mro)).2.1.GetValueNumber mro n2).1 ∈
            ((s.GetValueNumber mir (some mro)).2.1.GetValueNumber mro n2).2.1.null_checked_ ∧
          (((s.GetValueNumber mir (some mro)).2.1.GetValueNumber mro n2).1 ∈
              ((s.GetValueNumber mir (some mro)).2.1.GetValueNumber mro n2).2.1.unique_objects_ ↔
            ∀ u ∈ mir.uses, ((s.GetValueNumber mir (some mro)).2.1.GetOperandValue u).1 ≠
              ((s.GetValueNumber mir (some mro)).2.1.GetValueNumber mro n2).1) ∧
          (((s.GetValueNumber mir (some mro)).2.1.GetValueNumber mro n2).2.1.GetOperandValue
              (mro.defs.getD 0 0)).1 =
            ((s.GetValueNumber mir (some mro)).2.1.GetValueNumber mro n2).1)) ∧
      (∀ (mro : MIR) (n2 : Option MIR), armOf (u16 mir.opcode) = .filledNewArray →
        mro.opcode = MOVE_RESULT_OBJECT →
        s.gvn.ValuesBelow → s.gvn.InjectiveMap →
        (∀ r v, s.sreg_value_map_.find r = some v → v ≤ s.gvn.last_value_) →
        s.sreg_value_map_.find (u16 (mro.defs.getD 0 0)) = none →
        s.gvn.global_value_map_.find
          (BuildKey NO_VALUE (mro.defs.getD 0 0) NO_VALUE NO_VALUE) = none →
        (∀ u ∈ mir.uses, u16 u ≠ u16 (mro.defs.getD 0 0)) →
        s.gvn.last_value_ + allocBound mir < 2 ^ 32 →
        (s.GetValueNumber mir (some mro)).2.1.gvn.Good = true →
        ((s.GetValueNumber mir (some mro)).2.1.GetValueNumber mro n2).1 ∈
          ((s.GetValueNumber mir (some mro)).2.1.GetValueNumber mro n2).2.1.unique_objects_) := by
  have part2 : ∀ (mro : MIR) (n2 : Option MIR), armOf (u16 mir.opcode) = .filledNewArray →
      mro.opcode = MOVE_RESULT_OBJECT →
      (((s.GetValueNumber mir (some mro)).2.1.GetValueNumber mro n2).1 ∈
          ((s.GetValueNumber mir (some mro)).2.1.GetValueNumber mro n2).2.1.null_checked_ ∧
        (((s.GetValueNumber mir (some mro)).2.1.GetValueNumber mro n2).1 ∈
            ((s.GetValueNumber mir (some mro)).2.1.GetValueNumber mro n2).2.1.unique_objects_ ↔
          ∀ u ∈ mir.uses, ((s.GetValueNumber mir (some mro)).2.1.GetOperandValue u).1 ≠
            ((s.GetValueNumber mir (some mro)).2.1.GetValueNumber mro n2).1) ∧
        (((s.GetValueNumber mir (some mro)).2.1.GetValueNumber mro n2).2.1.GetOperandValue
            (mro.defs.getD 0 0)).1 =
          ((s.GetValueNumber mir (some mro)).2.1.GetValueNumber mro n2).1) ∧
      ((s.GetValueNumber mir (some mro)).2.1.GetValueNumber mro n2).1 =
        (s.MarkUniqueNonNull mro).1 := by
    intro mro n2 harm hmro
    obtain ⟨_, m2, _, m4, m5⟩ := MarkUniqueNonNull_sreg s mro
    obtain ⟨l1, l2, l3⟩ := MakeArgsNonUniqueLoop_spec mir.uses (s.MarkUniqueNonNull mro).2
    rw [filledNewArray_state s mir mro harm hmro]
    have hd := l1 _ _ m2
    obtain ⟨r1, r2⟩ := moveResult_of_find _ mro n2 _ hmro hd
    rw [r1, r2]
    refine ⟨⟨?_, ?_, by rw [GetOperandValue_of_find hd]⟩, rfl⟩
    · rw [MakeArgsNonUniqueLoop_null_checked_]
      exact m4
    · rw [l3]
      constructor
      · rintro ⟨_, hu⟩ u hmem
        obtain ⟨n, hn⟩ := l2 u hmem
        rw [GetOperandValue_of_find hn]
        intro e
        simp only at e
        exact hu u hmem (by rw [hn, e])
      · intro hu
        refine ⟨m5, ?_⟩
        intro u hmem hf
        exact hu u hmem (by rw [GetOperandValue_of_find hf])
  refine ⟨?_, fun mro n2 harm hmro => (part2 mro n2 harm hmro).1, ?_⟩
  · intro harm
    obtain ⟨_, m2, _, m4, m5⟩ := MarkUniqueNonNull_sreg s mir
    have e : s.GetValueNumber mir next = ((s.MarkUniqueNonNull mir).1,
        (s.MarkUniqueNonNull mir).2, mir) := by
      unfold GetValueNumber
      simp only [harm]
    rw [e]
    exact ⟨m4, m5, by simp only [GetOperandValue_of_find m2]⟩
  · intro mro n2 harm hmro hV hI hS hd1 hd2 hdu hsmall hGood
    obtain ⟨⟨_, p2, _⟩, p4⟩ := part2 mro n2 harm hmro
    refine p2.2 ?_
    rw [p4]
    exact filledNewArray_result_fresh s mir mro harm hmro hV hI hS hd1 hd2 hdu hsmall hGood

/-- Witness for C26: `new-instance v0` from the initial state, and `filled-new-array {v1}`
followed by `move-result-object v2` from the initial state. -/
theorem allocation_results_unique_witness :
    (init.GetValueNumber ⟨NEW_INSTANCE, 0, 0, [], [0], 0, false, 0, 0⟩ none).1 ∈
        (init.GetValueNumber ⟨NEW_INSTANCE, 0, 0, [], [0], 0, false, 0, 0⟩
          none).2.1.unique_objects_ ∧
      ((init.GetValueNumber filledNewArray1 (some moveResultObject2)).2.1.GetValueNumber
          moveResultObject2 none).1 ∈
        ((init.GetValueNumber filledNewArray1 (some moveResultObject2)).2.1.GetValueNumber
          moveResultObject2 none).2.1.unique_objects_ :=
  ⟨((allocation_results_unique init ⟨NEW_INSTANCE, 0, 0, [], [0], 0, false, 0, 0⟩ none).1
      (by decide)).2.1,
    (allocation_results_unique init filledNewArray1 none).2.2 moveResultObject2 none (by decide)
      rfl (by intro k v h; cases h) (by intro k k' v h; cases h) (by intro r v h; cases h)
      (by decide) (by decide) (by decide) (by decide) (by decide)⟩

end LocalValueNumbering

/-! ## Volatile loads -/

namespace LocalValueNumbering

open GlobalValueNumbering (u16 u32 u64 BuildKey MapExt Evolves)
open Instruction

theorem CounterAdvance_of_eq {s0 s s' : LocalValueNumbering} {b : Nat}
    (h : s'.next_memory_version_ = s.next_memory_version_) (hs : CounterAdvance s0 b s) :
    CounterAdvance s0 b s' := by
  intro hb
  rw [h]
  exact hs hb

theorem CounterAdvance_step {s0 s s' : LocalValueNumbering} {b : Nat}
    (h : s'.next_memory_version_ = u16 (s.next_memory_version_ + 1))
    (hs : CounterAdvance s0 b s) : CounterAdvance s0 (b + 1) s' := by
  intro hb
  obtain ⟨h1, h2⟩ := hs (by omega)
  have e : u16 (s.next_memory_version_ + 1) = s.next_memory_version_ + 1 :=
    Nat.mod_eq_of_lt (by omega)
  rw [h, e]
  omega

theorem MakeArgsNonUniqueLoop_next_memory_version_ (uses : List Nat) :
    ∀ s : LocalValueNumbering,
      (s.MakeArgsNonUniqueLoop uses).next_memory_version_ = s.next_memory_version_ := by
  induction uses with
  | nil => intro s; rfl
  | cons u rest ih =>
    intro s
    unfold MakeArgsNonUniqueLoop
    rw [ih]
    simp

/-- The memory version counter advances by at most one per counted increment along every
operation of `GetValueNumber`. -/
theorem Threads_CounterAdvance (s0 : LocalValueNumbering) :
    Threads (fun _ b s => CounterAdvance s0 b s) where
  mono := fun _ hb h hw => by
    obtain ⟨h1, h2⟩ := h (by omega)
    exact ⟨h1, by omega⟩
  lookup := fun op x y m h => CounterAdvance_of_eq (by simp) h
  getOperand := fun r h => CounterAdvance_of_eq (by simp) h
  getOperandWide := fun r h => CounterAdvance_of_eq (by simp) h
  setOperand := fun r v h => CounterAdvance_of_eq (by simp) h
  setOperandWide := fun r v h => CounterAdvance_of_eq (by simp) h
  fieldId := fun d f h => CounterAdvance_of_eq (by simp) h
  globalMemory := fun h => CounterAdvance_step rfl h
  memoryVersion := fun x f t h => CounterAdvance_step (by
    unfold AdvanceMemoryVersion
    simp only []
    split <;> rfl) h
  uniqueNonNull := fun mir h => CounterAdvance_of_eq (by simp [MarkUniqueNonNull]) h
  argsNonUnique := fun mir h =>
    CounterAdvance_of_eq (MakeArgsNonUniqueLoop_next_memory_version_ mir.uses _) h
  nullCheck := fun mir reg h => CounterAdvance_of_eq (by simp) h
  rangeCheck := fun mir x i h => CounterAdvance_of_eq (by simp) h
  putObject := fun mir h => CounterAdvance_of_eq (by simp) h
  bump := fun h => CounterAdvance_step rfl h
  unresolvedI := fun _ h => CounterAdvance_step rfl h
  unresolvedS := fun _ h => CounterAdvance_step rfl h

/-- A get of a volatile field: the value name is the one of a tuple whose field id is 0 and
whose memory version is the counter value before the instruction; the lookup is made in a
table that has grown by at most one name, and the counter is incremented. -/
theorem volatile_get (s : LocalValueNumbering) (mir : MIR) (next : Option MIR)
    (harm : armOf (u16 mir.opcode) = .iget ∨ armOf (u16 mir.opcode) = .sget)
    (hvol : mir.is_volatile = true) :
    ∃ (g : GlobalValueNumbering) (op x : Nat), Evolves 1 s.gvn g ∧
      (s.GetValueNumber mir next).1 = (g.LookupValue op x 0 s.next_memory_version_).1 ∧
      (s.GetValueNumber mir next).2.1.gvn = (g.LookupValue op x 0 s.next_memory_version_).2 ∧
      (s.GetValueNumber mir next).2.1.next_memory_version_ =
        u16 (s.next_memory_version_ + 1) := by
  rcases harm with harm | harm
  · refine ⟨(s.GetOperandValue (mir.uses.getD 0 0)).2.gvn,
      if u16 mir.opcode = IGET_WIDE then IGET_WIDE else IGET,
      (s.GetOperandValue (mir.uses.getD 0 0)).1, ev_GetOperandValue s _, ?_⟩
    unfold GetValueNumber
    simp only [harm, hvol, if_true]
    split <;> simp [LookupValue]
  · refine ⟨s.gvn, if u16 mir.opcode = SGET_WIDE then SGET_WIDE else SGET, NO_VALUE,
      GlobalValueNumbering.Evolves_refl _ |> GlobalValueNumbering.Evolves_mono (Nat.zero_le 1), ?_⟩
    unfold GetValueNumber
    simp only [harm, hvol, if_true]
    split <;> simp [LookupValue]

/-- C21: volatile loads are never merged. Let `g1` and `g2` be two gets of volatile fields
(instance or static, through any base and of any field), `g2` processed after `g1` by the same
LVN with any instructions, or none, between them. As long as value names and memory versions
do not overflow (the table invariants hold at the start, the counters cannot wrap along the
block and `Good()` holds at the end), `g2` gets a value name different from that of `g1`. -/
theorem volatile_loads_never_merged (s s1 sD : LocalValueNumbering) (g1 g2 : MIR)
    (n1 n2 : Option MIR) (seq : List (MIR × Option MIR))
    (hV : s.gvn.ValuesBelow) (hI : s.gvn.InjectiveMap)
    (hwrap : s.next_memory_version_ + (seq.length + 1) < 2 ^ 16)
    (hsmall : s.gvn.last_value_ + (allocBound g1 + seqAllocBound seq + allocBound g2) < 2 ^ 32)
    (harm1 : armOf (u16 g1.opcode) = .iget ∨ armOf (u16 g1.opcode) = .sget)
    (harm2 : armOf (u16 g2.opcode) = .iget ∨ armOf (u16 g2.opcode) = .sget)
    (hvol1 : g1.is_volatile = true) (hvol2 : g2.is_volatile = true)
    (hs1 : s1 = (s.GetValueNumber g1 n1).2.1) (hsD : sD = s1.processSeq seq)
    (hGood : (sD.GetValueNumber g2 n2).2.1.gvn.Good = true) :
    (sD.GetValueNumber g2 n2).1 ≠ (s.GetValueNumber g1 n1).1 := by
  obtain ⟨ga, op1, x1, _, ra, ga', na⟩ := volatile_get s g1 n1 harm1 hvol1
  obtain ⟨gb, op2, x2, eb, rb, gb', _⟩ := volatile_get sD g2 n2 harm2 hvol2
  rw [← hs1] at ga' na
  -- the counter
  have en : s1.next_memory_version_ = s.next_memory_version_ + 1 := by
    rw [na]
    exact Nat.mod_eq_of_lt (by omega)
  have c2 : CounterAdvance s1 (0 + seq.length) sD := by
    rw [hsD]
    exact thread_processSeq (a := 0) (Threads_CounterAdvance s1) seq
      (fun _ => ⟨le_refl _, le_refl _⟩)
  obtain ⟨c3, c4⟩ := c2 (by omega)
  -- the table
  have e1 : Evolves (0 + allocBound g1) s.gvn s1.gvn := by
    rw [hs1]
    exact thread_GetValueNumber (b := 0) (Threads_Evolves s.gvn) g1 n1
      (GlobalValueNumbering.Evolves_refl _)
  have e2 : Evolves (0 + seqAllocBound seq) s1.gvn sD.gvn := by
    rw [hsD]
    exact thread_processSeq (b := 0) (Threads_Evolves s1.gvn) seq
      (GlobalValueNumbering.Evolves_refl _)
  have e12 := GlobalValueNumbering.Evolves_trans e2 eb
  have e02 := GlobalValueNumbering.Evolves_trans e1 e12
  have hab : 4 ≤ allocBound g2 := by unfold allocBound; omega
  have hk1 : s1.gvn.global_value_map_.find (BuildKey op1 x1 0 s.next_memory_version_) =
      some (s.GetValueNumber g1 n1).1 := by
    rw [ga', ra]
    exact GlobalValueNumbering.find_after_LookupValue _ _ _ _ _
  have hk := e12.1 _ _ hk1
  have hlast : gb.last_value_ + 1 < 2 ^ 32 := by
    have := e02.2.1
    omega
  rw [gb'] at hGood
  have hGg : gb.Good = true := by
    have h1 := ((GlobalValueNumbering.Evolves_LookupValue gb op2 x2 0
      sD.next_memory_version_).2.2 hlast).1
    rw [GlobalValueNumbering.Good_iff] at hGood ⊢
    omega
  obtain ⟨hVg, hIg⟩ := (e02.2.2 (by omega)).2 hV hI hGg
  have hne : BuildKey op1 x1 0 s.next_memory_version_ ≠
      BuildKey op2 x2 0 sD.next_memory_version_ := by
    intro h
    have h4 := (GlobalValueNumbering.BuildKey_inj_u16 h).2.2.2
    have em : u16 s.next_memory_version_ = s.next_memory_version_ := Nat.mod_eq_of_lt (by omega)
    have et : u16 sD.next_memory_version_ = sD.next_memory_version_ :=
      Nat.mod_eq_of_lt (by omega)
    rw [em, et] at h4
    omega
  rw [rb]
  exact GlobalValueNumbering.LookupValue_ne_of_key_ne hVg hIg hlast hGood hk hne

/-- Witness for C21: from the initial state, `iget v1, v0, f` and `iget v2, v0, f` on the same
volatile field through the same base, with nothing between them. -/
theorem volatile_loads_never_merged_witness :
    (((init.GetValueNumber (getVolatile 1) none).2.1.processSeq []).GetValueNumber
        (getVolatile 2) none).1 ≠ (init.GetValueNumber (getVolatile 1) none).1 :=
  volatile_loads_never_merged init _ _ (getVolatile 1) (getVolatile 2) none none []
    (by intro k v h; cases h) (by intro k k' v h; cases h) (by decide) (by decide)
    (Or.inl (by decide)) (Or.inl (by decide)) rfl rfl rfl rfl (by decide)

end LocalValueNumbering

/-! ## Range checks -/

namespace LocalValueNumbering

open GlobalValueNumbering (u16 u32 u64 BuildKey MapExt Evolves)
open Instruction

theorem threadOps_iputBody {L : Nat → Prop} {P : LocalValueNumbering → Prop}
    (cl : ThreadsOps L P) {s : LocalValueNumbering} (mir : MIR) (h : P s) :
    P (s.iputBody mir).2.1 := by
  have h1 := cl.nullCheck mir (s.GetOperandValue
    (mir.uses.getD (if u16 mir.opcode = Instruction.IPUT_WIDE then 2 else 1) 0)).1
    (cl.getOperand (mir.uses.getD (if u16 mir.opcode = Instruction.IPUT_WIDE then 2 else 1) 0) h)
  unfold iputBody
  simp only []
  split
  · exact cl.unresolvedI _ h1
  · split
    · exact h1
    · exact cl.memoryVersion _ _ _ (cl.fieldId _ _ h1)

theorem threadOps_sputBody {L : Nat → Prop} {P : LocalValueNumbering → Prop}
    (cl : ThreadsOps L P) {s : LocalValueNumbering} (mir : MIR) (h : P s) :
    P (s.sputBody mir).2.1 := by
  unfold sputBody
  simp only []
  split
  · exact cl.unresolvedS _ h
  · split
    · exact h
    · exact cl.memoryVersion _ _ _ (cl.fieldId _ _ h)

/-- Value numbering of an instruction other than an array get or put carries every such
property along, when it holds for the opcodes under which these cases look values up. -/
theorem threadOps_GetValueNumber {L : Nat → Prop} {P : LocalValueNumbering → Prop}
    (cl : ThreadsOps L P) (hC : L CONST) (hI : L IGET) (hIW : L IGET_WIDE) (hS : L SGET)
    (hSW : L SGET_WIDE) (hA : ∀ x, x < 2 ^ 16 → (armOf x).isArith = true → L x)
    {s : LocalValueNumbering} (mir : MIR) (next : Option MIR)
    (hna : (armOf (u16 mir.opcode)).isArrayAccess = false) (h : P s) :
    P (s.GetValueNumber mir next).2.1 := by
  have hop : (armOf (u16 mir.opcode)).isArith = true → L (u16 mir.opcode) :=
    hA _ (GlobalValueNumbering.u16_lt _)
  unfold GetValueNumber
  simp only []
  split
  · exact h
  · refine cl.argsNonUnique _ ?_
    split
    · split
      · exact cl.uniqueNonNull _ h
      · exact h
    · exact h
  · exact cl.argsNonUnique _ (cl.globalMemory (cl.nullCheck mir _ (cl.getOperand _ h)))
  · exact cl.argsNonUnique mir (cl.globalMemory h)
  · exact cl.setOperand _ _ (cl.getOperand _ h)
  · exact cl.uniqueNonNull _ h
  · exact cl.setOperandWide _ _ (cl.getOperandWide _ h)
  · exact h
  · exact cl.setOperand _ _ (cl.getOperand _ h)
  · exact cl.setOperandWide _ _ (cl.getOperandWide _ h)
  · exact cl.setOperand _ _ (cl.lookup _ _ _ _ hC h)
  · exact cl.setOperand _ _ (cl.lookup _ _ _ _ hC h)
  · refine cl.setOperandWide _ _ (cl.lookup _ _ _ _ hC ?_)
    split
    · exact cl.lookup _ _ _ _ hC (cl.lookup _ _ _ _ hC h)
    · exact cl.lookup _ _ _ _ hC (cl.lookup _ _ _ _ hC h)
  · exact cl.setOperandWide _ _
      (cl.lookup _ _ _ _ hC (cl.lookup _ _ _ _ hC (cl.lookup _ _ _ _ hC h)))
  · exact cl.setOperandWide _ _
      (cl.lookup _ _ _ _ hC (cl.lookup _ _ _ _ hC (cl.lookup _ _ _ _ hC h)))
  · rename_i harm
    exact cl.setOperand _ _ (cl.lookup _ _ _ _ (hop (by rw [harm]; rfl)) (cl.getOperand _ h))
  · rename_i harm
    exact cl.setOperand _ _ (cl.lookup _ _ _ _ (hop (by rw [harm]; rfl)) (cl.getOperand _ h))
  · rename_i harm
    exact cl.setOperandWide _ _
      (cl.lookup _ _ _ _ (hop (by rw [harm]; rfl)) (cl.getOperandWide _ h))
  · rename_i harm
    exact cl.setOperandWide _ _
      (cl.lookup _ _ _ _ (hop (by rw [harm]; rfl)) (cl.getOperandWide _ h))
  · rename_i harm
    exact cl.setOperand _ _ (cl.lookup _ _ _ _ (hop (by rw [harm]; rfl))
      (cl.getOperandWide _ (cl.getOperandWide _ h)))
  · rename_i harm
    exact cl.setOperand _ _ (cl.lookup _ _ _ _ (hop (by rw [harm]; rfl))
      (cl.getOperand _ (cl.getOperand _ h)))
  · rename_i harm
    exact cl.setOperandWide _ _ (cl.lookup _ _ _ _ (hop (by rw [harm]; rfl))
      (cl.getOperandWide _ (cl.getOperandWide _ h)))
  · rename_i harm
    exact cl.setOperandWide _ _ (cl.lookup _ _ _ _ (hop (by rw [harm]; rfl))
      (cl.getOperandWide _ (cl.getOperandWide _ h)))
  · rename_i harm
    exact cl.setOperand _ _ (cl.lookup _ _ _ _ (hop (by rw [harm]; rfl))
      (cl.getOperand _ (cl.getOperand _ h)))
  · rename_i harm
    exact cl.setOperand _ _ (cl.lookup _ _ _ _ (hop (by rw [harm]; rfl))
      (cl.lookup _ _ _ _ hC (cl.getOperand _ h)))
  · rename_i harm
    rw [harm] at hna
    exact absurd hna (by decide)
  · rename_i harm
    rw [harm] at hna
    exact absurd hna (by decide)
  · rename_i harm
    rw [harm] at hna
    exact absurd hna (by decide)
  · have hn := cl.nullCheck mir (s.GetOperandValue (mir.uses.getD 0 0)).1
      (cl.getOperand (mir.uses.getD 0 0) h)
    split_ifs
    all_goals first
      | exact cl.setOperandWide _ _ (cl.lookup _ _ _ _ hIW (cl.bump hn))
      | exact cl.setOperand _ _ (cl.lookup _ _ _ _ hI (cl.bump hn))
      | exact cl.setOperandWide _ _ (cl.lookup _ _ _ _ hIW (cl.fieldId _ _ hn))
      | exact cl.setOperand _ _ (cl.lookup _ _ _ _ hI (cl.fieldId _ _ hn))
  · exact threadOps_iputBody cl _ (cl.putObject _ h)
  · exact threadOps_iputBody cl _ h
  · split_ifs
    all_goals first
      | exact cl.setOperandWide _ _ (cl.lookup _ _ _ _ hSW (cl.bump h))
      | exact cl.setOperand _ _ (cl.lookup _ _ _ _ hS (cl.bump h))
      | exact cl.setOperandWide _ _ (cl.lookup _ _ _ _ hSW (cl.fieldId _ _ h))
      | exact cl.setOperand _ _ (cl.lookup _ _ _ _ hS (cl.fieldId _ _ h))
  · exact threadOps_sputBody cl _ (cl.putObject _ h)
  · exact threadOps_sputBody cl _ h
  · exact h

end LocalValueNumbering

namespace LocalValueNumbering

open GlobalValueNumbering (u16 u32 u64 BuildKey MapExt Evolves)
open Instruction

theorem u16_u16 (x : Nat) : u16 (u16 x) = u16 x := Nat.mod_mod _ _

theorem BuildKey_u16 (op a b m : Nat) :
    BuildKey op (u16 a) (u16 b) m = BuildKey op a b m := by
  rw [GlobalValueNumbering.BuildKey_eq, GlobalValueNumbering.BuildKey_eq, u16_u16, u16_u16]

/-- The range-check keys after a lookup: the key looked up is bound, the others are as
before. -/
theorem LookupValue_rangeKey (s : LocalValueNumbering) (op x y m a i : Nat) :
    ((s.LookupValue op x y m).2.rangeKey a i).isSome =
      (decide (BuildKey op x y m = BuildKey ARRAY_REF a i NO_VALUE) ||
        (s.rangeKey a i).isSome) := by
  unfold rangeKey LookupValue
  cases h : s.gvn.global_value_map_.find (BuildKey op x y m) with
  | some n =>
    rw [GlobalValueNumbering.LookupValue_of_find h]
    by_cases e : BuildKey op x y m = BuildKey ARRAY_REF a i NO_VALUE
    · rw [← e, h]
      simp
    · simp [e]
  | none =>
    rw [GlobalValueNumbering.LookupValue_of_miss h]
    simp only [SafeMap.find_Put]
    by_cases e : BuildKey op x y m = BuildKey ARRAY_REF a i NO_VALUE
    · simp [e]
    · simp [e]

theorem LookupValue_rangeKey_other (s : LocalValueNumbering) (op x y m a i : Nat)
    (hL : u16 op ≠ ARRAY_REF) :
    ((s.LookupValue op x y m).2.rangeKey a i).isSome = (s.rangeKey a i).isSome := by
  rw [LookupValue_rangeKey]
  have : BuildKey op x y m ≠ BuildKey ARRAY_REF a i NO_VALUE := by
    intro e
    exact hL (GlobalValueNumbering.BuildKey_inj_u16 e).1
  simp [this]

theorem rangeKey_of_gvn {s s' : LocalValueNumbering} (h : s'.gvn = s.gvn) (a i : Nat) :
    s'.rangeKey a i = s.rangeKey a i := by
  unfold rangeKey
  rw [h]

theorem GetOperandValue_rangeKey (s : LocalValueNumbering) (r a i : Nat) :
    ((s.GetOperandValue r).2.rangeKey a i).isSome = (s.rangeKey a i).isSome := by
  unfold GetOperandValue
  split
  · rfl
  · exact LookupValue_rangeKey_other s _ _ _ _ a i (by decide)

theorem GetOperandValueWide_rangeKey (s : LocalValueNumbering) (r a i : Nat) :
    ((s.GetOperandValueWide r).2.rangeKey a i).isSome = (s.rangeKey a i).isSome := by
  unfold GetOperandValueWide
  split
  · rfl
  · exact LookupValue_rangeKey_other s _ _ _ _ a i (by decide)

theorem MakeArgsNonUniqueLoop_rangeKey (uses : List Nat) : ∀ (s : LocalValueNumbering)
    (a i : Nat), ((s.MakeArgsNonUniqueLoop uses).rangeKey a i).isSome = (s.rangeKey a i).isSome := by
  induction uses with
  | nil => intro s a i; rfl
  | cons u rest ih =>
    intro s a i
    unfold MakeArgsNonUniqueLoop
    rw [ih]
    exact GetOperandValue_rangeKey s u a i

theorem rangeKey_keep {s0 s s' : LocalValueNumbering} (hg : s'.gvn = s.gvn)
    (h : ∀ a i, (s.rangeKey a i).isSome = (s0.rangeKey a i).isSome) :
    ∀ a i, (s'.rangeKey a i).isSome = (s0.rangeKey a i).isSome := by
  intro a i
  rw [rangeKey_of_gvn hg]
  exact h a i

theorem MarkUniqueNonNull_gvn (s : LocalValueNumbering) (mir : MIR) :
    (s.MarkUniqueNonNull mir).2.gvn = (s.GetOperandValue (mir.defs.getD 0 0)).2.gvn := by
  simp [MarkUniqueNonNull]

/-- The range-check keys are left alone by every operation of `GetValueNumber` outside the
range check, when lookups are made under opcodes other than `ARRAY_REF`. -/
theorem ThreadsOps_rangeKey (s0 : LocalValueNumbering) :
    ThreadsOps (fun op => u16 op ≠ ARRAY_REF)
      (fun s => ∀ a i, (s.rangeKey a i).isSome = (s0.rangeKey a i).isSome) where
  lookup := fun op x y m hL h a i => (LookupValue_rangeKey_other _ op x y m a i hL).trans (h a i)
  getOperand := fun r h a i => (GetOperandValue_rangeKey _ r a i).trans (h a i)
  getOperandWide := fun r h a i => (GetOperandValueWide_rangeKey _ r a i).trans (h a i)
  setOperand := fun r v h => rangeKey_keep (by simp) h
  setOperandWide := fun r v h => rangeKey_keep (by simp) h
  fieldId := fun d f h => rangeKey_keep (by simp) h
  globalMemory := fun h a i => h a i
  memoryVersion := fun x f t h => rangeKey_keep (by simp) h
  uniqueNonNull := fun mir h a i => by
    rw [rangeKey_of_gvn (MarkUniqueNonNull_gvn _ mir)]
    exact (GetOperandValue_rangeKey _ _ a i).trans (h a i)
  argsNonUnique := fun mir h a i => (MakeArgsNonUniqueLoop_rangeKey mir.uses _ a i).trans (h a i)
  nullCheck := fun mir reg h => rangeKey_keep (by simp) h
  putObject := fun mir h a i => by
    unfold HandlePutObject
    exact (GetOperandValue_rangeKey _ _ a i).trans (h a i)
  bump := fun h a i => h a i
  unresolvedI := fun _ h a i => h a i
  unresolvedS := fun _ h a i => h a i

end LocalValueNumbering

namespace LocalValueNumbering

open GlobalValueNumbering (u16 u32 u64 BuildKey MapExt Evolves)
open Instruction

theorem BuildKey_range_eq (A I a i m : Nat) :
    BuildKey ARRAY_REF A I m = BuildKey ARRAY_REF a i NO_VALUE ↔
      (u16 a = u16 A ∧ u16 i = u16 I) ∧ u16 m = NO_VALUE := by
  constructor
  · intro e
    obtain ⟨_, h2, h3, h4⟩ := GlobalValueNumbering.BuildKey_inj_u16 e
    exact ⟨⟨h2.symm, h3.symm⟩, h4⟩
  · rintro ⟨⟨h2, h3⟩, h4⟩
    rw [GlobalValueNumbering.BuildKey_eq, GlobalValueNumbering.BuildKey_eq, h2, h3, h4]
    rfl

theorem arrayAccessNames_eq (s : LocalValueNumbering) (mir : MIR) :
    s.arrayAccessNames mir =
      (u16 ((s.putEntry mir).GetOperandValue (mir.uses.getD (nullCheckedUse mir) 0)).1,
        u16 ((s.nullChecked mir).1.GetOperandValue
          (mir.uses.getD (nullCheckedUse mir + 1) 0)).1) := rfl

theorem rangeCheckState_rangeKey (s : LocalValueNumbering) (mir : MIR) (a i : Nat) :
    ((s.rangeCheckState mir).rangeKey a i).isSome = (s.rangeKey a i).isSome := by
  unfold rangeCheckState nullChecked
  rw [GetOperandValue_rangeKey, rangeKey_of_gvn (HandleNullCheck_gvn _ _ _),
    GetOperandValue_rangeKey]
  unfold putEntry
  split
  · unfold HandlePutObject
    exact GetOperandValue_rangeKey _ _ a i
  · rfl

/-- The range-check keys after the range check of an array access: the key of the pair
checked is bound, the others are as before the instruction. -/
theorem rangeChecks_rangeKey (s : LocalValueNumbering) (mir : MIR) (a i : Nat) :
    ((s.rangeChecks mir).1.rangeKey a i).isSome =
      (decide ((u16 a, u16 i) = s.arrayAccessNames mir) || (s.rangeKey a i).isSome) := by
  have e : (s.rangeChecks mir).1 = ((s.rangeCheckState mir).LookupValue ARRAY_REF
      ((s.putEntry mir).GetOperandValue (mir.uses.getD (nullCheckedUse mir) 0)).1
      ((s.nullChecked mir).1.GetOperandValue (mir.uses.getD (nullCheckedUse mir + 1) 0)).1
      NO_VALUE).2 := rfl
  rw [e, LookupValue_rangeKey, rangeCheckState_rangeKey]
  congr 1
  rw [decide_eq_decide, BuildKey_range_eq, arrayAccessNames_eq]
  simp only [Prod.mk.injEq]
  constructor
  · rintro ⟨h, _⟩
    exact h
  · intro h
    exact ⟨h, rfl⟩

/-- The flags an array access returns: those of the null check, with the range-check flag
added exactly when the range-check key of the pair was bound before the instruction. -/
theorem rangeChecks_flags (s : LocalValueNumbering) (mir : MIR) :
    (s.rangeChecks mir).2.optimization_flags =
      if (s.rangeKey (s.arrayAccessNames mir).1 (s.arrayAccessNames mir).2).isSome then
        (s.nullChecked mir).2.optimization_flags ||| MIR_IGNORE_RANGE_CHECK
      else (s.nullChecked mir).2.optimization_flags := by
  have e : (s.rangeChecks mir).2.optimization_flags =
      if ((s.rangeCheckState mir).rangeKey
          ((s.putEntry mir).GetOperandValue (mir.uses.getD (nullCheckedUse mir) 0)).1
          ((s.nullChecked mir).1.GetOperandValue
            (mir.uses.getD (nullCheckedUse mir + 1) 0)).1).isSome then
        (s.nullChecked mir).2.optimization_flags ||| MIR_IGNORE_RANGE_CHECK
      else (s.nullChecked mir).2.optimization_flags := by
    unfold rangeChecks
    simp only [HandleRangeCheck_flags]
    rfl
  rw [e, rangeCheckState_rangeKey]
  have k : s.rangeKey (s.arrayAccessNames mir).1 (s.arrayAccessNames mir).2 =
      s.rangeKey ((s.putEntry mir).GetOperandValue (mir.uses.getD (nullCheckedUse mir) 0)).1
        ((s.nullChecked mir).1.GetOperandValue (mir.uses.getD (nullCheckedUse mir + 1) 0)).1 := by
    rw [arrayAccessNames_eq]
    unfold rangeKey
    simp only [BuildKey_u16]
  rw [k]

/-- The value table an array access leaves binds the range-check keys that the range check
leaves. -/
theorem array_access_rangeKey (s : LocalValueNumbering) (mir : MIR) (next : Option MIR)
    (h : (armOf (u16 mir.opcode)).isArrayAccess = true) (a i : Nat) :
    ((s.GetValueNumber mir next).2.1.rangeKey a i).isSome =
      (decide ((u16 a, u16 i) = s.arrayAccessNames mir) || (s.rangeKey a i).isSome) := by
  rw [← rangeChecks_rangeKey]
  cases harm : armOf (u16 mir.opcode) <;> rw [harm] at h <;>
    first
      | exact absurd h (by decide)
      | skip
  · -- AGET: one more lookup, under the pair just checked
    have e : (s.GetValueNumber mir next).2.1.gvn = ((s.rangeChecks mir).1.LookupValue ARRAY_REF
        ((s.putEntry mir).GetOperandValue (mir.uses.getD (nullCheckedUse mir) 0)).1
        ((s.nullChecked mir).1.GetOperandValue (mir.uses.getD (nullCheckedUse mir + 1) 0)).1
        ((s.rangeChecks mir).1.GetMemoryVersion
          ((s.putEntry mir).GetOperandValue (mir.uses.getD (nullCheckedUse mir) 0)).1 NO_VALUE
          (u16 (u16 mir.opcode - AGET)))).2.gvn := by
      unfold rangeChecks nullChecked putEntry nullCheckedUse GetValueNumber
      simp only [harm, Arm.isPutObject, Bool.false_eq_true, if_false]
      split <;> simp
    rw [rangeKey_of_gvn e, LookupValue_rangeKey]
    by_cases hk : BuildKey ARRAY_REF
        ((s.putEntry mir).GetOperandValue (mir.uses.getD (nullCheckedUse mir) 0)).1
        ((s.nullChecked mir).1.GetOperandValue (mir.uses.getD (nullCheckedUse mir + 1) 0)).1
        ((s.rangeChecks mir).1.GetMemoryVersion
          ((s.putEntry mir).GetOperandValue (mir.uses.getD (nullCheckedUse mir) 0)).1 NO_VALUE
          (u16 (u16 mir.opcode - AGET))) = BuildKey ARRAY_REF a i NO_VALUE
    · have h1 := ((BuildKey_range_eq _ _ _ _ _).1 hk).1
      have h2 : (u16 a, u16 i) = s.arrayAccessNames mir := by
        rw [arrayAccessNames_eq]
        simp only [Prod.mk.injEq]
        exact h1
      rw [rangeChecks_rangeKey, decide_eq_true hk, decide_eq_true h2]
      rfl
    · rw [decide_eq_false hk]
      rfl
  · have e : (s.GetValueNumber mir next).2.1.gvn = (s.rangeChecks mir).1.gvn := by
      unfold rangeChecks nullChecked putEntry nullCheckedUse GetValueNumber
      simp only [harm, Arm.isPutObject, if_true]
      simp [aputBody]
    rw [rangeKey_of_gvn e]
  · have e : (s.GetValueNumber mir next).2.1.gvn = (s.rangeChecks mir).1.gvn := by
      unfold rangeChecks nullChecked putEntry nullCheckedUse GetValueNumber
      simp only [harm, Arm.isPutObject, Bool.false_eq_true, if_false]
      simp [aputBody]
    rw [rangeKey_of_gvn e]

/-- The range-check keys are left alone by an instruction other than an array get or put. -/
theorem other_rangeKey (s : LocalValueNumbering) (mir : MIR) (next : Option MIR)
    (h : (armOf (u16 mir.opcode)).isArrayAccess = false) (a i : Nat) :
    ((s.GetValueNumber mir next).2.1.rangeKey a i).isSome = (s.rangeKey a i).isSome := by
  refine threadOps_GetValueNumber (ThreadsOps_rangeKey s) (by decide) (by decide) (by decide)
    (by decide) (by decide) ?_ mir next h (fun _ _ => rfl) a i
  intro x hx harith e
  rw [GlobalValueNumbering.u16_of_lt hx] at e
  rw [e] at harith
  exact absurd harith (by decide)

/-- The range-check key of a pair is bound after a sequence of instructions exactly when it
was bound before or an array get or put of the sequence was checked with the pair. -/
theorem processSeq_rangeKey (seq : List (MIR × Option MIR)) : ∀ (s : LocalValueNumbering)
    (a i : Nat), ((s.processSeq seq).rangeKey a i).isSome =
      (decide ((u16 a, u16 i) ∈ s.rangeChecked seq) || (s.rangeKey a i).isSome) := by
  induction seq with
  | nil => intro s a i; simp [processSeq, rangeChecked]
  | cons p rest ih =>
    intro s a i
    unfold processSeq rangeChecked
    rw [ih]
    cases hp : (armOf (u16 p.1.opcode)).isArrayAccess with
    | true =>
      rw [array_access_rangeKey s p.1 p.2 hp]
      simp only [if_true, List.singleton_append, List.mem_cons]
      by_cases h1 : (u16 a, u16 i) = s.arrayAccessNames p.1 <;>
        by_cases h2 : (u16 a, u16 i) ∈ rangeChecked (s.GetValueNumber p.1 p.2).2.1 rest <;>
        simp [h1, h2]
    | false =>
      rw [other_rangeKey s p.1 p.2 hp]
      simp

end LocalValueNumbering

namespace LocalValueNumbering

open GlobalValueNumbering (u16 u32 u64 BuildKey MapExt Evolves)
open Instruction

/-- C23: let a sequence of instructions be processed by an LVN whose value table held no
`ARRAY_REF` key at the start, and then an array get or put whose array and index have the
value names `(a, i)`. The instruction leaves the bit `MIR_IGNORE_RANGE_CHECK` set exactly when
it was set before or an array get or put of the sequence was range-checked with the same pair
`(a, i)`; in particular the first access to a pair does not get the flag. -/
theorem range_check_elimination (s0 : LocalValueNumbering) (seq : List (MIR × Option MIR))
    (mir : MIR) (next : Option MIR) (hfresh : s0.NoArrayRef)
    (h : (armOf (u16 mir.opcode)).isArrayAccess = true) :
    ((s0.processSeq seq).GetValueNumber mir next).2.2.optimization_flags.testBit 2 =
      (mir.optimization_flags.testBit 2 ||
        decide ((s0.processSeq seq).arrayAccessNames mir ∈ s0.rangeChecked seq)) := by
  have hk : ((s0.processSeq seq).rangeKey ((s0.processSeq seq).arrayAccessNames mir).1
      ((s0.processSeq seq).arrayAccessNames mir).2).isSome =
      decide ((s0.processSeq seq).arrayAccessNames mir ∈ s0.rangeChecked seq) := by
    rw [processSeq_rangeKey]
    have e0 : s0.rangeKey ((s0.processSeq seq).arrayAccessNames mir).1
        ((s0.processSeq seq).arrayAccessNames mir).2 = none := hfresh _ _ _
    have e1 : (u16 ((s0.processSeq seq).arrayAccessNames mir).1,
        u16 ((s0.processSeq seq).arrayAccessNames mir).2) =
        (s0.processSeq seq).arrayAccessNames mir := by
      rw [arrayAccessNames_eq]
      simp only [u16_u16]
    rw [e0, e1]
    simp
  rw [(array_access_out _ mir next h).1, rangeChecks_flags, hk, (nullChecked_spec _ mir).1]
  have e1 : MIR_IGNORE_NULL_CHECK = 1 := rfl
  have e4 : MIR_IGNORE_RANGE_CHECK = 4 := rfl
  rw [e1, e4]
  by_cases hm : (s0.processSeq seq).arrayAccessNames mir ∈ s0.rangeChecked seq <;>
    by_cases hn : (s0.processSeq seq).nullCheckedName mir ∈ (s0.processSeq seq).null_checked_ <;>
    simp [hm, hn, Nat.testBit_or, testBit_null_flag, testBit_range_flag]

/-- Witness for C23: from the initial state, `aget v2, v0, v1` followed by
`aget v3, v0, v1`: the second access gets the flag, the first one does not. -/
theorem range_check_elimination_witness :
    ((init.processSeq []).GetValueNumber (getElement 2) none).2.2.optimization_flags.testBit 2 =
        false ∧
      ((init.processSeq [(getElement 2, none)]).GetValueNumber (getElement 3)
        none).2.2.optimization_flags.testBit 2 = true :=
  ⟨(range_check_elimination init [] (getElement 2) none (by intro a i m; rfl)
      (by decide)).trans (by decide),
    (range_check_elimination init [(getElement 2, none)] (getElement 3) none
      (by intro a i m; rfl) (by decide)).trans (by decide)⟩

end LocalValueNumbering

/-! ## Fault handlers, mark stack growth and the counts of a compaction (C34, C35, C36, C38) -/

/-- C36 (the code as written): removing a handler that is registered in the first list
only erases it and then reaches the fatal "non existent handler" statement; removing a
handler registered in the second list only erases through the iterator of the first list,
which is undefined; no defined run of `RemoveHandler` ends without the fatal statement. -/
theorem RemoveHandler_always_fatal :
    FaultManager.RemoveHandler ⟨[7], []⟩ 7 = some ⟨⟨[], []⟩, true⟩ ∧
      FaultManager.RemoveHandler ⟨[], [7]⟩ 7 = none ∧
      ∀ (m : FaultManager) (handler : Nat) (r : RemoveHandlerResult),
        FaultManager.RemoveHandler m handler = some r → r.fatal = true := by
  refine ⟨by decide, by decide, ?_⟩
  intro m handler r h
  unfold FaultManager.RemoveHandler at h
  by_cases hm : handler ∈ (if handler ∈ m.generated_code_handlers_ then
      { m with generated_code_handlers_ := m.generated_code_handlers_.erase handler }
    else m).other_handlers_
  · rw [if_pos hm] at h
    cases h
  · rw [if_neg hm] at h
    cases h
    rfl

namespace gc

namespace MarkCompact

/-- C35: `MarkStackPush` never loses work. For every mark stack state (a stack holds at most
capacity elements and its capacity, which is only ever doubled, is not 0),
`MarkStackPush(obj)` succeeds; the stack then holds its previous elements in their previous
order followed by `obj`, its capacity has been doubled when the stack was full and is
unchanged otherwise, and nothing else has changed. -/
theorem MarkStackPush_keeps_work (st : Marking) (obj : Nat)
    (hcap : 0 < st.mark_stack_capacity_)
    (hlen : st.mark_stack_.length ≤ st.mark_stack_capacity_) :
    ∃ st', MarkStackPush st obj = some st' ∧
      st'.mark_stack_ = obj :: st.mark_stack_ ∧
      (st.mark_stack_.length ≥ st.mark_stack_capacity_ →
        st'.mark_stack_capacity_ = st.mark_stack_capacity_ * 2) ∧
      (st.mark_stack_.length < st.mark_stack_capacity_ →
        st'.mark_stack_capacity_ = st.mark_stack_capacity_) ∧
      st' = { st with mark_stack_ := st'.mark_stack_
                      mark_stack_capacity_ := st'.mark_stack_capacity_ } := by
  refine ⟨_, MarkStackPush_ok st obj hcap hlen, rfl, ?_, ?_, rfl⟩
  · intro h
    show (if _ then _ else _) = _
    rw [if_pos h]
  · intro h
    show (if _ then _ else _) = _
    rw [if_neg (by omega)]

theorem MarkStackPush_keeps_work_witness :
    ∃ st', MarkStackPush exampleMarking 40 = some st' ∧
      st'.mark_stack_ = 40 :: exampleMarking.mark_stack_ ∧
      (exampleMarking.mark_stack_.length ≥ exampleMarking.mark_stack_capacity_ →
        st'.mark_stack_capacity_ = exampleMarking.mark_stack_capacity_ * 2) ∧
      (exampleMarking.mark_stack_.length < exampleMarking.mark_stack_capacity_ →
        st'.mark_stack_capacity_ = exampleMarking.mark_stack_capacity_) ∧
      st' = { exampleMarking with mark_stack_ := st'.mark_stack_
                                  mark_stack_capacity_ := st'.mark_stack_capacity_ } :=
  MarkStackPush_keeps_work exampleMarking 40 (by decide) (by decide)

/-- A bitmap scan over a range without a set bit visits nothing. -/
theorem visitFrom_unmarked {σ : Type} (bitmap : σ → List Nat) (visitor : σ → Nat → σ)
    (n addr : Nat) (s : σ) (h : ∀ x ∈ bitmap s, ¬ (addr ≤ x ∧ x < addr + n)) :
    visitFrom bitmap visitor n addr s = s := by
  induction n generalizing addr with
  | zero => rfl
  | succ n ih =>
    rw [visitFrom]
    have hm : addr ∉ bitmap s := fun hx => h addr hx ⟨le_refl _, by omega⟩
    rw [if_neg hm]
    exact ih _ (fun x hx hr => h x hx ⟨by omega, by omega⟩)

/-- A callback of `UpdateReferences` writes memory only. -/
theorem visitSlot_frame (IsClass : Nat → Bool) (s s' : MarkCompact) (v : SlotVisit)
    (h : visitSlot IsClass (some s) v = some s') : s' = { s with mem := s'.mem } := by
  cases v with
  | root a =>
    simp only [visitSlot, UpdateRootCallback] at h
    split at h
    · cases h
    · split at h
      · split at h <;> cases h <;> rfl
      · cases h; rfl
  | field a =>
    simp only [visitSlot, UpdateHeapReference] at h
    split at h
    · split at h <;> cases h <;> rfl
    · cases h; rfl
  | classRoot a =>
    simp only [visitSlot, UpdateClassRootCallback] at h
    split at h <;> cases h <;> rfl

theorem foldl_visitSlot_none (IsClass : Nat → Bool) (visits : List SlotVisit) :
    visits.foldl (visitSlot IsClass) none = none := by
  induction visits with
  | nil => rfl
  | cons v rest ih => exact ih

/-- `UpdateReferences` writes memory only. -/
theorem UpdateReferences_frame (IsClass : Nat → Bool) (visits : List SlotVisit) :
    ∀ (s s' : MarkCompact), s.UpdateReferences IsClass visits = some s' →
      s' = { s with mem := s'.mem } := by
  induction visits with
  | nil =>
    intro s s' h
    cases h
    rfl
  | cons v rest ih =>
    intro s s' h
    unfold UpdateReferences at h
    rw [List.foldl_cons] at h
    cases hv : visitSlot IsClass (some s) v with
    | none =>
      rw [hv, foldl_visitSlot_none] at h
      cases h
    | some s1 =>
      rw [hv] at h
      have e1 := visitSlot_frame IsClass s s1 v hv
      have e2 := ih s1 s' h
      rw [e2, e1]

/-- `MoveObject` changes memory and the queue of saved lock words only. -/
theorem MoveObject_frame (s s' : MarkCompact) (obj len : Nat) (h : s.MoveObject obj len = some s') :
    s' = { s with mem := s'.mem, lock_words_to_restore_ := s'.lock_words_to_restore_ } := by
  unfold MoveObject at h
  simp only [] at h
  split at h
  · split at h
    · cases h
    · cases h; rfl
  · cases h; rfl

/-- The visitor of `MoveObjects` changes memory and the queue of saved lock words only. -/
theorem foldl_MoveObjectVisitor_frame (l : List Nat) :
    ∀ (st : Nat) (s : MarkCompact) (st' : Nat) (s' : MarkCompact),
      l.foldl MoveObjectVisitor (some (st, s)) = some (st', s') →
      s' = { s with mem := s'.mem, lock_words_to_restore_ := s'.lock_words_to_restore_ } := by
  induction l with
  | nil =>
    intro st s st' s' h
    cases h
    rfl
  | cons x rest ih =>
    intro st s st' s' h
    rw [List.foldl_cons] at h
    cases hv : MoveObjectVisitor (some (st, s)) x with
    | none =>
      rw [hv, foldl_MoveObjectVisitor_none] at h
      cases h
    | some p =>
      obtain ⟨st1, s1⟩ := p
      rw [hv] at h
      have e2 := ih st1 s1 st' s' h
      have e1 : s1 = { s with mem := s1.mem, lock_words_to_restore_ := s1.lock_words_to_restore_ } := by
        simp only [MoveObjectVisitor] at hv
        split at hv
        · cases hv; rfl
        · cases hm : s.MoveObject st (x - st + kObjectAlignment / 2) with
          | none => rw [hm] at hv; cases hv
          | some s2 =>
            rw [hm] at hv
            cases hv
            exact MoveObject_frame _ _ _ _ hm
      rw [e2, e1]

/-- `MoveObjects` changes memory and the queue of saved lock words only. -/
theorem MoveObjects_frame (s s' : MarkCompact) (h : s.MoveObjects = some s') :
    s' = { s with mem := s'.mem, lock_words_to_restore_ := s'.lock_words_to_restore_ } := by
  unfold MoveObjects VisitMarkedRange at h
  simp only [] at h
  rw [visitFrom_move] at h
  split at h
  · rename_i x st' s1 hr
    split at h
    · cases h
      exact foldl_MoveObjectVisitor_frame _ _ _ _ _ hr
    · cases h
  · cases h

end MarkCompact

end gc

namespace gc

namespace MarkCompact

/-- With no bit of the space set, `CalculateObjectForwardingAddresses` only resets the bump
pointer. -/
theorem CalculateObjectForwardingAddresses_unmarked (s : MarkCompact)
    (hnone : ∀ x ∈ s.objects_before_forwarding_, ¬ (s.space_begin ≤ x ∧ x < s.space_end)) :
    s.CalculateObjectForwardingAddresses = { s with bump_pointer_ := s.space_begin } := by
  unfold CalculateObjectForwardingAddresses VisitMarkedRange
  refine visitFrom_unmarked _ _ _ _ _ (fun x hx hr => hnone x hx ?_)
  have h1 : s.space_begin ≤ x := hr.1
  have h2 : x < s.space_begin + (s.space_end - s.space_begin) := hr.2
  exact ⟨h1, by omega⟩

/-- With no bit of the space set and no saved lock word, `MoveObjects` moves nothing. -/
theorem MoveObjects_unmarked (s : MarkCompact)
    (hnone : ∀ x ∈ s.objects_before_forwarding_, ¬ (s.space_begin ≤ x ∧ x < s.space_end))
    (hq : s.lock_words_to_restore_ = []) : s.MoveObjects = some s := by
  unfold MoveObjects VisitMarkedRange
  simp only []
  rw [visitFrom_move, List.filter_eq_nil_iff.2]
  · simp only [List.foldl_nil, hq, if_true]
  · intro x hx
    have hr := List.mem_range'_1.1 hx
    simp only [decide_eq_true_eq]
    exact fun hm => hnone x hm ⟨hr.1, by omega⟩

/-- C34: when no bit of the compacted space is set in `objects_before_forwarding_`,
`CalculateObjectForwardingAddresses` only sets `bump_pointer_` to `Begin`: the live object
count, the memory (so every lock word), the queue of saved lock words and the bitmaps are
unchanged. In a collection (`live_objects_in_space_` is 0 as `InitializePhase` leaves it,
the queue is empty, the reference update completes) `Compact` then returns, with
`bytes_freed = End - Begin` and `objects_freed` the number of objects allocated in the
space; both counts are non-negative, and both are 0 when the space is empty. -/
theorem Compact_nothing_marked (GetObjectsAllocated : Nat) (IsClass : Nat → Bool)
    (visits : List SlotVisit) (s s2 : MarkCompact)
    (hnone : ∀ x ∈ s.objects_before_forwarding_, ¬ (s.space_begin ≤ x ∧ x < s.space_end))
    (hspace : s.space_begin ≤ s.space_end)
    (hlive : s.live_objects_in_space_ = 0)
    (hq : s.lock_words_to_restore_ = [])
    (hrefs : UpdateReferences IsClass { s with bump_pointer_ := s.space_begin } visits =
      some s2) :
    s.CalculateObjectForwardingAddresses = { s with bump_pointer_ := s.space_begin } ∧
      ∃ r, Compact GetObjectsAllocated IsClass visits s = some r ∧
        r.2.2 = (s.space_end : Int) - (s.space_begin : Int) ∧
        r.2.1 = (GetObjectsAllocated : Int) ∧
        0 ≤ r.2.1 ∧ 0 ≤ r.2.2 ∧
        (s.space_end = s.space_begin → r.2.2 = 0) ∧
        (GetObjectsAllocated = 0 → r.2.1 = 0) ∧
        r.1.space_end = s.space_begin ∧
        r.1.live_objects_in_space_ = s.live_objects_in_space_ := by
  have e1 := CalculateObjectForwardingAddresses_unmarked s hnone
  refine ⟨e1, ?_⟩
  have e2 := UpdateReferences_frame IsClass visits _ _ hrefs
  have hb : s2.objects_before_forwarding_ = s.objects_before_forwarding_ := by rw [e2]
  have hsb : s2.space_begin = s.space_begin := by rw [e2]
  have hse : s2.space_end = s.space_end := by rw [e2]
  have hbp : s2.bump_pointer_ = s.space_begin := by rw [e2]
  have hl2 : s2.live_objects_in_space_ = s.live_objects_in_space_ := by rw [e2]
  have hq2 : s2.lock_words_to_restore_ = [] := by rw [e2]; exact hq
  have e3 : s2.MoveObjects = some s2 :=
    MoveObjects_unmarked s2 (by rw [hb, hsb, hse]; exact hnone) hq2
  unfold Compact
  simp only []
  rw [e1, hrefs, Option.some_bind, e3, Option.some_bind]
  refine ⟨_, rfl, ?_, ?_, ?_, ?_, ?_, ?_, ?_, ?_⟩
  · show (s2.space_end : Int) - (s2.bump_pointer_ : Int) = _
    rw [hse, hbp]
  · show (GetObjectsAllocated : Int) - (s2.live_objects_in_space_ : Int) = _
    rw [hl2, hlive]
    simp
  · show 0 ≤ (GetObjectsAllocated : Int) - (s2.live_objects_in_space_ : Int)
    rw [hl2, hlive]
    simp
  · show 0 ≤ (s2.space_end : Int) - (s2.bump_pointer_ : Int)
    rw [hse, hbp]
    omega
  · intro he
    show (s2.space_end : Int) - (s2.bump_pointer_ : Int) = 0
    rw [hse, hbp, he]
    omega
  · intro h0
    show (GetObjectsAllocated : Int) - (s2.live_objects_in_space_ : Int) = 0
    rw [hl2, hlive, h0]
    simp
  · show s2.bump_pointer_ = _
    exact hbp
  · show s2.live_objects_in_space_ = _
    exact hl2

theorem Compact_nothing_marked_witness :
    nothingMarked.CalculateObjectForwardingAddresses =
        { nothingMarked with bump_pointer_ := nothingMarked.space_begin } ∧
      ∃ r, Compact 3 (fun _ => false) [] nothingMarked = some r ∧
        r.2.2 = (nothingMarked.space_end : Int) - (nothingMarked.space_begin : Int) ∧
        r.2.1 = ((3 : Nat) : Int) ∧
        0 ≤ r.2.1 ∧ 0 ≤ r.2.2 ∧
        (nothingMarked.space_end = nothingMarked.space_begin → r.2.2 = 0) ∧
        ((3 : Nat) = 0 → r.2.1 = 0) ∧
        r.1.space_end = nothingMarked.space_begin ∧
        r.1.live_objects_in_space_ = nothingMarked.live_objects_in_space_ :=
  Compact_nothing_marked 3 (fun _ => false) [] nothingMarked
    { nothingMarked with bump_pointer_ := nothingMarked.space_begin }
    (fun x hx => absurd hx (List.not_mem_nil x)) (by decide) rfl rfl rfl

/-- Split of a filtered sum along a second predicate. -/
theorem sum_filter_split (f : Nat → Nat) (p q : Nat → Bool) (l : List Nat) :
    ((l.filter p).map f).sum =
      ((l.filter (fun x => p x && q x)).map f).sum +
        ((l.filter (fun x => p x && !q x)).map f).sum := by
  induction l with
  | nil => rfl
  | cons x rest ih =>
    simp only [List.filter_cons]
    cases hp : p x <;> cases hq : q x <;>
      simp only [Bool.false_and, Bool.true_and, Bool.not_true, Bool.not_false, if_true,
        if_false, Bool.false_eq_true, List.map_cons, List.sum_cons, ih] <;> omega

theorem le_sum_of_mem_map (f : Nat → Nat) (l : List Nat) (x : Nat) (h : x ∈ l) :
    f x ≤ (l.map f).sum := by
  induction l with
  | nil => cases h
  | cons y rest ih =>
    simp only [List.map_cons, List.sum_cons]
    rcases List.mem_cons.1 h with e | e
    · rw [e]; omega
    · have := ih e
      omega

/-- In a layout, the sizes of the objects below an object fit between the start of the
layout and that object. -/
theorem Layout_sum_below (f : Nat → Nat) (L : List Nat) :
    ∀ (lo hi : Nat), Layout lo (L.map (fun o => (o, f o))) hi →
      ∀ o ∈ L, lo + ((L.filter (fun x => decide (x < o))).map f).sum ≤ o := by
  induction L with
  | nil => intro lo hi _ o ho; cases ho
  | cons a rest ih =>
    intro lo hi hl o ho
    obtain ⟨h1, h2, h3, h4, h5⟩ := hl
    have hb := Layout_bounds h5
    have hrest : ∀ y ∈ rest, a + f a ≤ y := by
      intro y hy
      exact (hb (y, f y) (List.mem_map.2 ⟨y, hy, rfl⟩)).1
    rcases List.mem_cons.1 ho with e | e
    · rw [e]
      have hf : (a :: rest).filter (fun x => decide (x < a)) = [] := by
        apply List.filter_eq_nil_iff.2
        intro y hy
        simp only [decide_eq_true_eq, not_lt]
        rcases List.mem_cons.1 hy with e' | e'
        · rw [e']
        · have := hrest y e'
          omega
      rw [hf]
      simpa using h1
    · have hao : a < o := by
        have := hrest o e
        omega
      have := ih (a + f a) hi h5 o e
      rw [List.filter_cons]
      simp only [hao, decide_True, if_true, List.map_cons, List.sum_cons]
      omega

/-- Consecutive forwarding addresses tile the range up to the last destination's end. -/
theorem Tiles_of_Forwards {mem : Mem} (objs : List (Nat × Nat)) :
    ∀ (lo : Nat), Forwards mem lo objs → Tiles mem lo objs (lo + (objs.map Prod.snd).sum) := by
  induction objs with
  | nil => intro lo _; simp [Tiles]
  | cons p rest ih =>
    intro lo h
    obtain ⟨o, size⟩ := p
    obtain ⟨h1, h2⟩ := h
    refine ⟨h1, ?_⟩
    have := ih _ h2
    simp only [List.map_cons, List.sum_cons]
    rw [← Nat.add_assoc]
    exact this

end MarkCompact

end gc

namespace gc

namespace MarkCompact

/-- C38: when the marked objects with their aligned sizes lie in `[Begin, End)` in ascending
order without overlap, `CalculateObjectForwardingAddresses` writes into the lock word of
each marked object a forwarding address that is at most the object's address and whose
destination ends at or before `bump_pointer_`; the destination of a lower object ends at or
before the destination of a higher one; the destinations are consecutive from `Begin` to
`bump_pointer_`; `bump_pointer_ ≤ End`, and the `bytes_freed` of every `Compact` that
returns is `End - bump_pointer_`, which is not negative. -/
theorem forwarding_slides_down (GetObjectsAllocated : Nat) (IsClass : Nat → Bool)
    (visits : List SlotVisit) (s : MarkCompact)
    (hl : Layout s.space_begin s.markedSlots s.space_end) :
    (∀ o ∈ s.markedObjects,
        GetLockWord s.CalculateObjectForwardingAddresses.mem o =
          LockWord.FromForwardingAddress (s.forwardOf o) ∧
        s.forwardOf o ≤ o ∧
        s.forwardOf o + s.alignedSize o ≤ s.CalculateObjectForwardingAddresses.bump_pointer_) ∧
      (∀ o1 ∈ s.markedObjects, ∀ o2 ∈ s.markedObjects, o1 < o2 →
        s.forwardOf o1 + s.alignedSize o1 ≤ s.forwardOf o2) ∧
      Tiles s.CalculateObjectForwardingAddresses.mem s.space_begin s.markedSlots
        s.CalculateObjectForwardingAddresses.bump_pointer_ ∧
      s.CalculateObjectForwardingAddresses.bump_pointer_ ≤ s.space_end ∧
      (∀ r, Compact GetObjectsAllocated IsClass visits s = some r →
        r.2.2 = (s.space_end : Int) -
            (s.CalculateObjectForwardingAddresses.bump_pointer_ : Int) ∧
          0 ≤ r.2.2) := by
  have hal := markedObjects_aligned s
  have hs := markedObjects_sorted s
  have hfold := CalculateObjectForwardingAddresses_eq_foldl s
  obtain ⟨f1, _, f3, _⟩ :=
    foldl_FowardObject s.markedObjects { s with bump_pointer_ := s.space_begin } hal hs
  have hfw := foldl_FowardObject_Forwards s.markedObjects
    { s with bump_pointer_ := s.space_begin } hal hs
  obtain ⟨b1, b2, _⟩ := foldl_FowardObject_bitmaps s.markedObjects
    { s with bump_pointer_ := s.space_begin } hal hs
  rw [← hfold] at f1 f3 hfw b1 b2
  have hbump : s.CalculateObjectForwardingAddresses.bump_pointer_ =
      s.space_begin + (s.markedObjects.map s.alignedSize).sum := f1
  have hsum : (s.markedSlots.map Prod.snd).sum = (s.markedObjects.map s.alignedSize).sum := by
    unfold markedSlots
    rw [List.map_map]
    rfl
  have hle : s.CalculateObjectForwardingAddresses.bump_pointer_ ≤ s.space_end := by
    have := Layout_sum_le hl
    rw [hsum] at this
    rw [hbump]
    exact this
  have htotal : ∀ o ∈ s.markedObjects,
      ((s.markedObjects.filter (fun x => decide (x < o))).map s.alignedSize).sum +
        s.alignedSize o ≤ (s.markedObjects.map s.alignedSize).sum := by
    intro o ho
    have h1 := sum_filter_split s.alignedSize (fun _ => true) (fun x => decide (x < o))
      s.markedObjects
    simp only [List.filter_true, Bool.true_and] at h1
    have h2 := le_sum_of_mem_map s.alignedSize
      (s.markedObjects.filter (fun x => !decide (x < o))) o
      (List.mem_filter.2 ⟨ho, by simp⟩)
    omega
  refine ⟨?_, ?_, ?_, hle, ?_⟩
  · intro o ho
    refine ⟨f3 o ho, ?_, ?_⟩
    · exact Layout_sum_below s.alignedSize s.markedObjects _ _ hl o ho
    · rw [hbump]
      have := htotal o ho
      unfold forwardOf
      omega
  · intro o1 h1 o2 _ h12
    have e1 := sum_filter_split s.alignedSize (fun x => decide (x < o2))
      (fun x => decide (x < o1)) s.markedObjects
    have e2 : s.markedObjects.filter (fun x => decide (x < o2) && decide (x < o1)) =
        s.markedObjects.filter (fun x => decide (x < o1)) := by
      apply List.filter_congr
      intro x _
      by_cases hx : x < o1
      · have : x < o2 := lt_trans hx h12
        simp [hx, this]
      · simp [hx]
    have e3 := le_sum_of_mem_map s.alignedSize
      (s.markedObjects.filter (fun x => decide (x < o2) && !decide (x < o1))) o1
      (List.mem_filter.2 ⟨h1, by simp [h12]⟩)
    rw [e2] at e1
    unfold forwardOf
    omega
  · have := Tiles_of_Forwards s.markedSlots s.space_begin hfw
    rw [hsum, ← hbump] at this
    exact this
  · intro r hr
    unfold Compact at hr
    simp only [] at hr
    cases hu : s.CalculateObjectForwardingAddresses.UpdateReferences IsClass visits with
    | none => rw [hu] at hr; cases hr
    | some s2 =>
      rw [hu, Option.some_bind] at hr
      cases hm : s2.MoveObjects with
      | none => rw [hm] at hr; cases hr
      | some s3 =>
        rw [hm, Option.some_bind] at hr
        have e2 := UpdateReferences_frame IsClass visits _ _ hu
        have e3 := MoveObjects_frame _ _ hm
        have hse : s3.space_end = s.space_end := by rw [e3, e2]; exact b2
        have hbp : s3.bump_pointer_ = s.CalculateObjectForwardingAddresses.bump_pointer_ := by
          rw [e3, e2]
        cases hr
        show (s3.space_end : Int) - (s3.bump_pointer_ : Int) = _ ∧
          0 ≤ (s3.space_end : Int) - (s3.bump_pointer_ : Int)
        rw [hse, hbp]
        exact ⟨rfl, by omega⟩

set_option maxRecDepth 100000 in
theorem forwarding_slides_down_witness :
    (∀ o ∈ exampleHeap.markedObjects,
        GetLockWord exampleHeap.CalculateObjectForwardingAddresses.mem o =
          LockWord.FromForwardingAddress (exampleHeap.forwardOf o) ∧
        exampleHeap.forwardOf o ≤ o ∧
        exampleHeap.forwardOf o + exampleHeap.alignedSize o ≤
          exampleHeap.CalculateObjectForwardingAddresses.bump_pointer_) ∧
      (∀ o1 ∈ exampleHeap.markedObjects, ∀ o2 ∈ exampleHeap.markedObjects, o1 < o2 →
        exampleHeap.forwardOf o1 + exampleHeap.alignedSize o1 ≤ exampleHeap.forwardOf o2) ∧
      Tiles exampleHeap.CalculateObjectForwardingAddresses.mem exampleHeap.space_begin
        exampleHeap.markedSlots exampleHeap.CalculateObjectForwardingAddresses.bump_pointer_ ∧
      exampleHeap.CalculateObjectForwardingAddresses.bump_pointer_ ≤ exampleHeap.space_end ∧
      (∀ r, Compact 2 (fun _ => false) [] exampleHeap = some r →
        r.2.2 = (exampleHeap.space_end : Int) -
            (exampleHeap.CalculateObjectForwardingAddresses.bump_pointer_ : Int) ∧
          0 ≤ r.2.2) :=
  forwarding_slides_down 2 (fun _ => false) [] exampleHeap
    (by
      have h : exampleHeap.markedSlots = [(16, 8), (32, 16)] := by decide
      rw [h]
      exact ⟨by decide, by decide, by decide, by decide, by decide, by decide, by decide,
        by decide, (by show 32 + 16 ≤ exampleHeap.space_end; decide)⟩)

set_option maxRecDepth 100000 in
/-- The compaction of the example heap returns: 24 of its 48 bytes are freed. -/
theorem Compact_exampleHeap :
    (Compact 2 (fun _ => false) [] exampleHeap).map (fun r => (r.2.1, r.2.2)) =
      some (0, 24) := by
  decide

end MarkCompact

end gc

/-! ## Memory versions stay below the counter (C40) -/

namespace LocalValueNumbering

open GlobalValueNumbering (u16 u32 u64 BuildKey MapExt Evolves)
open Instruction

/-- C40: in a state whose recorded versions (memory-version map, global memory version,
unresolved instance and static field versions) are all below `next_memory_version_`, every
operation that cannot wrap the 16-bit counter keeps them below it and does not decrease
the counter: `GetValueNumber` on any instruction, any sequence of instructions,
`AdvanceMemoryVersion` and `AdvanceGlobalMemory`. The version handed out by
`AdvanceMemoryVersion` and `AdvanceGlobalMemory` is the counter, which then moves on by
one, so it is greater than every version recorded or read (`GetMemoryVersion`) before and
smaller than the counter, and so than every version handed out, after any further
instructions. -/
theorem versions_below_counter (s : LocalValueNumbering) (hV : s.VersionsBelowNext) :
    (∀ seq : List (MIR × Option MIR), s.next_memory_version_ + seq.length < 2 ^ 16 →
        (s.processSeq seq).VersionsBelowNext ∧
          s.next_memory_version_ ≤ (s.processSeq seq).next_memory_version_) ∧
      (∀ (mir : MIR) (next : Option MIR), s.next_memory_version_ + 1 < 2 ^ 16 →
        (s.GetValueNumber mir next).2.1.VersionsBelowNext ∧
          s.next_memory_version_ ≤ (s.GetValueNumber mir next).2.1.next_memory_version_) ∧
      (∀ base field type : Nat, s.next_memory_version_ + 1 < 2 ^ 16 →
        (s.AdvanceMemoryVersion base field type).2.VersionsBelowNext ∧
          (s.AdvanceMemoryVersion base field type).1 = s.next_memory_version_ ∧
          (s.AdvanceMemoryVersion base field type).2.next_memory_version_ =
            s.next_memory_version_ + 1) ∧
      (s.next_memory_version_ + 1 < 2 ^ 16 →
        s.AdvanceGlobalMemory.VersionsBelowNext ∧
          s.AdvanceGlobalMemory.global_memory_version_ = s.next_memory_version_ ∧
          s.AdvanceGlobalMemory.next_memory_version_ = s.next_memory_version_ + 1) ∧
      (∀ (base field type : Nat) (seq : List (MIR × Option MIR)),
        s.next_memory_version_ + 1 + seq.length < 2 ^ 16 →
        (s.AdvanceMemoryVersion base field type).1 <
          ((s.AdvanceMemoryVersion base field type).2.processSeq seq).next_memory_version_) ∧
      (∀ base field type : Nat,
        s.GetMemoryVersion base field type < s.next_memory_version_) := by
  have cl := Threads_VersionsAdvance s
  have hadv : ∀ base field type : Nat, s.next_memory_version_ + 1 < 2 ^ 16 →
      (s.AdvanceMemoryVersion base field type).2.VersionsBelowNext ∧
        (s.AdvanceMemoryVersion base field type).1 = s.next_memory_version_ ∧
        (s.AdvanceMemoryVersion base field type).2.next_memory_version_ =
          s.next_memory_version_ + 1 := by
    intro base field type hb
    have h := cl.memoryVersion (a := 0) (b := 0) base field type (VersionsAdvance_refl s)
    obtain ⟨h1, _, _⟩ := h (by omega) hV
    refine ⟨h1, ?_, ?_⟩
    · unfold AdvanceMemoryVersion
      simp only []
      split <;> rfl
    · have e : (s.AdvanceMemoryVersion base field type).2.next_memory_version_ =
          u16 (s.next_memory_version_ + 1) := by
        unfold AdvanceMemoryVersion
        simp only []
        split <;> rfl
      rw [e]
      exact GlobalValueNumbering.u16_of_lt hb
  refine ⟨?_, ?_, hadv, ?_, ?_, fun base field type => GetMemoryVersion_lt s base field type hV⟩
  · intro seq hb
    have h := thread_processSeq cl seq (a := 0) (b := 0) (VersionsAdvance_refl s)
    obtain ⟨h1, h2, _⟩ := h (by omega) hV
    exact ⟨h1, h2⟩
  · intro mir next hb
    have h := thread_GetValueNumber cl mir next (a := 0) (b := 0) (VersionsAdvance_refl s)
    obtain ⟨h1, h2, _⟩ := h (by omega) hV
    exact ⟨h1, h2⟩
  · intro hb
    have h := cl.globalMemory (a := 0) (b := 0) (VersionsAdvance_refl s)
    obtain ⟨h1, _, _⟩ := h (by omega) hV
    exact ⟨h1, rfl, GlobalValueNumbering.u16_of_lt hb⟩
  · intro base field type seq hb
    obtain ⟨a1, a2, a3⟩ := hadv base field type (by omega)
    have h := thread_processSeq (Threads_VersionsAdvance (s.AdvanceMemoryVersion base field type).2)
      seq (a := 0) (b := 0) (VersionsAdvance_refl _)
    obtain ⟨_, h2, _⟩ := h (by rw [a3]; omega) a1
    rw [a2]
    omega

theorem init_VersionsBelowNext : init.VersionsBelowNext := by
  refine ⟨?_, by decide, ?_, ?_⟩
  · intro k v h
    cases h
  · intro x hx
    have : x = 0 := by
      have := List.eq_of_mem_replicate hx
      exact this
    rw [this]
    decide
  · intro x hx
    have : x = 0 := List.eq_of_mem_replicate hx
    rw [this]
    decide

theorem versions_below_counter_witness :
    (∀ seq : List (MIR × Option MIR), init.next_memory_version_ + seq.length < 2 ^ 16 →
        (init.processSeq seq).VersionsBelowNext ∧
          init.next_memory_version_ ≤ (init.processSeq seq).next_memory_version_) ∧
      (∀ (mir : MIR) (next : Option MIR), init.next_memory_version_ + 1 < 2 ^ 16 →
        (init.GetValueNumber mir next).2.1.VersionsBelowNext ∧
          init.next_memory_version_ ≤ (init.GetValueNumber mir next).2.1.next_memory_version_) ∧
      (∀ base field type : Nat, init.next_memory_version_ + 1 < 2 ^ 16 →
        (init.AdvanceMemoryVersion base field type).2.VersionsBelowNext ∧
          (init.AdvanceMemoryVersion base field type).1 = init.next_memory_version_ ∧
          (init.AdvanceMemoryVersion base field type).2.next_memory_version_ =
            init.next_memory_version_ + 1) ∧
      (init.next_memory_version_ + 1 < 2 ^ 16 →
        init.AdvanceGlobalMemory.VersionsBelowNext ∧
          init.AdvanceGlobalMemory.global_memory_version_ = init.next_memory_version_ ∧
          init.AdvanceGlobalMemory.next_memory_version_ = init.next_memory_version_ + 1) ∧
      (∀ (base field type : Nat) (seq : List (MIR × Option MIR)),
        init.next_memory_version_ + 1 + seq.length < 2 ^ 16 →
        (init.AdvanceMemoryVersion base field type).1 <
          ((init.AdvanceMemoryVersion base field type).2.processSeq seq).next_memory_version_) ∧
      (∀ base field type : Nat,
        init.GetMemoryVersion base field type < init.next_memory_version_) :=
  versions_below_counter init init_VersionsBelowNext

end LocalValueNumbering

/-! ## Field ids (C31) -/

namespace LocalValueNumbering

open GlobalValueNumbering (u16 u32 u64 BuildKey MapExt Evolves)
open Instruction

theorem position_append_of_mem (p : Nat × Nat) (l more : List (Nat × Nat)) (h : p ∈ l) :
    position p (l ++ more) = position p l := by
  induction l with
  | nil => cases h
  | cons q rest ih =>
    show position p (q :: (rest ++ more)) = position p (q :: rest)
    simp only [position]
    by_cases hq : q = p
    · rw [if_pos hq, if_pos hq]
    · rw [if_neg hq, if_neg hq]
      rcases List.mem_cons.1 h with e | e
      · exact absurd e.symm hq
      · rw [ih e]

theorem position_append_of_not_mem (p : Nat × Nat) (l more : List (Nat × Nat)) (h : p ∉ l) :
    position p (l ++ more) = l.length + position p more := by
  induction l with
  | nil => simp
  | cons q rest ih =>
    show position p (q :: (rest ++ more)) = (q :: rest).length + position p more
    simp only [position, List.length_cons]
    have hq : q ≠ p := fun e => h (e ▸ List.mem_cons_self _ _)
    rw [if_neg hq, ih (fun hm => h (List.mem_cons_of_mem _ hm))]
    omega

theorem position_lt (p : Nat × Nat) (l : List (Nat × Nat)) (h : p ∈ l) :
    position p l < l.length := by
  induction l with
  | nil => cases h
  | cons q rest ih =>
    simp only [position, List.length_cons]
    by_cases hq : q = p
    · rw [if_pos hq]; omega
    · rw [if_neg hq]
      rcases List.mem_cons.1 h with e | e
      · exact absurd e.symm hq
      · have := ih e
        omega

theorem position_inj (p q : Nat × Nat) (l : List (Nat × Nat)) (hp : p ∈ l) (hq : q ∈ l)
    (h : position p l = position q l) : p = q := by
  induction l with
  | nil => cases hp
  | cons a rest ih =>
    simp only [position] at h
    by_cases ha : a = p <;> by_cases hb : a = q
    · rw [← ha, ← hb]
    · rw [if_pos ha, if_neg hb] at h
      omega
    · rw [if_neg ha, if_pos hb] at h
      omega
    · rw [if_neg ha, if_neg hb] at h
      rcases List.mem_cons.1 hp with e | e
      · exact absurd e.symm ha
      · rcases List.mem_cons.1 hq with e' | e'
        · exact absurd e'.symm hb
        · exact ih e e' (by omega)

/-- The element at the position of a pair of the list is that pair. -/
theorem getElem_position (p : Nat × Nat) (l : List (Nat × Nat)) (h : p ∈ l) :
    l[position p l]? = some p := by
  induction l with
  | nil => cases h
  | cons q rest ih =>
    simp only [position]
    by_cases hq : q = p
    · rw [if_pos hq, hq]
      simp
    · rw [if_neg hq]
      rcases List.mem_cons.1 h with e | e
      · exact absurd e.symm hq
      · simpa using ih e

theorem encountered_prefix (pairs : List (Nat × Nat)) :
    ∀ seen, ∃ more, encountered seen pairs = seen ++ more := by
  induction pairs with
  | nil => intro seen; exact ⟨[], by simp [encountered]⟩
  | cons p rest ih =>
    intro seen
    unfold encountered
    by_cases hp : p ∈ seen
    · rw [if_pos hp]
      exact ih seen
    · rw [if_neg hp]
      obtain ⟨more, e⟩ := ih (seen ++ [p])
      exact ⟨p :: more, by rw [e]; simp⟩

theorem encountered_mem (pairs : List (Nat × Nat)) :
    ∀ seen, ∀ p, p ∈ pairs → p ∈ encountered seen pairs := by
  induction pairs with
  | nil => intro seen p hp; cases hp
  | cons q rest ih =>
    intro seen p hp
    unfold encountered
    rcases List.mem_cons.1 hp with e | e
    · obtain ⟨more, hm⟩ := encountered_prefix rest (if q ∈ seen then seen else seen ++ [q])
      rw [hm, e]
      apply List.mem_append_left
      by_cases hq : q ∈ seen
      · rw [if_pos hq]; exact hq
      · rw [if_neg hq]; simp
    · exact ih _ p e

theorem encountered_nodup (pairs : List (Nat × Nat)) :
    ∀ seen, seen.Nodup → (encountered seen pairs).Nodup := by
  induction pairs with
  | nil => intro seen h; exact h
  | cons q rest ih =>
    intro seen h
    unfold encountered
    by_cases hq : q ∈ seen
    · rw [if_pos hq]; exact ih seen h
    · rw [if_neg hq]
      apply ih
      rw [List.nodup_append]
      refine ⟨h, List.nodup_singleton q, ?_⟩
      intro a ha hb
      rw [List.mem_singleton] at hb
      exact hq (hb ▸ ha)

/-- One `GetFieldId` in a state that holds the pairs of `seen`, with room for one more id. -/
theorem GetFieldId_FieldsSeen (seen : List (Nat × Nat)) (s : LocalValueNumbering)
    (p : Nat × Nat) (hp : p.2 < 2 ^ 16) (hs : FieldsSeen seen s)
    (hlen : (if p ∈ seen then seen else seen ++ [p]).length ≤ 2 ^ 16) :
    (s.GetFieldId p.1 p.2).1 = position p (if p ∈ seen then seen else seen ++ [p]) ∧
      FieldsSeen (if p ∈ seen then seen else seen ++ [p]) (s.GetFieldId p.1 p.2).2 ∧
      (p ∈ seen → (s.GetFieldId p.1 p.2).2 = s) := by
  obtain ⟨h1, h2⟩ := hs
  have hk : (p.1, u16 p.2) = p := by rw [GlobalValueNumbering.u16_of_lt hp]
  by_cases hm : p ∈ seen
  · have hf := h2 p
    rw [if_pos hm] at hf
    have e : s.GetFieldId p.1 p.2 = (position p seen, s) :=
      GetFieldId_of_find (by rw [hk]; exact hf)
    rw [e, if_pos hm]
    exact ⟨rfl, ⟨h1, h2⟩, fun _ => rfl⟩
  · have hf := h2 p
    rw [if_neg hm] at hf
    rw [if_neg hm] at hlen ⊢
    have hl : seen.length < 2 ^ 16 := by
      simp only [List.length_append, List.length_singleton] at hlen
      omega
    have hid : u16 s.field_index_map_.size = seen.length := by
      rw [h1]
      exact GlobalValueNumbering.u16_of_lt hl
    have hidx : position p (seen ++ [p]) = seen.length := by
      rw [position_append_of_not_mem _ _ _ hm]
      simp [position]
    have e : s.GetFieldId p.1 p.2 =
        (seen.length, { s with field_index_map_ := s.field_index_map_.Put p seen.length }) := by
      unfold GetFieldId
      simp only [hk, hf, hid]
    rw [e]
    refine ⟨hidx.symm, ⟨?_, ?_⟩, fun h => absurd h hm⟩
    · show (s.field_index_map_.Put p seen.length).size = _
      have := h1
      simp only [SafeMap.size] at this
      simp only [SafeMap.size, SafeMap.Put, List.length_cons, List.length_append,
        List.length_singleton, List.length_nil, this]
    · intro q
      show (s.field_index_map_.Put p seen.length).find q = _
      rw [SafeMap.find_Put]
      by_cases hq : p = q
      · rw [if_pos hq, ← hq, hidx]
        simp
      · rw [if_neg hq, h2 q]
        by_cases hqs : q ∈ seen
        · have : q ∈ seen ++ [p] := List.mem_append_left _ hqs
          rw [if_pos hqs, if_pos this, position_append_of_mem _ _ _ hqs]
        · have : q ∉ seen ++ [p] := by
            simp only [List.mem_append, List.mem_singleton, not_or]
            exact ⟨hqs, fun e => hq e.symm⟩
          rw [if_neg hqs, if_neg this]

/-- A sequence of `GetFieldId` calls from a state that holds the pairs of `seen`: each call
returns the position of its pair in the list of the pairs encountered, as long as that list
has at most `2 ^ 16` elements. -/
theorem fieldIds_FieldsSeen (pairs : List (Nat × Nat)) :
    ∀ (seen : List (Nat × Nat)) (s : LocalValueNumbering),
      (∀ p ∈ pairs, p.2 < 2 ^ 16) → FieldsSeen seen s →
      (encountered seen pairs).length ≤ 2 ^ 16 →
      (s.fieldIds pairs).1 = pairs.map (fun p => position p (encountered seen pairs)) ∧
        FieldsSeen (encountered seen pairs) (s.fieldIds pairs).2 := by
  induction pairs with
  | nil =>
    intro seen s _ hs _
    exact ⟨rfl, hs⟩
  | cons p rest ih =>
    intro seen s hp hs hlen
    unfold encountered at hlen ⊢
    obtain ⟨more, hmore⟩ := encountered_prefix rest (if p ∈ seen then seen else seen ++ [p])
    have hl1 : (if p ∈ seen then seen else seen ++ [p]).length ≤ 2 ^ 16 := by
      rw [hmore, List.length_append] at hlen
      omega
    obtain ⟨g1, g2, _⟩ := GetFieldId_FieldsSeen seen s p (hp p (List.mem_cons_self _ _)) hs hl1
    obtain ⟨i1, i2⟩ := ih _ (s.GetFieldId p.1 p.2).2
      (fun q hq => hp q (List.mem_cons_of_mem _ hq)) g2 hlen
    refine ⟨?_, i2⟩
    show (s.GetFieldId p.1 p.2).1 :: ((s.GetFieldId p.1 p.2).2.fieldIds rest).1 = _
    rw [i1, g1, List.map_cons]
    congr 1
    have hin : p ∈ (if p ∈ seen then seen else seen ++ [p]) := by
      by_cases hm : p ∈ seen
      · rw [if_pos hm]; exact hm
      · rw [if_neg hm]; simp
    rw [hmore, position_append_of_mem _ _ _ hin]

end LocalValueNumbering

namespace LocalValueNumbering

open GlobalValueNumbering (u16 u32 u64 BuildKey MapExt Evolves)
open Instruction

/-- In a list without repetition, the position of the element at index `n` is `n`. -/
theorem position_of_getElem (l : List (Nat × Nat)) (hn : l.Nodup) :
    ∀ (n : Nat) (p : Nat × Nat), l[n]? = some p → position p l = n := by
  induction l with
  | nil => intro n p h; simp at h
  | cons q rest ih =>
    intro n p h
    obtain ⟨hq, hr⟩ := List.nodup_cons.1 hn
    cases n with
    | zero =>
      simp only [List.getElem?_cons_zero, Option.some.injEq] at h
      simp [position, h]
    | succ m =>
      simp only [List.getElem?_cons_succ] at h
      have hm : p ∈ rest := by
        obtain ⟨hlt, he⟩ := List.getElem?_eq_some.1 h
        rw [← he]
        exact List.getElem_mem _
      have hne : q ≠ p := fun e => hq (e ▸ hm)
      simp only [position, if_neg hne]
      rw [ih hr m p h]

theorem find_fields_of_file (L : List Nat) (d j : Nat) :
    SafeMap.find (L.map (fun i => (((0 : Nat), i), i))) (d, j) =
      if d = 0 ∧ j ∈ L then some j else none := by
  induction L with
  | nil => simp [SafeMap.find]
  | cons a rest ih =>
    simp only [List.map_cons, SafeMap.find, ih, List.mem_cons, Prod.mk.injEq]
    by_cases hd : d = 0
    · by_cases ha : a = j
      · simp [hd, ha]
      · have ha' : ¬ j = a := fun e => ha e.symm
        simp [hd, ha, ha']
    · have hd' : ¬ 0 = d := fun e => hd e.symm
      simp [hd, hd']

theorem GetFieldId_of_miss {s : LocalValueNumbering} {d f : Nat}
    (h : s.field_index_map_.find (d, u16 f) = none) :
    (s.GetFieldId d f).1 = u16 s.field_index_map_.size := by
  unfold GetFieldId
  simp only [h]

/-- C31 (as stated, refuted): once the field index map holds `2 ^ 16` pairs, the 16-bit id
of the next new pair is 0 again: the first field of a second dex file receives the id of
the first field of the first one. -/
theorem GetFieldId_ids_collide :
    allFieldsOfOneFile.field_index_map_.size = 65536 ∧
      ((0 : Nat), (0 : Nat)) ≠ (1, 0) ∧
      (allFieldsOfOneFile.GetFieldId 0 0).1 = 0 ∧
      (allFieldsOfOneFile.GetFieldId 1 0).1 = 0 := by
  have hmap : allFieldsOfOneFile.field_index_map_ =
      (List.range 65536).reverse.map (fun i => (((0 : Nat), i), i)) := by
    simp only [allFieldsOfOneFile, fullFieldMap]
  have hsize : allFieldsOfOneFile.field_index_map_.size = 65536 := by
    rw [hmap]
    exact (List.length_map _ _).trans ((List.length_reverse _).trans (List.length_range _))
  refine ⟨hsize, by decide, ?_, ?_⟩
  · have hf : allFieldsOfOneFile.field_index_map_.find (0, u16 0) = some 0 := by
      rw [hmap, show u16 0 = 0 from rfl, find_fields_of_file]
      rw [if_pos ⟨rfl, List.mem_reverse.2 (List.mem_range.2 (by norm_num))⟩]
    rw [GetFieldId_of_find hf]
  · have hf : allFieldsOfOneFile.field_index_map_.find (1, u16 0) = none := by
      rw [hmap, show u16 0 = 0 from rfl, find_fields_of_file]
      rw [if_neg (fun h => absurd h.1 (by decide))]
    rw [GetFieldId_of_miss hf, hsize]
    decide

/-- C31 (amended): as long as at most `2 ^ 16` distinct `(dex_file, field_idx)` pairs are
encountered, a sequence of `GetFieldId` calls that starts with an empty field index map
returns for each pair its position in the list of the distinct pairs in the order of their
first encounter: the n-th distinct pair receives id n-1; a later call with a pair of the
sequence returns the same id and leaves the state unchanged; two different pairs never
receive the same id. -/
theorem GetFieldId_dense_ids (pairs : List (Nat × Nat)) (s : LocalValueNumbering)
    (hp : ∀ p ∈ pairs, p.2 < 2 ^ 16) (hempty : s.field_index_map_ = [])
    (hlen : (encountered [] pairs).length ≤ 2 ^ 16) :
    (s.fieldIds pairs).1 = pairs.map (fun p => position p (encountered [] pairs)) ∧
      (∀ (n : Nat) (p : Nat × Nat), (encountered [] pairs)[n]? = some p →
        position p (encountered [] pairs) = n) ∧
      (∀ p ∈ pairs, (s.fieldIds pairs).2.GetFieldId p.1 p.2 =
        (position p (encountered [] pairs), (s.fieldIds pairs).2)) ∧
      (∀ p ∈ pairs, ∀ q ∈ pairs, p ≠ q →
        position p (encountered [] pairs) ≠ position q (encountered [] pairs)) := by
  have h0 : FieldsSeen [] s := by
    refine ⟨by rw [hempty]; rfl, fun p => ?_⟩
    rw [hempty]
    simp [SafeMap.find]
  obtain ⟨h1, h2⟩ := fieldIds_FieldsSeen pairs [] s hp h0 hlen
  refine ⟨h1, position_of_getElem _ (encountered_nodup pairs [] List.nodup_nil), ?_, ?_⟩
  · intro p hpm
    have hm := encountered_mem pairs [] p hpm
    have hf := h2.2 p
    rw [if_pos hm] at hf
    apply GetFieldId_of_find
    rw [GlobalValueNumbering.u16_of_lt (hp p hpm)]
    exact hf
  · intro p hpm q hqm hne e
    exact hne (position_inj p q _ (encountered_mem pairs [] p hpm)
      (encountered_mem pairs [] q hqm) e)

theorem GetFieldId_dense_ids_witness :
    (init.fieldIds [(1, 7), (1, 9), (1, 7), (2, 7)]).1 =
        [(1, 7), (1, 9), (1, 7), (2, 7)].map
          (fun p => position p (encountered [] [(1, 7), (1, 9), (1, 7), (2, 7)])) ∧
      (∀ (n : Nat) (p : Nat × Nat),
        (encountered [] [(1, 7), (1, 9), (1, 7), (2, 7)])[n]? = some p →
        position p (encountered [] [(1, 7), (1, 9), (1, 7), (2, 7)]) = n) ∧
      (∀ p ∈ [((1 : Nat), (7 : Nat)), (1, 9), (1, 7), (2, 7)],
        (init.fieldIds [(1, 7), (1, 9), (1, 7), (2, 7)]).2.GetFieldId p.1 p.2 =
          (position p (encountered [] [(1, 7), (1, 9), (1, 7), (2, 7)]),
            (init.fieldIds [(1, 7), (1, 9), (1, 7), (2, 7)]).2)) ∧
      (∀ p ∈ [((1 : Nat), (7 : Nat)), (1, 9), (1, 7), (2, 7)],
        ∀ q ∈ [((1 : Nat), (7 : Nat)), (1, 9), (1, 7), (2, 7)], p ≠ q →
        position p (encountered [] [(1, 7), (1, 9), (1, 7), (2, 7)]) ≠
          position q (encountered [] [(1, 7), (1, 9), (1, 7), (2, 7)])) :=
  GetFieldId_dense_ids [(1, 7), (1, 9), (1, 7), (2, 7)] init (by decide) rfl (by decide)

/-- The ids of the example sequence: the repeated pair has its first id again. -/
theorem fieldIds_example :
    (init.fieldIds [(1, 7), (1, 9), (1, 7), (2, 7)]).1 = [0, 1, 0, 2] := by
  decide

end LocalValueNumbering

/-! ## The value returned for an array load (C39) -/

namespace LocalValueNumbering

open GlobalValueNumbering (u16 u32 u64 BuildKey MapExt Evolves)
open Instruction

/-- The AGET cases: the looked-up value name is held by a variable declared inside the case
block, so `GetValueNumber` returns `NO_VALUE` for every AGET variant in every state, whatever
name it records for `defs[0]`; on the initial state `aget v2, v0, v1` records the value name
4 for register 2 and returns `NO_VALUE`. -/
theorem aget_returns_no_value :
    (∀ (s : LocalValueNumbering) (mir : MIR) (next : Option MIR),
        armOf (u16 mir.opcode) = .aget → (s.GetValueNumber mir next).1 = NO_VALUE) ∧
      (init.GetValueNumber (getElement 2) none).1 = NO_VALUE ∧
      (init.GetValueNumber (getElement 2) none).2.1.sreg_value_map_.find 2 = some 4 := by
  refine ⟨?_, by decide, by decide⟩
  intro s mir next harm
  unfold GetValueNumber
  simp only [harm]
  split <;> rfl

end LocalValueNumbering

/-! ## Moves (C32) -/

namespace LocalValueNumbering

open GlobalValueNumbering (u16 u32 u64 BuildKey MapExt Evolves)
open Instruction

theorem SregWideExt_refl (s : LocalValueNumbering) : SregWideExt s s := fun _ _ h => h

theorem SregWideExt_trans {a b c : LocalValueNumbering} (h1 : SregWideExt a b)
    (h2 : SregWideExt b c) : SregWideExt a c := fun r v h => h2 r v (h1 r v h)

theorem SregWideExt_of_eq {s s' : LocalValueNumbering}
    (h : s'.sreg_wide_value_map_ = s.sreg_wide_value_map_) : SregWideExt s s' := by
  intro r v hr
  rw [h]
  exact hr

/-- Reading a wide register records its value name and keeps the names recorded before. -/
theorem GetOperandValueWide_sreg (s : LocalValueNumbering) (r : Nat) :
    (s.GetOperandValueWide r).2.sreg_wide_value_map_.find (u16 r) =
        some (s.GetOperandValueWide r).1 ∧
      SregWideExt s (s.GetOperandValueWide r).2 := by
  unfold GetOperandValueWide
  cases h : s.sreg_wide_value_map_.find (u16 r) with
  | some v => exact ⟨h, SregWideExt_refl s⟩
  | none =>
    refine ⟨by simp [SafeMap.find_Put], ?_⟩
    intro r' v hr
    simp only [SafeMap.find_Put, LookupValue]
    rw [if_neg]
    · exact hr
    · intro e
      rw [← e, h] at hr
      cases hr

theorem GetOperandValueWide_of_find {s : LocalValueNumbering} {r v : Nat}
    (h : s.sreg_wide_value_map_.find (u16 r) = some v) : s.GetOperandValueWide r = (v, s) := by
  unfold GetOperandValueWide
  simp [h]

theorem SetOperandValueWide_sreg (s : LocalValueNumbering) (r v : Nat) :
    SregWideExt s (s.SetOperandValueWide r v) := by
  unfold SetOperandValueWide
  cases h : s.sreg_wide_value_map_.find (u16 r) with
  | some w => exact SregWideExt_refl s
  | none =>
    intro r' v' hr
    simp only [SafeMap.find_Put]
    rw [if_neg]
    · exact hr
    · intro e
      rw [← e, h] at hr
      cases hr

theorem MakeArgsNonUniqueLoop_sreg_wide (uses : List Nat) : ∀ s : LocalValueNumbering,
    (s.MakeArgsNonUniqueLoop uses).sreg_wide_value_map_ = s.sreg_wide_value_map_ := by
  induction uses with
  | nil => intro s; rfl
  | cons u rest ih =>
    intro s
    unfold MakeArgsNonUniqueLoop
    rw [ih]
    simp

/-- The value names recorded for wide registers are kept by every operation of
`GetValueNumber`. -/
theorem Threads_SregWideExt (s0 : LocalValueNumbering) :
    Threads (fun _ _ s => SregWideExt s0 s) where
  mono := fun _ _ h => h
  lookup := fun op x y m h => SregWideExt_trans h (SregWideExt_of_eq (by simp))
  getOperand := fun r h => SregWideExt_trans h (SregWideExt_of_eq (by simp))
  getOperandWide := fun r h => SregWideExt_trans h (GetOperandValueWide_sreg _ r).2
  setOperand := fun r v h => SregWideExt_trans h (SregWideExt_of_eq (by simp))
  setOperandWide := fun r v h => SregWideExt_trans h (SetOperandValueWide_sreg _ r v)
  fieldId := fun d f h => SregWideExt_trans h (SregWideExt_of_eq (by simp))
  globalMemory := fun h => SregWideExt_trans h (SregWideExt_of_eq (by simp))
  memoryVersion := fun x f t h => SregWideExt_trans h (SregWideExt_of_eq (by simp))
  uniqueNonNull := fun mir h => SregWideExt_trans h (SregWideExt_of_eq (by
    simp [MarkUniqueNonNull]))
  argsNonUnique := fun mir h => SregWideExt_trans h (SregWideExt_of_eq (by
    unfold MakeArgsNonUnique
    exact MakeArgsNonUniqueLoop_sreg_wide _ _))
  nullCheck := fun mir reg h => SregWideExt_trans h (SregWideExt_of_eq (by simp))
  rangeCheck := fun mir x i h => SregWideExt_trans h (SregWideExt_of_eq (by simp))
  putObject := fun mir h => SregWideExt_trans h (SregWideExt_of_eq (by simp [HandlePutObject]))
  bump := fun h => h
  unresolvedI := fun _ h => h
  unresolvedS := fun _ h => h

end LocalValueNumbering

namespace LocalValueNumbering

open GlobalValueNumbering (u16 u32 u64 BuildKey MapExt Evolves)
open Instruction

/-- Reading and then recording: after `GetOperandValue src` and `SetOperandValue dst` with
the name read, a destination that had no name has the name of the source. -/
theorem copy_narrow (s : LocalValueNumbering) (dst src : Nat)
    (hnew : s.sreg_value_map_.find (u16 dst) = none)
    (h16 : (s.GetOperandValue src).1 < 2 ^ 16) :
    ((s.GetOperandValue src).2.SetOperandValue dst
        (s.GetOperandValue src).1).sreg_value_map_.find (u16 src) =
        some (s.GetOperandValue src).1 ∧
      ((s.GetOperandValue src).2.SetOperandValue dst
        (s.GetOperandValue src).1).sreg_value_map_.find (u16 dst) =
        some (s.GetOperandValue src).1 := by
  obtain ⟨g1, g2⟩ := GetOperandValue_sreg s src
  have hs := SetOperandValue_sreg (s.GetOperandValue src).2 dst (s.GetOperandValue src).1
  refine ⟨hs _ _ g1, ?_⟩
  by_cases hd : u16 dst = u16 src
  · rw [hd]
    exact hs _ _ g1
  · have hnone : (s.GetOperandValue src).2.sreg_value_map_.find (u16 dst) = none := by
      unfold GetOperandValue
      cases h : s.sreg_value_map_.find (u16 src) with
      | some v => exact hnew
      | none =>
        simp only [SafeMap.find_Put, LookupValue]
        rw [if_neg (fun e => hd e.symm)]
        exact hnew
    unfold SetOperandValue
    rw [hnone]
    simp only [SafeMap.find_Put, if_true]
    rw [GlobalValueNumbering.u16_of_lt h16]

/-- The wide counterpart of `copy_narrow`. -/
theorem copy_wide (s : LocalValueNumbering) (dst src : Nat)
    (hnew : s.sreg_wide_value_map_.find (u16 dst) = none)
    (h16 : (s.GetOperandValueWide src).1 < 2 ^ 16) :
    ((s.GetOperandValueWide src).2.SetOperandValueWide dst
        (s.GetOperandValueWide src).1).sreg_wide_value_map_.find (u16 src) =
        some (s.GetOperandValueWide src).1 ∧
      ((s.GetOperandValueWide src).2.SetOperandValueWide dst
        (s.GetOperandValueWide src).1).sreg_wide_value_map_.find (u16 dst) =
        some (s.GetOperandValueWide src).1 := by
  obtain ⟨g1, g2⟩ := GetOperandValueWide_sreg s src
  have hs := SetOperandValueWide_sreg (s.GetOperandValueWide src).2 dst
    (s.GetOperandValueWide src).1
  refine ⟨hs _ _ g1, ?_⟩
  by_cases hd : u16 dst = u16 src
  · rw [hd]
    exact hs _ _ g1
  · have hnone : (s.GetOperandValueWide src).2.sreg_wide_value_map_.find (u16 dst) = none := by
      unfold GetOperandValueWide
      cases h : s.sreg_wide_value_map_.find (u16 src) with
      | some v => exact hnew
      | none =>
        simp only [SafeMap.find_Put, LookupValue]
        rw [if_neg (fun e => hd e.symm)]
        exact hnew
    unfold SetOperandValueWide
    rw [hnone]
    simp only [SafeMap.find_Put, if_true]
    rw [GlobalValueNumbering.u16_of_lt h16]

/-- What the move cases do (narrow moves and `kMirOpCopy` on the map of narrow registers,
wide moves on the map of wide registers): `GetValueNumber` returns the value name read for
the source register; when the destination register has no name yet, as a register that is
defined here in SSA form, that name is recorded for it; after any further instructions,
reading either register with the accessor of the same width returns that name and leaves
the state unchanged. -/
theorem move_records_source_name (s : LocalValueNumbering) (mir : MIR) (next : Option MIR)
    (harm : armOf (u16 mir.opcode) = .move ∨ armOf (u16 mir.opcode) = .moveWide)
    (hnew : s.recordedName (decide (armOf (u16 mir.opcode) = .moveWide))
      (mir.defs.getD 0 0) = none)
    (h16 : (s.readName (decide (armOf (u16 mir.opcode) = .moveWide))
      (mir.uses.getD 0 0)).1 < 2 ^ 16) :
    (s.GetValueNumber mir next).1 =
        (s.readName (decide (armOf (u16 mir.opcode) = .moveWide)) (mir.uses.getD 0 0)).1 ∧
      (s.GetValueNumber mir next).2.1.recordedName
          (decide (armOf (u16 mir.opcode) = .moveWide)) (mir.uses.getD 0 0) =
        some (s.GetValueNumber mir next).1 ∧
      (s.GetValueNumber mir next).2.1.recordedName
          (decide (armOf (u16 mir.opcode) = .moveWide)) (mir.defs.getD 0 0) =
        some (s.GetValueNumber mir next).1 ∧
      ∀ seq : List (MIR × Option MIR),
        ((s.GetValueNumber mir next).2.1.processSeq seq).readName
            (decide (armOf (u16 mir.opcode) = .moveWide)) (mir.defs.getD 0 0) =
          ((s.GetValueNumber mir next).1, (s.GetValueNumber mir next).2.1.processSeq seq) ∧
        ((s.GetValueNumber mir next).2.1.processSeq seq).readName
            (decide (armOf (u16 mir.opcode) = .moveWide)) (mir.uses.getD 0 0) =
          ((s.GetValueNumber mir next).1, (s.GetValueNumber mir next).2.1.processSeq seq) := by
  rcases harm with harm | harm
  · have hw : decide (armOf (u16 mir.opcode) = Arm.moveWide) = false := by
      rw [harm]; decide
    rw [hw] at hnew h16 ⊢
    simp only [recordedName, readName, Bool.false_eq_true, if_false] at hnew h16 ⊢
    have e : s.GetValueNumber mir next = ((s.GetOperandValue (mir.uses.getD 0 0)).1,
        (s.GetOperandValue (mir.uses.getD 0 0)).2.SetOperandValue (mir.defs.getD 0 0)
          (s.GetOperandValue (mir.uses.getD 0 0)).1, mir) := by
      unfold GetValueNumber
      simp only [harm]
    obtain ⟨c1, c2⟩ := copy_narrow s _ _ hnew h16
    rw [e]
    refine ⟨rfl, c1, c2, fun seq => ?_⟩
    have hext := thread_processSeq (Threads_SregExt
      ((s.GetOperandValue (mir.uses.getD 0 0)).2.SetOperandValue (mir.defs.getD 0 0)
        (s.GetOperandValue (mir.uses.getD 0 0)).1)) seq (a := 0) (b := 0) (SregExt_refl _)
    exact ⟨GetOperandValue_of_find (hext _ _ c2), GetOperandValue_of_find (hext _ _ c1)⟩
  · have hw : decide (armOf (u16 mir.opcode) = Arm.moveWide) = true := by
      rw [harm]; decide
    rw [hw] at hnew h16 ⊢
    simp only [recordedName, readName, if_true] at hnew h16 ⊢
    have e : s.GetValueNumber mir next = ((s.GetOperandValueWide (mir.uses.getD 0 0)).1,
        (s.GetOperandValueWide (mir.uses.getD 0 0)).2.SetOperandValueWide (mir.defs.getD 0 0)
          (s.GetOperandValueWide (mir.uses.getD 0 0)).1, mir) := by
      unfold GetValueNumber
      simp only [harm]
    obtain ⟨c1, c2⟩ := copy_wide s _ _ hnew h16
    rw [e]
    refine ⟨rfl, c1, c2, fun seq => ?_⟩
    have hext := thread_processSeq (Threads_SregWideExt
      ((s.GetOperandValueWide (mir.uses.getD 0 0)).2.SetOperandValueWide (mir.defs.getD 0 0)
        (s.GetOperandValueWide (mir.uses.getD 0 0)).1)) seq (a := 0) (b := 0)
      (SregWideExt_refl _)
    exact ⟨GetOperandValueWide_of_find (hext _ _ c2), GetOperandValueWide_of_find (hext _ _ c1)⟩

/-- C32 (the code as written): `move v2, v1` on the initial state returns the value name 1
of `v1` and records it for `v2` in the map of narrow registers; a following `neg-int` is
given the same value name whether it reads `v2` or `v1`, but a following `int-to-long`,
whose case reads its narrow operand with `GetOperandValueWide`, is given the name 3 when it
reads `v2` and the name 2 when it reads `v1`. -/
theorem move_then_int_to_long :
    (init.GetValueNumber (moveReg 2 1) none).1 = 1 ∧
      (init.GetValueNumber (moveReg 2 1) none).2.1.sreg_value_map_.find 1 = some 1 ∧
      (init.GetValueNumber (moveReg 2 1) none).2.1.sreg_value_map_.find 2 = some 1 ∧
      ((init.GetValueNumber (moveReg 2 1) none).2.1.GetValueNumber (negInt 4 2) none).1 =
        ((init.GetValueNumber (moveReg 2 1) none).2.1.GetValueNumber (negInt 4 1) none).1 ∧
      ((init.GetValueNumber (moveReg 2 1) none).2.1.GetValueNumber (intToLong 4 2) none).1 = 3 ∧
      ((init.GetValueNumber (moveReg 2 1) none).2.1.GetValueNumber (intToLong 4 1) none).1 = 2 := by
  decide

end LocalValueNumbering

/-! ## Idempotence of check elimination (C33) -/

namespace LocalValueNumbering

open GlobalValueNumbering (u16 u32 u64 BuildKey MapExt Evolves)
open Instruction

@[simp] theorem withFlags_opcode (mir : MIR) (f : Nat) : (withFlags mir f).opcode = mir.opcode := rfl
@[simp] theorem withFlags_vB (mir : MIR) (f : Nat) : (withFlags mir f).vB = mir.vB := rfl
@[simp] theorem withFlags_vB_wide (mir : MIR) (f : Nat) :
    (withFlags mir f).vB_wide = mir.vB_wide := rfl
@[simp] theorem withFlags_uses (mir : MIR) (f : Nat) : (withFlags mir f).uses = mir.uses := rfl
@[simp] theorem withFlags_defs (mir : MIR) (f : Nat) : (withFlags mir f).defs = mir.defs := rfl
@[simp] theorem withFlags_optimization_flags (mir : MIR) (f : Nat) :
    (withFlags mir f).optimization_flags = f := rfl
@[simp] theorem withFlags_is_volatile (mir : MIR) (f : Nat) :
    (withFlags mir f).is_volatile = mir.is_volatile := rfl
@[simp] theorem withFlags_declaring_dex_file (mir : MIR) (f : Nat) :
    (withFlags mir f).declaring_dex_file = mir.declaring_dex_file := rfl
@[simp] theorem withFlags_declaring_field_idx (mir : MIR) (f : Nat) :
    (withFlags mir f).declaring_field_idx = mir.declaring_field_idx := rfl
@[simp] theorem withFlags_withFlags (mir : MIR) (f g : Nat) :
    withFlags (withFlags mir f) g = withFlags mir g := rfl
@[simp] theorem withFlags_self (mir : MIR) : withFlags mir mir.optimization_flags = mir := rfl

theorem HandleNullCheck_withFlags (s : LocalValueNumbering) (mir : MIR) (f reg : Nat) :
    s.HandleNullCheck (withFlags mir f) reg =
      ((s.HandleNullCheck mir reg).1,
        withFlags mir (f ||| (if u16 reg ∈ s.null_checked_ then MIR_IGNORE_NULL_CHECK else 0))) := by
  unfold HandleNullCheck
  split <;> simp [withFlags]

theorem HandleRangeCheck_withFlags (s : LocalValueNumbering) (mir : MIR) (f a i : Nat) :
    s.HandleRangeCheck (withFlags mir f) a i =
      ((s.HandleRangeCheck mir a i).1,
        withFlags mir (f ||| (if s.ValueExists ARRAY_REF a i NO_VALUE then
          MIR_IGNORE_RANGE_CHECK else 0))) := by
  unfold HandleRangeCheck
  split <;> simp [withFlags]

end LocalValueNumbering

namespace LocalValueNumbering

open GlobalValueNumbering (u16 u32 u64 BuildKey MapExt Evolves)
open Instruction

theorem aputBody_withFlags (s : LocalValueNumbering) (mir : MIR) (f : Nat) :
    s.aputBody (withFlags mir f) =
      ((s.aputBody (withFlags mir 0)).1, (s.aputBody (withFlags mir 0)).2.1,
        withFlags mir (f ||| (s.aputBody (withFlags mir 0)).2.2.optimization_flags)) := by
  unfold aputBody
  simp only [withFlags_opcode, withFlags_uses, HandleNullCheck_withFlags,
    HandleRangeCheck_withFlags, withFlags_optimization_flags, Nat.zero_or, Nat.lor_assoc]

theorem iputBody_withFlags (s : LocalValueNumbering) (mir : MIR) (f : Nat) :
    s.iputBody (withFlags mir f) =
      ((s.iputBody (withFlags mir 0)).1, (s.iputBody (withFlags mir 0)).2.1,
        withFlags mir (f ||| (s.iputBody (withFlags mir 0)).2.2.optimization_flags)) := by
  unfold iputBody
  simp only [withFlags_opcode, withFlags_uses, HandleNullCheck_withFlags,
    withFlags_optimization_flags, Nat.zero_or, withFlags_declaring_dex_file,
    withFlags_is_volatile, withFlags_declaring_field_idx]
  split_ifs <;> rfl

theorem sputBody_withFlags (s : LocalValueNumbering) (mir : MIR) (f : Nat) :
    s.sputBody (withFlags mir f) =
      ((s.sputBody (withFlags mir 0)).1, (s.sputBody (withFlags mir 0)).2.1,
        withFlags mir (f ||| (s.sputBody (withFlags mir 0)).2.2.optimization_flags)) := by
  unfold sputBody
  simp only [withFlags_opcode, withFlags_optimization_flags, withFlags_declaring_dex_file,
    withFlags_is_volatile, withFlags_declaring_field_idx]
  split_ifs <;> simp

/-- The flags of the instruction influence `GetValueNumber` only through the flags it
returns: the value name and the state are those obtained without any flag, and the returned
instruction carries the given flags or-ed with the bits the call adds. -/
theorem GetValueNumber_withFlags (s : LocalValueNumbering) (mir : MIR) (next : Option MIR)
    (f : Nat) :
    s.GetValueNumber (withFlags mir f) next =
      ((s.GetValueNumber (withFlags mir 0) next).1,
        (s.GetValueNumber (withFlags mir 0) next).2.1,
        withFlags mir (f ||| addedFlags s mir next)) := by
  unfold addedFlags
  cases harm : armOf (u16 mir.opcode) <;>
    (unfold GetValueNumber
     simp only [withFlags_opcode, harm, withFlags_uses, withFlags_defs, withFlags_vB,
       withFlags_vB_wide, withFlags_is_volatile, withFlags_declaring_dex_file,
       withFlags_declaring_field_idx, withFlags_optimization_flags, Nat.or_zero,
       HandleNullCheck_withFlags, HandleRangeCheck_withFlags, Nat.zero_or, Nat.lor_assoc,
       MakeArgsNonUnique, HandlePutObject])
  all_goals first
    | rfl
    | (split_ifs <;> rfl)
    | (split_ifs <;> simp)
    | exact aputBody_withFlags _ _ _
    | exact iputBody_withFlags _ _ _
    | exact sputBody_withFlags _ _ _

/-- The flags of `mir->next` do not influence `GetValueNumber`. -/
theorem GetValueNumber_next_withFlags (s : LocalValueNumbering) (mir nx : MIR) (f : Nat) :
    s.GetValueNumber mir (some (withFlags nx f)) = s.GetValueNumber mir (some nx) := by
  cases harm : armOf (u16 mir.opcode) <;>
    (unfold GetValueNumber
     simp only [harm])
  rfl

/-- What a pass leaves of an instruction: the instruction with more flags. -/
theorem GetValueNumber_out (s : LocalValueNumbering) (mir : MIR) (next : Option MIR) :
    (s.GetValueNumber mir next).2.2 =
      withFlags mir (mir.optimization_flags ||| addedFlags s mir next) := by
  have h := GetValueNumber_withFlags s mir next mir.optimization_flags
  rw [withFlags_self] at h
  rw [h]

/-- The state after an instruction does not depend on the flags of the instruction. -/
theorem GetValueNumber_state_withFlags (s : LocalValueNumbering) (mir : MIR)
    (next : Option MIR) (f : Nat) :
    (s.GetValueNumber (withFlags mir f) next).2.1 = (s.GetValueNumber mir next).2.1 := by
  have h := GetValueNumber_withFlags s mir next mir.optimization_flags
  rw [withFlags_self] at h
  rw [h, GetValueNumber_withFlags s mir next f]

/-- The next instruction is seen alike before and after a pass over it. -/
theorem lvnPass_head (s : LocalValueNumbering) (block : List MIR) :
    ∀ (t : LocalValueNumbering) (mir : MIR),
      t.GetValueNumber mir (lvnPass s block).head? = t.GetValueNumber mir block.head? := by
  cases block with
  | nil => exact fun _ _ => rfl
  | cons nx rest =>
    intro t mir
    show t.GetValueNumber mir (some (s.GetValueNumber nx rest.head?).2.2) = _
    rw [GetValueNumber_out]
    exact GetValueNumber_next_withFlags _ _ _ _

theorem lor_lor_self (a b : Nat) : (a ||| b) ||| b = a ||| b := by
  rw [Nat.lor_assoc, Nat.or_self]

/-- A second pass from the same state leaves the block as the first pass left it. -/
theorem lvnPass_lvnPass (block : List MIR) :
    ∀ s : LocalValueNumbering, lvnPass s (lvnPass s block) = lvnPass s block := by
  induction block with
  | nil => intro s; rfl
  | cons mir rest ih =>
    intro s
    have hhead := lvnPass_head (s.GetValueNumber mir rest.head?).2.1 rest
    show (s.GetValueNumber (s.GetValueNumber mir rest.head?).2.2
        (lvnPass (s.GetValueNumber mir rest.head?).2.1 rest).head?).2.2 ::
      lvnPass (s.GetValueNumber (s.GetValueNumber mir rest.head?).2.2
        (lvnPass (s.GetValueNumber mir rest.head?).2.1 rest).head?).2.1
        (lvnPass (s.GetValueNumber mir rest.head?).2.1 rest) =
      (s.GetValueNumber mir rest.head?).2.2 ::
        lvnPass (s.GetValueNumber mir rest.head?).2.1 rest
    rw [hhead, GetValueNumber_out s mir, GetValueNumber_state_withFlags,
      GetValueNumber_withFlags, ih, lor_lor_self]

/-- C33: a pass of local value numbering over a block that a pass from the same starting
state has already processed, and that therefore sees the flags the first pass left, leaves
every instruction as the first pass left it; in particular, from the fresh initial state,
the instructions carrying `MIR_IGNORE_NULL_CHECK` and those carrying
`MIR_IGNORE_RANGE_CHECK` are the same after the second pass as after the first. -/
theorem check_elimination_idempotent (block : List MIR) :
    lvnPass init (lvnPass init block) = lvnPass init block ∧
      carrying MIR_IGNORE_NULL_CHECK (lvnPass init (lvnPass init block)) =
        carrying MIR_IGNORE_NULL_CHECK (lvnPass init block) ∧
      carrying MIR_IGNORE_RANGE_CHECK (lvnPass init (lvnPass init block)) =
        carrying MIR_IGNORE_RANGE_CHECK (lvnPass init block) ∧
      ∀ s : LocalValueNumbering, lvnPass s (lvnPass s block) = lvnPass s block := by
  have h := lvnPass_lvnPass block
  refine ⟨h init, ?_, ?_, h⟩ <;> rw [h init]

/-- An example pass: the second `aget` of the same element carries both flags. -/
theorem lvnPass_example :
    carrying MIR_IGNORE_NULL_CHECK (lvnPass init [getElement 2, getElement 3]) = [false, true] ∧
      carrying MIR_IGNORE_RANGE_CHECK (lvnPass init [getElement 2, getElement 3]) =
        [false, true] := by
  decide

end LocalValueNumbering

/-! ## Redundant loads (C37) -/

namespace LocalValueNumbering

open GlobalValueNumbering (u16 u32 u64 BuildKey MapExt Evolves)
open Instruction

/-- The operations of an instruction that is neither a put nor an invoke nor a get of a
volatile field preserve every predicate closed under them. -/
theorem threadReads_GetValueNumber {P : LocalValueNumbering → Prop} (cl : ThreadsReads P)
    {s : LocalValueNumbering} (mir : MIR) (next : Option MIR)
    (hw : writesOrVolatile mir = false) (h : P s) : P (s.GetValueNumber mir next).2.1 := by
  have hwr : (armOf (u16 mir.opcode)).isWrite = false := by
    unfold writesOrVolatile at hw
    exact (Bool.or_eq_false_iff.1 hw).1
  have hvol : armOf (u16 mir.opcode) = .iget ∨ armOf (u16 mir.opcode) = .sget →
      mir.is_volatile = false := by
    intro ha
    unfold writesOrVolatile at hw
    have h2 := (Bool.or_eq_false_iff.1 hw).2
    rcases ha with ha | ha <;> simpa [ha] using h2
  unfold GetValueNumber
  simp only []
  split
  · exact h
  · refine cl.argsNonUnique _ ?_
    split
    · split
      · exact cl.uniqueNonNull _ h
      · exact h
    · exact h
  · rename_i harm
    rw [harm] at hwr
    exact absurd hwr (by decide)
  · rename_i harm
    rw [harm] at hwr
    exact absurd hwr (by decide)
  · exact cl.setOperand _ _ (cl.getOperand _ h)
  · exact cl.uniqueNonNull _ h
  · exact cl.setOperandWide _ _ (cl.getOperandWide _ h)
  · exact h
  · exact cl.setOperand _ _ (cl.getOperand _ h)
  · exact cl.setOperandWide _ _ (cl.getOperandWide _ h)
  · exact cl.setOperand _ _ (cl.lookup _ _ _ _ h)
  · exact cl.setOperand _ _ (cl.lookup _ _ _ _ h)
  · refine cl.setOperandWide _ _ (cl.lookup _ _ _ _ ?_)
    split
    · exact cl.lookup _ _ _ _ (cl.lookup _ _ _ _ h)
    · exact cl.lookup _ _ _ _ (cl.lookup _ _ _ _ h)
  · exact cl.setOperandWide _ _ (cl.lookup _ _ _ _ (cl.lookup _ _ _ _ (cl.lookup _ _ _ _ h)))
  · exact cl.setOperandWide _ _ (cl.lookup _ _ _ _ (cl.lookup _ _ _ _ (cl.lookup _ _ _ _ h)))
  · exact cl.setOperand _ _ (cl.lookup _ _ _ _ (cl.getOperand _ h))
  · exact cl.setOperand _ _ (cl.lookup _ _ _ _ (cl.getOperand _ h))
  · exact cl.setOperandWide _ _ (cl.lookup _ _ _ _ (cl.getOperandWide _ h))
  · exact cl.setOperandWide _ _ (cl.lookup _ _ _ _ (cl.getOperandWide _ h))
  · exact cl.setOperand _ _ (cl.lookup _ _ _ _ (cl.getOperandWide _ (cl.getOperandWide _ h)))
  · exact cl.setOperand _ _ (cl.lookup _ _ _ _ (cl.getOperand _ (cl.getOperand _ h)))
  · exact cl.setOperandWide _ _
      (cl.lookup _ _ _ _ (cl.getOperandWide _ (cl.getOperandWide _ h)))
  · exact cl.setOperandWide _ _
      (cl.lookup _ _ _ _ (cl.getOperandWide _ (cl.getOperandWide _ h)))
  · exact cl.setOperand _ _ (cl.lookup _ _ _ _ (cl.getOperand _ (cl.getOperand _ h)))
  · exact cl.setOperand _ _ (cl.lookup _ _ _ _ (cl.lookup _ _ _ _ (cl.getOperand _ h)))
  · have hr := cl.rangeCheck
      ((s.GetOperandValue (mir.uses.getD 0 0)).2.HandleNullCheck mir
        (s.GetOperandValue (mir.uses.getD 0 0)).1).2
      (s.GetOperandValue (mir.uses.getD 0 0)).1
      (((s.GetOperandValue (mir.uses.getD 0 0)).2.HandleNullCheck mir
        (s.GetOperandValue (mir.uses.getD 0 0)).1).1.GetOperandValue (mir.uses.getD 1 0)).1
      (cl.getOperand (mir.uses.getD 1 0) (cl.nullCheck mir
        (s.GetOperandValue (mir.uses.getD 0 0)).1 (cl.getOperand (mir.uses.getD 0 0) h)))
    split
    · exact cl.setOperandWide _ _ (cl.lookup _ _ _ _ hr)
    · exact cl.setOperand _ _ (cl.lookup _ _ _ _ hr)
  · rename_i harm
    rw [harm] at hwr
    exact absurd hwr (by decide)
  · rename_i harm
    rw [harm] at hwr
    exact absurd hwr (by decide)
  · rename_i harm
    have hv := hvol (Or.inl harm)
    have hn := cl.nullCheck mir (s.GetOperandValue (mir.uses.getD 0 0)).1
      (cl.getOperand (mir.uses.getD 0 0) h)
    simp only [hv, Bool.false_eq_true, if_false]
    split
    · exact cl.setOperandWide _ _ (cl.lookup _ _ _ _ (cl.fieldId _ _ hn))
    · exact cl.setOperand _ _ (cl.lookup _ _ _ _ (cl.fieldId _ _ hn))
  · rename_i harm
    rw [harm] at hwr
    exact absurd hwr (by decide)
  · rename_i harm
    rw [harm] at hwr
    exact absurd hwr (by decide)
  · rename_i harm
    have hv := hvol (Or.inr harm)
    simp only [hv, Bool.false_eq_true, if_false]
    split
    · exact cl.setOperandWide _ _ (cl.lookup _ _ _ _ (cl.fieldId _ _ h))
    · exact cl.setOperand _ _ (cl.lookup _ _ _ _ (cl.fieldId _ _ h))
  · rename_i harm
    rw [harm] at hwr
    exact absurd hwr (by decide)
  · rename_i harm
    rw [harm] at hwr
    exact absurd hwr (by decide)
  · exact h

theorem threadReads_processSeq {P : LocalValueNumbering → Prop} (cl : ThreadsReads P)
    (seq : List (MIR × Option MIR)) :
    ∀ {s : LocalValueNumbering}, (∀ p ∈ seq, writesOrVolatile p.1 = false) → P s →
      P (s.processSeq seq) := by
  induction seq with
  | nil => intro s _ h; exact h
  | cons p rest ih =>
    intro s hw h
    unfold processSeq
    exact ih (fun q hq => hw q (List.mem_cons_of_mem _ hq))
      (threadReads_GetValueNumber cl p.1 p.2 (hw p (List.mem_cons_self _ _)) h)

theorem Quiet_refl (s : LocalValueNumbering) : Quiet s s :=
  ⟨rfl, rfl, rfl, fun _ h => h, fun _ _ h => h⟩

theorem Quiet_step {s0 s s' : LocalValueNumbering} (h : Quiet s0 s)
    (h1 : s'.memory_version_map_ = s.memory_version_map_)
    (h2 : s'.global_memory_version_ = s.global_memory_version_)
    (h3 : s'.unresolved_ifield_version_ = s.unresolved_ifield_version_)
    (h4 : ∀ x ∈ s.null_checked_, x ∈ s'.null_checked_)
    (h5 : ∀ k v, s.field_index_map_.find k = some v → s'.field_index_map_.find k = some v) :
    Quiet s0 s' := by
  obtain ⟨a1, a2, a3, a4, a5⟩ := h
  exact ⟨h1.trans a1, h2.trans a2, h3.trans a3, fun x hx => h4 x (a4 x hx),
    fun k v hk => h5 k v (a5 k v hk)⟩

theorem mem_setInsert (x y : Nat) (l : List Nat) (h : x ∈ l) : x ∈ setInsert y l := by
  unfold setInsert
  split
  · exact h
  · exact List.mem_cons_of_mem _ h

end LocalValueNumbering

namespace LocalValueNumbering

open GlobalValueNumbering (u16 u32 u64 BuildKey MapExt Evolves)
open Instruction

theorem MakeArgsNonUniqueLoop_field_index_map_ (uses : List Nat) :
    ∀ s : LocalValueNumbering,
      (s.MakeArgsNonUniqueLoop uses).field_index_map_ = s.field_index_map_ := by
  induction uses with
  | nil => intro s; rfl
  | cons u rest ih =>
    intro s
    unfold MakeArgsNonUniqueLoop
    rw [ih]
    simp

/-- `GetFieldId` keeps the ids given before. -/
theorem GetFieldId_keeps (s : LocalValueNumbering) (d f : Nat) :
    ∀ k v, s.field_index_map_.find k = some v →
      (s.GetFieldId d f).2.field_index_map_.find k = some v := by
  intro k v hk
  unfold GetFieldId
  simp only []
  cases h : s.field_index_map_.find (d, u16 f) with
  | some id => exact hk
  | none =>
    simp only [SafeMap.find_Put]
    rw [if_neg]
    · exact hk
    · intro e
      rw [← e, h] at hk
      cases hk

/-- The reads, allocations and checks of `GetValueNumber` advance no memory version and
keep the null-checked names and the field ids. -/
theorem ThreadsReads_Quiet (s0 : LocalValueNumbering) : ThreadsReads (Quiet s0) where
  lookup := fun op x y m h =>
    Quiet_step h (by simp) (by simp) (by simp) (fun x hx => by simpa using hx)
      (fun k v hk => by simpa using hk)
  getOperand := fun r h =>
    Quiet_step h (by simp) (by simp) (by simp) (fun x hx => by simpa using hx)
      (fun k v hk => by simpa using hk)
  getOperandWide := fun r h =>
    Quiet_step h (by simp) (by simp) (by simp) (fun x hx => by simpa using hx)
      (fun k v hk => by simpa using hk)
  setOperand := fun r v h =>
    Quiet_step h (by simp) (by simp) (by simp) (fun x hx => by simpa using hx)
      (fun k v hk => by simpa using hk)
  setOperandWide := fun r v h =>
    Quiet_step h (by simp) (by simp) (by simp) (fun x hx => by simpa using hx)
      (fun k v hk => by simpa using hk)
  fieldId := fun d f h =>
    Quiet_step h (by simp) (by simp) (by simp) (fun x hx => by simpa using hx)
      (GetFieldId_keeps _ d f)
  uniqueNonNull := fun mir h =>
    Quiet_step h (MarkUniqueNonNull_memory _ mir).1 (MarkUniqueNonNull_memory _ mir).2.2.1
      (MarkUniqueNonNull_memory _ mir).2.2.2.1
      (fun x hx => by
        unfold MarkUniqueNonNull
        exact mem_setInsert _ _ _ (by simpa using hx))
      (fun k v hk => by
        unfold MarkUniqueNonNull
        simpa using hk)
  argsNonUnique := fun mir h =>
    Quiet_step h (MakeArgsNonUniqueLoop_memory mir.uses _).1
      (MakeArgsNonUniqueLoop_memory mir.uses _).2.2.1
      (MakeArgsNonUniqueLoop_memory mir.uses _).2.2.2.1
      (fun x hx => by
        unfold MakeArgsNonUnique
        rw [MakeArgsNonUniqueLoop_null_checked_]
        exact hx)
      (fun k v hk => by
        unfold MakeArgsNonUnique
        rw [MakeArgsNonUniqueLoop_field_index_map_]
        exact hk)
  nullCheck := fun mir reg h =>
    Quiet_step h (by simp) (by simp) (by simp)
      (fun x hx => by
        unfold HandleNullCheck
        split
        · exact hx
        · exact mem_setInsert _ _ _ hx)
      (fun k v hk => by simpa using hk)
  rangeCheck := fun mir x i h =>
    Quiet_step h (by simp) (by simp) (by simp) (fun x hx => by simpa using hx)
      (fun k v hk => by simpa using hk)

/-- `GetMemoryVersion` reads the memory-version map, the global memory version and whether
the base is a unique object. -/
theorem GetMemoryVersion_congr_unique {s s' : LocalValueNumbering}
    (h1 : s'.memory_version_map_ = s.memory_version_map_)
    (h3 : s'.global_memory_version_ = s.global_memory_version_) (base field type : Nat)
    (h2 : u16 base ∈ s'.unique_objects_ ↔ u16 base ∈ s.unique_objects_) :
    s'.GetMemoryVersion base field type = s.GetMemoryVersion base field type := by
  unfold GetMemoryVersion
  rw [h1, h3]
  simp only [h2]

/-- The state in which a non-volatile instance field get looks its value up: what it keeps
of the state the instruction starts in. -/
theorem igetPre_Quiet (s : LocalValueNumbering) (mir : MIR) :
    Quiet s (s.igetPre mir) ∧ (s.igetPre mir).unique_objects_ = s.unique_objects_ ∧
      MapExt s.gvn (s.igetPre mir).gvn ∧
      u16 (s.GetOperandValue (mir.uses.getD 0 0)).1 ∈ (s.igetPre mir).null_checked_ := by
  have cl := ThreadsReads_Quiet s
  obtain ⟨_, _, _, _, f5, f6⟩ := igetPre_frame s mir
  refine ⟨?_, f5, f6.1, ?_⟩
  · unfold igetPre
    exact cl.fieldId _ _ (cl.nullCheck mir _ (cl.getOperand _ (Quiet_refl s)))
  · unfold igetPre
    rw [GetFieldId_null_checked_]
    exact HandleNullCheck_mem _ _ _

end LocalValueNumbering

namespace LocalValueNumbering

open GlobalValueNumbering (u16 u32 u64 BuildKey MapExt Evolves)
open Instruction

/-- C37 (as stated, refuted): `v0` names a unique object and the global memory version has
been advanced before. The first `iget` through `v0` is given the value name 2. A
`filled-new-array {v0}`, which is neither a put nor an invoke nor a field access, takes `v0`
out of the unique-object set, so the second `iget` of the same field through the same base
value name 1 reads the global memory version and is given the value name 3. -/
theorem load_after_filled_new_array :
    writesOrVolatile filledNewArray0 = false ∧
      (afterAllocation.GetOperandValue 0).1 = 1 ∧
      (((afterAllocation.GetValueNumber (getField 3) none).2.1.GetValueNumber
        filledNewArray0 none).2.1.GetOperandValue 0).1 = 1 ∧
      (afterAllocation.GetValueNumber (getField 3) none).1 = 2 ∧
      (((afterAllocation.GetValueNumber (getField 3) none).2.1.GetValueNumber
        filledNewArray0 none).2.1.GetValueNumber (getField 4) none).1 = 3 := by
  decide

/-- C37 (amended): two IGET instructions with the same opcode on the same non-volatile
field, whose base registers have the same value name, with only instructions between them
that are neither puts nor invokes nor gets of volatile (or unresolved) fields, and with the
base in the unique-object set at both loads or at neither: the second load is given the
value name of the first, and it is returned with `MIR_IGNORE_NULL_CHECK` set. -/
theorem redundant_load (s1 : LocalValueNumbering) (mir1 mir2 : MIR) (next1 next2 : Option MIR)
    (seq : List (MIR × Option MIR))
    (harm : armOf (u16 mir1.opcode) = .iget)
    (hop : u16 mir2.opcode = u16 mir1.opcode)
    (hvol1 : mir1.is_volatile = false) (hvol2 : mir2.is_volatile = false)
    (hdex : mir2.declaring_dex_file = mir1.declaring_dex_file)
    (hidx : u16 mir2.declaring_field_idx = u16 mir1.declaring_field_idx)
    (hseq : ∀ p ∈ seq, writesOrVolatile p.1 = false)
    (hbase : (((s1.GetValueNumber mir1 next1).2.1.processSeq seq).GetOperandValue
        (mir2.uses.getD 0 0)).1 = (s1.GetOperandValue (mir1.uses.getD 0 0)).1)
    (huniq : u16 (s1.GetOperandValue (mir1.uses.getD 0 0)).1 ∈
        ((s1.GetValueNumber mir1 next1).2.1.processSeq seq).unique_objects_ ↔
      u16 (s1.GetOperandValue (mir1.uses.getD 0 0)).1 ∈ s1.unique_objects_) :
    (((s1.GetValueNumber mir1 next1).2.1.processSeq seq).GetValueNumber mir2 next2).1 =
        (s1.GetValueNumber mir1 next1).1 ∧
      (((s1.GetValueNumber mir1 next1).2.1.processSeq seq).GetValueNumber mir2 next2).2.2 =
        { mir2 with optimization_flags := mir2.optimization_flags ||| MIR_IGNORE_NULL_CHECK } := by
  have harm2 : armOf (u16 mir2.opcode) = .iget := by rw [hop]; exact harm
  obtain ⟨s1', hs1'⟩ : ∃ t, t = (s1.GetValueNumber mir1 next1).2.1 := ⟨_, rfl⟩
  obtain ⟨s2, hs2⟩ : ∃ t, t = s1'.processSeq seq := ⟨_, rfl⟩
  rw [← hs1', ← hs2] at hbase huniq ⊢
  -- the first load
  obtain ⟨r1, r2⟩ := iget_result s1 mir1 next1 harm hvol1
  obtain ⟨m1, _, m3, m4, _, m6, m7⟩ := iget_frame s1 mir1 next1 harm hvol1
  rw [← hs1'] at r2 m1 m3 m4 m6 m7
  obtain ⟨q1, qu1, _, _⟩ := igetPre_Quiet s1 mir1
  obtain ⟨t1, t2, t3, t4⟩ := igetTuple_eq s1 mir1
  have hnull1 : u16 (s1.GetOperandValue (mir1.uses.getD 0 0)).1 ∈ s1'.null_checked_ := by
    have h1 := (field_access_out s1 mir1 next1 (by rw [harm]; rfl) (by rw [harm]; rfl)).2
    have h2 := (nullChecked_spec s1 mir1).2
    rw [← hs1'] at h1
    rw [h1]
    have e : s1.nullCheckedName mir1 = u16 (s1.GetOperandValue (mir1.uses.getD 0 0)).1 := by
      unfold nullCheckedName putEntry nullCheckedUse
      simp [harm, Arm.isPutObject]
    rw [← e]
    exact h2
  -- the instructions between the loads
  have hq : Quiet s1' s2 := by
    rw [hs2]
    exact threadReads_processSeq (ThreadsReads_Quiet s1') seq hseq (Quiet_refl s1')
  have hext : MapExt s1'.gvn s2.gvn := by
    rw [hs2]
    exact (thread_processSeq (Threads_Evolves s1'.gvn) seq (a := 0) (b := 0)
      (GlobalValueNumbering.Evolves_refl _)).1
  obtain ⟨a1, a2, a3, a4, a5⟩ := hq
  -- the second load
  obtain ⟨p1, _⟩ := iget_result s2 mir2 next2 harm2 hvol2
  obtain ⟨q2, qu2, qe2, _⟩ := igetPre_Quiet s2 mir2
  obtain ⟨u1, u2, u3, u4⟩ := igetTuple_eq s2 mir2
  have hb : (s2.igetTuple mir2).2.1 = (s1.igetTuple mir1).2.1 := by rw [u2, t2, hbase]
  have hf : (s2.igetTuple mir2).2.2.1 = (s1.igetTuple mir1).2.2.1 := by
    have h1 : s2.field_index_map_.find (mir1.declaring_dex_file, u16 mir1.declaring_field_idx) =
        some (s1.igetTuple mir1).2.2.1 := a5 _ _ (by rw [m7]; exact t3)
    have h2 := q2.2.2.2.2 _ _ h1
    rw [hdex, hidx, h2] at u3
    exact (Option.some.inj u3).symm
  have hver : (s2.igetTuple mir2).2.2.2 = (s1.igetTuple mir1).2.2.2 := by
    rw [u4, t4, hb, hf, hop]
    have e1 : (s2.igetPre mir2).unresolved_ifield_version_ =
        (s1.igetPre mir1).unresolved_ifield_version_ := by
      rw [q2.2.2.1, a3, m4, q1.2.2.1]
    have e2 : (s2.igetPre mir2).GetMemoryVersion (s1.igetTuple mir1).2.1
          (s1.igetTuple mir1).2.2.1 (u16 (u16 mir1.opcode - IGET)) =
        (s1.igetPre mir1).GetMemoryVersion (s1.igetTuple mir1).2.1
          (s1.igetTuple mir1).2.2.1 (u16 (u16 mir1.opcode - IGET)) := by
      apply GetMemoryVersion_congr_unique
      · rw [q2.1, a1, m1, q1.1]
      · rw [q2.2.1, a2, m3, q1.2.1]
      · rw [qu2, qu1, t2]
        exact huniq
    rw [e1, e2]
  have ht : s2.igetTuple mir2 = s1.igetTuple mir1 := by
    apply Prod.ext
    · rw [u1, t1, hop]
    · apply Prod.ext
      · exact hb
      · apply Prod.ext
        · exact hf
        · exact hver
  refine ⟨?_, ?_⟩
  · rw [p1, r1, ht]
    have hfind : (s2.igetPre mir2).gvn.global_value_map_.find
        (BuildKey (s1.igetTuple mir1).1 (s1.igetTuple mir1).2.1 (s1.igetTuple mir1).2.2.1
          (s1.igetTuple mir1).2.2.2) =
        some (GlobalValueNumbering.lookupT (s1.igetPre mir1).gvn (s1.igetTuple mir1)).1 := by
      apply qe2
      apply hext
      rw [r2]
      exact GlobalValueNumbering.find_after_LookupValue _ _ _ _ _
    unfold GlobalValueNumbering.lookupT at hfind ⊢
    rw [GlobalValueNumbering.LookupValue_of_find hfind]
  · have h1 := (field_access_out s2 mir2 next2 (by rw [harm2]; rfl) (by rw [harm2]; rfl)).1
    have h2 := (nullChecked_spec s2 mir2).1
    have e : s2.nullCheckedName mir2 = u16 (s2.GetOperandValue (mir2.uses.getD 0 0)).1 := by
      unfold nullCheckedName putEntry nullCheckedUse
      simp [harm2, Arm.isPutObject]
    rw [h1, h2, e, hbase, if_pos (a4 _ hnull1)]

theorem redundant_load_witness :
    (((afterAllocation.GetValueNumber (getField 3) none).2.1.processSeq
          [(negInt 5 3, none)]).GetValueNumber (getField 4) none).1 =
        (afterAllocation.GetValueNumber (getField 3) none).1 ∧
      (((afterAllocation.GetValueNumber (getField 3) none).2.1.processSeq
          [(negInt 5 3, none)]).GetValueNumber (getField 4) none).2.2 =
        { getField 4 with
          optimization_flags := (getField 4).optimization_flags ||| MIR_IGNORE_NULL_CHECK } :=
  redundant_load afterAllocation (getField 3) (getField 4) none none [(negInt 5 3, none)]
    (by decide) (by decide) (by decide) (by decide) (by decide) (by decide) (by decide)
    (by decide) (by decide)

end LocalValueNumbering

/-! ## The value returned by `GetValueNumber` (C39) -/

namespace LocalValueNumbering

open GlobalValueNumbering (u16 u32 u64 BuildKey u16_lt u16_of_lt)
open Instruction

theorem Names16_init : Names16 init :=
  ⟨fun _ _ h => (by cases h), fun _ _ h => (by cases h), fun _ _ h => (by cases h)⟩

theorem Names16_of_maps {s s' : LocalValueNumbering} (h : Names16 s) (hg : s'.gvn = s.gvn)
    (hs : s'.sreg_value_map_ = s.sreg_value_map_)
    (hw : s'.sreg_wide_value_map_ = s.sreg_wide_value_map_) : Names16 s' := by
  unfold Names16
  rw [hg, hs, hw]
  exact h

theorem Names16_LookupValue {s : LocalValueNumbering} (h : Names16 s) (op a b m : Nat) :
    Names16 (s.LookupValue op a b m).2 ∧ (s.LookupValue op a b m).1 < 2 ^ 16 := by
  unfold LocalValueNumbering.LookupValue
  cases hf : s.gvn.global_value_map_.find (BuildKey op a b m) with
  | some n =>
    rw [GlobalValueNumbering.LookupValue_of_find hf]
    exact ⟨h, h.1 _ _ hf⟩
  | none =>
    rw [GlobalValueNumbering.LookupValue_of_miss hf]
    refine ⟨⟨?_, h.2⟩, u16_lt _⟩
    intro k v hk
    simp only [SafeMap.find_Put] at hk
    split_ifs at hk with e
    · cases hk
      exact u16_lt _
    · exact h.1 _ _ hk

theorem Names16_GetOperandValue {s : LocalValueNumbering} (h : Names16 s) (r : Nat) :
    Names16 (s.GetOperandValue r).2 ∧ (s.GetOperandValue r).1 < 2 ^ 16 := by
  unfold GetOperandValue
  cases hf : s.sreg_value_map_.find (u16 r) with
  | some v => exact ⟨h, h.2.1 _ _ hf⟩
  | none =>
    obtain ⟨a, b⟩ := Names16_LookupValue h NO_VALUE r NO_VALUE NO_VALUE
    refine ⟨⟨a.1, ?_, a.2.2⟩, b⟩
    intro k v hk
    simp only [SafeMap.find_Put] at hk
    split_ifs at hk with e
    · cases hk
      exact b
    · exact a.2.1 _ _ hk

theorem Names16_GetOperandValueWide {s : LocalValueNumbering} (h : Names16 s) (r : Nat) :
    Names16 (s.GetOperandValueWide r).2 ∧ (s.GetOperandValueWide r).1 < 2 ^ 16 := by
  unfold GetOperandValueWide
  cases hf : s.sreg_wide_value_map_.find (u16 r) with
  | some v => exact ⟨h, h.2.2 _ _ hf⟩
  | none =>
    obtain ⟨a, b⟩ := Names16_LookupValue h NO_VALUE r NO_VALUE NO_VALUE
    refine ⟨⟨a.1, a.2.1, ?_⟩, b⟩
    intro k v hk
    simp only [SafeMap.find_Put] at hk
    split_ifs at hk with e
    · cases hk
      exact b
    · exact a.2.2 _ _ hk

theorem LookupValue_Names16 {s : LocalValueNumbering} (h : Names16 s) (op a b m : Nat) :
    Names16 (s.LookupValue op a b m).2 := (Names16_LookupValue h op a b m).1

theorem LookupValue_lt {s : LocalValueNumbering} (h : Names16 s) (op a b m : Nat) :
    (s.LookupValue op a b m).1 < 2 ^ 16 := (Names16_LookupValue h op a b m).2

theorem GetOperandValue_Names16 {s : LocalValueNumbering} (h : Names16 s) (r : Nat) :
    Names16 (s.GetOperandValue r).2 := (Names16_GetOperandValue h r).1

theorem GetOperandValue_lt {s : LocalValueNumbering} (h : Names16 s) (r : Nat) :
    (s.GetOperandValue r).1 < 2 ^ 16 := (Names16_GetOperandValue h r).2

theorem GetOperandValueWide_Names16 {s : LocalValueNumbering} (h : Names16 s) (r : Nat) :
    Names16 (s.GetOperandValueWide r).2 := (Names16_GetOperandValueWide h r).1

theorem GetOperandValueWide_lt {s : LocalValueNumbering} (h : Names16 s) (r : Nat) :
    (s.GetOperandValueWide r).1 < 2 ^ 16 := (Names16_GetOperandValueWide h r).2

theorem HandleNullCheck_Names16 {s : LocalValueNumbering} (h : Names16 s) (mir : MIR) (reg : Nat) :
    Names16 (s.HandleNullCheck mir reg).1 :=
  Names16_of_maps h (by simp) (by simp) (by simp)

theorem GetFieldId_Names16 {s : LocalValueNumbering} (h : Names16 s) (d f : Nat) :
    Names16 (s.GetFieldId d f).2 :=
  Names16_of_maps h (by simp) (by simp) (by simp)

theorem bump_Names16 {s : LocalValueNumbering} (h : Names16 s) (v : Nat) :
    Names16 { s with next_memory_version_ := v } := h

theorem GetOperandValue_find_other (s : LocalValueNumbering) {r d : Nat}
    (h : u16 r ≠ u16 d) :
    (s.GetOperandValue r).2.sreg_value_map_.find (u16 d) = s.sreg_value_map_.find (u16 d) := by
  unfold GetOperandValue
  cases hf : s.sreg_value_map_.find (u16 r) with
  | some v => rfl
  | none => simp [SafeMap.find_Put, h]

theorem GetOperandValueWide_find_other (s : LocalValueNumbering) {r d : Nat}
    (h : u16 r ≠ u16 d) :
    (s.GetOperandValueWide r).2.sreg_wide_value_map_.find (u16 d) =
      s.sreg_wide_value_map_.find (u16 d) := by
  unfold GetOperandValueWide
  cases hf : s.sreg_wide_value_map_.find (u16 r) with
  | some v => rfl
  | none => simp [SafeMap.find_Put, h]

theorem recorded_narrow {s1 : LocalValueNumbering} {d res : Nat} (hres : res < 2 ^ 16)
    (hnew : s1.sreg_value_map_.find (u16 d) = none) :
    (s1.SetOperandValue d res).recordedName false d = some res := by
  unfold SetOperandValue recordedName
  simp [hnew, SafeMap.find_Put, u16_of_lt hres]

theorem recorded_wide {s1 : LocalValueNumbering} {d res : Nat} (hres : res < 2 ^ 16)
    (hnew : s1.sreg_wide_value_map_.find (u16 d) = none) :
    (s1.SetOperandValueWide d res).recordedName true d = some res := by
  unfold SetOperandValueWide recordedName
  simp [hnew, SafeMap.find_Put, u16_of_lt hres]

/-- In the cases that assign the returned `res`, the value name recorded for `defs[0]` after
the call is the value returned, when `defs[0]` had no name and is not a register read. -/
theorem GetValueNumber_records (s : LocalValueNumbering) (mir : MIR) (next : Option MIR)
    (hret : (armOf (u16 mir.opcode)).returnsName = true) (hN : Names16 s)
    (hnew : s.recordedName (defIsWide mir) (mir.defs.getD 0 0) = none)
    (hother : ∀ i ∈ (armOf (u16 mir.opcode)).usesRead,
      u16 (mir.uses.getD i 0) ≠ u16 (mir.defs.getD 0 0)) :
    (s.GetValueNumber mir next).2.1.recordedName (defIsWide mir) (mir.defs.getD 0 0) =
      some (s.GetValueNumber mir next).1 := by
  have hn : defIsWide mir = false → s.sreg_value_map_.find (u16 (mir.defs.getD 0 0)) = none := by
    intro hw
    rw [hw] at hnew
    simpa [recordedName] using hnew
  have hwd : defIsWide mir = true →
      s.sreg_wide_value_map_.find (u16 (mir.defs.getD 0 0)) = none := by
    intro hw
    rw [hw] at hnew
    simpa [recordedName] using hnew
  cases harm : armOf (u16 mir.opcode) <;> rw [harm] at hret hother <;>
    first
    | exact absurd hret (by decide)
    | skip
  case moveResult =>
    have hw : defIsWide mir = false := by simp only [defIsWide, harm]
    rw [hw]
    unfold GetValueNumber
    simp only [harm]
    obtain ⟨g1, _⟩ := GetOperandValue_sreg s (mir.defs.getD 0 0)
    rw [SetOperandValue_of_find g1]
    simpa [recordedName] using g1
  case uniqueNonNull =>
    have hw : defIsWide mir = false := by simp only [defIsWide, harm]
    rw [hw]
    unfold GetValueNumber
    simp only [harm, MarkUniqueNonNull]
    obtain ⟨g1, _⟩ := GetOperandValue_sreg s (mir.defs.getD 0 0)
    rw [SetOperandValue_of_find g1]
    simpa [recordedName] using g1
  case moveResultWide =>
    have hw : defIsWide mir = true := by simp only [defIsWide, harm]
    rw [hw]
    unfold GetValueNumber
    simp only [harm]
    obtain ⟨g1, _⟩ := GetOperandValueWide_sreg s (mir.defs.getD 0 0)
    have e : (s.GetOperandValueWide (mir.defs.getD 0 0)).2.SetOperandValueWide
        (mir.defs.getD 0 0) (s.GetOperandValueWide (mir.defs.getD 0 0)).1 =
        (s.GetOperandValueWide (mir.defs.getD 0 0)).2 := by
      unfold SetOperandValueWide
      rw [g1]
    rw [e]
    simpa [recordedName] using g1
  case move =>
    have hw : defIsWide mir = false := by simp only [defIsWide, harm]
    have h0 := hother 0 (by simp [Arm.usesRead])
    rw [hw]
    unfold GetValueNumber
    simp only [harm]
    apply recorded_narrow
    · apply_rules [LookupValue_lt, GetOperandValue_lt, GetOperandValueWide_lt,
        LookupValue_Names16, GetOperandValue_Names16, GetOperandValueWide_Names16,
        HandleNullCheck_Names16, GetFieldId_Names16, bump_Names16]
    · simp only [LookupValue_sreg_value_map_, GetOperandValueWide_sreg_value_map_,
        HandleNullCheck_sreg_value_map_, GetFieldId_sreg_value_map_,
        GetOperandValue_find_other _ h0]
      exact hn hw
  case moveWide =>
    have hw : defIsWide mir = true := by simp only [defIsWide, harm]
    have h0 := hother 0 (by simp [Arm.usesRead])
    rw [hw]
    unfold GetValueNumber
    simp only [harm]
    apply recorded_wide
    · apply_rules [LookupValue_lt, GetOperandValue_lt, GetOperandValueWide_lt,
        LookupValue_Names16, GetOperandValue_Names16, GetOperandValueWide_Names16,
        HandleNullCheck_Names16, GetFieldId_Names16, bump_Names16]
    · simp only [LookupValue_sreg_wide_value_map_, GetOperandValue_sreg_wide_value_map_,
        HandleNullCheck_sreg_wide_value_map_, GetFieldId_sreg_wide_value_map_,
        GetOperandValueWide_find_other _ h0]
      exact hwd hw
  case const =>
    have hw : defIsWide mir = false := by simp only [defIsWide, harm]
    rw [hw]
    unfold GetValueNumber
    simp only [harm]
    apply recorded_narrow
    · apply_rules [LookupValue_lt, GetOperandValue_lt, GetOperandValueWide_lt,
        LookupValue_Names16, GetOperandValue_Names16, GetOperandValueWide_Names16,
        HandleNullCheck_Names16, GetFieldId_Names16, bump_Names16]
    · simp only [LookupValue_sreg_value_map_, GetOperandValueWide_sreg_value_map_,
        HandleNullCheck_sreg_value_map_, GetFieldId_sreg_value_map_]
      exact hn hw
  case constHigh16 =>
    have hw : defIsWide mir = false := by simp only [defIsWide, harm]
    rw [hw]
    unfold GetValueNumber
    simp only [harm]
    apply recorded_narrow
    · apply_rules [LookupValue_lt, GetOperandValue_lt, GetOperandValueWide_lt,
        LookupValue_Names16, GetOperandValue_Names16, GetOperandValueWide_Names16,
        HandleNullCheck_Names16, GetFieldId_Names16, bump_Names16]
    · simp only [LookupValue_sreg_value_map_, GetOperandValueWide_sreg_value_map_,
        HandleNullCheck_sreg_value_map_, GetFieldId_sreg_value_map_]
      exact hn hw
  case constWide32 =>
    have hw : defIsWide mir = true := by simp only [defIsWide, harm]
    rw [hw]
    unfold GetValueNumber
    simp only [harm]
    split_ifs
    · apply recorded_wide
      · apply_rules [LookupValue_lt, GetOperandValue_lt, GetOperandValueWide_lt,
          LookupValue_Names16, GetOperandValue_Names16, GetOperandValueWide_Names16,
          HandleNullCheck_Names16, GetFieldId_Names16, bump_Names16]
      · simp only [LookupValue_sreg_wide_value_map_, GetOperandValue_sreg_wide_value_map_,
          HandleNullCheck_sreg_wide_value_map_, GetFieldId_sreg_wide_value_map_]
        exact hwd hw
    · apply recorded_wide
      · apply_rules [LookupValue_lt, GetOperandValue_lt, GetOperandValueWide_lt,
          LookupValue_Names16, GetOperandValue_Names16, GetOperandValueWide_Names16,
          HandleNullCheck_Names16, GetFieldId_Names16, bump_Names16]
      · simp only [LookupValue_sreg_wide_value_map_, GetOperandValue_sreg_wide_value_map_,
          HandleNullCheck_sreg_wide_value_map_, GetFieldId_sreg_wide_value_map_]
        exact hwd hw
  case constWide =>
    have hw : defIsWide mir = true := by simp only [defIsWide, harm]
    rw [hw]
    unfold GetValueNumber
    simp only [harm]
    apply recorded_wide
    · apply_rules [LookupValue_lt, GetOperandValue_lt, GetOperandValueWide_lt,
        LookupValue_Names16, GetOperandValue_Names16, GetOperandValueWide_Names16,
        HandleNullCheck_Names16, GetFieldId_Names16, bump_Names16]
    · simp only [LookupValue_sreg_wide_value_map_, GetOperandValue_sreg_wide_value_map_,
        HandleNullCheck_sreg_wide_value_map_, GetFieldId_sreg_wide_value_map_]
      exact hwd hw
  case constWideHigh16 =>
    have hw : defIsWide mir = true := by simp only [defIsWide, harm]
    rw [hw]
    unfold GetValueNumber
    simp only [harm]
    apply recorded_wide
    · apply_rules [LookupValue_lt, GetOperandValue_lt, GetOperandValueWide_lt,
        LookupValue_Names16, GetOperandValue_Names16, GetOperandValueWide_Names16,
        HandleNullCheck_Names16, GetFieldId_Names16, bump_Names16]
    · simp only [LookupValue_sreg_wide_value_map_, GetOperandValue_sreg_wide_value_map_,
        HandleNullCheck_sreg_wide_value_map_, GetFieldId_sreg_wide_value_map_]
      exact hwd hw
  case unary =>
    have hw : defIsWide mir = false := by simp only [defIsWide, harm]
    have h0 := hother 0 (by simp [Arm.usesRead])
    rw [hw]
    unfold GetValueNumber
    simp only [harm]
    apply recorded_narrow
    · apply_rules [LookupValue_lt, GetOperandValue_lt, GetOperandValueWide_lt,
        LookupValue_Names16, GetOperandValue_Names16, GetOperandValueWide_Names16,
        HandleNullCheck_Names16, GetFieldId_Names16, bump_Names16]
    · simp only [LookupValue_sreg_value_map_, GetOperandValueWide_sreg_value_map_,
        HandleNullCheck_sreg_value_map_, GetFieldId_sreg_value_map_,
        GetOperandValue_find_other _ h0]
      exact hn hw
  case unaryFromWide =>
    have hw : defIsWide mir = false := by simp only [defIsWide, harm]
    have h0 := hother 0 (by simp [Arm.usesRead])
    rw [hw]
    unfold GetValueNumber
    simp only [harm]
    apply recorded_narrow
    · apply_rules [LookupValue_lt, GetOperandValue_lt, GetOperandValueWide_lt,
        LookupValue_Names16, GetOperandValue_Names16, GetOperandValueWide_Names16,
        HandleNullCheck_Names16, GetFieldId_Names16, bump_Names16]
    · simp only [LookupValue_sreg_value_map_, GetOperandValueWide_sreg_value_map_,
        HandleNullCheck_sreg_value_map_, GetFieldId_sreg_value_map_,
        GetOperandValue_find_other _ h0]
      exact hn hw
  case unaryWide =>
    have hw : defIsWide mir = true := by simp only [defIsWide, harm]
    have h0 := hother 0 (by simp [Arm.usesRead])
    rw [hw]
    unfold GetValueNumber
    simp only [harm]
    apply recorded_wide
    · apply_rules [LookupValue_lt, GetOperandValue_lt, GetOperandValueWide_lt,
        LookupValue_Names16, GetOperandValue_Names16, GetOperandValueWide_Names16,
        HandleNullCheck_Names16, GetFieldId_Names16, bump_Names16]
    · simp only [LookupValue_sreg_wide_value_map_, GetOperandValue_sreg_wide_value_map_,
        HandleNullCheck_sreg_wide_value_map_, GetFieldId_sreg_wide_value_map_,
        GetOperandValueWide_find_other _ h0]
      exact hwd hw
  case unaryToWide =>
    have hw : defIsWide mir = true := by simp only [defIsWide, harm]
    have h0 := hother 0 (by simp [Arm.usesRead])
    rw [hw]
    unfold GetValueNumber
    simp only [harm]
    apply recorded_wide
    · apply_rules [LookupValue_lt, GetOperandValue_lt, GetOperandValueWide_lt,
        LookupValue_Names16, GetOperandValue_Names16, GetOperandValueWide_Names16,
        HandleNullCheck_Names16, GetFieldId_Names16, bump_Names16]
    · simp only [LookupValue_sreg_wide_value_map_, GetOperandValue_sreg_wide_value_map_,
        HandleNullCheck_sreg_wide_value_map_, GetFieldId_sreg_wide_value_map_,
        GetOperandValueWide_find_other _ h0]
      exact hwd hw
  case cmpWide =>
    have hw : defIsWide mir = false := by simp only [defIsWide, harm]
    have h0 := hother 0 (by simp [Arm.usesRead])
    have h2 := hother 2 (by simp [Arm.usesRead])
    rw [hw]
    unfold GetValueNumber
    simp only [harm]
    apply recorded_narrow
    · apply_rules [LookupValue_lt, GetOperandValue_lt, GetOperandValueWide_lt,
        LookupValue_Names16, GetOperandValue_Names16, GetOperandValueWide_Names16,
        HandleNullCheck_Names16, GetFieldId_Names16, bump_Names16]
    · simp only [LookupValue_sreg_value_map_, GetOperandValueWide_sreg_value_map_,
        HandleNullCheck_sreg_value_map_, GetFieldId_sreg_value_map_]
      exact hn hw
  case binary =>
    have hw : defIsWide mir = false := by simp only [defIsWide, harm]
    have h0 := hother 0 (by simp [Arm.usesRead])
    have h1 := hother 1 (by simp [Arm.usesRead])
    rw [hw]
    unfold GetValueNumber
    simp only [harm]
    apply recorded_narrow
    · apply_rules [LookupValue_lt, GetOperandValue_lt, GetOperandValueWide_lt,
        LookupValue_Names16, GetOperandValue_Names16, GetOperandValueWide_Names16,
        HandleNullCheck_Names16, GetFieldId_Names16, bump_Names16]
    · simp only [LookupValue_sreg_value_map_, GetOperandValueWide_sreg_value_map_,
        HandleNullCheck_sreg_value_map_, GetFieldId_sreg_value_map_,
        GetOperandValue_find_other _ h0,
        GetOperandValue_find_other _ h1]
      exact hn hw
  case binaryWide =>
    have hw : defIsWide mir = true := by simp only [defIsWide, harm]
    have h0 := hother 0 (by simp [Arm.usesRead])
    have h2 := hother 2 (by simp [Arm.usesRead])
    rw [hw]
    unfold GetValueNumber
    simp only [harm]
    apply recorded_wide
    · apply_rules [LookupValue_lt, GetOperandValue_lt, GetOperandValueWide_lt,
        LookupValue_Names16, GetOperandValue_Names16, GetOperandValueWide_Names16,
        HandleNullCheck_Names16, GetFieldId_Names16, bump_Names16]
    · simp only [LookupValue_sreg_wide_value_map_, GetOperandValue_sreg_wide_value_map_,
        HandleNullCheck_sreg_wide_value_map_, GetFieldId_sreg_wide_value_map_,
        GetOperandValueWide_find_other _ h0,
        GetOperandValueWide_find_other _ h2]
      exact hwd hw
  case shiftWide =>
    have hw : defIsWide mir = true := by simp only [defIsWide, harm]
    have h0 := hother 0 (by simp [Arm.usesRead])
    have h2 := hother 2 (by simp [Arm.usesRead])
    rw [hw]
    unfold GetValueNumber
    simp only [harm]
    apply recorded_wide
    · apply_rules [LookupValue_lt, GetOperandValue_lt, GetOperandValueWide_lt,
        LookupValue_Names16, GetOperandValue_Names16, GetOperandValueWide_Names16,
        HandleNullCheck_Names16, GetFieldId_Names16, bump_Names16]
    · simp only [LookupValue_sreg_wide_value_map_, GetOperandValue_sreg_wide_value_map_,
        HandleNullCheck_sreg_wide_value_map_, GetFieldId_sreg_wide_value_map_,
        GetOperandValueWide_find_other _ h0,
        GetOperandValueWide_find_other _ h2]
      exact hwd hw
  case binaryFloat =>
    have hw : defIsWide mir = false := by simp only [defIsWide, harm]
    have h0 := hother 0 (by simp [Arm.usesRead])
    have h1 := hother 1 (by simp [Arm.usesRead])
    rw [hw]
    unfold GetValueNumber
    simp only [harm]
    apply recorded_narrow
    · apply_rules [LookupValue_lt, GetOperandValue_lt, GetOperandValueWide_lt,
        LookupValue_Names16, GetOperandValue_Names16, GetOperandValueWide_Names16,
        HandleNullCheck_Names16, GetFieldId_Names16, bump_Names16]
    · simp only [LookupValue_sreg_value_map_, GetOperandValueWide_sreg_value_map_,
        HandleNullCheck_sreg_value_map_, GetFieldId_sreg_value_map_,
        GetOperandValue_find_other _ h0,
        GetOperandValue_find_other _ h1]
      exact hn hw
  case literal =>
    have hw : defIsWide mir = false := by simp only [defIsWide, harm]
    have h0 := hother 0 (by simp [Arm.usesRead])
    rw [hw]
    unfold GetValueNumber
    simp only [harm]
    apply recorded_narrow
    · apply_rules [LookupValue_lt, GetOperandValue_lt, GetOperandValueWide_lt,
        LookupValue_Names16, GetOperandValue_Names16, GetOperandValueWide_Names16,
        HandleNullCheck_Names16, GetFieldId_Names16, bump_Names16]
    · simp only [LookupValue_sreg_value_map_, GetOperandValueWide_sreg_value_map_,
        HandleNullCheck_sreg_value_map_, GetFieldId_sreg_value_map_,
        GetOperandValue_find_other _ h0]
      exact hn hw
  case iget =>
    have h0 := hother 0 (by simp [Arm.usesRead])
    unfold GetValueNumber
    simp only [harm]
    by_cases hwide : u16 mir.opcode = IGET_WIDE
    · have hw : defIsWide mir = true := by
        simp only [defIsWide, harm]
        exact decide_eq_true hwide
      rw [hw, if_pos hwide]
      cases hv : mir.is_volatile
      · simp only [Bool.false_eq_true, if_false]
        apply recorded_wide
        · apply_rules [LookupValue_lt, GetOperandValue_lt, GetOperandValueWide_lt,
            LookupValue_Names16, GetOperandValue_Names16, GetOperandValueWide_Names16,
            HandleNullCheck_Names16, GetFieldId_Names16, bump_Names16]
        · simp only [LookupValue_sreg_wide_value_map_, GetOperandValue_sreg_wide_value_map_,
            HandleNullCheck_sreg_wide_value_map_, GetFieldId_sreg_wide_value_map_]
          exact hwd hw
      · simp only [if_true]
        apply recorded_wide
        · apply_rules [LookupValue_lt, GetOperandValue_lt, GetOperandValueWide_lt,
            LookupValue_Names16, GetOperandValue_Names16, GetOperandValueWide_Names16,
            HandleNullCheck_Names16, GetFieldId_Names16, bump_Names16]
        · simp only [LookupValue_sreg_wide_value_map_, GetOperandValue_sreg_wide_value_map_,
            HandleNullCheck_sreg_wide_value_map_, GetFieldId_sreg_wide_value_map_]
          exact hwd hw
    · have hw : defIsWide mir = false := by
        simp only [defIsWide, harm]
        exact decide_eq_false hwide
      rw [hw, if_neg hwide]
      cases hv : mir.is_volatile
      · simp only [Bool.false_eq_true, if_false]
        apply recorded_narrow
        · apply_rules [LookupValue_lt, GetOperandValue_lt, GetOperandValueWide_lt,
            LookupValue_Names16, GetOperandValue_Names16, GetOperandValueWide_Names16,
            HandleNullCheck_Names16, GetFieldId_Names16, bump_Names16]
        · simp only [LookupValue_sreg_value_map_, GetOperandValueWide_sreg_value_map_,
            HandleNullCheck_sreg_value_map_, GetFieldId_sreg_value_map_,
            GetOperandValue_find_other _ h0]
          exact hn hw
      · simp only [if_true]
        apply recorded_narrow
        · apply_rules [LookupValue_lt, GetOperandValue_lt, GetOperandValueWide_lt,
            LookupValue_Names16, GetOperandValue_Names16, GetOperandValueWide_Names16,
            HandleNullCheck_Names16, GetFieldId_Names16, bump_Names16]
        · simp only [LookupValue_sreg_value_map_, GetOperandValueWide_sreg_value_map_,
            HandleNullCheck_sreg_value_map_, GetFieldId_sreg_value_map_,
            GetOperandValue_find_other _ h0]
          exact hn hw
  case sget =>
    unfold GetValueNumber
    simp only [harm]
    by_cases hwide : u16 mir.opcode = SGET_WIDE
    · have hw : defIsWide mir = true := by
        simp only [defIsWide, harm]
        exact decide_eq_true hwide
      rw [hw, if_pos hwide]
      cases hv : mir.is_volatile
      · simp only [Bool.false_eq_true, if_false]
        apply recorded_wide
        · apply_rules [LookupValue_lt, GetOperandValue_lt, GetOperandValueWide_lt,
            LookupValue_Names16, GetOperandValue_Names16, GetOperandValueWide_Names16,
            HandleNullCheck_Names16, GetFieldId_Names16, bump_Names16]
        · simp only [LookupValue_sreg_wide_value_map_, GetOperandValue_sreg_wide_value_map_,
            HandleNullCheck_sreg_wide_value_map_, GetFieldId_sreg_wide_value_map_]
          exact hwd hw
      · simp only [if_true]
        apply recorded_wide
        · apply_rules [LookupValue_lt, GetOperandValue_lt, GetOperandValueWide_lt,
            LookupValue_Names16, GetOperandValue_Names16, GetOperandValueWide_Names16,
            HandleNullCheck_Names16, GetFieldId_Names16, bump_Names16]
        · simp only [LookupValue_sreg_wide_value_map_, GetOperandValue_sreg_wide_value_map_,
            HandleNullCheck_sreg_wide_value_map_, GetFieldId_sreg_wide_value_map_]
          exact hwd hw
    · have hw : defIsWide mir = false := by
        simp only [defIsWide, harm]
        exact decide_eq_false hwide
      rw [hw, if_neg hwide]
      cases hv : mir.is_volatile
      · simp only [Bool.false_eq_true, if_false]
        apply recorded_narrow
        · apply_rules [LookupValue_lt, GetOperandValue_lt, GetOperandValueWide_lt,
            LookupValue_Names16, GetOperandValue_Names16, GetOperandValueWide_Names16,
            HandleNullCheck_Names16, GetFieldId_Names16, bump_Names16]
        · simp only [LookupValue_sreg_value_map_, GetOperandValueWide_sreg_value_map_,
            HandleNullCheck_sreg_value_map_, GetFieldId_sreg_value_map_]
          exact hn hw
      · simp only [if_true]
        apply recorded_narrow
        · apply_rules [LookupValue_lt, GetOperandValue_lt, GetOperandValueWide_lt,
            LookupValue_Names16, GetOperandValue_Names16, GetOperandValueWide_Names16,
            HandleNullCheck_Names16, GetFieldId_Names16, bump_Names16]
        · simp only [LookupValue_sreg_value_map_, GetOperandValueWide_sreg_value_map_,
            HandleNullCheck_sreg_value_map_, GetFieldId_sreg_value_map_]
          exact hn hw

theorem aputBody_fst (s : LocalValueNumbering) (mir : MIR) : (aputBody s mir).1 = NO_VALUE :=
  rfl

theorem iputBody_fst (s : LocalValueNumbering) (mir : MIR) : (iputBody s mir).1 = NO_VALUE := by
  unfold iputBody
  simp only
  split_ifs <;> rfl

theorem sputBody_fst (s : LocalValueNumbering) (mir : MIR) : (sputBody s mir).1 = NO_VALUE := by
  unfold sputBody
  simp only
  split_ifs <;> rfl

/-- In the cases that define no register, in the phi case and for an opcode without a case
the value returned is `NO_VALUE`. -/
theorem GetValueNumber_no_def (s : LocalValueNumbering) (mir : MIR) (next : Option MIR)
    (h : (armOf (u16 mir.opcode)).definesNothing = true ∨ armOf (u16 mir.opcode) = .phi ∨
      armOf (u16 mir.opcode) = .none) :
    (s.GetValueNumber mir next).1 = NO_VALUE := by
  cases harm : armOf (u16 mir.opcode) <;> rw [harm] at h <;>
    first
    | exact absurd h (by decide)
    | (unfold GetValueNumber
       simp only [harm, aputBody_fst, iputBody_fst, sputBody_fst])

/-- The phi case and an opcode without a case leave the state as it is. -/
theorem GetValueNumber_ignored (s : LocalValueNumbering) (mir : MIR) (next : Option MIR)
    (h : armOf (u16 mir.opcode) = .phi ∨ armOf (u16 mir.opcode) = .none) :
    (s.GetValueNumber mir next).2.1 = s := by
  rcases h with harm | harm <;>
    (unfold GetValueNumber
     simp only [harm])

/-- Every case of the switch other than the AGET one either defines no register, or is the
phi case, or is no case at all, or assigns the returned `res`. -/
theorem arm_kinds (a : Arm) (h : a ≠ .aget) :
    a.definesNothing = true ∨ a = .phi ∨ a = .none ∨ a.returnsName = true := by
  cases a <;> first | exact absurd rfl h | decide

/-- C1 (evaluation at the failing inputs): after `move v2, v1` from the initial state the
registers `v1` and `v2` carry the same value name, 1. (a) `int-to-long v4, v1` is then
given the value name 2 and a following `int-to-long v6, v2` the value name 4, while both
operands still carry the name 1: the case reads its narrow operand with
`GetOperandValueWide`. (b) `add-int/lit8 v3, v1, 5` is given the value name 3 and a
following `add-int/lit8 v4, v2, 5` the value name 5, while both operands still carry the
name 1: the case keys the instruction by `vB`, the number of its source register, where the
literal is `vC`. -/
theorem equal_names_different_results :
    (init.GetValueNumber (moveReg 2 1) none).2.1.recordedName false 1 = some 1 ∧
      (init.GetValueNumber (moveReg 2 1) none).2.1.recordedName false 2 = some 1 ∧
      ((init.GetValueNumber (moveReg 2 1) none).2.1.GetValueNumber (intToLong 4 1) none).1 = 2 ∧
      (((init.GetValueNumber (moveReg 2 1) none).2.1.GetValueNumber (intToLong 4 1)
        none).2.1.GetValueNumber (intToLong 6 2) none).1 = 4 ∧
      ((init.GetValueNumber (moveReg 2 1) none).2.1.GetValueNumber (intToLong 4 1)
        none).2.1.recordedName false 1 = some 1 ∧
      ((init.GetValueNumber (moveReg 2 1) none).2.1.GetValueNumber (intToLong 4 1)
        none).2.1.recordedName false 2 = some 1 ∧
      ((init.GetValueNumber (moveReg 2 1) none).2.1.GetValueNumber (addIntLit8 3 1) none).1 = 3 ∧
      (((init.GetValueNumber (moveReg 2 1) none).2.1.GetValueNumber (addIntLit8 3 1)
        none).2.1.GetValueNumber (addIntLit8 4 2) none).1 = 5 ∧
      ((init.GetValueNumber (moveReg 2 1) none).2.1.GetValueNumber (addIntLit8 3 1)
        none).2.1.recordedName false 1 = some 1 ∧
      ((init.GetValueNumber (moveReg 2 1) none).2.1.GetValueNumber (addIntLit8 3 1)
        none).2.1.recordedName false 2 = some 1 := by
  decide

end LocalValueNumbering

end art
